import Mathlib

/-!
TempestSDR: ring buffer, sample-rate conversion, FFT kernel, post-processing,
super-bandwidth stitcher and frame-rate accumulator.

Shallow embedding of `src/TempestSDR/src/circbuff.c`, `extbuffer.c`, `dsp.c`,
`fft.c`, `superbandwidth.c` and of `accummulate` in `frameratedetector.c`.

Modelling conventions.

* `size_t` values are natural numbers (the properties below are stated for runs
  without integer overflow); `int` values are integers.
* The backing array `float * buffer` is a list of cells.  The cell type is a
  parameter: the ring buffer only ever copies cells (`memcpy`, `memmove`), it
  never inspects them.
* Cells that C leaves indeterminate (fresh `malloc` / `realloc` storage) hold
  `default`.
* The mutex and the condition object are not modelled: every function is one
  atomic step.  `mutex_signal` has no effect on the fields of the structure.
-/

namespace TempestSDR

/-! ## circbuff.c -/

/-- The four return codes used by `circbuff.c` (their numeric values live in
`circbuff.h`; the code only ever refers to them by name). -/
inductive CBStatus where
  | CB_OK
  | CB_FULL
  | CB_EMPTY
  | CB_ERROR
  deriving DecidableEq, Repr

/-- The fields of `struct CircBuff` that `circbuff.c` reads and writes. -/
structure CircBuff (α : Type) where
  buffer : List α
  buffer_size : Nat
  desired_buf_size : Nat
  remaining_capacity : Nat
  pos : Nat
  rempos : Nat
  is_waiting : Bool
  buffering : Bool
  invalid : Bool
  size_coeff : Int
  max_size_coeff : Int
  deriving DecidableEq, Repr

/-- Constant `CB_SIZE_COEFF_DEFAULT` (circbuff.c line 22). -/
def CB_SIZE_COEFF_DEFAULT : Int := 2

/-- The call `memcpy(&dst[off], src, src.length * sizeof(float))`. -/
def memcpy {α : Type} (dst : List α) (off : Nat) (src : List α) : List α :=
  dst.take off ++ src ++ dst.drop (off + src.length)

/-- The `n` cells starting at `&buf[off]`. -/
def cells {α : Type} (buf : List α) (off n : Nat) : List α :=
  (buf.drop off).take n

/-- The call `memmove(&buf[dstOff], &buf[srcOff], n * sizeof(float))`: the source
cells are read before anything is written. -/
def memmove {α : Type} (buf : List α) (dstOff srcOff n : Nat) : List α :=
  memcpy buf dstOff (cells buf srcOff n)

/-- The call `realloc(buf, sizeof(float) * n)` for `n` not smaller than the old length:
the old cells are kept, the new ones are indeterminate. -/
def realloc {α : Type} [Inhabited α] (buf : List α) (n : Nat) : List α :=
  buf ++ List.replicate (n - buf.length) default

variable {α : Type}

/-- Function `cb_purge` (circbuff.c lines 27-38). -/
def cb_purge (cb : CircBuff α) : CircBuff α :=
  if cb.invalid then cb
  else { cb with remaining_capacity := cb.buffer_size, pos := 0, rempos := 0 }

/-- Function `cb_init` (circbuff.c lines 44-64). -/
def cb_init [Inhabited α] (max_size_coeff : Int) : CircBuff α :=
  { max_size_coeff := max_size_coeff
    size_coeff := CB_SIZE_COEFF_DEFAULT
    desired_buf_size := CB_SIZE_COEFF_DEFAULT.toNat
    buffer_size := CB_SIZE_COEFF_DEFAULT.toNat
    buffer := List.replicate CB_SIZE_COEFF_DEFAULT.toNat default
    remaining_capacity := CB_SIZE_COEFF_DEFAULT.toNat
    pos := 0
    rempos := 0
    invalid := false
    is_waiting := false
    buffering := false }

/-- Function `cb_size` (circbuff.c lines 69-71). -/
def cb_size (cb : CircBuff α) : Nat :=
  cb.buffer_size - cb.remaining_capacity

/-- Line 89 of `cb_add` (and line 205 of `cb_rem_blocking`): request a larger
array when `len*size_coeff` exceeds the current one.  `size_coeff` is an `int`
converted to `size_t` by the multiplication. -/
def cb_set_desired (cb : CircBuff α) (len : Nat) : CircBuff α :=
  if len * cb.size_coeff.toNat > cb.buffer_size then
    { cb with desired_buf_size := len * cb.size_coeff.toNat }
  else cb

/-- Lines 92-112 of `cb_add`: the actual growth of the array. -/
def cb_inflate [Inhabited α] (cb : CircBuff α) : CircBuff α :=
  if cb.buffer_size < cb.desired_buf_size then
    let items_inside := cb.buffer_size - cb.remaining_capacity
    let inflation := cb.desired_buf_size - cb.buffer_size
    let buf := realloc cb.buffer cb.desired_buf_size
    let cb1 : CircBuff α :=
      if cb.rempos ≥ cb.pos then
        { cb with
          buffer := memmove buf (cb.rempos + inflation) cb.rempos (cb.buffer_size - cb.rempos)
          rempos := if items_inside ≠ 0 then cb.rempos + inflation else cb.rempos }
      else { cb with buffer := buf }
    { cb1 with
      remaining_capacity := cb1.remaining_capacity + inflation
      buffer_size := cb1.desired_buf_size }
  else cb

/-- Lines 88-112 of `cb_add`: the growth step. -/
def cb_grow [Inhabited α] (cb : CircBuff α) (len : Nat) : CircBuff α :=
  cb_inflate (cb_set_desired cb len)

/-- Lines 126-145 of `cb_add`: copy the input behind the write cursor, wrapping
at the end of the array. -/
def cb_write (cb : CircBuff α) (inp : List α) : CircBuff α :=
  let len := inp.length
  let oldpos := cb.pos
  let pos := (oldpos + len) % cb.buffer_size
  let buf :=
    if pos ≤ oldpos then
      let remaining := cb.buffer_size - oldpos
      memcpy (memcpy cb.buffer oldpos (inp.take remaining)) 0 (cells inp remaining pos)
    else memcpy cb.buffer oldpos inp
  { cb with pos := pos, remaining_capacity := cb.remaining_capacity - len, buffer := buf }

/-- Function `cb_add` (circbuff.c lines 78-146); `in` and `len` are the list `inp` and its
length. -/
def cb_add [Inhabited α] (cb : CircBuff α) (inp : List α) : CircBuff α × CBStatus :=
  let len := inp.length
  if cb.invalid then (cb, CBStatus.CB_ERROR)
  else if len = 0 then (cb, CBStatus.CB_OK)
  else
    let cb1 := cb_grow cb len
    if cb1.buffering && decide (cb1.remaining_capacity < 2 * len) then
      ({ cb1 with buffering := false }, CBStatus.CB_FULL)
    else if cb1.remaining_capacity < len then
      ({ cb1 with
          buffering := true
          size_coeff := if cb1.size_coeff < cb1.max_size_coeff then cb1.size_coeff + 1
                        else cb1.size_coeff },
        CBStatus.CB_FULL)
    else (cb_write cb1 inp, CBStatus.CB_OK)

/-- Lines 172-190 of `cb_rem_nonblocking` (the same text as lines 232-250 of
`cb_rem_blocking`): copy `len` cells from the read cursor into `dst`, wrapping
at the end of the array. -/
def cb_take (cb : CircBuff α) (dst : List α) (len : Nat) : CircBuff α × List α :=
  let oldrempos := cb.rempos
  let rempos := (oldrempos + len) % cb.buffer_size
  let dst1 :=
    if rempos ≤ oldrempos then
      let remaining := cb.buffer_size - oldrempos
      memcpy (memcpy dst 0 (cells cb.buffer oldrempos remaining)) remaining
        (cells cb.buffer 0 rempos)
    else memcpy dst 0 (cells cb.buffer oldrempos len)
  ({ cb with rempos := rempos, remaining_capacity := cb.remaining_capacity + len }, dst1)

/-- Function `cb_rem_nonblocking` (circbuff.c lines 153-191).  `dst` is the destination
array `in` before the call; the result carries the destination after it. -/
def cb_rem_nonblocking (cb : CircBuff α) (dst : List α) (len : Nat) :
    CircBuff α × List α × CBStatus :=
  if cb.invalid then (cb, dst, CBStatus.CB_ERROR)
  else if len = 0 then (cb, dst, CBStatus.CB_OK)
  else
    let items_inside := cb.buffer_size - cb.remaining_capacity
    if items_inside < len then (cb, dst, CBStatus.CB_EMPTY)
    else if cb.invalid then (cb, dst, CBStatus.CB_ERROR)
    else if cb.buffer_size - cb.remaining_capacity < len then (cb, dst, CBStatus.CB_EMPTY)
    else
      let r := cb_take cb dst len
      (r.1, r.2, CBStatus.CB_OK)

/-- The waiting loop of `cb_rem_blocking` (lines 203-218).  Each element of
`waits` stands for one call of `mutex_wait`: applied to the structure as the
consumer left it, it answers `none` for `THREAD_TIMEOUT`, or the structure as
the other threads left it when the consumer was woken.  The result is `none`
when the loop wants to wait more often than `waits` provides; otherwise the
structure together with the status the loop returned with, if it returned. -/
def cb_rem_blocking_loop (len : Nat) :
    List (CircBuff α → Option (CircBuff α)) → CircBuff α → Nat →
      Option (CircBuff α × Option CBStatus)
  | [], cb, items_inside =>
    if items_inside < len then none else some (cb, none)
  | w :: ws, cb, items_inside =>
    if items_inside < len then
      let cb1 := cb_set_desired cb len
      let before_items_inside := items_inside
      let cb2 := { cb1 with is_waiting := true }
      match w cb2 with
      | none => some ({ cb2 with is_waiting := false }, some CBStatus.CB_EMPTY)
      | some cb3 =>
        let cb4 := { cb3 with is_waiting := false }
        let items_inside1 := cb4.buffer_size - cb4.remaining_capacity
        if before_items_inside = items_inside1 then some (cb4, some CBStatus.CB_EMPTY)
        else cb_rem_blocking_loop len ws cb4 items_inside1
    else some (cb, none)

/-- Function `cb_rem_blocking` (circbuff.c lines 198-251), with the outcomes of its
`mutex_wait` calls supplied by `waits`. -/
def cb_rem_blocking (waits : List (CircBuff α → Option (CircBuff α)))
    (cb : CircBuff α) (dst : List α) (len : Nat) :
    Option (CircBuff α × List α × CBStatus) :=
  if cb.invalid then some (cb, dst, CBStatus.CB_ERROR)
  else if len = 0 then some (cb, dst, CBStatus.CB_OK)
  else
    match cb_rem_blocking_loop len waits cb (cb.buffer_size - cb.remaining_capacity) with
    | none => none
    | some (cb1, some st) => some (cb1, dst, st)
    | some (cb1, none) =>
      if cb1.invalid then some (cb1, dst, CBStatus.CB_ERROR)
      else if cb1.buffer_size - cb1.remaining_capacity < len then
        some (cb1, dst, CBStatus.CB_EMPTY)
      else
        let r := cb_take cb1 dst len
        some (r.1, r.2, CBStatus.CB_OK)

/-- Function `cb_free` (circbuff.c lines 256-270): the storage is released and the
structure is marked invalid. -/
def cb_free (cb : CircBuff α) : CircBuff α :=
  if cb.invalid then cb
  else { cb with buffer := [], invalid := true }

/-! ### Observations on the ring buffer used by the properties -/

/-- The logical contents of the ring buffer: the `cb_size` stored cells, read
from the read cursor with wrap-around. -/
def cb_contents (cb : CircBuff α) : List α :=
  (cb.buffer.rotate cb.rempos).take (cb_size cb)

/-- The assertion at the entry of `cb_add`, `cb_rem_nonblocking` and
`cb_rem_blocking` (lines 85, 164 and 224). -/
def cb_assert_cursors (cb : CircBuff α) : Prop :=
  (cb.pos + cb.remaining_capacity) % cb.buffer_size = cb.rempos

/-- The assertion at line 110 of `cb_add`, for a call with `len` items: when the
growth block runs, `buffer_size - remaining_capacity` afterwards equals the
`items_inside` computed before it. -/
def cb_assert_growth [Inhabited α] (cb : CircBuff α) (len : Nat) : Prop :=
  (cb_set_desired cb len).buffer_size < (cb_set_desired cb len).desired_buf_size →
    (cb_grow cb len).buffer_size - (cb_grow cb len).remaining_capacity =
      cb.buffer_size - cb.remaining_capacity

/-- The structural invariant of a live ring buffer: the array has `buffer_size`
cells, the cursors are inside it and agree with `remaining_capacity`. -/
structure Inv (cb : CircBuff α) : Prop where
  len_buf : cb.buffer.length = cb.buffer_size
  size_pos : 0 < cb.buffer_size
  rem_le : cb.remaining_capacity ≤ cb.buffer_size
  pos_lt : cb.pos < cb.buffer_size
  cursors : (cb.pos + cb.remaining_capacity) % cb.buffer_size = cb.rempos

/-- A live ring buffer as `cb_init` and the non-blocking calls leave it: not
freed, structurally sound, no growth pending and a coefficient of at least
`CB_SIZE_COEFF_DEFAULT`. -/
structure Live (cb : CircBuff α) : Prop where
  inv : Inv cb
  valid : cb.invalid = false
  desired_le : cb.desired_buf_size ≤ cb.buffer_size
  coeff_ge : 2 ≤ cb.size_coeff

/-- One call on a ring buffer. -/
inductive Op (α : Type) where
  | add (inp : List α)
  | rem (dst : List α) (len : Nat)
  | purge

/-- Whether the call is `cb_purge`. -/
def Op.isPurge : Op α → Bool
  | Op.purge => true
  | _ => false

/-- A ring buffer together with the record of the calls made on it: the data of
the additions that returned `CB_OK`, the data handed out by the removals that
returned `CB_OK`, the largest `len` passed to `cb_add`, and the status every
`cb_add` and `cb_rem_nonblocking` returned, in order. -/
structure Trace (α : Type) where
  cb : CircBuff α
  added : List α
  removed : List α
  maxlen : Nat
  statuses : List CBStatus

/-- Perform one call and record it. -/
def Trace.step [Inhabited α] (t : Trace α) : Op α → Trace α
  | Op.add inp =>
    let r := cb_add t.cb inp
    { cb := r.1
      added := if r.2 = CBStatus.CB_OK then t.added ++ inp else t.added
      removed := t.removed
      maxlen := max t.maxlen inp.length
      statuses := t.statuses ++ [r.2] }
  | Op.rem dst len =>
    let r := cb_rem_nonblocking t.cb dst len
    { cb := r.1
      added := t.added
      removed := if r.2.2 = CBStatus.CB_OK then t.removed ++ r.2.1.take len else t.removed
      maxlen := t.maxlen
      statuses := t.statuses ++ [r.2.2] }
  | Op.purge => { t with cb := cb_purge t.cb }

/-- The calls `ops`, in order, on a buffer fresh from `cb_init(max_size_coeff)`. -/
def run [Inhabited α] (max_size_coeff : Int) (ops : List (Op α)) : Trace α :=
  ops.foldl Trace.step
    { cb := cb_init max_size_coeff, added := [], removed := [], maxlen := 0, statuses := [] }

/-! ## dsp.c: dropped-sample compensator

`difference` is a signed integer field; `block` and `size` are `uint32_t`,
`syncoffset` is `int64_t`.  Values are taken in range for these types, so the
additions and subtractions on `difference` are exact; `%` on a signed operand
truncates towards zero (`Int.tmod`).  The helper
`dsp_dropped_cal_compensation` computes in `uint64_t`, which is modelled with
explicit reduction modulo `2^64`. -/

/-- The state `dsp_dropped_compensation_t`. -/
structure dsp_dropped_compensation_t where
  difference : Int
  deriving DecidableEq, Repr

/-- Function `dsp_dropped_compensation_init` (dsp.c lines 328-331). -/
def dsp_dropped_compensation_init : dsp_dropped_compensation_t :=
  { difference := 0 }

/-- Function `dsp_dropped_cal_compensation` (dsp.c lines 336-339).  `dropped / block` is
a signed division; the result is stored in a `uint64_t` and the rest of the
expression is evaluated in `uint64_t`.  The arguments are the values of the
`int` parameters: the callers hand over a `uint32_t` block, which the
conversion to `int` leaves unchanged when it is below `2^31`. -/
def dsp_dropped_cal_compensation (block dropped : Int) : Int :=
  let frames : Int := (dropped.tdiv block) % 2 ^ 64
  (((frames + 1) % 2 ^ 64 * (block % 2 ^ 64) % 2 ^ 64 - dropped % 2 ^ 64) % 2 ^ 64)
    % (block % 2 ^ 64)

/-- Function `dsp_dropped_compensation_add` (dsp.c lines 344-358).  The chunk is `size`
floats starting at `buff`; the call passes `&buff[difference]` and
`size-difference` to `cb_add`. -/
def dsp_dropped_compensation_add [Inhabited α] (res : dsp_dropped_compensation_t)
    (cb : CircBuff α) (buff : List α) (size : Nat) (block : Nat) :
    dsp_dropped_compensation_t × CircBuff α :=
  if (size : Int) ≤ res.difference then
    ({ difference := res.difference - size }, cb)
  else
    let r := cb_add cb (cells buff res.difference.toNat (size - res.difference.toNat))
    if r.2 = CBStatus.CB_OK then ({ difference := 0 }, r.1)
    else
      let d : Int := res.difference - ((size % block : Nat) : Int)
      if d < 0 then ({ difference := dsp_dropped_cal_compensation block (-d) }, r.1)
      else ({ difference := d }, r.1)

/-- Function `dsp_dropped_compensation_will_drop_all` (dsp.c lines 363-367). -/
def dsp_dropped_compensation_will_drop_all (res : dsp_dropped_compensation_t)
    (size : Nat) (_block : Nat) : Bool :=
  decide ((size : Int) ≤ res.difference)

/-- Function `dsp_dropped_compensation_shift_with` (dsp.c lines 372-380). -/
def dsp_dropped_compensation_shift_with (res : dsp_dropped_compensation_t)
    (block : Nat) (syncoffset : Int) : dsp_dropped_compensation_t :=
  let d : Int :=
    if syncoffset ≥ 0 then res.difference - syncoffset.tmod block
    else res.difference - (block + syncoffset.tmod block)
  if d < 0 then { difference := dsp_dropped_cal_compensation block (-d) }
  else { difference := d }

/-- One call on the compensator.  An addition names the ring buffer it pushes
into (in whatever state the other calls on it left it), the chunk and its
size. -/
inductive CompOp (α : Type) where
  | add (cb : CircBuff α) (buff : List α) (size : Nat)
  | shift (syncoffset : Int)

/-- Perform one call on the compensator. -/
def CompOp.apply [Inhabited α] (block : Nat) (res : dsp_dropped_compensation_t) :
    CompOp α → dsp_dropped_compensation_t
  | CompOp.add cb buff size => (dsp_dropped_compensation_add res cb buff size block).1
  | CompOp.shift syncoffset => dsp_dropped_compensation_shift_with res block syncoffset

/-- The calls `ops`, in order, on a compensator fresh from
`dsp_dropped_compensation_init`. -/
def comp_run [Inhabited α] (block : Nat) (ops : List (CompOp α)) :
    dsp_dropped_compensation_t :=
  ops.foldl (CompOp.apply block) dsp_dropped_compensation_init

/-! ## extbuffer.c

The `float` and `double` cells of an ext-buffer and the `double` scalars of
the resampler are rational numbers.  The functions named after the source
take the arithmetic exactly; the functions with the suffix `_fp` (section
"IEEE 754 arithmetic") round every operation as the machine does. -/

/-- The two element types of an ext-buffer (`EXTBUFFER_TYPE_FLOAT`,
`EXTBUFFER_TYPE_DOUBLE`). -/
inductive ExtBufferType where
  | EXTBUFFER_TYPE_FLOAT
  | EXTBUFFER_TYPE_DOUBLE
  deriving DecidableEq, Repr

/-- The fields of `extbuffer_t` that `extbuffer.c` reads and writes.  A `NULL`
pointer is `none`. -/
structure extbuffer_t where
  buffer : Option (List ℚ)
  dbuffer : Option (List ℚ)
  buffer_max_size : Nat
  size_valid_elements : Nat
  valid : Bool
  cleartozero : Bool
  calls : Nat
  type : ExtBufferType
  deriving DecidableEq, Repr

/-- Function `extbuffer_init` (extbuffer.c lines 22-34). -/
def extbuffer_init : extbuffer_t :=
  { buffer := none
    dbuffer := none
    buffer_max_size := 0
    size_valid_elements := 0
    valid := false
    cleartozero := true
    calls := 0
    type := ExtBufferType.EXTBUFFER_TYPE_FLOAT }

/-- Function `extbuffer_init_double` (extbuffer.c lines 39-51). -/
def extbuffer_init_double : extbuffer_t :=
  { buffer := none
    dbuffer := none
    buffer_max_size := 0
    size_valid_elements := 0
    valid := false
    cleartozero := true
    calls := 0
    type := ExtBufferType.EXTBUFFER_TYPE_DOUBLE }

/-- The storage handed back by `malloc` for `n` cells or by `realloc` of `old`
to `n` cells: the old cells that fit are kept, the others are indeterminate. -/
def ext_alloc (old : Option (List ℚ)) (n : Nat) : List ℚ :=
  match old with
  | none => List.replicate n 0
  | some b => (b ++ List.replicate (n - b.length) 0).take n

/-- Lines 61-76 of `extbuffer_preparetohandle`: reallocate when the capacity is
too small or more than twice too large.  `size << 1` is a `uint32_t`. -/
def extbuffer_resize (container : extbuffer_t) (size : Nat) : extbuffer_t :=
  if container.buffer_max_size < size ∨ container.buffer_max_size > (size * 2) % 2 ^ 32 then
    let c1 : extbuffer_t :=
      match container.type with
      | ExtBufferType.EXTBUFFER_TYPE_FLOAT =>
        match container.buffer with
        | none => { container with buffer := some (ext_alloc none size), valid := true }
        | some b =>
          if container.buffer_max_size ≠ size then
            { container with buffer := some (ext_alloc (some b) size) }
          else container
      | ExtBufferType.EXTBUFFER_TYPE_DOUBLE =>
        match container.dbuffer with
        | none => { container with dbuffer := some (ext_alloc none size), valid := true }
        | some b =>
          if container.buffer_max_size ≠ size then
            { container with dbuffer := some (ext_alloc (some b) size) }
          else container
    { c1 with buffer_max_size := size }
  else container

/-- Lines 79-90 of `extbuffer_preparetohandle`: the lazy zero fill of the
valid cells. -/
def extbuffer_clear (container : extbuffer_t) : extbuffer_t :=
  if container.cleartozero then
    let c1 : extbuffer_t :=
      match container.type with
      | ExtBufferType.EXTBUFFER_TYPE_FLOAT =>
        { container with
          buffer := container.buffer.map
            (fun b => memcpy b 0 (List.replicate container.size_valid_elements 0)) }
      | ExtBufferType.EXTBUFFER_TYPE_DOUBLE =>
        { container with
          dbuffer := container.dbuffer.map
            (fun b => memcpy b 0 (List.replicate container.size_valid_elements 0)) }
    { c1 with cleartozero := false, calls := 0 }
  else container

/-- Function `extbuffer_preparetohandle` (extbuffer.c lines 57-93).  The result
is `none` when the assertion `size > 0` fails. -/
def extbuffer_preparetohandle (container : extbuffer_t) (size : Nat) : Option extbuffer_t :=
  if size > 0 then
    let c1 := extbuffer_resize container size
    let c2 := extbuffer_clear { c1 with size_valid_elements := size }
    some { c2 with calls := c2.calls + 1 }
  else none

/-- Function `extbuffer_cleartozero` (extbuffer.c lines 98-100). -/
def extbuffer_cleartozero (container : extbuffer_t) : extbuffer_t :=
  { container with cleartozero := true }

/-- Function `extbuffer_free` (extbuffer.c lines 105-118). -/
def extbuffer_free (container : extbuffer_t) : extbuffer_t :=
  { container with valid := false, buffer := none, dbuffer := none }

/-! ## dsp.c: resampler -/

/-- The state `dsp_resample_t`. -/
structure dsp_resample_t where
  contrib : ℚ
  offset : ℚ
  deriving DecidableEq, Repr

/-- Function `dsp_resample_init` (dsp.c lines 250-254). -/
def dsp_resample_init : dsp_resample_t :=
  { contrib := 0, offset := 0 }

/-- The conversion `(int) x` of a `double`: truncation towards zero. -/
def c_int (x : ℚ) : Int :=
  if 0 ≤ x then ⌊x⌋ else ⌈x⌉

/-- The conversion of an `int` to `uint32_t`. -/
def c_uint32 (z : Int) : Nat :=
  (z % 2 ^ 32).toNat

/-- Line 266 of `dsp_resample_process`: `output_samples`, with the quotient, the
difference and the product taken exactly.  It is the value the code computes
whenever these three `double` operations are exact;
`resample_output_samples_fp` carries their rounding. -/
def resample_output_samples (res : dsp_resample_t) (size : Nat)
    (upsample_by downsample_by : ℚ) : Nat :=
  c_uint32 (c_int (((size : ℚ) - res.offset) * (upsample_by / downsample_by)))

/-- Lines 280-282 of `dsp_resample_process`: the values the nearest-neighbour
loop stores through `resbuff`, in order.  A read outside `buffer` yields 0. -/
def resample_nearest (buffer : List ℚ) (size output_samples : Nat) : List ℚ :=
  (List.range output_samples).map (fun id => buffer.getD ((size * id) / output_samples) 0)

/-- The variables the area-integration loop carries: the pixel counter `pid`,
`res->contrib`, and the values stored through `resbuff` so far, in order. -/
structure AreaState where
  pid : Nat
  contrib : ℚ
  stored : List ℚ
  deriving DecidableEq, Repr

/-- Lines 301-304 of `dsp_resample_process`: `while (pid < idcheck2)`, run for
at most `fuel` iterations. -/
def area_fill (val idcheck2 : ℚ) : Nat → AreaState → AreaState
  | 0, s => s
  | fuel + 1, s =>
    if (s.pid : ℚ) < idcheck2 then
      area_fill val idcheck2 fuel { s with stored := s.stored ++ [val], pid := s.pid + 1 }
    else s

/-- Lines 287-310 of `dsp_resample_process`: the body of the loop over the input
samples, for sample `id`, with the `double` operations taken exactly
(`area_step_fp` carries their rounding).  The inner `while` gets as many
iterations as there are integers from `pid` below `idcheck2`, which is what it
needs to leave by its own condition. -/
def area_step (sampletimeoverpixel offset_sample : ℚ) (buffer : List ℚ)
    (s : AreaState) (id : Nat) : AreaState :=
  let idcheck : ℚ := id * sampletimeoverpixel + offset_sample
  let idcheck3 : ℚ := idcheck + sampletimeoverpixel
  let idcheck2 : ℚ := idcheck + sampletimeoverpixel - 1
  let val : ℚ := buffer.getD id 0
  let s1 : AreaState :=
    if (s.pid : ℚ) < idcheck ∧ (s.pid : ℚ) < idcheck2 then
      { pid := s.pid + 1
        contrib := 0
        stored := s.stored ++ [s.contrib + val * (1 - idcheck + s.pid)] }
    else s
  let s2 : AreaState := area_fill val idcheck2 (⌈idcheck2⌉.toNat - s1.pid) s1
  if (s2.pid : ℚ) < idcheck3 ∧ (s2.pid : ℚ) > idcheck then
    { s2 with contrib := s2.contrib + (idcheck3 - s2.pid) * val }
  else { s2 with contrib := s2.contrib + sampletimeoverpixel * val }

/-- Lines 285-311 of `dsp_resample_process`: the area-integration loop over the
`size` input samples. -/
def resample_area (res : dsp_resample_t) (buffer : List ℚ) (size : Nat)
    (sampletimeoverpixel : ℚ) : AreaState :=
  (List.range size).foldl
    (area_step sampletimeoverpixel (-res.offset * sampletimeoverpixel) buffer)
    { pid := 0, contrib := res.contrib, stored := [] }

/-- The values one call of `dsp_resample_process` stores through `resbuff`, in
order (lines 278-312). -/
def resample_stored (res : dsp_resample_t) (inp : extbuffer_t)
    (upsample_by downsample_by : ℚ) (nearest_neighbour_sampling : Int) : List ℚ :=
  if nearest_neighbour_sampling ≠ 0 then
    resample_nearest (inp.buffer.getD []) inp.size_valid_elements
      (resample_output_samples res inp.size_valid_elements upsample_by downsample_by)
  else
    (resample_area res (inp.buffer.getD []) inp.size_valid_elements
      (upsample_by / downsample_by)).stored

/-- Function `dsp_resample_process` (dsp.c lines 260-316).  The result is `none`
when the assertion of `extbuffer_preparetohandle` fails; otherwise it is the
resampler state and the output ext-buffer after the call. -/
def dsp_resample_process (res : dsp_resample_t) (inp out : extbuffer_t)
    (upsample_by downsample_by : ℚ) (nearest_neighbour_sampling : Int) :
    Option (dsp_resample_t × extbuffer_t) :=
  let sampletimeoverpixel : ℚ := upsample_by / downsample_by
  let pixeloversampletme : ℚ := downsample_by / upsample_by
  let size : Nat := inp.size_valid_elements
  let output_samples : Nat := resample_output_samples res size upsample_by downsample_by
  match extbuffer_preparetohandle out output_samples with
  | none => none
  | some out1 =>
    let stored := resample_stored res inp upsample_by downsample_by nearest_neighbour_sampling
    let contrib : ℚ :=
      if nearest_neighbour_sampling ≠ 0 then res.contrib
      else (resample_area res (inp.buffer.getD []) size sampletimeoverpixel).contrib
    some
      ({ contrib := contrib
         offset := res.offset + ((output_samples : ℚ) * pixeloversampletme - size) },
       { out1 with buffer := out1.buffer.map (fun b => memcpy b 0 stored) })

/-- A `float` ext-buffer whose bookkeeping is consistent: `buffer_max_size` is
the number of cells `buffer` points to (0 for `NULL`). -/
structure ExtFloatOk (c : extbuffer_t) : Prop where
  is_float : c.type = ExtBufferType.EXTBUFFER_TYPE_FLOAT
  null_cap : c.buffer = none → c.buffer_max_size = 0
  cap : ∀ b, c.buffer = some b → b.length = c.buffer_max_size

/-! ## fft.c -/

/-- The loop `while ((size /= 2) != 0) m++;` of `fft_getrealsize` (fft.c lines
10-11) and of `fft_perform` (lines 122-123), run for at most `fuel` tests of
its condition; the result is `m` on exit. -/
def fft_log2_loop : Nat → Nat → Nat → Nat
  | 0, _, m => m
  | fuel + 1, size, m =>
    if size / 2 ≠ 0 then fft_log2_loop fuel (size / 2) (m + 1) else m

/-- Function `fft_getrealsize` (fft.c lines 8-14).  A `uint32_t` is halved to 0
within 32 steps, so 32 tests of the loop condition are enough; `1 << m` is
converted to `uint32_t` on return. -/
def fft_getrealsize (size : Nat) : Nat :=
  (1 <<< fft_log2_loop 32 size 0) % 2 ^ 32

/-- Lines 132-143 of `fft_perform`: exchange the complex samples `i` and `j` of
the interleaved array (`Ii = i << 1`, `Qi = Ii + 1`, ...).  A read outside the
array yields 0, a write outside it is dropped. -/
def fft_swap {K : Type} [Field K] (iq : List K) (i j : Nat) : List K :=
  let Ii := 2 * i
  let Qi := Ii + 1
  let Ij := 2 * j
  let Qj := Ij + 1
  let tx := iq.getD Ii 0
  let ty := iq.getD Qi 0
  let iq1 := iq.set Ii (iq.getD Ij 0)
  let iq2 := iq1.set Qi (iq1.getD Qj 0)
  let iq3 := iq2.set Ij tx
  iq3.set Qj ty

/-- Lines 146-149 of `fft_perform`: `while (k <= j) { j -= k; k >>= 1; }`, with
at most `fuel` tests of the condition; the result is `(k, j)` on exit and
`none` when the loop is still running after `fuel` tests. -/
def fft_carry : Nat → Nat → Nat → Option (Nat × Nat)
  | 0, _, _ => none
  | fuel + 1, k, j => if k ≤ j then fft_carry fuel (k / 2) (j - k) else some (k, j)

/-- Lines 131-150 of `fft_perform`: the body of the bit-reversal loop for index
`i`, on the array and the counter `j`.  `k` is an `int64_t`: after 64 tests the
inner loop has `k = 0` and can no longer leave, which is the result `none`. -/
def fft_bitrev_step {K : Type} [Field K] (i2 : Nat) (st : List K × Nat) (i : Nat) :
    Option (List K × Nat) :=
  let iq1 := if i < st.2 then fft_swap st.1 i st.2 else st.1
  match fft_carry 64 i2 st.2 with
  | none => none
  | some (k, j) => some (iq1, j + k)

/-- Lines 126-151 of `fft_perform`: the bit-reversal permutation. -/
def fft_bitrev {K : Type} [Field K] (iq : List K) (nn : Nat) : Option (List K) :=
  ((List.range (nn - 1)).foldlM (fft_bitrev_step (nn / 2)) (iq, 0)).map Prod.fst

/-- Lines 163-176 of `fft_perform`: one butterfly on the complex samples `i` and
`i1 = i + l1` with the twiddle factor `u1 + i*u2`. -/
def fft_butterfly {K : Type} [Field K] (iq : List K) (i l1 : Nat) (u1 u2 : K) : List K :=
  let Ii := 2 * i
  let Qi := Ii + 1
  let i1 := i + l1
  let Ii1 := 2 * i1
  let Qi1 := Ii1 + 1
  let t1 := u1 * iq.getD Ii1 0 - u2 * iq.getD Qi1 0
  let t2 := u1 * iq.getD Qi1 0 + u2 * iq.getD Ii1 0
  let iq1 := iq.set Ii1 (iq.getD Ii 0 - t1)
  let iq2 := iq1.set Qi1 (iq1.getD Qi 0 - t2)
  let iq3 := iq2.set Ii (iq2.getD Ii 0 + t1)
  iq3.set Qi (iq3.getD Qi 0 + t2)

/-- Lines 162-177 of `fft_perform`: `for (i=j;i<nn;i+=l2)`, continued from index
`i` with at most `fuel` tests of the condition. -/
def fft_inner {K : Type} [Field K] (nn l1 l2 : Nat) (u1 u2 : K) :
    Nat → Nat → List K → List K
  | 0, _, iq => iq
  | fuel + 1, i, iq =>
    if i < nn then fft_inner nn l1 l2 u1 u2 fuel (i + l2) (fft_butterfly iq i l1 u1 u2)
    else iq

/-- Lines 161-181 of `fft_perform`: the body of the loop over `j`, on the array
and the twiddle factor `(u1, u2)`.  The inner loop advances by `l2 ≥ 1`, so
`nn` tests of its condition are enough. -/
def fft_group {K : Type} [Field K] (nn l1 l2 : Nat) (c1 c2 : K) (st : List K × K × K)
    (j : Nat) : List K × K × K :=
  let iq1 := fft_inner nn l1 l2 st.2.1 st.2.2 (nn + 1) j st.1
  let z := st.2.1 * c1 - st.2.2 * c2
  (iq1, z, st.2.1 * c2 + st.2.2 * c1)

/-- The variables the loop over the levels `l` carries: the array, the rotation
`(c1, c2)` and `l2`. -/
structure FftLevel (K : Type) where
  iq : List K
  c1 : K
  c2 : K
  l2 : Nat

/-- Lines 157-185 of `fft_perform`: the body of the loop over the levels. -/
def fft_level {K : Type} [Field K] (sqrt : K → K) (nn : Nat) (inverse : Int)
    (st : FftLevel K) (_l : Nat) : FftLevel K :=
  let l1 := st.l2
  let l2 := st.l2 * 2
  let r := (List.range l1).foldl (fft_group nn l1 l2 st.c1 st.c2) (st.iq, 1, 0)
  let c2 := sqrt ((1 - st.c1) / 2)
  let c2 := if inverse = 0 then -c2 else c2
  let c1 := sqrt ((1 + st.c1) / 2)
  { iq := r.1, c1 := c1, c2 := c2, l2 := l2 }

/-- Lines 189-195 of `fft_perform`: the division of the first `nn` complex
samples by `nn`. -/
def fft_scale {K : Type} [Field K] (nn : Nat) (iq : List K) : List K :=
  (List.range nn).foldl
    (fun a i =>
      let a1 := a.set (2 * i) (a.getD (2 * i) 0 / (nn : K))
      a1.set (2 * i + 1) (a1.getD (2 * i + 1) 0 / (nn : K)))
    iq

/-- Function `fft_perform` (fft.c lines 116-197) on the interleaved array `iq`.
The scalars are taken in a field `K` with the square root `sqrt` as a
parameter, so that the function runs on rationals and can be stated on reals.
The result is `none` when the bit-reversal loop does not terminate. -/
def fft_perform {K : Type} [Field K] (sqrt : K → K) (iq : List K) (size : Nat)
    (inverse : Int) : Option (List K) :=
  let m := fft_log2_loop 32 size 0
  let nn := (1 <<< m) % 2 ^ 32
  match fft_bitrev iq nn with
  | none => none
  | some iq1 =>
    let st := (List.range m).foldl (fft_level sqrt nn inverse)
      { iq := iq1, c1 := -1, c2 := 0, l2 := 1 }
    some (if inverse = 0 then fft_scale nn st.iq else st.iq)

/-- The reversal of the `q` low bits of `i`. -/
def bitrev : Nat → Nat → Nat
  | 0, _ => 0
  | q + 1, i => (i % 2) * 2 ^ q + bitrev q (i / 2)

/-- The complex sample `p` of an interleaved real array. -/
def cplx (iq : List ℝ) (p : Nat) : ℂ :=
  ⟨iq.getD (2 * p) 0, iq.getD (2 * p + 1) 0⟩

/-- The reference transform: `∑ j < n, x j * ζ ^ (j * k)`, the discrete Fourier
sum of `x` at bin `k` for the root of unity `ζ`. -/
def dft_sum {R : Type} [CommRing R] (ζ : R) (x : Nat → R) (n k : Nat) : R :=
  ∑ j in Finset.range n, x j * ζ ^ (j * k)

/-- The value a decimation-in-time transform holds after `l` levels at position
`s * 2^l + k`: the Fourier sum of length `2^l` over the samples whose index has
the bit-reversed `s` as its low `m - l` bits. -/
def dit_sum {R : Type} [CommRing R] (m : Nat) (ζ : R) (x : Nat → R) (l s k : Nat) : R :=
  ∑ t in Finset.range (2 ^ l),
    x (bitrev (m - l) s + t * 2 ^ (m - l)) * ζ ^ (t * k * 2 ^ (m - l))

/-! ## fft.c: the correlation helpers -/

/-- Lines 97-106 of `fft_crosscorrelation`: the bin-by-bin product, written
into `answer_out`. -/
def fft_crosscorrelation_mul {K : Type} [Field K] (answer_out answer_temp : List K)
    (fft_size2 : Nat) : List K :=
  (List.range ((fft_size2 + 1) / 2)).foldl
    (fun a t =>
      let i := 2 * t
      let i1 := i + 1
      let aI := a.getD i 0
      let aQ := a.getD i1 0
      let bI := answer_temp.getD i 0
      let bQ := answer_temp.getD i1 0
      (a.set i (aI * bI + aQ * bQ)).set i1 (aI * bQ - aQ * bI))
    answer_out

/-- Lines 89-106 of `fft_crosscorrelation`: the two forward transforms and the
bin-by-bin product.  The result is the pair of arrays `(answer_out,
answer_temp)` right before the inverse transform. -/
def fft_crosscorrelation_bins {K : Type} [Field K] (sqrt : K → K)
    (answer_out answer_temp : List K) (samples : Nat) : Option (List K × List K) :=
  let fft_size := fft_getrealsize samples
  let fft_size2 := (fft_size * 2) % 2 ^ 32
  match fft_perform sqrt answer_out fft_size 0 with
  | none => none
  | some a1 =>
    match fft_perform sqrt answer_temp fft_size 0 with
    | none => none
    | some b1 => some (fft_crosscorrelation_mul a1 b1 fft_size2, b1)

/-- Function `fft_crosscorrelation` (fft.c lines 86-110): the result is the pair
of arrays `(answer_out, answer_temp)` at the return. -/
def fft_crosscorrelation {K : Type} [Field K] (sqrt : K → K)
    (answer_out answer_temp : List K) (samples : Nat) : Option (List K × List K) :=
  match fft_crosscorrelation_bins sqrt answer_out answer_temp samples with
  | none => none
  | some (a2, b1) =>
    match fft_perform sqrt a2 (fft_getrealsize samples) 1 with
    | none => none
    | some a3 => some (a3, b1)

/-! ## dsp.c: post-processing

The pixels are taken in a linearly ordered field `K`, with the square root as
a parameter: the functions run on rationals and are stated in exact
arithmetic.  The compile-time switch `PIXEL_SPECIAL_COLOURS_ENABLED` is the
parameter `special`. -/

/-- Constant `AUTOGAIN_REPORT_EVERY_FRAMES` (dsp.c line 21). -/
def AUTOGAIN_REPORT_EVERY_FRAMES : Int := 5

/-- Function `dsp_timelowpass_run` (dsp.c lines 26-33). -/
def dsp_timelowpass_run {K : Type} [LinearOrderedField K] (lowpassvalue : K)
    (sizetopoll : Int) (buffer screenbuffer : List K) : List K :=
  let antilowpassvalue := 1 - lowpassvalue
  (List.range sizetopoll.toNat).foldl
    (fun s i => s.set i (s.getD i 0 * lowpassvalue + buffer.getD i 0 * antilowpassvalue))
    screenbuffer

/-- The state `dsp_autogain_t`. -/
structure dsp_autogain_t (K : Type) where
  lastmax : K
  lastmin : K
  snr : K
  deriving DecidableEq, Repr

/-- Function `dsp_autogain_init` (dsp.c lines 38-42). -/
def dsp_autogain_init {K : Type} [LinearOrderedField K] : dsp_autogain_t K :=
  { lastmax := 0, lastmin := 0, snr := 1 }

/-- The variables `min`, `max` and `sum` of the first loop of `dsp_autogain_run`. -/
structure AutogainStats (K : Type) where
  min : K
  max : K
  sum : K
  deriving DecidableEq, Repr

/-- Lines 56-61 of `dsp_autogain_run`: the body of the first loop for the
pixel `val`. -/
def autogain_stats_step {K : Type} [LinearOrderedField K] (special : Bool)
    (st : AutogainStats K) (val : K) : AutogainStats K :=
  if special ∧ (val > 250 ∨ val < -250) then st
  else
    let st1 : AutogainStats K :=
      if val > st.max then { st with max := val }
      else if val < st.min then { st with min := val }
      else st
    { st1 with sum := st1.sum + val }

/-- Lines 50-62 of `dsp_autogain_run`: `min` and `max` start from the first
pixel, then the loop visits the `sizetopoll` pixels. -/
def autogain_stats {K : Type} [LinearOrderedField K] (special : Bool) (sizetopoll : Int)
    (screenbuffer : List K) : AutogainStats K :=
  (List.range sizetopoll.toNat).foldl
    (fun st i => autogain_stats_step special st (screenbuffer.getD i 0))
    { min := screenbuffer.getD 0 0, max := screenbuffer.getD 0 0, sum := 0 }

/-- The variables the second loop of `dsp_autogain_run` carries: the output
array, `sum2` and `sum3`. -/
structure AutogainOut (K : Type) where
  sendbuffer : List K
  sum2 : K
  sum3 : K
  deriving DecidableEq, Repr

/-- Lines 74-91 of `dsp_autogain_run`: the body of the second loop for the
index `i`. -/
def autogain_out_step {K : Type} [LinearOrderedField K] (special : Bool)
    (screenbuffer : List K) (lastmin span mean : K) (st : AutogainOut K) (i : Nat) :
    AutogainOut K :=
  let val := screenbuffer.getD i 0
  let out :=
    if special ∧ (val > 250 ∨ val < -250) then val else (val - lastmin) / span
  let valmeandiff := val - mean
  { sendbuffer := st.sendbuffer.set i out
    sum2 := st.sum2 + valmeandiff * valmeandiff
    sum3 := st.sum3 + valmeandiff }

/-- Function `dsp_autogain_run` (dsp.c lines 47-99): the new auto-gain state and
the output array. -/
def dsp_autogain_run {K : Type} [LinearOrderedField K] (sqrt : K → K) (special : Bool)
    (autogain : dsp_autogain_t K) (sizetopoll : Int) (screenbuffer sendbuffer : List K)
    (norm : K) : dsp_autogain_t K × List K :=
  let st := autogain_stats special sizetopoll screenbuffer
  let oneminusnorm := 1 - norm
  let lastmax := oneminusnorm * autogain.lastmax + norm * st.max
  let lastmin := oneminusnorm * autogain.lastmin + norm * st.min
  let span := if lastmax = lastmin then 1 else lastmax - lastmin
  let mean := st.sum / (sizetopoll : K)
  let r := (List.range sizetopoll.toNat).foldl
    (autogain_out_step special screenbuffer lastmin span mean)
    { sendbuffer := sendbuffer, sum2 := 0, sum3 := 0 }
  let stdev := sqrt ((r.sum2 - r.sum3 * r.sum3 / (sizetopoll : K)) / ((sizetopoll - 1 : Int) : K))
  ({ lastmax := lastmax, lastmin := lastmin, snr := mean / stdev }, r.sendbuffer)

/-- Function `dsp_average_v_h` (dsp.c lines 104-117): the column sums and the
row sums. -/
def dsp_average_v_h {K : Type} [LinearOrderedField K] (width height : Int)
    (sendbuffer widthcollapsebuffer heightcollapsebuffer : List K) : List K × List K :=
  let totalpixels := width * height
  let w0 := memcpy widthcollapsebuffer 0 (List.replicate width.toNat 0)
  let h0 := memcpy heightcollapsebuffer 0 (List.replicate height.toNat 0)
  (List.range totalpixels.toNat).foldl
    (fun wh i =>
      let val := sendbuffer.getD i 0
      let c := (Int.tmod i width).toNat
      let r := (Int.tdiv i width).toNat
      (wh.1.set c (wh.1.getD c 0 + val), wh.2.set r (wh.2.getD r 0 + val)))
    (w0, h0)

/-- The sync detector (`syncdetector_init`, `syncdetector_run`), which is not
part of `dsp.c`: its state type `σ`, its initial state and its step.  The step
takes the state, the frame, the array `corrected_sendbuffer`, the width, the
height, the two projections and the two flags, and gives the new state, the
new contents of `corrected_sendbuffer` and the contents of the array it
returns. -/
structure SyncDetector (K σ : Type) where
  init : σ
  run : σ → List K → List K → Int → Int → List K → List K → Bool → Bool → σ × List K × List K

/-- The state `dsp_postprocess_t`.  A `NULL` pointer is `none`. -/
structure dsp_postprocess_t (K σ : Type) where
  dsp_autogain : dsp_autogain_t K
  screenbuffer : Option (List K)
  sendbuffer : Option (List K)
  corrected_sendbuffer : Option (List K)
  widthcollapsebuffer : Option (List K)
  heightcollapsebuffer : Option (List K)
  bufsize : Int
  sizetopoll : Int
  width : Int
  height : Int
  runs : Int
  lowpass_before_sync : Int
  sync : σ

/-- Function `dsp_post_process_init` (dsp.c lines 122-142). -/
def dsp_post_process_init {K σ : Type} [LinearOrderedField K] (sd : SyncDetector K σ) :
    dsp_postprocess_t K σ :=
  { dsp_autogain := dsp_autogain_init
    screenbuffer := none
    sendbuffer := none
    corrected_sendbuffer := none
    widthcollapsebuffer := none
    heightcollapsebuffer := none
    bufsize := 0
    sizetopoll := 0
    width := 0
    height := 0
    runs := 0
    lowpass_before_sync := 0
    sync := sd.init }

/-- The storage `MALLOC_OR_REALLOC(old, n, float)` hands back: the old cells
that fit are kept, the others are indeterminate. -/
def pp_alloc {K : Type} [LinearOrderedField K] (old : Option (List K)) (n : Nat) : List K :=
  match old with
  | none => List.replicate n 0
  | some b => (b ++ List.replicate (n - b.length) 0).take n

/-- Lines 150-173 of `dsp_post_process`: the reaction to a change of the image
size.  The result is `none` when the assertion `sizetopoll > 0` fails. -/
def dsp_post_process_resize {K σ : Type} [LinearOrderedField K] (pp : dsp_postprocess_t K σ)
    (nowwidth nowheight : Int) : Option (dsp_postprocess_t K σ) :=
  if nowheight ≠ pp.height ∨ nowwidth ≠ pp.width then
    let oldheight := pp.height
    let oldwidth := pp.width
    let pp1 : dsp_postprocess_t K σ :=
      { pp with height := nowheight, width := nowwidth, sizetopoll := nowheight * nowwidth }
    if pp1.sizetopoll > 0 then
      let pp2 : dsp_postprocess_t K σ :=
        if pp1.sizetopoll > pp1.bufsize then
          let n := pp1.sizetopoll.toNat
          { pp1 with
            bufsize := pp1.sizetopoll
            screenbuffer := some (memcpy (pp_alloc pp1.screenbuffer n) 0 (List.replicate n 0))
            sendbuffer := some (pp_alloc pp1.sendbuffer n)
            corrected_sendbuffer := some (pp_alloc pp1.corrected_sendbuffer n) }
        else pp1
      let pp3 : dsp_postprocess_t K σ :=
        if pp2.width ≠ oldwidth then
          { pp2 with
            widthcollapsebuffer := some (pp_alloc pp2.widthcollapsebuffer pp2.width.toNat) }
        else pp2
      let pp4 : dsp_postprocess_t K σ :=
        if pp3.height ≠ oldheight then
          { pp3 with
            heightcollapsebuffer := some (pp_alloc pp3.heightcollapsebuffer pp3.height.toNat) }
        else pp3
      some pp4
    else none
  else some pp

/-- Lines 176-184 of `dsp_post_process`: the three image arrays are zeroed when
the low-pass mode changes. -/
def dsp_post_process_mode {K σ : Type} [LinearOrderedField K] (pp : dsp_postprocess_t K σ)
    (lowpass_before_sync : Int) : dsp_postprocess_t K σ :=
  if pp.lowpass_before_sync ≠ lowpass_before_sync then
    let z : List K := List.replicate pp.sizetopoll.toNat 0
    { pp with
      lowpass_before_sync := lowpass_before_sync
      screenbuffer := pp.screenbuffer.map (fun b => memcpy b 0 z)
      sendbuffer := pp.sendbuffer.map (fun b => memcpy b 0 z)
      corrected_sendbuffer := pp.corrected_sendbuffer.map (fun b => memcpy b 0 z) }
  else pp

/-- Lines 187-223 of `dsp_post_process`: the processing of the frame `buffer`.
The result is the new state and the contents of the array the function
returns.  An array behind a `NULL` pointer reads as empty and is not
written. -/
def dsp_post_process_frame {K σ : Type} [LinearOrderedField K] (sqrt : K → K)
    (special : Bool) (sd : SyncDetector K σ) (superres : Int) (pp : dsp_postprocess_t K σ)
    (buffer : List K) (motionblur lowpasscoeff : K) (lowpass_before_sync : Int)
    (autogain_after_proc : Int) : dsp_postprocess_t K σ × List K :=
  let rd : Option (List K) → List K := fun o => o.getD []
  let wr : Option (List K) → List K → Option (List K) := fun o b => o.map (fun _ => b)
  let a1 :=
    if autogain_after_proc = 0 then
      dsp_autogain_run sqrt special pp.dsp_autogain pp.sizetopoll buffer (rd pp.sendbuffer)
        lowpasscoeff
    else (pp.dsp_autogain, rd pp.sendbuffer)
  let input := if autogain_after_proc = 0 then a1.2 else buffer
  if lowpass_before_sync ≠ 0 then
    let screen1 := dsp_timelowpass_run motionblur pp.sizetopoll input (rd pp.screenbuffer)
    let wh := dsp_average_v_h pp.width pp.height screen1 (rd pp.widthcollapsebuffer)
      (rd pp.heightcollapsebuffer)
    let s := sd.run pp.sync screen1 (rd pp.corrected_sendbuffer) pp.width pp.height wh.1 wh.2
      (superres = 0) false
    let a2 :=
      if autogain_after_proc ≠ 0 then
        dsp_autogain_run sqrt special a1.1 pp.sizetopoll s.2.2 a1.2 lowpasscoeff
      else a1
    ({ pp with
        dsp_autogain := a2.1
        screenbuffer := wr pp.screenbuffer screen1
        sendbuffer := wr pp.sendbuffer a2.2
        corrected_sendbuffer := wr pp.corrected_sendbuffer s.2.1
        widthcollapsebuffer := wr pp.widthcollapsebuffer wh.1
        heightcollapsebuffer := wr pp.heightcollapsebuffer wh.2
        sync := s.1 },
      if autogain_after_proc ≠ 0 then a2.2 else s.2.2)
  else
    let wh := dsp_average_v_h pp.width pp.height input (rd pp.widthcollapsebuffer)
      (rd pp.heightcollapsebuffer)
    let s := sd.run pp.sync input (rd pp.corrected_sendbuffer) pp.width pp.height wh.1 wh.2
      (motionblur = 0 ∧ superres = 0) true
    let screen1 := dsp_timelowpass_run motionblur pp.sizetopoll s.2.2 (rd pp.screenbuffer)
    let a2 :=
      if autogain_after_proc ≠ 0 then
        dsp_autogain_run sqrt special a1.1 pp.sizetopoll screen1 a1.2 lowpasscoeff
      else a1
    ({ pp with
        dsp_autogain := a2.1
        screenbuffer := wr pp.screenbuffer screen1
        sendbuffer := wr pp.sendbuffer a2.2
        corrected_sendbuffer := wr pp.corrected_sendbuffer s.2.1
        widthcollapsebuffer := wr pp.widthcollapsebuffer wh.1
        heightcollapsebuffer := wr pp.heightcollapsebuffer wh.2
        sync := s.1 },
      if autogain_after_proc ≠ 0 then a2.2 else screen1)

/-- Lines 226-230 of `dsp_post_process`: the counter `runs` and the values
announced under `VALUE_ID_AUTOGAIN_VALUES`, if any. -/
def dsp_post_process_report {K σ : Type} [LinearOrderedField K] (pp : dsp_postprocess_t K σ) :
    dsp_postprocess_t K σ × Option (K × K) :=
  if pp.runs > AUTOGAIN_REPORT_EVERY_FRAMES then
    ({ pp with runs := 0 }, some (pp.dsp_autogain.lastmin, pp.dsp_autogain.lastmax))
  else ({ pp with runs := pp.runs + 1 }, none)

/-- The results of one call of `dsp_post_process`: the new state, the contents
of the returned array and the values announced to the host, if any. -/
structure PostProcessResult (K σ : Type) where
  pp : dsp_postprocess_t K σ
  result : List K
  announced : Option (K × K)

/-- Function `dsp_post_process` (dsp.c lines 148-233).  `superres` is
`tsdr->params_int[PARAM_AUTOCORR_SUPERRESOLUTION]`.  The result is `none` when
the assertion `sizetopoll > 0` fails. -/
def dsp_post_process {K σ : Type} [LinearOrderedField K] (sqrt : K → K) (special : Bool)
    (sd : SyncDetector K σ) (superres : Int) (pp : dsp_postprocess_t K σ) (buffer : List K)
    (nowwidth nowheight : Int) (motionblur lowpasscoeff : K) (lowpass_before_sync : Int)
    (autogain_after_proc : Int) : Option (PostProcessResult K σ) :=
  match dsp_post_process_resize pp nowwidth nowheight with
  | none => none
  | some pp1 =>
    let pp2 := dsp_post_process_mode pp1 lowpass_before_sync
    let f := dsp_post_process_frame sqrt special sd superres pp2 buffer motionblur lowpasscoeff
      lowpass_before_sync autogain_after_proc
    let r := dsp_post_process_report f.1
    some { pp := r.1, result := f.2, announced := r.2 }

/-- One call of `dsp_post_process` as seen by the host: the frame and the
arguments of the call. -/
structure PostProcessCall (K : Type) where
  buffer : List K
  nowwidth : Int
  nowheight : Int
  motionblur : K
  lowpasscoeff : K
  lowpass_before_sync : Int
  autogain_after_proc : Int

/-- A sequence of calls of `dsp_post_process` from the state `pp`: the final
state and, call by call, whether the auto-gain values were announced.  The
result is `none` when one of the calls fails its assertion. -/
def dsp_post_process_calls {K σ : Type} [LinearOrderedField K] (sqrt : K → K) (special : Bool)
    (sd : SyncDetector K σ) (superres : Int) :
    dsp_postprocess_t K σ → List (PostProcessCall K) →
      Option (dsp_postprocess_t K σ × List Bool)
  | pp, [] => some (pp, [])
  | pp, c :: cs =>
    match dsp_post_process sqrt special sd superres pp c.buffer c.nowwidth c.nowheight
        c.motionblur c.lowpasscoeff c.lowpass_before_sync c.autogain_after_proc with
    | none => none
    | some r =>
      match dsp_post_process_calls sqrt special sd superres r.pp cs with
      | none => none
      | some (pp1, as) => some (pp1, r.announced.isSome :: as)

/-! ## superbandwidth.c

The header that declares `superbandwidth_t` and `tsdr_lib_t` is not among the
sources: the integer fields are integers (the properties below are stated for
runs without overflow of an `int`), the samples are rational numbers and the
square root `sqrtf` is a parameter.  The worker thread is the function
`super_thread_step`, one pass of its loop; `superb_run` and the worker are
atomic steps. -/

/-- Constant `SUPER_HOPS_TO_MAKE` (superbandwidth.c line 22). -/
def SUPER_HOPS_TO_MAKE : Int := 4

/-- Constant `SUPER_STATE_STOPPED` (superbandwidth.c line 24). -/
def SUPER_STATE_STOPPED : Int := 0

/-- Constant `SUPER_STATE_STARTING` (superbandwidth.c line 25). -/
def SUPER_STATE_STARTING : Int := 1

/-- Constant `SUPER_STATE_GATHERING` (superbandwidth.c line 26). -/
def SUPER_STATE_GATHERING : Int := 2

/-- Constant `SUPER_STATE_PAUSE` (superbandwidth.c line 27). -/
def SUPER_STATE_PAUSE : Int := 3

/-- Constant `SUPER_STATE_DATA_READY` (superbandwidth.c line 28). -/
def SUPER_STATE_DATA_READY : Int := 4

/-- Constant `SUPER_STATE_OUTPUT_DATA_READY` (superbandwidth.c line 29). -/
def SUPER_STATE_OUTPUT_DATA_READY : Int := 5

/-- Constant `SUPER_SAMPLES_TO_RECORD` (superbandwidth.c line 31). -/
def SUPER_SAMPLES_TO_RECORD : Int := 10

/-- Constant `SUPER_SECS_TO_PAUSE` (superbandwidth.c line 33). -/
def SUPER_SECS_TO_PAUSE : ℚ := 1 / 2

/-- The part of the host structure `tsdr_lib_t` that `superbandwidth.c` uses:
the two fields it reads, and the value the host function `shiftfreq`
respectively `set_internal_samplerate` was last called with. -/
structure tsdr_lib_t where
  samplerate_real : Int
  refreshrate : ℚ
  freq_shift : Int
  internal_samplerate : Int
  deriving DecidableEq, Repr

/-- The state `superbandwidth_t`.  A `NULL` pointer is `none`. -/
structure superbandwidth_t where
  state : Int
  buffscount : Int
  buffsbuffcount : Int
  samplerate : Int
  buffs : Option (List (List ℚ))
  extb : extbuffer_t
  extb_out : extbuffer_t
  extb_temp : extbuffer_t
  buffid_current : Int
  samples_gathered : Int
  samples_in_frame : Int
  samples_to_gather : Int
  samples_to_pause : Int
  alive : Int
  outbuf : Option (List ℚ)
  outbufsize : Int
  deriving DecidableEq, Repr

/-- Function `superb_init` (superbandwidth.c lines 38-49).  The fields the
function leaves indeterminate are 0 respectively `NULL`. -/
def superb_init : superbandwidth_t :=
  { state := SUPER_STATE_STOPPED
    buffscount := 0
    buffsbuffcount := 0
    samplerate := 0
    buffs := none
    extb := extbuffer_init
    extb_out := extbuffer_init
    extb_temp := extbuffer_init
    buffid_current := 0
    samples_gathered := 0
    samples_in_frame := 0
    samples_to_gather := 0
    samples_to_pause := 0
    alive := 0
    outbuf := none
    outbufsize := 0 }

/-- Function `super_freebuff` (superbandwidth.c lines 54-61). -/
def super_freebuff (bw : superbandwidth_t) : superbandwidth_t :=
  match bw.buffs with
  | none => bw
  | some _ => { bw with buffs := none }

/-- The variables the loop of `complex_to_abs_diff` carries. -/
structure AbsDiffState where
  data : List ℚ
  prev : ℚ
  deriving DecidableEq, Repr

/-- Function `complex_to_abs_diff` (superbandwidth.c lines 79-93).  The loop
`i += 2` makes `(size + 1) / 2` passes. -/
def complex_to_abs_diff (sqrt : ℚ → ℚ) (data : List ℚ) (size : Int) : List ℚ :=
  ((List.range ((size.toNat + 1) / 2)).foldl
    (fun (st : AbsDiffState) t =>
      let i := 2 * t
      let i1 := i + 1
      let I := st.data.getD i 0
      let Q := st.data.getD i1 0
      let curr := sqrt (I * I + Q * Q)
      let diff := curr - st.prev
      { data := (st.data.set i diff).set i1 0, prev := curr })
    { data := data, prev := data.getD 0 0 * data.getD 0 0 + data.getD 1 0 * data.getD 1 0 }).data

/-- The variables the search loop of `superb_bestfit` carries. -/
structure BestfitState where
  maxlength : Int
  maxval : ℚ
  deriving DecidableEq, Repr

/-- Lines 115-131 of `superb_bestfit`: the lag with the largest magnitude
among the first `samples` complex values of `out`. -/
def superb_bestfit_search (sqrt : ℚ → ℚ) (out : List ℚ) (samples : Int) : Int :=
  ((List.range samples.toNat).foldl
    (fun (st : BestfitState) i =>
      let I := out.getD (2 * i) 0
      let Q := out.getD (2 * i + 1) 0
      let val := sqrt (I * I + Q * Q)
      if i = 0 then { st with maxval := val }
      else if val > st.maxval then { maxlength := (i : Int), maxval := val }
      else st)
    { maxlength := 0, maxval := 0 }).maxlength

/-- Function `superb_bestfit` (superbandwidth.c lines 98-134): the new state
and the returned offset.  The result is `none` when the division by
`samples_in_frame` is a division by zero, when an assertion of
`extbuffer_preparetohandle` fails, when a buffer pointer is `NULL` or when a
transform does not return. -/
def superb_bestfit (sqrt : ℚ → ℚ) (bw : superbandwidth_t) (data1 data2 : List ℚ)
    (size : Int) : Option (superbandwidth_t × Int) :=
  if bw.samples_in_frame = 0 then none
  else
    let size1 := (Int.tdiv size bw.samples_in_frame) * bw.samples_in_frame
    let size2 : Nat := fft_getrealsize (c_uint32 size1)
    let samples : Nat := size2 / 2
    match extbuffer_preparetohandle bw.extb_out size2 with
    | none => none
    | some eo =>
      match extbuffer_preparetohandle bw.extb_temp size2 with
      | none => none
      | some et =>
        match eo.buffer, et.buffer with
        | some o, some t =>
          let o1 := memcpy o 0 (cells data1 0 size2)
          let t1 := memcpy t 0 (cells data2 0 size2)
          let o2 := complex_to_abs_diff sqrt o1 size2
          let t2 := complex_to_abs_diff sqrt t1 size2
          match fft_crosscorrelation sqrt o2 t2 samples with
          | none => none
          | some (o3, t3) =>
            some ({ bw with
                    extb_out := { eo with buffer := some o3 }
                    extb_temp := { et with buffer := some t3 } },
                  2 * superb_bestfit_search sqrt o3 samples)
        | _, _ => none

/-- Lines 150-157 of `superb_ondataready`: the alignment loop over the hops
`is`.  The second component of the result tells whether the function returned
at `if (!bw->alive) return;`. -/
def superb_align (sqrt : ℚ → ℚ) (bufsize : Int) :
    superbandwidth_t → List Nat → Option (superbandwidth_t × Bool)
  | bw, [] => some (bw, false)
  | bw, i :: is =>
    match bw.buffs with
    | none => none
    | some buffs =>
      match superb_bestfit sqrt bw (buffs.getD 0 []) (buffs.getD i []) bufsize with
      | none => none
      | some (bw1, best_offset) =>
        if bw1.alive = 0 then some (bw1, true)
        else
          match bw1.extb.buffer with
          | none => none
          | some e =>
            let bi := buffs.getD i []
            let n1 := (bufsize - best_offset).toNat
            let e1 := memcpy e 0 (cells bi best_offset.toNat n1)
            let bi1 := memcpy bi n1 (cells bi 0 best_offset.toNat)
            let bi2 := memcpy bi1 0 (cells e1 0 n1)
            match fft_perform sqrt bi2 (c_uint32 bw1.buffsbuffcount) 0 with
            | none => none
            | some bi3 =>
              superb_align sqrt bufsize
                { bw1 with
                  extb := { bw1.extb with buffer := some e1 }
                  buffs := some (buffs.set i bi3) }
                is

/-- Lines 161-162 of `superb_ondataready`: the transformed hops are copied one
after the other into `extb.buffer`. -/
def superb_concat (buffs : List (List ℚ)) (buffscount buffsbuffcount : Int) (e : List ℚ) :
    List ℚ :=
  (List.range buffscount.toNat).foldl
    (fun a i =>
      memcpy a (i * buffsbuffcount.toNat * 2) (cells (buffs.getD i []) 0 (buffsbuffcount.toNat * 2)))
    e

/-- What `superb_ondataready` leaves behind: the state, the values of
`*outbuff` and `*outbufsize`, and the host. -/
structure SuperbOutput where
  bw : superbandwidth_t
  outbuff : Option (List ℚ)
  outbufsize : Int
  tsdr : tsdr_lib_t
  deriving DecidableEq, Repr

/-- Function `superb_ondataready` (superbandwidth.c lines 139-170).  `outbuff`
and `outbufsize` are the values of `*outbuff` and `*outbufsize` at the call.
The result is `none` when an assertion fails, when a pointer is `NULL`, on a
division by zero or when a transform does not return. -/
def superb_ondataready (sqrt : ℚ → ℚ) (bw : superbandwidth_t) (outbuff : Option (List ℚ))
    (outbufsize : Int) (tsdr : tsdr_lib_t) : Option SuperbOutput :=
  let bw1 := { bw with buffsbuffcount := (fft_getrealsize (c_uint32 bw.buffsbuffcount) : Int) }
  let totalsamples : Nat := c_uint32 (bw1.buffscount * bw1.buffsbuffcount)
  match extbuffer_preparetohandle bw1.extb ((totalsamples * 2) % 2 ^ 32) with
  | none => none
  | some e0 =>
    let bw2 := { bw1 with extb := e0 }
    let bufsize := bw2.buffsbuffcount * 2
    match superb_align sqrt bufsize bw2 (List.range' 1 (bw2.buffscount.toNat - 1)) with
    | none => none
    | some (bw3, true) =>
      some { bw := bw3, outbuff := outbuff, outbufsize := outbufsize, tsdr := tsdr }
    | some (bw3, false) =>
      match bw3.buffs, bw3.extb.buffer with
      | some buffs, some e =>
        match fft_perform sqrt (buffs.getD 0 []) (c_uint32 bw3.buffsbuffcount) 0 with
        | none => none
        | some b0 =>
          let buffs1 := buffs.set 0 b0
          let e1 := superb_concat buffs1 bw3.buffscount bw3.buffsbuffcount e
          match fft_perform sqrt e1 totalsamples 1 with
          | none => none
          | some e2 =>
            some
              { bw := { bw3 with buffs := some buffs1, extb := { bw3.extb with buffer := some e2 } }
                outbuff := some e2
                outbufsize := (totalsamples : Int)
                tsdr := { tsdr with internal_samplerate := bw3.buffscount * bw3.samplerate } }
      | _, _ => none

/-- One pass of the loop of `super_thread` (superbandwidth.c lines 178-186):
while the state is not DataReady the thread waits; otherwise it runs
`superb_ondataready` and moves to OutputReady. -/
def super_thread_step (sqrt : ℚ → ℚ) (bw : superbandwidth_t) (tsdr : tsdr_lib_t) :
    Option (superbandwidth_t × tsdr_lib_t) :=
  if bw.state ≠ SUPER_STATE_DATA_READY then some (bw, tsdr)
  else
    match superb_ondataready sqrt { bw with outbuf := none } none bw.outbufsize tsdr with
    | none => none
    | some r =>
      some ({ r.bw with
              outbuf := r.outbuff
              outbufsize := r.outbufsize
              state := SUPER_STATE_OUTPUT_DATA_READY },
            r.tsdr)

/-- Function `super_startthread` (superbandwidth.c lines 192-197). -/
def super_startthread (bw : superbandwidth_t) : superbandwidth_t :=
  { bw with alive := 1 }

/-- Function `super_stopthread` (superbandwidth.c lines 202-204). -/
def super_stopthread (bw : superbandwidth_t) : superbandwidth_t :=
  { bw with alive := 0 }

/-- Lines 214-217 of `superb_run`: a stopped machine starts. -/
def superb_run_stopped (bw : superbandwidth_t) : superbandwidth_t :=
  if bw.state = SUPER_STATE_STOPPED then
    super_startthread { bw with state := SUPER_STATE_STARTING }
  else bw

/-- Lines 219-241 of `superb_run`: the state Starting. -/
def superb_run_starting (bw : superbandwidth_t) (tsdr : tsdr_lib_t) : superbandwidth_t :=
  if bw.state = SUPER_STATE_STARTING then
    let bw1 := { bw with buffid_current := 0, samples_gathered := 0, buffsbuffcount := 0 }
    let bw2 :=
      if tsdr.samplerate_real ≠ bw1.samplerate then
        let samples_in_frame := c_int ((tsdr.samplerate_real : ℚ) / tsdr.refreshrate)
        let samples_to_gather := SUPER_SAMPLES_TO_RECORD * samples_in_frame
        let bw3 := super_freebuff
          { bw1 with
            samplerate := tsdr.samplerate_real
            samples_in_frame := samples_in_frame
            samples_to_gather := samples_to_gather
            samples_to_pause := c_int (SUPER_SECS_TO_PAUSE * (tsdr.samplerate_real : ℚ)) }
        { bw3 with
          buffscount := SUPER_HOPS_TO_MAKE
          buffs := some (List.replicate SUPER_HOPS_TO_MAKE.toNat
            (List.replicate (samples_to_gather * 2).toNat 0)) }
      else bw1
    { bw2 with state := SUPER_STATE_GATHERING }
  else bw

/-- Lines 243-249 of `superb_run`: the state Pause. -/
def superb_run_pause (bw : superbandwidth_t) (size : Int) : superbandwidth_t :=
  if bw.state = SUPER_STATE_PAUSE then
    let bw1 := { bw with samples_gathered := bw.samples_gathered + Int.tdiv size 2 }
    if bw1.samples_gathered > bw1.samples_to_pause then
      { bw1 with samples_gathered := 0, state := SUPER_STATE_GATHERING }
    else bw1
  else bw

/-- The call `memcpy(&bw->buffs[bw->buffid_current][bw->samples_gathered*2], iq,
n * sizeof(float))`. -/
def superb_store (bw : superbandwidth_t) (iq : List ℚ) (n : Int) : superbandwidth_t :=
  { bw with
    buffs := bw.buffs.map (fun buffs =>
      buffs.set bw.buffid_current.toNat
        (memcpy (buffs.getD bw.buffid_current.toNat []) (bw.samples_gathered * 2).toNat
          (cells iq 0 n.toNat))) }

/-- Lines 251-278 of `superb_run`: the state Gathering.  The third component of
the result tells whether the function returned at `if (dropped) ... return;`. -/
def superb_run_gathering (bw : superbandwidth_t) (iq : List ℚ) (size : Int)
    (tsdr : tsdr_lib_t) (dropped : Int) : superbandwidth_t × tsdr_lib_t × Bool :=
  if bw.state = SUPER_STATE_GATHERING then
    if dropped ≠ 0 then ({ bw with samples_gathered := 0 }, tsdr, true)
    else
      let samples_now := Int.tdiv size 2
      if bw.samples_gathered + samples_now < bw.samples_to_gather then
        let bw1 := superb_store bw iq size
        ({ bw1 with samples_gathered := bw1.samples_gathered + samples_now }, tsdr, false)
      else
        let samples_remain := bw.samples_to_gather - bw.samples_gathered
        let bw1 := superb_store bw iq (samples_remain * 2)
        let bw2 := { bw1 with samples_gathered := bw1.samples_gathered + samples_remain }
        let bw3 := { bw2 with buffid_current := bw2.buffid_current + 1 }
        let bw4 := { bw3 with buffsbuffcount := bw3.samples_gathered }
        let bw5 := { bw4 with samples_gathered := 0 }
        if bw5.buffid_current ≥ bw5.buffscount then
          ({ bw5 with state := SUPER_STATE_DATA_READY }, tsdr, false)
        else
          ({ bw5 with state := SUPER_STATE_PAUSE },
            { tsdr with
              freq_shift :=
                (bw5.buffid_current - Int.tdiv bw5.buffscount 2) * bw5.samplerate },
            false)
  else (bw, tsdr, false)

/-- What one call of `superb_run` leaves behind: the state, the host, the value
of `*outbuff`, and the value written to `*outbufsize`, if any. -/
structure SuperbRun where
  bw : superbandwidth_t
  tsdr : tsdr_lib_t
  outbuff : Option (List ℚ)
  outbufsize : Option Int
  deriving DecidableEq, Repr

/-- Lines 280-284 of `superb_run`: the final check, on the state `bw` the call
has reached. -/
def superb_run_output (bw : superbandwidth_t) (tsdr : tsdr_lib_t) : SuperbRun :=
  if bw.state = SUPER_STATE_OUTPUT_DATA_READY then
    { bw := { bw with state := SUPER_STATE_STARTING }
      tsdr := tsdr
      outbuff := bw.outbuf
      outbufsize := some bw.outbufsize }
  else { bw := bw, tsdr := tsdr, outbuff := none, outbufsize := none }

/-- Lines 211-278 of `superb_run`: the state and the host when the call reaches
its final check, and whether it returned before (on dropped samples). -/
def superb_run_steps (bw : superbandwidth_t) (iq : List ℚ) (size : Int) (tsdr : tsdr_lib_t)
    (dropped : Int) : superbandwidth_t × tsdr_lib_t × Bool :=
  let bw1 := superb_run_stopped bw
  let bw2 := superb_run_starting bw1 tsdr
  let bw3 := superb_run_pause bw2 size
  superb_run_gathering bw3 iq size tsdr dropped

/-- Function `superb_run` (superbandwidth.c lines 210-285). -/
def superb_run (bw : superbandwidth_t) (iq : List ℚ) (size : Int) (tsdr : tsdr_lib_t)
    (dropped : Int) : SuperbRun :=
  let g := superb_run_steps bw iq size tsdr dropped
  if g.2.2 then { bw := g.1, tsdr := g.2.1, outbuff := none, outbufsize := none }
  else superb_run_output g.1 g.2.1

/-- Function `superb_stop` (superbandwidth.c lines 290-297). -/
def superb_stop (bw : superbandwidth_t) (tsdr : tsdr_lib_t) : superbandwidth_t × tsdr_lib_t :=
  if bw.state ≠ SUPER_STATE_STOPPED then
    (super_stopthread { bw with state := SUPER_STATE_STOPPED },
      { tsdr with freq_shift := 0, internal_samplerate := tsdr.samplerate_real })
  else (bw, tsdr)

/-- The facts about the state that the alignment loop of `superb_ondataready`
needs and keeps. -/
structure SuperbWorkerOk (bw : superbandwidth_t) : Prop where
  out_float : bw.extb_out.type = ExtBufferType.EXTBUFFER_TYPE_FLOAT
  out_null : bw.extb_out.buffer = none → bw.extb_out.buffer_max_size = 0
  temp_float : bw.extb_temp.type = ExtBufferType.EXTBUFFER_TYPE_FLOAT
  temp_null : bw.extb_temp.buffer = none → bw.extb_temp.buffer_max_size = 0
  extb_some : bw.extb.buffer ≠ none
  buffs_some : bw.buffs ≠ none
  frame : bw.samples_in_frame ≠ 0
  alive : bw.alive ≠ 0
/-! ## dsp.c: sequences of calls of the resampler -/

/-- The calls `dsp_resample_process(res, in, out, upsample_by, downsample_by,
nearest_neighbour_sampling)` for the inputs `inps`, in order, on the same
resampler state and output ext-buffer.  The result is `none` as soon as one
call fails an assertion. -/
def dsp_resample_calls (upsample_by downsample_by : ℚ) (nearest_neighbour_sampling : Int) :
    dsp_resample_t × extbuffer_t → List extbuffer_t → Option (dsp_resample_t × extbuffer_t)
  | st, [] => some st
  | st, inp :: inps =>
    match dsp_resample_process st.1 inp st.2 upsample_by downsample_by
        nearest_neighbour_sampling with
    | none => none
    | some st1 =>
      dsp_resample_calls upsample_by downsample_by nearest_neighbour_sampling st1 inps

/-! ## frameratedetector.c: the accumulator

The cells are rational numbers and `sqrt` is a parameter, as for
`superbandwidth.c`. -/

/-- Lines 56-58 (and 66-68) of `accummulate`: the magnitude `sqrt(I*I + Q*Q)` of
complex value `i` of the window that starts at `in->buffer + startid*2`.  A read
outside the array yields 0. -/
def accummulate_now (sqrt : ℚ → ℚ) (in_buff : List ℚ) (startid : Int) (i : Nat) : ℚ :=
  let I := in_buff.getD ((startid * 2).toNat + 2 * i) 0
  let Q := in_buff.getD ((startid * 2).toNat + 2 * i + 1) 0
  sqrt (I * I + Q * Q)

/-- Function `accummulate` (frameratedetector.c lines 42-73): the accumulator
`out` after the call.  `calls` and `currcalls` are `uint64_t`; `length` is
converted to `uint32_t` for `extbuffer_preparetohandle` and for the comparison
with the `uint32_t` counter `i`.  The result is `none` when the assertion of
`extbuffer_preparetohandle` fails or when `in->buffer` or `out->dbuffer` is
`NULL`. -/
def accummulate (sqrt : ℚ → ℚ) (out inp : extbuffer_t) (startid length : Int) :
    Option extbuffer_t :=
  let calls : Nat := inp.calls % 2 ^ 64
  let currcalls : Nat := (calls + 2 ^ 64 - 1) % 2 ^ 64
  match extbuffer_preparetohandle out (c_uint32 length) with
  | none => none
  | some out1 =>
    match inp.buffer, out1.dbuffer with
    | some in_buff, some out_buff =>
      let d : List ℚ :=
        if calls = 0 then
          (List.range (c_uint32 length)).foldl
            (fun o i => o.set i (accummulate_now sqrt in_buff startid i)) out_buff
        else
          (List.range (c_uint32 length)).foldl
            (fun o i =>
              o.set i ((o.getD i 0 * (currcalls : ℚ) + accummulate_now sqrt in_buff startid i) /
                (calls : ℚ)))
            out_buff
      some { out1 with dbuffer := some d }
    | _, _ => none

/-- One round on an FFT buffer: the size it is prepared for and the contents
the transform leaves in it. -/
structure AccumRound where
  size : Nat
  data : List ℚ
  deriving DecidableEq, Repr

/-- One round on the FFT ext-buffer `st.1` and the accumulator `st.2`:
`extbuffer_preparetohandle` on the FFT buffer, the transform writes `r.data`
into it, then `accummulate(acc, fft, startid, length)`. -/
def accummulate_round (sqrt : ℚ → ℚ) (startid length : Int)
    (st : extbuffer_t × extbuffer_t) (r : AccumRound) : Option (extbuffer_t × extbuffer_t) :=
  match extbuffer_preparetohandle st.1 r.size with
  | none => none
  | some f1 =>
    let f2 : extbuffer_t := { f1 with buffer := f1.buffer.map (fun _ => r.data) }
    match accummulate sqrt st.2 f2 startid length with
    | none => none
    | some acc1 => some (f2, acc1)

/-- The rounds `rs`, in order. -/
def accummulate_rounds (sqrt : ℚ → ℚ) (startid length : Int) :
    extbuffer_t × extbuffer_t → List AccumRound → Option (extbuffer_t × extbuffer_t)
  | st, [] => some st
  | st, r :: rs =>
    match accummulate_round sqrt startid length st r with
    | none => none
    | some st1 => accummulate_rounds sqrt startid length st1 rs

/-- A `double` ext-buffer whose bookkeeping is consistent: `buffer_max_size` is
the number of cells `dbuffer` points to (0 for `NULL`). -/
structure ExtDoubleOk (c : extbuffer_t) : Prop where
  is_double : c.type = ExtBufferType.EXTBUFFER_TYPE_DOUBLE
  null_cap : c.dbuffer = none → c.buffer_max_size = 0
  cap : ∀ b, c.dbuffer = some b → b.length = c.buffer_max_size

/-! ## superbandwidth.c: sequences of calls -/

/-- One step on the super-bandwidth state: a call of `superb_run` with its
chunk, `size` and `dropped`, or one pass of the worker thread. -/
inductive SuperbEvent where
  | run (iq : List ℚ) (size : Int) (dropped : Int)
  | worker
  deriving DecidableEq, Repr

/-- The `size` argument of the step, 0 for a pass of the worker. -/
def SuperbEvent.size : SuperbEvent → Int
  | SuperbEvent.run _ size _ => size
  | SuperbEvent.worker => 0

/-- Perform one step.  The result is `none` when the worker fails. -/
def superb_event_step (sqrt : ℚ → ℚ) (st : superbandwidth_t × tsdr_lib_t) :
    SuperbEvent → Option (superbandwidth_t × tsdr_lib_t)
  | SuperbEvent.run iq size dropped =>
    some ((superb_run st.1 iq size st.2 dropped).bw, (superb_run st.1 iq size st.2 dropped).tsdr)
  | SuperbEvent.worker => super_thread_step sqrt st.1 st.2

/-- The steps `evs`, in order, on a state fresh from `superb_init` with the
host `tsdr`. -/
def superb_events (sqrt : ℚ → ℚ) :
    superbandwidth_t × tsdr_lib_t → List SuperbEvent → Option (superbandwidth_t × tsdr_lib_t)
  | st, [] => some st
  | st, ev :: evs =>
    match superb_event_step sqrt st ev with
    | none => none
    | some st1 => superb_events sqrt st1 evs

/-- Lines 211-249 of `superb_run`: the state on entry to the block of the state
Gathering (line 251). -/
def superb_run_entry (bw : superbandwidth_t) (size : Int) (tsdr : tsdr_lib_t) :
    superbandwidth_t :=
  superb_run_pause (superb_run_starting (superb_run_stopped bw) tsdr) size

/-- The number of floats the `memcpy` of the Gathering block copies to
`&bw->buffs[bw->buffid_current][bw->samples_gathered*2]` (lines 255-260):
`size` when the chunk fits, `samples_remain * 2` otherwise. -/
def superb_gathering_count (bw : superbandwidth_t) (size : Int) : Int :=
  if bw.samples_gathered + Int.tdiv size 2 < bw.samples_to_gather then size
  else (bw.samples_to_gather - bw.samples_gathered) * 2

/-- What the blocks of `superb_run` keep true of the state when the host's
sample rate is `sr`: the hop buffers are allocated whenever the recorded sample
rate is `sr`; while gathering or pausing the hop index is inside the array of
hop buffers; while gathering the number of samples gathered is non-negative
and, unless it is 0, below `samples_to_gather`. -/
structure SuperbGatherOk (sr : Int) (bw : superbandwidth_t) : Prop where
  hops : bw.samplerate = sr → bw.buffscount = SUPER_HOPS_TO_MAKE
  hop : bw.state = SUPER_STATE_GATHERING ∨ bw.state = SUPER_STATE_PAUSE →
    0 ≤ bw.buffid_current ∧ bw.buffid_current < bw.buffscount
  gathered : bw.state = SUPER_STATE_GATHERING →
    0 ≤ bw.samples_gathered ∧
      (bw.samples_gathered = 0 ∨ bw.samples_gathered < bw.samples_to_gather)

/-! ## IEEE 754 arithmetic

The resampler and the transform compute in `double` and store into `float`
arrays.  Where a property depends on the rounding of these operations the
functions are embedded a second time with the rounding explicit: every
`double` operation of the source is the exact operation followed by `rd`,
every store into a `float` cell is followed by `rf`, and conversions of
integers below `2^53` and of `float` values to `double` are exact.  Each
operation is rounded once (no excess precision, no fused multiply-add).  With
`rd = rf = id` these are the exact functions above; with `round_double` and
`round_float` they are the functions as an IEEE 754 machine runs them. -/

/-- Rounding of a rational to the nearest integer, a tie going to the even
neighbour. -/
def round_half_even (x : ℚ) : Int :=
  if x - ⌊x⌋ < 1 / 2 then ⌊x⌋
  else if 1 / 2 < x - ⌊x⌋ then ⌊x⌋ + 1
  else if ⌊x⌋ % 2 = 0 then ⌊x⌋
  else ⌊x⌋ + 1

/-- Rounding of a rational to the nearest value of the binary floating-point
format with `p` significant bits and smallest normal exponent `emin`, a tie
going to the even significand (the default rounding of IEEE 754).  Below
`2^emin` the spacing stays `2^(emin-(p-1))` (subnormal values).  The format is
taken without an upper end: overflow to infinity is not represented. -/
def fp_round (p : Nat) (emin : Int) (x : ℚ) : ℚ :=
  if x = 0 then 0
  else
    let e : Int := max (Int.log 2 |x|) emin
    let ulp : ℚ := 2 ^ (e - ((p : Int) - 1))
    round_half_even (x / ulp) * ulp

/-- The rounding of an arithmetic result to `double` (binary64). -/
def round_double (x : ℚ) : ℚ :=
  fp_round 53 (-1022) x

/-- The rounding of a value to `float` (binary32). -/
def round_float (x : ℚ) : ℚ :=
  fp_round 24 (-126) x

/-- Line 266 of `dsp_resample_process` with the rounding `rd` of the `double`
operations: the quotient `upsample_by / downsample_by` (line 262), the
difference `size - res->offset` and the product are each rounded before the
conversion to `int`.  The fields of `dsp_resample_t` are `double`. -/
def resample_output_samples_fp (rd : ℚ → ℚ) (res : dsp_resample_t) (size : Nat)
    (upsample_by downsample_by : ℚ) : Nat :=
  c_uint32 (c_int (rd (rd ((size : ℚ) - res.offset) * rd (upsample_by / downsample_by))))

/-- Lines 287-310 of `dsp_resample_process` with the rounding `rd` of the
`double` operations and the rounding `rf` of the stores into the `float`
output: the body of the loop over the input samples, for sample `id`. -/
def area_step_fp (rd rf : ℚ → ℚ) (sampletimeoverpixel offset_sample : ℚ) (buffer : List ℚ)
    (s : AreaState) (id : Nat) : AreaState :=
  let idcheck : ℚ := rd (rd (id * sampletimeoverpixel) + offset_sample)
  let idcheck3 : ℚ := rd (idcheck + sampletimeoverpixel)
  let idcheck2 : ℚ := rd (rd (idcheck + sampletimeoverpixel) - 1)
  let val : ℚ := buffer.getD id 0
  let s1 : AreaState :=
    if (s.pid : ℚ) < idcheck ∧ (s.pid : ℚ) < idcheck2 then
      { pid := s.pid + 1
        contrib := 0
        stored := s.stored ++ [rf (rd (s.contrib + rd (val * rd (rd (1 - idcheck) + s.pid))))] }
    else s
  let s2 : AreaState := area_fill val idcheck2 (⌈idcheck2⌉.toNat - s1.pid) s1
  if (s2.pid : ℚ) < idcheck3 ∧ (s2.pid : ℚ) > idcheck then
    { s2 with contrib := rd (s2.contrib + rd (rd (idcheck3 - s2.pid) * val)) }
  else { s2 with contrib := rd (s2.contrib + rd (sampletimeoverpixel * val)) }

/-- Lines 276 and 285-311 of `dsp_resample_process` with the roundings `rd` and
`rf`: the area-integration loop over the `size` input samples, with
`offset_sample = -res->offset * sampletimeoverpixel` rounded. -/
def resample_area_fp (rd rf : ℚ → ℚ) (res : dsp_resample_t) (buffer : List ℚ) (size : Nat)
    (sampletimeoverpixel : ℚ) : AreaState :=
  (List.range size).foldl
    (area_step_fp rd rf sampletimeoverpixel (rd (-res.offset * sampletimeoverpixel)) buffer)
    { pid := 0, contrib := res.contrib, stored := [] }

/-- The values one call of `dsp_resample_process` stores through `resbuff`, in
order (lines 278-312), with the roundings `rd` and `rf`. -/
def resample_stored_fp (rd rf : ℚ → ℚ) (res : dsp_resample_t) (inp : extbuffer_t)
    (upsample_by downsample_by : ℚ) (nearest_neighbour_sampling : Int) : List ℚ :=
  if nearest_neighbour_sampling ≠ 0 then
    resample_nearest (inp.buffer.getD []) inp.size_valid_elements
      (resample_output_samples_fp rd res inp.size_valid_elements upsample_by downsample_by)
  else
    (resample_area_fp rd rf res (inp.buffer.getD []) inp.size_valid_elements
      (rd (upsample_by / downsample_by))).stored

/-- Function `dsp_resample_process` (dsp.c lines 260-316) with the rounding `rd`
of the `double` operations and the rounding `rf` of the stores into the `float`
output.  The result is `none` when the assertion of
`extbuffer_preparetohandle` fails; otherwise it is the resampler state and the
output ext-buffer after the call.  Values stored past the prepared cells
lengthen the list. -/
def dsp_resample_process_fp (rd rf : ℚ → ℚ) (res : dsp_resample_t) (inp out : extbuffer_t)
    (upsample_by downsample_by : ℚ) (nearest_neighbour_sampling : Int) :
    Option (dsp_resample_t × extbuffer_t) :=
  let sampletimeoverpixel : ℚ := rd (upsample_by / downsample_by)
  let pixeloversampletme : ℚ := rd (downsample_by / upsample_by)
  let size : Nat := inp.size_valid_elements
  let output_samples : Nat := resample_output_samples_fp rd res size upsample_by downsample_by
  match extbuffer_preparetohandle out output_samples with
  | none => none
  | some out1 =>
    let stored :=
      resample_stored_fp rd rf res inp upsample_by downsample_by nearest_neighbour_sampling
    let contrib : ℚ :=
      if nearest_neighbour_sampling ≠ 0 then res.contrib
      else (resample_area_fp rd rf res (inp.buffer.getD []) size sampletimeoverpixel).contrib
    some
      ({ contrib := contrib
         offset :=
           rd (res.offset + rd (rd ((output_samples : ℚ) * pixeloversampletme) - size)) },
       { out1 with buffer := out1.buffer.map (fun b => memcpy b 0 stored) })

theorem mod_lt_two {x n : Nat} (h : x < 2 * n) :
    x % n = if x < n then x else x - n := by
  split
  · exact Nat.mod_eq_of_lt (by assumption)
  · rw [Nat.mod_eq_sub_mod (by omega)]
    exact Nat.mod_eq_of_lt (by omega)

theorem length_memcpy (dst : List α) (off : Nat) (src : List α)
    (h : off + src.length ≤ dst.length) : (memcpy dst off src).length = dst.length := by
  simp only [memcpy, List.length_append, List.length_take, List.length_drop]
  omega

theorem getElem?_memcpy (dst : List α) (off : Nat) (src : List α)
    (h : off + src.length ≤ dst.length) (i : Nat) :
    (memcpy dst off src)[i]? =
      if i < off then dst[i]? else if i < off + src.length then src[i - off]? else dst[i]? := by
  have hl : (dst.take off).length = off := by simp; omega
  simp only [memcpy, List.getElem?_append, List.length_append, hl, List.getElem?_take,
    List.getElem?_drop]
  split_ifs <;> first | rfl | omega | (congr 1; omega)

theorem length_cells (buf : List α) (off n : Nat) (h : off + n ≤ buf.length) :
    (cells buf off n).length = n := by
  simp only [cells, List.length_take, List.length_drop]
  omega

theorem getElem?_cells (buf : List α) (off n i : Nat) :
    (cells buf off n)[i]? = if i < n then buf[off + i]? else none := by
  simp only [cells, List.getElem?_take, List.getElem?_drop]

theorem getElem?_realloc [Inhabited α] (buf : List α) (n i : Nat) :
    (realloc buf n)[i]? =
      if i < buf.length then buf[i]? else if i < n then some default else none := by
  simp only [realloc, List.getElem?_append, List.getElem?_replicate]
  split_ifs <;> first | rfl | omega

theorem length_realloc [Inhabited α] (buf : List α) (n : Nat) (h : buf.length ≤ n) :
    (realloc buf n).length = n := by
  simp only [realloc, List.length_append, List.length_replicate]
  omega

theorem Inv.rempos_lt {cb : CircBuff α} (h : Inv cb) : cb.rempos < cb.buffer_size := by
  rw [← h.cursors]
  exact Nat.mod_lt _ h.size_pos

theorem Inv.cursors_cases {cb : CircBuff α} (h : Inv cb) :
    (cb.pos + cb.remaining_capacity < cb.buffer_size ∧
        cb.rempos = cb.pos + cb.remaining_capacity) ∨
      (cb.buffer_size ≤ cb.pos + cb.remaining_capacity ∧
        cb.rempos = cb.pos + cb.remaining_capacity - cb.buffer_size) := by
  have h1 := h.cursors
  have h2 := h.pos_lt
  have h3 := h.rem_le
  rw [mod_lt_two (by omega)] at h1
  split at h1 <;> omega

theorem length_cb_contents {cb : CircBuff α} (h : Inv cb) :
    (cb_contents cb).length = cb_size cb := by
  simp only [cb_contents, cb_size, List.length_take, List.length_rotate, h.len_buf]
  omega

theorem getElem?_cb_contents {cb : CircBuff α} (h : Inv cb) (k : Nat) :
    (cb_contents cb)[k]? =
      if k < cb_size cb then
        cb.buffer[if cb.rempos + k < cb.buffer_size then cb.rempos + k
                  else cb.rempos + k - cb.buffer_size]?
      else none := by
  have hr := h.rempos_lt
  have hl := h.len_buf
  simp only [cb_contents, List.getElem?_take]
  split
  · next hk =>
    have hk2 : k < cb.buffer.length := by simp only [cb_size] at hk; omega
    rw [List.getElem?_rotate hk2, hl, mod_lt_two (by omega), Nat.add_comm k]
  · rfl


theorem cb_inflate_inv [Inhabited α] {cb : CircBuff α} (h : Inv cb) : Inv (cb_inflate cb) := by
  have hl := h.len_buf
  have hp := h.pos_lt
  have hr := h.rempos_lt
  have hc := h.rem_le
  have hcur := h.cursors_cases
  unfold cb_inflate
  split
  · next hg =>
    dsimp only
    split
    · next hrp =>
      refine ⟨?_, ?_, ?_, ?_, ?_⟩
      · dsimp only [memmove]
        rw [length_memcpy, length_realloc _ _ (by omega)]
        rw [length_cells, length_realloc _ _ (by omega)]
        · omega
        · rw [length_realloc _ _ (by omega)]; omega
      · dsimp only; omega
      · dsimp only; omega
      · dsimp only; omega
      · dsimp only
        rw [mod_lt_two (by omega)]
        split_ifs <;> omega
    · next hrp =>
      refine ⟨?_, ?_, ?_, ?_, ?_⟩
      · dsimp only
        rw [length_realloc _ _ (by omega)]
      · dsimp only; omega
      · dsimp only; omega
      · dsimp only; omega
      · dsimp only
        rw [mod_lt_two (by omega)]
        split_ifs <;> omega
  · exact h

theorem cb_size_cb_inflate [Inhabited α] {cb : CircBuff α} (h : Inv cb) :
    cb_size (cb_inflate cb) = cb_size cb := by
  have hc := h.rem_le
  unfold cb_inflate cb_size
  split
  · dsimp only
    split <;> dsimp only <;> omega
  · rfl

theorem cb_contents_cb_inflate [Inhabited α] {cb : CircBuff α} (h : Inv cb) :
    cb_contents (cb_inflate cb) = cb_contents cb := by
  apply List.ext_getElem?
  intro k
  rw [getElem?_cb_contents (cb_inflate_inv h), getElem?_cb_contents h, cb_size_cb_inflate h]
  have hl := h.len_buf
  have hp := h.pos_lt
  have hr := h.rempos_lt
  have hc := h.rem_le
  have hcur := h.cursors_cases
  split
  · next hk =>
    simp only [cb_size] at hk
    unfold cb_inflate
    split
    · next hg =>
      dsimp only
      split
      · next hrp =>
        dsimp only [memmove]
        have hlr : (realloc cb.buffer cb.desired_buf_size).length = cb.desired_buf_size :=
          length_realloc _ _ (by omega)
        have hlc : (cells (realloc cb.buffer cb.desired_buf_size) cb.rempos
            (cb.buffer_size - cb.rempos)).length = cb.buffer_size - cb.rempos :=
          length_cells _ _ _ (by omega)
        rw [getElem?_memcpy _ _ _ (by omega), hlc]
        simp only [getElem?_cells, getElem?_realloc]
        split_ifs <;> first | omega | rfl | (congr 1; omega)
      · next hrp =>
        dsimp only
        simp only [getElem?_realloc]
        split_ifs <;> first | omega | rfl
    · rfl
  · rfl

theorem cb_write_fields (cb : CircBuff α) (inp : List α) :
    (cb_write cb inp).buffer_size = cb.buffer_size ∧
    (cb_write cb inp).rempos = cb.rempos ∧
    (cb_write cb inp).remaining_capacity = cb.remaining_capacity - inp.length ∧
    (cb_write cb inp).pos = (cb.pos + inp.length) % cb.buffer_size :=
  ⟨rfl, rfl, rfl, rfl⟩

theorem cb_write_buffer_nowrap {cb : CircBuff α} (inp : List α) (hne : 0 < inp.length)
    (hw : cb.pos + inp.length < cb.buffer_size) :
    (cb_write cb inp).buffer = memcpy cb.buffer cb.pos inp := by
  unfold cb_write
  dsimp only
  rw [Nat.mod_eq_of_lt hw, if_neg (by omega)]

theorem cb_write_buffer_wrap {cb : CircBuff α} (inp : List α)
    (hw : cb.buffer_size ≤ cb.pos + inp.length) (hl : inp.length ≤ cb.buffer_size)
    (hp : cb.pos < cb.buffer_size) :
    (cb_write cb inp).buffer =
      memcpy (memcpy cb.buffer cb.pos (inp.take (cb.buffer_size - cb.pos))) 0
        (cells inp (cb.buffer_size - cb.pos) (cb.pos + inp.length - cb.buffer_size)) := by
  have e : (cb.pos + inp.length) % cb.buffer_size = cb.pos + inp.length - cb.buffer_size := by
    rw [mod_lt_two (by omega), if_neg (by omega)]
  unfold cb_write
  dsimp only
  rw [e, if_pos (by omega)]

theorem length_cb_write {cb : CircBuff α} (h : Inv cb) (inp : List α)
    (hlen : inp.length ≤ cb.remaining_capacity) (hne : 0 < inp.length) :
    (cb_write cb inp).buffer.length = cb.buffer_size := by
  have hl := h.len_buf
  have hp := h.pos_lt
  have hc := h.rem_le
  rcases Nat.lt_or_ge (cb.pos + inp.length) cb.buffer_size with hw | hw
  · rw [cb_write_buffer_nowrap inp hne hw, length_memcpy _ _ _ (by omega), hl]
  · have e1 : (List.take (cb.buffer_size - cb.pos) inp).length = cb.buffer_size - cb.pos := by
      rw [List.length_take]; omega
    have e2 : (cells inp (cb.buffer_size - cb.pos) (cb.pos + inp.length - cb.buffer_size)).length
        = cb.pos + inp.length - cb.buffer_size := length_cells _ _ _ (by omega)
    have e3 : (memcpy cb.buffer cb.pos (List.take (cb.buffer_size - cb.pos) inp)).length
        = cb.buffer_size := by rw [length_memcpy _ _ _ (by omega), hl]
    rw [cb_write_buffer_wrap inp hw (by omega) hp, length_memcpy _ _ _ (by omega), e3]

theorem getElem?_cb_write {cb : CircBuff α} (h : Inv cb) (inp : List α)
    (hlen : inp.length ≤ cb.remaining_capacity) (hne : 0 < inp.length) (j : Nat)
    (hj : j < cb.buffer_size) :
    (cb_write cb inp).buffer[j]? =
      if cb.pos ≤ j ∧ j < cb.pos + inp.length then inp[j - cb.pos]?
      else if j + cb.buffer_size < cb.pos + inp.length then inp[j + cb.buffer_size - cb.pos]?
      else cb.buffer[j]? := by
  have hl := h.len_buf
  have hp := h.pos_lt
  have hc := h.rem_le
  rcases Nat.lt_or_ge (cb.pos + inp.length) cb.buffer_size with hw | hw
  · rw [cb_write_buffer_nowrap inp hne hw, getElem?_memcpy _ _ _ (by omega)]
    split_ifs <;> first | omega | rfl
  · have e1 : (List.take (cb.buffer_size - cb.pos) inp).length = cb.buffer_size - cb.pos := by
      rw [List.length_take]; omega
    have e2 : (cells inp (cb.buffer_size - cb.pos) (cb.pos + inp.length - cb.buffer_size)).length
        = cb.pos + inp.length - cb.buffer_size := length_cells _ _ _ (by omega)
    have e3 : (memcpy cb.buffer cb.pos (List.take (cb.buffer_size - cb.pos) inp)).length
        = cb.buffer_size := by rw [length_memcpy _ _ _ (by omega), hl]
    rw [cb_write_buffer_wrap inp hw (by omega) hp, getElem?_memcpy _ _ _ (by omega),
      getElem?_memcpy _ _ _ (by omega), e1, e2]
    simp only [getElem?_cells, List.getElem?_take]
    split_ifs <;> first | omega | rfl | (congr 1; omega)

theorem cb_write_inv {cb : CircBuff α} (h : Inv cb) (inp : List α)
    (hlen : inp.length ≤ cb.remaining_capacity) (hne : 0 < inp.length) :
    Inv (cb_write cb inp) := by
  have hl := h.len_buf
  have hp := h.pos_lt
  have hc := h.rem_le
  have hcur := h.cursors_cases
  obtain ⟨f1, f2, f3, f4⟩ := cb_write_fields cb inp
  refine ⟨?_, ?_, ?_, ?_, ?_⟩
  · rw [length_cb_write h inp hlen hne, f1]
  · rw [f1]; exact h.size_pos
  · rw [f1, f3]; omega
  · rw [f1, f4]; exact Nat.mod_lt _ h.size_pos
  · have e : (cb.pos + inp.length) % cb.buffer_size =
        if cb.pos + inp.length < cb.buffer_size then cb.pos + inp.length
        else cb.pos + inp.length - cb.buffer_size := mod_lt_two (by omega)
    simp only [f1, f2, f3, f4, e]
    split_ifs with h1
    · rw [mod_lt_two (by omega)]; split_ifs <;> omega
    · rw [mod_lt_two (by omega)]; split_ifs <;> omega

theorem cb_size_cb_write {cb : CircBuff α} (h : Inv cb) (inp : List α)
    (hlen : inp.length ≤ cb.remaining_capacity) :
    cb_size (cb_write cb inp) = cb_size cb + inp.length := by
  have hc := h.rem_le
  simp only [cb_size, (cb_write_fields cb inp).1, (cb_write_fields cb inp).2.2.1]
  omega

theorem cb_contents_cb_write {cb : CircBuff α} (h : Inv cb) (inp : List α)
    (hlen : inp.length ≤ cb.remaining_capacity) (hne : 0 < inp.length) :
    cb_contents (cb_write cb inp) = cb_contents cb ++ inp := by
  have hl := h.len_buf
  have hp := h.pos_lt
  have hr := h.rempos_lt
  have hc := h.rem_le
  have hcur := h.cursors_cases
  apply List.ext_getElem?
  intro k
  rw [getElem?_cb_contents (cb_write_inv h inp hlen hne), cb_size_cb_write h inp hlen,
    List.getElem?_append, length_cb_contents h, getElem?_cb_contents h,
    (cb_write_fields cb inp).1, (cb_write_fields cb inp).2.1]
  simp only [cb_size]
  split_ifs <;>
    first
    | rfl
    | omega
    | (symm; apply List.getElem?_eq_none; omega)
    | (rw [getElem?_cb_write h inp hlen hne _ (by omega)]
       split_ifs <;>
        first | omega | rfl | (congr 1; omega))

theorem memcpy_zero (dst src : List α) : memcpy dst 0 src = src ++ dst.drop src.length := by
  simp [memcpy]

theorem memcpy_append (a d s : List α) :
    memcpy (a ++ d) a.length s = a ++ s ++ d.drop s.length := by
  simp [memcpy, List.drop_append]

theorem cb_take_fields (cb : CircBuff α) (dst : List α) (len : Nat) :
    (cb_take cb dst len).1.buffer = cb.buffer ∧
    (cb_take cb dst len).1.buffer_size = cb.buffer_size ∧
    (cb_take cb dst len).1.pos = cb.pos ∧
    (cb_take cb dst len).1.remaining_capacity = cb.remaining_capacity + len ∧
    (cb_take cb dst len).1.rempos = (cb.rempos + len) % cb.buffer_size :=
  ⟨rfl, rfl, rfl, rfl, rfl⟩

theorem cb_take_inv {cb : CircBuff α} (h : Inv cb) (dst : List α) (len : Nat)
    (hlen : len ≤ cb_size cb) : Inv (cb_take cb dst len).1 := by
  have hl := h.len_buf
  have hp := h.pos_lt
  have hc := h.rem_le
  have hr := h.rempos_lt
  have hcur := h.cursors_cases
  simp only [cb_size] at hlen
  obtain ⟨f1, f2, f3, f4, f5⟩ := cb_take_fields cb dst len
  have e : (cb.rempos + len) % cb.buffer_size =
      if cb.rempos + len < cb.buffer_size then cb.rempos + len
      else cb.rempos + len - cb.buffer_size := mod_lt_two (by omega)
  refine ⟨?_, ?_, ?_, ?_, ?_⟩
  · rw [f1, f2, hl]
  · rw [f2]; exact h.size_pos
  · rw [f2, f4]; omega
  · rw [f2, f3]; exact hp
  · simp only [f2, f3, f4, f5, e]
    rw [mod_lt_two (by omega)]
    split_ifs <;> omega

theorem cb_size_cb_take (cb : CircBuff α) (dst : List α) (len : Nat) :
    cb_size (cb_take cb dst len).1 = cb_size cb - len := by
  simp only [cb_size, (cb_take_fields cb dst len).2.1, (cb_take_fields cb dst len).2.2.2.1]
  omega

theorem cb_contents_cb_take {cb : CircBuff α} (h : Inv cb) (dst : List α) (len : Nat)
    (hlen : len ≤ cb_size cb) :
    cb_contents (cb_take cb dst len).1 = (cb_contents cb).drop len := by
  have hl := h.len_buf
  have hp := h.pos_lt
  have hc := h.rem_le
  have hr := h.rempos_lt
  obtain ⟨f1, f2, f3, f4, f5⟩ := cb_take_fields cb dst len
  have e : (cb.rempos + len) % cb.buffer_size =
      if cb.rempos + len < cb.buffer_size then cb.rempos + len
      else cb.rempos + len - cb.buffer_size := by
    simp only [cb_size] at hlen
    exact mod_lt_two (by omega)
  apply List.ext_getElem?
  intro k
  rw [getElem?_cb_contents (cb_take_inv h dst len hlen), cb_size_cb_take, List.getElem?_drop,
    getElem?_cb_contents h, f1, f2, f5, e]
  simp only [cb_size] at hlen ⊢
  split_ifs <;> first | omega | rfl | (congr 1; omega)

theorem cb_take_snd {cb : CircBuff α} (h : Inv cb) (dst : List α) (len : Nat)
    (hlen : len ≤ cb_size cb) (hne : 0 < len) :
    (cb_take cb dst len).2 = (cb_contents cb).take len ++ dst.drop len := by
  have hl := h.len_buf
  have hp := h.pos_lt
  have hc := h.rem_le
  have hr := h.rempos_lt
  have hcl := length_cb_contents h
  simp only [cb_size] at hlen hcl
  rcases Nat.lt_or_ge (cb.rempos + len) cb.buffer_size with hw | hw
  · have e1 : (cells cb.buffer cb.rempos len).length = len := length_cells _ _ _ (by omega)
    have e2 : cells cb.buffer cb.rempos len = (cb_contents cb).take len := by
      apply List.ext_getElem?
      intro k
      rw [getElem?_cells, List.getElem?_take, getElem?_cb_contents h]
      simp only [cb_size]
      split_ifs <;> first | omega | rfl
    unfold cb_take
    dsimp only
    rw [Nat.mod_eq_of_lt hw, if_neg (by omega), memcpy_zero, e1, e2]
  · have e : (cb.rempos + len) % cb.buffer_size = cb.rempos + len - cb.buffer_size := by
      rw [mod_lt_two (by omega), if_neg (by omega)]
    have e1 : (cells cb.buffer cb.rempos (cb.buffer_size - cb.rempos)).length =
        cb.buffer_size - cb.rempos := length_cells _ _ _ (by omega)
    have e2 : (cells cb.buffer 0 (cb.rempos + len - cb.buffer_size)).length =
        cb.rempos + len - cb.buffer_size := length_cells _ _ _ (by omega)
    have e3 : cells cb.buffer cb.rempos (cb.buffer_size - cb.rempos) ++
        cells cb.buffer 0 (cb.rempos + len - cb.buffer_size) = (cb_contents cb).take len := by
      apply List.ext_getElem?
      intro k
      rw [List.getElem?_append, e1, getElem?_cells, getElem?_cells, List.getElem?_take,
        getElem?_cb_contents h]
      simp only [cb_size]
      split_ifs <;> first | omega | rfl | (congr 1; omega)
    unfold cb_take
    dsimp only
    rw [e, if_pos (by omega), memcpy_zero, e1]
    nth_rewrite 3 [← e1]
    rw [memcpy_append, e2, List.drop_drop, e3]
    congr 2
    omega

/-! ## The growth step and the calls as a whole -/

theorem cb_set_desired_fields (cb : CircBuff α) (len : Nat) :
    (cb_set_desired cb len).buffer = cb.buffer ∧
    (cb_set_desired cb len).buffer_size = cb.buffer_size ∧
    (cb_set_desired cb len).remaining_capacity = cb.remaining_capacity ∧
    (cb_set_desired cb len).pos = cb.pos ∧
    (cb_set_desired cb len).rempos = cb.rempos := by
  unfold cb_set_desired
  split <;> exact ⟨rfl, rfl, rfl, rfl, rfl⟩

theorem cb_set_desired_inv {cb : CircBuff α} (h : Inv cb) (len : Nat) :
    Inv (cb_set_desired cb len) := by
  obtain ⟨f1, f2, f3, f4, f5⟩ := cb_set_desired_fields cb len
  exact ⟨by rw [f1, f2]; exact h.len_buf, by rw [f2]; exact h.size_pos,
    by rw [f2, f3]; exact h.rem_le, by rw [f2, f4]; exact h.pos_lt,
    by rw [f2, f3, f4, f5]; exact h.cursors⟩

theorem cb_contents_cb_set_desired (cb : CircBuff α) (len : Nat) :
    cb_contents (cb_set_desired cb len) = cb_contents cb := by
  obtain ⟨f1, f2, f3, f4, f5⟩ := cb_set_desired_fields cb len
  simp only [cb_contents, cb_size, f1, f2, f3, f5]

theorem cb_grow_inv [Inhabited α] {cb : CircBuff α} (h : Inv cb) (len : Nat) :
    Inv (cb_grow cb len) :=
  cb_inflate_inv (cb_set_desired_inv h len)

theorem cb_size_cb_grow [Inhabited α] {cb : CircBuff α} (h : Inv cb) (len : Nat) :
    cb_size (cb_grow cb len) = cb_size cb := by
  unfold cb_grow
  rw [cb_size_cb_inflate (cb_set_desired_inv h len)]
  obtain ⟨f1, f2, f3, f4, f5⟩ := cb_set_desired_fields cb len
  simp only [cb_size, f2, f3]

theorem cb_contents_cb_grow [Inhabited α] {cb : CircBuff α} (h : Inv cb) (len : Nat) :
    cb_contents (cb_grow cb len) = cb_contents cb := by
  unfold cb_grow
  rw [cb_contents_cb_inflate (cb_set_desired_inv h len), cb_contents_cb_set_desired]

theorem cb_grow_flags [Inhabited α] (cb : CircBuff α) (len : Nat) :
    (cb_grow cb len).invalid = cb.invalid ∧
    (cb_grow cb len).buffering = cb.buffering ∧
    (cb_grow cb len).is_waiting = cb.is_waiting ∧
    (cb_grow cb len).size_coeff = cb.size_coeff ∧
    (cb_grow cb len).max_size_coeff = cb.max_size_coeff ∧
    (cb_grow cb len).pos = cb.pos := by
  unfold cb_grow cb_inflate cb_set_desired
  dsimp only
  split_ifs <;> exact ⟨rfl, rfl, rfl, rfl, rfl, rfl⟩

theorem cb_grow_buffer_size [Inhabited α] (cb : CircBuff α) (len : Nat)
    (hd : cb.desired_buf_size ≤ cb.buffer_size) :
    (cb_grow cb len).buffer_size =
        (if len * cb.size_coeff.toNat > cb.buffer_size then len * cb.size_coeff.toNat
         else cb.buffer_size) ∧
      (cb_grow cb len).desired_buf_size ≤ (cb_grow cb len).buffer_size := by
  unfold cb_grow cb_inflate cb_set_desired
  dsimp only
  split_ifs <;> first | exact ⟨rfl, Nat.le_refl _⟩ | exact ⟨rfl, hd⟩ | omega

theorem cb_init_live [Inhabited α] (m : Int) : Live (cb_init m : CircBuff α) := by
  refine ⟨⟨?_, ?_, ?_, ?_, ?_⟩, rfl, ?_, ?_⟩ <;> simp [cb_init, CB_SIZE_COEFF_DEFAULT]

theorem cb_purge_valid {cb : CircBuff α} (hv : cb.invalid = false) :
    cb_purge cb =
      { cb with remaining_capacity := cb.buffer_size, pos := 0, rempos := 0 } := by
  simp [cb_purge, hv]

theorem cb_purge_live {cb : CircBuff α} (h : Live cb) : Live (cb_purge cb) := by
  have hi := h.inv
  rw [cb_purge_valid h.valid]
  exact ⟨⟨hi.len_buf, hi.size_pos, Nat.le_refl _, hi.size_pos, by simp⟩, h.valid,
    h.desired_le, h.coeff_ge⟩

theorem Live.congr {cb cb1 : CircBuff α} (h : Live cb) (e1 : cb1.buffer = cb.buffer)
    (e2 : cb1.buffer_size = cb.buffer_size)
    (e3 : cb1.remaining_capacity = cb.remaining_capacity) (e4 : cb1.pos = cb.pos)
    (e5 : cb1.rempos = cb.rempos) (e6 : cb1.invalid = cb.invalid)
    (e7 : cb1.desired_buf_size = cb.desired_buf_size) (hc : 2 ≤ cb1.size_coeff) :
    Live cb1 := by
  have hi := h.inv
  exact ⟨⟨by rw [e1, e2]; exact hi.len_buf, by rw [e2]; exact hi.size_pos,
    by rw [e2, e3]; exact hi.rem_le, by rw [e2, e4]; exact hi.pos_lt,
    by rw [e2, e3, e4, e5]; exact hi.cursors⟩, by rw [e6]; exact h.valid,
    by rw [e2, e7]; exact h.desired_le, hc⟩

theorem cb_contents_congr {cb cb1 : CircBuff α} (e1 : cb1.buffer = cb.buffer)
    (e2 : cb1.buffer_size = cb.buffer_size)
    (e3 : cb1.remaining_capacity = cb.remaining_capacity)
    (e5 : cb1.rempos = cb.rempos) : cb_contents cb1 = cb_contents cb := by
  simp only [cb_contents, cb_size, e1, e2, e3, e5]

theorem cb_grow_live [Inhabited α] {cb : CircBuff α} (h : Live cb) (len : Nat) :
    Live (cb_grow cb len) := by
  obtain ⟨g1, g2, g3, g4, g5, g6⟩ := cb_grow_flags cb len
  exact ⟨cb_grow_inv h.inv len, by rw [g1]; exact h.valid,
    (cb_grow_buffer_size cb len h.desired_le).2, by rw [g4]; exact h.coeff_ge⟩

/-! ### The branches of `cb_add` and `cb_rem_nonblocking` -/

theorem cb_add_invalid [Inhabited α] {cb : CircBuff α} (hv : cb.invalid = true)
    (inp : List α) : cb_add cb inp = (cb, CBStatus.CB_ERROR) := by
  simp [cb_add, hv]

theorem cb_add_nil [Inhabited α] {cb : CircBuff α} (hv : cb.invalid = false) :
    cb_add cb ([] : List α) = (cb, CBStatus.CB_OK) := by
  simp [cb_add, hv]

theorem cb_add_hysteresis [Inhabited α] {cb : CircBuff α} (hv : cb.invalid = false)
    (inp : List α) (hne : 0 < inp.length)
    (hb : (cb_grow cb inp.length).buffering = true)
    (hr : (cb_grow cb inp.length).remaining_capacity < 2 * inp.length) :
    cb_add cb inp =
      ({ cb_grow cb inp.length with buffering := false }, CBStatus.CB_FULL) := by
  have h0 : inp.length ≠ 0 := by omega
  simp [cb_add, hv, hb, hr, h0]

theorem cb_add_full [Inhabited α] {cb : CircBuff α} (hv : cb.invalid = false)
    (inp : List α) (hne : 0 < inp.length)
    (hb : (cb_grow cb inp.length).buffering = false)
    (hr : (cb_grow cb inp.length).remaining_capacity < inp.length) :
    cb_add cb inp =
      ({ cb_grow cb inp.length with
          buffering := true
          size_coeff :=
            if (cb_grow cb inp.length).size_coeff < (cb_grow cb inp.length).max_size_coeff
            then (cb_grow cb inp.length).size_coeff + 1
            else (cb_grow cb inp.length).size_coeff },
        CBStatus.CB_FULL) := by
  have h0 : inp.length ≠ 0 := by omega
  simp [cb_add, hv, hb, hr, h0]

theorem cb_add_ok [Inhabited α] {cb : CircBuff α} (hv : cb.invalid = false)
    (inp : List α) (hne : 0 < inp.length)
    (h1 : ¬ ((cb_grow cb inp.length).buffering = true ∧
      (cb_grow cb inp.length).remaining_capacity < 2 * inp.length))
    (h2 : ¬ ((cb_grow cb inp.length).buffering = false ∧
      (cb_grow cb inp.length).remaining_capacity < inp.length)) :
    cb_add cb inp = (cb_write (cb_grow cb inp.length) inp, CBStatus.CB_OK) ∧
      inp.length ≤ (cb_grow cb inp.length).remaining_capacity := by
  have h0 : inp.length ≠ 0 := by omega
  have h3 : inp.length ≤ (cb_grow cb inp.length).remaining_capacity := by
    cases hb : (cb_grow cb inp.length).buffering
    · simp only [hb, true_and] at h2; omega
    · simp only [hb, true_and] at h1; omega
  refine ⟨?_, h3⟩
  unfold cb_add
  dsimp only
  rw [if_neg (by simp [hv]), if_neg h0, if_neg (by simpa using h1), if_neg (by omega)]

theorem cb_rem_nonblocking_invalid {cb : CircBuff α} (hv : cb.invalid = true)
    (dst : List α) (len : Nat) :
    cb_rem_nonblocking cb dst len = (cb, dst, CBStatus.CB_ERROR) := by
  simp [cb_rem_nonblocking, hv]

theorem cb_rem_nonblocking_zero {cb : CircBuff α} (hv : cb.invalid = false)
    (dst : List α) : cb_rem_nonblocking cb dst 0 = (cb, dst, CBStatus.CB_OK) := by
  simp [cb_rem_nonblocking, hv]

theorem cb_rem_nonblocking_empty {cb : CircBuff α} (hv : cb.invalid = false)
    (dst : List α) (len : Nat) (hne : 0 < len) (hlt : cb_size cb < len) :
    cb_rem_nonblocking cb dst len = (cb, dst, CBStatus.CB_EMPTY) := by
  have h0 : len ≠ 0 := by omega
  simp only [cb_size] at hlt
  simp [cb_rem_nonblocking, hv, h0, hlt]

theorem cb_rem_nonblocking_ok {cb : CircBuff α} (hv : cb.invalid = false)
    (dst : List α) (len : Nat) (hne : 0 < len) (hle : len ≤ cb_size cb) :
    cb_rem_nonblocking cb dst len =
      ((cb_take cb dst len).1, (cb_take cb dst len).2, CBStatus.CB_OK) := by
  have h0 : len ≠ 0 := by omega
  simp only [cb_size] at hle
  have h1 : ¬ cb.buffer_size - cb.remaining_capacity < len := by omega
  simp [cb_rem_nonblocking, hv, h0, h1]

/-- What `cb_add` does on a live buffer, in terms of the logical contents. -/
theorem cb_add_live [Inhabited α] {cb : CircBuff α} (h : Live cb) (inp : List α) :
    Live (cb_add cb inp).1 ∧
      ((cb_add cb inp).2 = CBStatus.CB_OK →
        cb_contents (cb_add cb inp).1 = cb_contents cb ++ inp) ∧
      ((cb_add cb inp).2 ≠ CBStatus.CB_OK →
        cb_contents (cb_add cb inp).1 = cb_contents cb) ∧
      (cb_add cb inp).1.max_size_coeff = cb.max_size_coeff := by
  have hg := cb_grow_live h inp.length
  obtain ⟨g1, g2, g3, g4, g5, g6⟩ := cb_grow_flags cb inp.length
  have hcon := cb_contents_cb_grow h.inv inp.length
  rcases Nat.eq_zero_or_pos inp.length with h0 | hne
  · rw [List.length_eq_zero.mp h0, cb_add_nil h.valid]
    exact ⟨h, fun _ => (List.append_nil _).symm, fun hc => absurd rfl hc, rfl⟩
  · by_cases h1 : (cb_grow cb inp.length).buffering = true ∧
        (cb_grow cb inp.length).remaining_capacity < 2 * inp.length
    · rw [cb_add_hysteresis h.valid inp hne h1.1 h1.2]
      exact ⟨hg.congr rfl rfl rfl rfl rfl rfl rfl hg.coeff_ge, fun hc => (by simp at hc),
        fun _ => (cb_contents_congr rfl rfl rfl rfl).trans hcon, g5⟩
    · by_cases h2 : (cb_grow cb inp.length).buffering = false ∧
          (cb_grow cb inp.length).remaining_capacity < inp.length
      · rw [cb_add_full h.valid inp hne h2.1 h2.2]
        refine ⟨hg.congr rfl rfl rfl rfl rfl rfl rfl ?_, fun hc => (by simp at hc),
          fun _ => (cb_contents_congr rfl rfl rfl rfl).trans hcon, g5⟩
        have := hg.coeff_ge
        dsimp only
        split <;> omega
      · obtain ⟨e, hlen⟩ := cb_add_ok h.valid inp hne h1 h2
        rw [e]
        refine ⟨⟨cb_write_inv hg.inv inp hlen hne, hg.valid, hg.desired_le, hg.coeff_ge⟩,
          fun _ => ?_, fun hc => absurd rfl hc, g5⟩
        show cb_contents (cb_write (cb_grow cb inp.length) inp) = _
        rw [cb_contents_cb_write hg.inv inp hlen hne, hcon]

/-- What `cb_rem_nonblocking` does on a live buffer, in terms of the logical
contents. -/
theorem cb_rem_nonblocking_live {cb : CircBuff α} (h : Live cb) (dst : List α) (len : Nat) :
    Live (cb_rem_nonblocking cb dst len).1 ∧
      ((cb_rem_nonblocking cb dst len).2.2 = CBStatus.CB_OK →
        (cb_rem_nonblocking cb dst len).2.1.take len = (cb_contents cb).take len ∧
        cb_contents (cb_rem_nonblocking cb dst len).1 = (cb_contents cb).drop len) ∧
      ((cb_rem_nonblocking cb dst len).2.2 ≠ CBStatus.CB_OK →
        (cb_rem_nonblocking cb dst len).1 = cb) ∧
      (cb_rem_nonblocking cb dst len).1.max_size_coeff = cb.max_size_coeff ∧
      (cb_rem_nonblocking cb dst len).1.size_coeff = cb.size_coeff ∧
      (cb_rem_nonblocking cb dst len).1.buffer_size = cb.buffer_size := by
  rcases Nat.eq_zero_or_pos len with h0 | hne
  · subst h0
    rw [cb_rem_nonblocking_zero h.valid]
    exact ⟨h, fun _ => ⟨by simp, by simp⟩, fun _ => rfl, rfl, rfl, rfl⟩
  · rcases Nat.lt_or_ge (cb_size cb) len with hlt | hle
    · rw [cb_rem_nonblocking_empty h.valid dst len hne hlt]
      exact ⟨h, fun hc => (by simp at hc), fun _ => rfl, rfl, rfl, rfl⟩
    · rw [cb_rem_nonblocking_ok h.valid dst len hne hle]
      refine ⟨⟨cb_take_inv h.inv dst len hle, h.valid, h.desired_le, h.coeff_ge⟩,
        fun _ => ⟨?_, cb_contents_cb_take h.inv dst len hle⟩,
        fun hc => absurd rfl hc, rfl, rfl, rfl⟩
      show ((cb_take cb dst len).2).take len = _
      rw [cb_take_snd h.inv dst len hle hne, List.take_append_of_le_length]
      · rw [List.take_take, Nat.min_self]
      · rw [List.length_take, length_cb_contents h.inv]; omega

/-! ## Sequences of calls -/

theorem cb_add_sizes [Inhabited α] {cb : CircBuff α} (h : Live cb) (inp : List α) :
    ((cb_add cb inp).1.size_coeff = cb.size_coeff ∨
        (cb.size_coeff < cb.max_size_coeff ∧
          (cb_add cb inp).1.size_coeff = cb.size_coeff + 1)) ∧
      (cb_add cb inp).1.buffer_size =
        (if inp.length * cb.size_coeff.toNat > cb.buffer_size
          then inp.length * cb.size_coeff.toNat else cb.buffer_size) := by
  obtain ⟨g1, g2, g3, g4, g5, g6⟩ := cb_grow_flags cb inp.length
  have hb := (cb_grow_buffer_size cb inp.length h.desired_le).1
  rcases Nat.eq_zero_or_pos inp.length with h0 | hne
  · rw [List.length_eq_zero.mp h0, cb_add_nil h.valid]
    simp
  · by_cases h1 : (cb_grow cb inp.length).buffering = true ∧
        (cb_grow cb inp.length).remaining_capacity < 2 * inp.length
    · rw [cb_add_hysteresis h.valid inp hne h1.1 h1.2]
      exact ⟨Or.inl g4, hb⟩
    · by_cases h2 : (cb_grow cb inp.length).buffering = false ∧
          (cb_grow cb inp.length).remaining_capacity < inp.length
      · rw [cb_add_full h.valid inp hne h2.1 h2.2]
        refine ⟨?_, hb⟩
        dsimp only
        rw [g4, g5]
        split
        · next hlt => exact Or.inr ⟨hlt, rfl⟩
        · exact Or.inl rfl
      · rw [(cb_add_ok h.valid inp hne h1 h2).1]
        exact ⟨Or.inl g4, hb⟩

theorem Trace.step_fifo [Inhabited α] (t : Trace α) (op : Op α) (hop : op.isPurge = false)
    (hl : Live t.cb) (he : t.added = t.removed ++ cb_contents t.cb) :
    Live (t.step op).cb ∧ (t.step op).added = (t.step op).removed ++ cb_contents (t.step op).cb := by
  cases op with
  | add inp =>
    obtain ⟨a1, a2, a3, _⟩ := cb_add_live hl inp
    refine ⟨a1, ?_⟩
    show (if (cb_add t.cb inp).2 = CBStatus.CB_OK then t.added ++ inp else t.added) =
      t.removed ++ cb_contents (cb_add t.cb inp).1
    split
    · next hok => rw [a2 hok, he, List.append_assoc]
    · next hno => rw [a3 hno, he]
  | rem dst len =>
    obtain ⟨r1, r2, r3, _⟩ := cb_rem_nonblocking_live hl dst len
    refine ⟨r1, ?_⟩
    show t.added =
      (if (cb_rem_nonblocking t.cb dst len).2.2 = CBStatus.CB_OK
        then t.removed ++ (cb_rem_nonblocking t.cb dst len).2.1.take len else t.removed) ++
      cb_contents (cb_rem_nonblocking t.cb dst len).1
    split
    · next hok =>
      rw [(r2 hok).1, (r2 hok).2, List.append_assoc, List.take_append_drop, he]
    · next hno => rw [r3 hno, he]
  | purge => simp [Op.isPurge] at hop

theorem foldl_step_fifo [Inhabited α] (ops : List (Op α)) :
    ∀ (t : Trace α), ops.any Op.isPurge = false → Live t.cb →
      t.added = t.removed ++ cb_contents t.cb →
      Live (ops.foldl Trace.step t).cb ∧
        (ops.foldl Trace.step t).added =
          (ops.foldl Trace.step t).removed ++ cb_contents (ops.foldl Trace.step t).cb := by
  induction ops with
  | nil => intro t _ hl he; exact ⟨hl, he⟩
  | cons op ops ih =>
    intro t hnp hl he
    rw [List.any_cons, Bool.or_eq_false_iff] at hnp
    obtain ⟨s1, s2⟩ := t.step_fifo op hnp.1 hl he
    exact ih (t.step op) hnp.2 s1 s2

theorem Trace.step_live [Inhabited α] (t : Trace α) (op : Op α) (hl : Live t.cb) :
    Live (t.step op).cb := by
  cases op with
  | add inp => exact (cb_add_live hl inp).1
  | rem dst len => exact (cb_rem_nonblocking_live hl dst len).1
  | purge => exact cb_purge_live hl

theorem foldl_step_live [Inhabited α] (ops : List (Op α)) :
    ∀ (t : Trace α), Live t.cb → Live (ops.foldl Trace.step t).cb := by
  induction ops with
  | nil => intro t hl; exact hl
  | cons op ops ih => intro t hl; exact ih (t.step op) (t.step_live op hl)

theorem run_live [Inhabited α] (m : Int) (ops : List (Op α)) : Live (run m ops : Trace α).cb :=
  foldl_step_live ops _ (cb_init_live m)

/-! ## The properties of the ring buffer -/

/-- C1 (FIFO).  For every buffer created by `cb_init` and every sequence of
`cb_add` and `cb_rem_nonblocking` calls on it (no purge), the concatenation of
the data handed out by the removals that returned `CB_OK` is a prefix of the
concatenation of the data passed to the additions that returned `CB_OK`; what is
missing from the prefix is exactly the logical contents still stored.  The
sequence is arbitrary, so this covers writes and reads that wrap and growth in
both layouts of the cursors. -/
theorem cb_fifo [Inhabited α] (max_size_coeff : Int) (ops : List (Op α))
    (hnp : ops.any Op.isPurge = false) :
    (run max_size_coeff ops).removed <+: (run max_size_coeff ops).added ∧
      (run max_size_coeff ops).added =
        (run max_size_coeff ops).removed ++ cb_contents (run max_size_coeff ops).cb := by
  have h := (foldl_step_fifo ops
    { cb := cb_init max_size_coeff, added := [], removed := [], maxlen := 0, statuses := [] } hnp
    (cb_init_live max_size_coeff) (by simp [cb_contents, cb_size, cb_init])).2
  exact ⟨⟨_, h.symm⟩, h⟩

/-- Witness for C1: the growth scenario scaled down (add 10, remove 5, add 12
while 5 cells are stored, remove 17). -/
theorem cb_fifo_witness :
    ([Op.add (List.range 10), Op.rem [] 5, Op.add (List.range 12), Op.rem [] 17] :
        List (Op Nat)).any Op.isPurge = false ∧
      ((run 4 [Op.add (List.range 10), Op.rem [] 5, Op.add (List.range 12),
          Op.rem [] 17]).removed <+:
        (run 4 [Op.add (List.range 10), Op.rem [] 5, Op.add (List.range 12),
          Op.rem [] 17]).added ∧
      (run 4 [Op.add (List.range 10), Op.rem [] 5, Op.add (List.range 12),
          Op.rem [] 17]).added =
        (run 4 [Op.add (List.range 10), Op.rem [] 5, Op.add (List.range 12),
          Op.rem [] 17]).removed ++
        cb_contents (run 4 [Op.add (List.range 10), Op.rem [] 5, Op.add (List.range 12),
          Op.rem [] 17]).cb) :=
  ⟨rfl, cb_fifo 4 _ rfl⟩

/-- C2 (invariant).  After every sequence of `cb_add`, `cb_rem_nonblocking` and
`cb_purge` calls on a buffer fresh from `cb_init` (for every `max_size_coeff`,
in particular every one that is at least 2), the cursors satisfy
`(pos + remaining_capacity) % buffer_size = rempos` - the assertion at the entry
of `cb_add` and `cb_rem_nonblocking` -, `remaining_capacity ≤ buffer_size`, the
cursors lie inside the array, and the post-growth assertion of a following
`cb_add` holds for every `len`. -/
theorem cb_invariant [Inhabited α] (max_size_coeff : Int) (ops : List (Op α)) :
    cb_assert_cursors (run max_size_coeff ops).cb ∧
      (run max_size_coeff ops).cb.remaining_capacity ≤ (run max_size_coeff ops).cb.buffer_size ∧
      (run max_size_coeff ops).cb.pos < (run max_size_coeff ops).cb.buffer_size ∧
      (run max_size_coeff ops).cb.rempos < (run max_size_coeff ops).cb.buffer_size ∧
      ∀ len, cb_assert_growth (run max_size_coeff ops).cb len := by
  have h := (run_live max_size_coeff ops).inv
  refine ⟨h.cursors, h.rem_le, h.pos_lt, h.rempos_lt, fun len _ => ?_⟩
  exact cb_size_cb_grow h len

/-- C3 (return policy of `cb_add`).  On a live buffer whose coefficient has not
passed `max_size_coeff`, with `len > 0` and `r` the `remaining_capacity` after
the growth step (which leaves `buffering`, `size_coeff` and `max_size_coeff`
as they were): (1) not buffering and `r < len`: `CB_FULL`, `buffering` set,
`size_coeff` becomes `min (size_coeff + 1) max_size_coeff`; (2) buffering and
`r < 2*len`: `CB_FULL`, `buffering` cleared, nothing else changed; (3) otherwise
the input is copied behind the write cursor, the status is `CB_OK`, `cb_size`
grows by exactly `len` and the logical contents are extended by the input.
With `len = 0` the call returns `CB_OK` and changes nothing. -/
theorem cb_add_policy [Inhabited α] (cb : CircBuff α) (inp : List α) (h : Live cb)
    (hmax : cb.size_coeff ≤ cb.max_size_coeff) :
    ((cb_grow cb inp.length).buffering = cb.buffering ∧
      (cb_grow cb inp.length).size_coeff = cb.size_coeff ∧
      (cb_grow cb inp.length).max_size_coeff = cb.max_size_coeff) ∧
    (0 < inp.length →
      (cb.buffering = false ∧ (cb_grow cb inp.length).remaining_capacity < inp.length →
        cb_add cb inp =
          ({ cb_grow cb inp.length with
              buffering := true
              size_coeff := min (cb.size_coeff + 1) cb.max_size_coeff },
            CBStatus.CB_FULL)) ∧
      (cb.buffering = true ∧ (cb_grow cb inp.length).remaining_capacity < 2 * inp.length →
        cb_add cb inp =
          ({ cb_grow cb inp.length with buffering := false }, CBStatus.CB_FULL)) ∧
      (¬ (cb.buffering = false ∧ (cb_grow cb inp.length).remaining_capacity < inp.length) →
        ¬ (cb.buffering = true ∧
            (cb_grow cb inp.length).remaining_capacity < 2 * inp.length) →
        cb_add cb inp = (cb_write (cb_grow cb inp.length) inp, CBStatus.CB_OK) ∧
          cb_size (cb_add cb inp).1 = cb_size cb + inp.length ∧
          cb_contents (cb_add cb inp).1 = cb_contents cb ++ inp)) ∧
    (inp.length = 0 → cb_add cb inp = (cb, CBStatus.CB_OK)) := by
  obtain ⟨g1, g2, g3, g4, g5, g6⟩ := cb_grow_flags cb inp.length
  have hg := cb_grow_live h inp.length
  refine ⟨⟨g2, g4, g5⟩, fun hne => ⟨?_, ?_, ?_⟩, fun h0 => ?_⟩
  · rintro ⟨hb, hr⟩
    have hs : (if cb.size_coeff < cb.max_size_coeff then cb.size_coeff + 1
        else cb.size_coeff) = min (cb.size_coeff + 1) cb.max_size_coeff := by
      split <;> omega
    rw [cb_add_full h.valid inp hne (g2.trans hb) hr, g4, g5, hs]
  · rintro ⟨hb, hr⟩
    exact cb_add_hysteresis h.valid inp hne (g2.trans hb) hr
  · intro h2 h1
    rw [← g2] at h1 h2
    obtain ⟨e, hlen⟩ := cb_add_ok h.valid inp hne h1 h2
    refine ⟨e, ?_, ?_⟩
    · rw [e]
      show cb_size (cb_write (cb_grow cb inp.length) inp) = _
      rw [cb_size_cb_write hg.inv inp hlen, cb_size_cb_grow h.inv]
    · rw [e]
      show cb_contents (cb_write (cb_grow cb inp.length) inp) = _
      rw [cb_contents_cb_write hg.inv inp hlen hne, cb_contents_cb_grow h.inv]
  · rw [List.length_eq_zero.mp h0]
    exact cb_add_nil h.valid

/-- Witness for C3: a fresh buffer from `cb_init(4)` and a three-item write. -/
theorem cb_add_policy_witness :
    Live (cb_init 4 : CircBuff Nat) ∧
      (cb_init 4 : CircBuff Nat).size_coeff ≤ (cb_init 4 : CircBuff Nat).max_size_coeff ∧
      cb_add (cb_init 4 : CircBuff Nat) [7, 8, 9] =
        (cb_write (cb_grow (cb_init 4) 3) [7, 8, 9], CBStatus.CB_OK) ∧
      cb_size (cb_add (cb_init 4 : CircBuff Nat) [7, 8, 9]).1 = 0 + 3 :=
  ⟨cb_init_live 4, by decide,
    (((cb_add_policy (cb_init 4 : CircBuff Nat) [7, 8, 9] (cb_init_live 4) (by decide)).2.1
      (by decide)).2.2 (by decide) (by decide)).1,
    (((cb_add_policy (cb_init 4 : CircBuff Nat) [7, 8, 9] (cb_init_live 4) (by decide)).2.1
      (by decide)).2.2 (by decide) (by decide)).2.1⟩

/-- Counterexample to C4 as stated: a buffer created with `max_size_coeff = 2`
(so `size_coeff` equals `max_size_coeff` from the start) that is empty with
`buffer_size = 10`, hence able to hold 6 items, is resized to 12 by a `cb_add`
of 6 items. -/
theorem cb_add_growth_gate_counterexample :
    (run 2 [Op.add [0, 1, 2, 3, 4], Op.rem [] 5] : Trace Nat).cb.size_coeff =
        (run 2 [Op.add [0, 1, 2, 3, 4], Op.rem [] 5] : Trace Nat).cb.max_size_coeff ∧
      (run 2 [Op.add [0, 1, 2, 3, 4], Op.rem [] 5] : Trace Nat).cb.buffer_size = 10 ∧
      (run 2 [Op.add [0, 1, 2, 3, 4], Op.rem [] 5] : Trace Nat).cb.remaining_capacity = 10 ∧
      (cb_add (run 2 [Op.add [0, 1, 2, 3, 4], Op.rem [] 5] : Trace Nat).cb
        [0, 1, 2, 3, 4, 5]).1.buffer_size = 12 := by
  decide

theorem cb_grow_buffer_size_pending [Inhabited α] (cb : CircBuff α) (len : Nat) :
    (cb_grow cb len).buffer_size =
      (if len * cb.size_coeff.toNat > cb.buffer_size then len * cb.size_coeff.toNat
        else if cb.buffer_size < cb.desired_buf_size then cb.desired_buf_size
        else cb.buffer_size) := by
  unfold cb_grow cb_set_desired cb_inflate
  split_ifs <;> rfl

theorem cb_add_buffer_size [Inhabited α] {cb : CircBuff α} (hv : cb.invalid = false)
    (inp : List α) (hne : 0 < inp.length) :
    (cb_add cb inp).1.buffer_size = (cb_grow cb inp.length).buffer_size := by
  by_cases h1 : (cb_grow cb inp.length).buffering = true ∧
      (cb_grow cb inp.length).remaining_capacity < 2 * inp.length
  · rw [cb_add_hysteresis hv inp hne h1.1 h1.2]
  · by_cases h2 : (cb_grow cb inp.length).buffering = false ∧
        (cb_grow cb inp.length).remaining_capacity < inp.length
    · rw [cb_add_full hv inp hne h2.1 h2.2]
    · rw [(cb_add_ok hv inp hne h1 h2).1]
      rfl

/-- C4 (amended growth condition).  A `cb_add` of `len > 0` items on a buffer
that has not been freed, with a non-negative `size_coeff`, changes
`buffer_size` exactly when `len * size_coeff > buffer_size` (`size_coeff` as on
entry) or a growth request is pending (`desired_buf_size > buffer_size`, as
`cb_rem_blocking` leaves it after waiting for more than the array holds);
neither `max_size_coeff` nor the free space enters the condition.  The new
`buffer_size` is `len * size_coeff` in the first case and the pending
`desired_buf_size` otherwise.  When no request is pending the change happens
exactly when `len * size_coeff > buffer_size`. -/
theorem cb_add_growth_condition [Inhabited α] (cb : CircBuff α) (inp : List α)
    (hv : cb.invalid = false) (hc : 0 ≤ cb.size_coeff) (hne : 0 < inp.length) :
    ((cb_add cb inp).1.buffer_size ≠ cb.buffer_size ↔
        ((cb.buffer_size : Int) < inp.length * cb.size_coeff ∨
          cb.buffer_size < cb.desired_buf_size)) ∧
      ((cb.buffer_size : Int) < inp.length * cb.size_coeff →
        ((cb_add cb inp).1.buffer_size : Int) = inp.length * cb.size_coeff) ∧
      (¬ (cb.buffer_size : Int) < inp.length * cb.size_coeff →
        cb.buffer_size < cb.desired_buf_size →
        (cb_add cb inp).1.buffer_size = cb.desired_buf_size) ∧
      (cb.desired_buf_size ≤ cb.buffer_size →
        ((cb_add cb inp).1.buffer_size ≠ cb.buffer_size ↔
          (cb.buffer_size : Int) < inp.length * cb.size_coeff)) := by
  have e : ((inp.length * cb.size_coeff.toNat : Nat) : Int) = inp.length * cb.size_coeff := by
    rw [Nat.cast_mul, Int.toNat_of_nonneg hc]
  rw [cb_add_buffer_size hv inp hne, cb_grow_buffer_size_pending]
  by_cases hgt : inp.length * cb.size_coeff.toNat > cb.buffer_size
  · have hgt' : (cb.buffer_size : Int) < inp.length * cb.size_coeff := by
      rw [← e]; exact_mod_cast hgt
    rw [if_pos hgt]
    exact ⟨⟨fun _ => Or.inl hgt', fun _ => by omega⟩, fun _ => e,
      fun h => absurd hgt' h, fun _ => ⟨fun _ => hgt', fun _ => by omega⟩⟩
  · have hle' : ¬ (cb.buffer_size : Int) < inp.length * cb.size_coeff := by
      rw [← e]; exact_mod_cast hgt
    rw [if_neg hgt]
    by_cases hp : cb.buffer_size < cb.desired_buf_size
    · rw [if_pos hp]
      exact ⟨⟨fun _ => Or.inr hp, fun _ => by omega⟩, fun h => absurd h hle',
        fun _ _ => rfl, fun h => absurd hp (by omega)⟩
    · rw [if_neg hp]
      exact ⟨⟨fun h => absurd rfl h, fun h => h.elim (fun h => absurd h hle')
        (fun h => absurd h hp)⟩, fun h => absurd h hle', fun _ h => absurd h hp,
        fun _ => ⟨fun h => absurd rfl h, fun h => absurd h hle'⟩⟩

/-- Witness for C4 (amended): on a fresh buffer of size 2 a consumer asks
`cb_rem_blocking` for 100 items and times out, which leaves a request for 200
cells pending; a `cb_add` of one item then grows the array to 200 although
`1 * 2 > 2` is false. -/
theorem cb_add_growth_condition_witness :
    cb_rem_blocking [fun _ => none] (cb_init 4 : CircBuff Nat) [] 100 =
        some ({ (cb_init 4 : CircBuff Nat) with desired_buf_size := 200 }, [],
          CBStatus.CB_EMPTY) ∧
      ({ (cb_init 4 : CircBuff Nat) with desired_buf_size := 200 } : CircBuff Nat).invalid =
        false ∧
      (cb_add ({ (cb_init 4 : CircBuff Nat) with desired_buf_size := 200 } : CircBuff Nat)
        [7]).1.buffer_size = 200 :=
  ⟨by decide, rfl, (cb_add_growth_condition
    ({ (cb_init 4 : CircBuff Nat) with desired_buf_size := 200 } : CircBuff Nat) [7] rfl
    (by decide) (by decide)).2.2.1 (by decide) (by decide)⟩

/-- C5 (`cb_rem_nonblocking`).  On a live buffer and for `len > 0` the call
returns `CB_EMPTY` exactly when `cb_size < len`, and then the buffer and the
destination are unchanged; otherwise it returns `CB_OK`, the destination holds
the first `len` stored items followed by its old cells from index `len` on,
`rempos` advances by `len` modulo `buffer_size`, `cb_size` drops by exactly
`len`, and the array, its size and the write cursor are untouched. -/
theorem cb_rem_nonblocking_policy (cb : CircBuff α) (dst : List α) (len : Nat)
    (h : Live cb) (hne : 0 < len) :
    ((cb_rem_nonblocking cb dst len).2.2 = CBStatus.CB_EMPTY ↔ cb_size cb < len) ∧
    (cb_size cb < len → cb_rem_nonblocking cb dst len = (cb, dst, CBStatus.CB_EMPTY)) ∧
    (len ≤ cb_size cb →
      (cb_rem_nonblocking cb dst len).2.2 = CBStatus.CB_OK ∧
      (cb_rem_nonblocking cb dst len).2.1 = (cb_contents cb).take len ++ dst.drop len ∧
      ((cb_contents cb).take len).length = len ∧
      (cb_rem_nonblocking cb dst len).1.rempos = (cb.rempos + len) % cb.buffer_size ∧
      cb_size (cb_rem_nonblocking cb dst len).1 + len = cb_size cb ∧
      cb_contents (cb_rem_nonblocking cb dst len).1 = (cb_contents cb).drop len ∧
      (cb_rem_nonblocking cb dst len).1.buffer = cb.buffer ∧
      (cb_rem_nonblocking cb dst len).1.buffer_size = cb.buffer_size ∧
      (cb_rem_nonblocking cb dst len).1.pos = cb.pos) := by
  refine ⟨?_, cb_rem_nonblocking_empty h.valid dst len hne, fun hle => ?_⟩
  · rcases Nat.lt_or_ge (cb_size cb) len with hlt | hle
    · rw [cb_rem_nonblocking_empty h.valid dst len hne hlt]
      exact ⟨fun _ => hlt, fun _ => rfl⟩
    · rw [cb_rem_nonblocking_ok h.valid dst len hne hle]
      exact ⟨fun hc => (by simp at hc), fun hlt => absurd hlt (by omega)⟩
  · rw [cb_rem_nonblocking_ok h.valid dst len hne hle]
    refine ⟨rfl, cb_take_snd h.inv dst len hle hne, ?_, rfl, ?_,
      cb_contents_cb_take h.inv dst len hle, rfl, rfl, rfl⟩
    · rw [List.length_take, length_cb_contents h.inv]; omega
    · show cb_size (cb_take cb dst len).1 + len = cb_size cb
      rw [cb_size_cb_take]; omega

/-- Witness for C5: removing two items from an empty fresh buffer. -/
theorem cb_rem_nonblocking_policy_witness :
    Live (cb_init 4 : CircBuff Nat) ∧ 0 < 2 ∧
      cb_rem_nonblocking (cb_init 4 : CircBuff Nat) [5, 5] 2 =
        (cb_init 4, [5, 5], CBStatus.CB_EMPTY) :=
  ⟨cb_init_live 4, by decide,
    (cb_rem_nonblocking_policy (cb_init 4 : CircBuff Nat) [5, 5] 2 (cb_init_live 4)
      (by decide)).2.1 (by decide)⟩

theorem cb_rem_blocking_invalid {cb : CircBuff α} (hv : cb.invalid = true)
    (waits : List (CircBuff α → Option (CircBuff α))) (dst : List α) (len : Nat) :
    cb_rem_blocking waits cb dst len = some (cb, dst, CBStatus.CB_ERROR) := by
  simp [cb_rem_blocking, hv]

theorem cb_purge_invalid {cb : CircBuff α} (hv : cb.invalid = true) : cb_purge cb = cb := by
  simp [cb_purge, hv]

theorem cb_free_of_invalid {cb : CircBuff α} (hv : cb.invalid = true) : cb_free cb = cb := by
  simp [cb_free, hv]

theorem cb_free_invalid (cb : CircBuff α) : (cb_free cb).invalid = true := by
  unfold cb_free
  split
  · assumption
  · rfl

theorem foldl_step_invalid [Inhabited α] (ops : List (Op α)) :
    ∀ (t : Trace α), t.cb.invalid = true →
      (ops.foldl Trace.step t).cb = t.cb ∧
      (ops.foldl Trace.step t).statuses =
        t.statuses ++ List.replicate (ops.filter (fun op => !op.isPurge)).length
          CBStatus.CB_ERROR := by
  induction ops with
  | nil => intro t _; simp
  | cons op ops ih =>
    intro t hv
    cases op with
    | add inp =>
      have e : (t.step (Op.add inp)).cb = t.cb := by
        show (cb_add t.cb inp).1 = t.cb
        rw [cb_add_invalid hv]
      have e2 : (t.step (Op.add inp)).statuses = t.statuses ++ [CBStatus.CB_ERROR] := by
        show t.statuses ++ [(cb_add t.cb inp).2] = _
        rw [cb_add_invalid hv]
      obtain ⟨i1, i2⟩ := ih (t.step (Op.add inp)) (by rw [e]; exact hv)
      rw [List.foldl_cons, i1, i2, e, e2]
      simp [Op.isPurge, List.replicate_succ]
    | rem dst len =>
      have e : (t.step (Op.rem dst len)).cb = t.cb := by
        show (cb_rem_nonblocking t.cb dst len).1 = t.cb
        rw [cb_rem_nonblocking_invalid hv]
      have e2 : (t.step (Op.rem dst len)).statuses = t.statuses ++ [CBStatus.CB_ERROR] := by
        show t.statuses ++ [(cb_rem_nonblocking t.cb dst len).2.2] = _
        rw [cb_rem_nonblocking_invalid hv]
      obtain ⟨i1, i2⟩ := ih (t.step (Op.rem dst len)) (by rw [e]; exact hv)
      rw [List.foldl_cons, i1, i2, e, e2]
      simp [Op.isPurge, List.replicate_succ]
    | purge =>
      have e : t.step Op.purge = t := by
        show { t with cb := cb_purge t.cb } = t
        rw [cb_purge_invalid hv]
      rw [List.foldl_cons, e]
      simpa [Op.isPurge] using ih t hv

/-- C6 (after `cb_free`).  Once `cb_free` has run the buffer is invalid, and
`cb_add`, `cb_rem_nonblocking` and `cb_rem_blocking` return `CB_ERROR` for every
argument (empty input and `len = 0` included, and whatever `mutex_wait` would
answer) leaving the structure and the destination as they were; `cb_purge` and
a second `cb_free` change nothing.  Hence in every later sequence of calls all
statuses are `CB_ERROR` and the structure never changes. -/
theorem cb_free_then_error [Inhabited α] (cb : CircBuff α) :
    (cb_free cb).invalid = true ∧
    (∀ inp, cb_add (cb_free cb) inp = (cb_free cb, CBStatus.CB_ERROR)) ∧
    (∀ dst len, cb_rem_nonblocking (cb_free cb) dst len =
      (cb_free cb, dst, CBStatus.CB_ERROR)) ∧
    (∀ waits dst len, cb_rem_blocking waits (cb_free cb) dst len =
      some (cb_free cb, dst, CBStatus.CB_ERROR)) ∧
    cb_purge (cb_free cb) = cb_free cb ∧
    cb_free (cb_free cb) = cb_free cb ∧
    (∀ (ops : List (Op α)) (t : Trace α), t.cb = cb_free cb →
      (ops.foldl Trace.step t).cb = cb_free cb ∧
      (ops.foldl Trace.step t).statuses =
        t.statuses ++ List.replicate (ops.filter (fun op => !op.isPurge)).length
          CBStatus.CB_ERROR) := by
  have hv := cb_free_invalid cb
  refine ⟨hv, cb_add_invalid hv, cb_rem_nonblocking_invalid hv,
    fun waits dst len => cb_rem_blocking_invalid hv waits dst len, cb_purge_invalid hv,
    cb_free_of_invalid hv, ?_⟩
  · intro ops t ht
    have := foldl_step_invalid ops t (by rw [ht]; exact hv)
    rw [ht] at this
    exact this

theorem Trace.step_bounded [Inhabited α] (m : Int) (hm : 2 ≤ m) (t : Trace α) (op : Op α)
    (hl : Live t.cb) (h1 : t.cb.max_size_coeff = m) (h2 : t.cb.size_coeff ≤ m)
    (h3 : (t.cb.buffer_size : Int) ≤ max 2 (t.maxlen * m)) :
    (t.step op).cb.max_size_coeff = m ∧ (t.step op).cb.size_coeff ≤ m ∧
      ((t.step op).cb.buffer_size : Int) ≤ max 2 ((t.step op).maxlen * m) := by
  cases op with
  | add inp =>
    obtain ⟨_, _, _, a4⟩ := cb_add_live hl inp
    obtain ⟨b1, b2⟩ := cb_add_sizes hl inp
    have hc := hl.coeff_ge
    show (cb_add t.cb inp).1.max_size_coeff = m ∧ (cb_add t.cb inp).1.size_coeff ≤ m ∧
      ((cb_add t.cb inp).1.buffer_size : Int) ≤ max 2 ((max t.maxlen inp.length : Nat) * m)
    refine ⟨a4.trans h1, ?_, ?_⟩
    · rcases b1 with e | ⟨hlt, e⟩ <;> rw [e] <;> omega
    · have hmono : (t.maxlen : Int) * m ≤ (max t.maxlen inp.length : Nat) * m :=
        Int.mul_le_mul_of_nonneg_right (by exact_mod_cast le_max_left _ _) (by omega)
      have hlen : (inp.length : Int) * t.cb.size_coeff ≤ (max t.maxlen inp.length : Nat) * m :=
        Int.mul_le_mul (by exact_mod_cast le_max_right _ _) h2 (by omega) (by omega)
      have e : ((inp.length * t.cb.size_coeff.toNat : Nat) : Int) =
          inp.length * t.cb.size_coeff := by
        rw [Nat.cast_mul, Int.toNat_of_nonneg (by omega)]
      rw [b2]
      split
      · rw [e]; exact le_max_of_le_right hlen
      · exact h3.trans (max_le_max (le_refl _) hmono)
  | rem dst len =>
    obtain ⟨_, _, _, r4, r5, r6⟩ := cb_rem_nonblocking_live hl dst len
    show (cb_rem_nonblocking t.cb dst len).1.max_size_coeff = m ∧
      (cb_rem_nonblocking t.cb dst len).1.size_coeff ≤ m ∧
      ((cb_rem_nonblocking t.cb dst len).1.buffer_size : Int) ≤ max 2 (t.maxlen * m)
    rw [r4, r5, r6]
    exact ⟨h1, h2, h3⟩
  | purge =>
    show (cb_purge t.cb).max_size_coeff = m ∧ (cb_purge t.cb).size_coeff ≤ m ∧
      ((cb_purge t.cb).buffer_size : Int) ≤ max 2 (t.maxlen * m)
    rw [cb_purge_valid hl.valid]
    exact ⟨h1, h2, h3⟩

theorem foldl_step_bounded [Inhabited α] (m : Int) (hm : 2 ≤ m) (ops : List (Op α)) :
    ∀ (t : Trace α), Live t.cb → t.cb.max_size_coeff = m → t.cb.size_coeff ≤ m →
      (t.cb.buffer_size : Int) ≤ max 2 (t.maxlen * m) →
      (ops.foldl Trace.step t).cb.size_coeff ≤ m ∧
        ((ops.foldl Trace.step t).cb.buffer_size : Int) ≤
          max 2 ((ops.foldl Trace.step t).maxlen * m) := by
  induction ops with
  | nil => intro t _ _ h2 h3; exact ⟨h2, h3⟩
  | cons op ops ih =>
    intro t hl h1 h2 h3
    obtain ⟨s1, s2, s3⟩ := t.step_bounded m hm op hl h1 h2 h3
    exact ih (t.step op) (t.step_live op hl) s1 s2 s3

/-- C7 (bounded growth).  For a buffer created by `cb_init(max_size_coeff)` with
`max_size_coeff ≥ 2`, after every sequence of `cb_add`, `cb_rem_nonblocking` and
`cb_purge` calls, `2 ≤ size_coeff ≤ max_size_coeff` and
`buffer_size ≤ max 2 (L * max_size_coeff)`, `L` being the largest `len` passed
to `cb_add` so far. -/
theorem cb_bounded_growth [Inhabited α] (max_size_coeff : Int) (hmax : 2 ≤ max_size_coeff)
    (ops : List (Op α)) :
    2 ≤ (run max_size_coeff ops).cb.size_coeff ∧
      (run max_size_coeff ops).cb.size_coeff ≤ max_size_coeff ∧
      ((run max_size_coeff ops).cb.buffer_size : Int) ≤
        max 2 ((run max_size_coeff ops).maxlen * max_size_coeff) := by
  have hb := foldl_step_bounded max_size_coeff hmax ops
    { cb := cb_init max_size_coeff, added := [], removed := [], maxlen := 0, statuses := [] }
    (cb_init_live max_size_coeff) rfl hmax (by simp [cb_init, CB_SIZE_COEFF_DEFAULT])
  exact ⟨(run_live max_size_coeff ops).coeff_ge, hb.1, hb.2⟩

/-- Witness for C7: `cb_init(3)` followed by a refused and an accepted write. -/
theorem cb_bounded_growth_witness :
    (2 : Int) ≤ 3 ∧
      (2 ≤ (run 3 [Op.add [1, 2, 3], Op.add [4, 5, 6, 7], Op.rem [] 2, Op.purge] :
          Trace Nat).cb.size_coeff ∧
        (run 3 [Op.add [1, 2, 3], Op.add [4, 5, 6, 7], Op.rem [] 2, Op.purge] :
          Trace Nat).cb.size_coeff ≤ 3 ∧
        ((run 3 [Op.add [1, 2, 3], Op.add [4, 5, 6, 7], Op.rem [] 2, Op.purge] :
          Trace Nat).cb.buffer_size : Int) ≤
          max 2 ((run 3 [Op.add [1, 2, 3], Op.add [4, 5, 6, 7], Op.rem [] 2, Op.purge] :
            Trace Nat).maxlen * 3)) :=
  ⟨by decide, cb_bounded_growth 3 (by decide) _⟩

/-- Counterexample to C8 as stated: in the wrap scenario the removed data,
concatenated, is not `0..99, 100..119`. -/
theorem cb_wrap_scenario_counterexample :
    (run 4 [Op.add (List.range 100), Op.rem (List.replicate 60 0) 60,
        Op.add ((List.range 80).map (fun i => i + 100)),
        Op.rem (List.replicate 120 0) 120] : Trace Nat).removed ≠
      List.range 100 ++ (List.range 20).map (fun i => i + 100) := by
  decide

set_option maxRecDepth 100000 in
/-- C8 (wrap scenario, amended).  After `cb_init(4)`, adding the 100 values
0..99, removing 60, adding the 80 values 100..179 and removing 120, every call
returns `CB_OK` and the removed data, concatenated, is 0..179: the first removal
hands out 0..59 and the second one 60..179. -/
theorem cb_wrap_scenario :
    (run 4 [Op.add (List.range 100), Op.rem (List.replicate 60 0) 60,
        Op.add ((List.range 80).map (fun i => i + 100)),
        Op.rem (List.replicate 120 0) 120] : Trace Nat).statuses =
        [CBStatus.CB_OK, CBStatus.CB_OK, CBStatus.CB_OK, CBStatus.CB_OK] ∧
      (run 4 [Op.add (List.range 100), Op.rem (List.replicate 60 0) 60,
        Op.add ((List.range 80).map (fun i => i + 100)),
        Op.rem (List.replicate 120 0) 120] : Trace Nat).removed = List.range 180 ∧
      (cb_rem_nonblocking (run 4 [Op.add (List.range 100), Op.rem (List.replicate 60 0) 60,
        Op.add ((List.range 80).map (fun i => i + 100))] : Trace Nat).cb
          (List.replicate 120 0) 120).2.1 = (List.range 120).map (fun i => i + 60) := by
  decide

/-! ## The properties of the dropped-sample compensator -/

theorem dsp_dropped_cal_compensation_nonneg (block dropped : Int) :
    0 ≤ dsp_dropped_cal_compensation block dropped := by
  unfold dsp_dropped_cal_compensation
  dsimp only
  by_cases hb : block % 2 ^ 64 = 0
  · rw [hb, Int.emod_zero]
    exact Int.emod_nonneg _ (by norm_num)
  · exact Int.emod_nonneg _ hb

theorem dsp_dropped_cal_compensation_eq (block dropped : Int) (hb : 0 < block)
    (hb2 : block < 2 ^ 64) (hd : 0 < dropped) :
    dsp_dropped_cal_compensation block dropped = (-dropped) % block := by
  have hq1 : dropped < (dropped.tdiv block + 1) * block :=
    Int.lt_tdiv_add_one_mul_self dropped hb
  have hq2 : block * dropped.tdiv block + dropped.tmod block = dropped :=
    Int.tdiv_add_tmod dropped block
  have hq3 : 0 ≤ dropped.tmod block := Int.tmod_nonneg block (by omega)
  have hbm : block % 2 ^ 64 = block := Int.emod_eq_of_lt (by omega) hb2
  have h1 : ((dropped.tdiv block) % 2 ^ 64 + 1) % 2 ^ 64 ≡ dropped.tdiv block + 1
      [ZMOD 2 ^ 64] :=
    (Int.mod_modEq _ _).trans ((Int.mod_modEq _ _).add_right 1)
  have h2 : ((dropped.tdiv block) % 2 ^ 64 + 1) % 2 ^ 64 * block % 2 ^ 64 ≡
      (dropped.tdiv block + 1) * block [ZMOD 2 ^ 64] :=
    (Int.mod_modEq _ _).trans (h1.mul_right block)
  have h3 : ((dropped.tdiv block) % 2 ^ 64 + 1) % 2 ^ 64 * block % 2 ^ 64 -
      dropped % 2 ^ 64 ≡ (dropped.tdiv block + 1) * block - dropped [ZMOD 2 ^ 64] :=
    h2.sub (Int.mod_modEq _ _)
  have h4 : ((dropped.tdiv block + 1) * block - dropped) % 2 ^ 64 =
      (dropped.tdiv block + 1) * block - dropped :=
    Int.emod_eq_of_lt (by omega) (by nlinarith)
  unfold dsp_dropped_cal_compensation
  dsimp only
  rw [hbm, h3.eq, h4]
  have e : (dropped.tdiv block + 1) * block - dropped =
      -dropped + (dropped.tdiv block + 1) * block := by ring
  rw [e, Int.add_mul_emod_self]

theorem tmod_emod (s b : Int) : s.tmod b % b = s % b := by
  have h := Int.tmod_add_tdiv s b
  have e : s = s.tmod b + s.tdiv b * b := by rw [Int.mul_comm]; exact h.symm
  conv_rhs => rw [e, Int.add_mul_emod_self]

theorem realign_nonneg (block d : Int) :
    0 ≤ (if d < 0 then
        ({ difference := dsp_dropped_cal_compensation block (-d) } :
          dsp_dropped_compensation_t)
      else { difference := d }).difference := by
  split
  · exact dsp_dropped_cal_compensation_nonneg _ _
  · next h => exact Int.not_lt.mp h

theorem dsp_dropped_compensation_shift_with_nonneg (res : dsp_dropped_compensation_t)
    (block : Nat) (syncoffset : Int) :
    0 ≤ (dsp_dropped_compensation_shift_with res block syncoffset).difference := by
  unfold dsp_dropped_compensation_shift_with
  exact realign_nonneg _ _

theorem dsp_dropped_compensation_add_nonneg [Inhabited α] (res : dsp_dropped_compensation_t)
    (cb : CircBuff α) (buff : List α) (size block : Nat) :
    0 ≤ (dsp_dropped_compensation_add res cb buff size block).1.difference := by
  unfold dsp_dropped_compensation_add
  dsimp only
  split
  · next h => show 0 ≤ res.difference - size; omega
  · split
    · exact Int.le_refl 0
    · split
      · exact dsp_dropped_cal_compensation_nonneg _ _
      · next h => exact Int.not_lt.mp h

theorem foldl_apply_nonneg [Inhabited α] (block : Nat) (ops : List (CompOp α)) :
    ∀ res : dsp_dropped_compensation_t, 0 ≤ res.difference →
      0 ≤ (ops.foldl (CompOp.apply block) res).difference := by
  induction ops with
  | nil => intro res h; exact h
  | cons op ops ih =>
    intro res _
    refine ih _ ?_
    cases op with
    | add cb buff size => exact dsp_dropped_compensation_add_nonneg res cb buff size block
    | shift s => exact dsp_dropped_compensation_shift_with_nonneg res block s

/-- C9 (compensator invariant).  For every `block > 0`, starting from
`dsp_dropped_compensation_init`, `difference ≥ 0` holds after every sequence of
`dsp_dropped_compensation_add` calls (whatever ring buffer they push into and
whatever `cb_add` returns there, for every size) and
`dsp_dropped_compensation_shift_with` calls (for every signed `syncoffset`).
The list of calls is arbitrary, so the bound holds after each of them, which is
what the assertions at the entry of `add` and `will_drop_all` test. -/
theorem dsp_dropped_compensation_nonneg [Inhabited α] (block : Nat) (_ : 0 < block)
    (ops : List (CompOp α)) : 0 ≤ (comp_run block ops).difference :=
  foldl_apply_nonneg block ops dsp_dropped_compensation_init (Int.le_refl 0)

/-- Witness for C9: block 1920, a shift by -4321, a chunk refused by a freed
ring buffer, and a shift by 7. -/
theorem dsp_dropped_compensation_nonneg_witness :
    0 < 1920 ∧
      0 ≤ (comp_run 1920 [CompOp.shift (-4321),
        CompOp.add (cb_free (cb_init 4 : CircBuff Nat)) (List.replicate 1000 0) 1000,
        CompOp.shift 7]).difference :=
  ⟨by decide, dsp_dropped_compensation_nonneg 1920 (by decide) _⟩

/-- Counterexample to C10 as stated: with `block = 10`, the state reached from
`dsp_dropped_compensation_init` by a shift of 5 has `difference = 5`; a further
shift by `s = 0` leaves `difference = 5`, which is not congruent to `-s = 0`
modulo 10. -/
theorem dsp_dropped_compensation_shift_with_counterexample :
    (dsp_dropped_compensation_shift_with dsp_dropped_compensation_init 10 5).difference = 5 ∧
    ¬ ((dsp_dropped_compensation_shift_with
        (dsp_dropped_compensation_shift_with dsp_dropped_compensation_init 10 5) 10 0).difference
          % 10 = (-0 : Int) % 10) := by
  decide

/-- C10 (amended).  For every `block` with `0 < block < 2^31` (the values the
conversion of the `uint32_t` to the `int` parameter of
`dsp_dropped_cal_compensation` leaves unchanged), every signed sync offset `s`
and every compensator state with difference `d`, after
`dsp_dropped_compensation_shift_with(block, s)` the difference is congruent to
`d - s` modulo `block`; it is congruent to `-s` when `d` is a multiple of
`block`, in particular for a freshly initialised compensator. -/
theorem dsp_dropped_compensation_shift_with_congr (res : dsp_dropped_compensation_t)
    (block : Nat) (s : Int) (hb : 0 < block) (hb2 : block < 2 ^ 31) :
    (dsp_dropped_compensation_shift_with res block s).difference % block =
        (res.difference - s) % block ∧
      (res.difference % block = 0 →
        (dsp_dropped_compensation_shift_with res block s).difference % block = (-s) % block) := by
  have hbi : (0 : Int) < block := by exact_mod_cast hb
  have hbi2 : (block : Int) < 2 ^ 64 := by
    have : (block : Int) < 2 ^ 31 := by exact_mod_cast hb2
    omega
  have key : (dsp_dropped_compensation_shift_with res block s).difference % block =
      (res.difference - s) % block := by
    have hd : ∀ d : Int, (if d < 0 then
          ({ difference := dsp_dropped_cal_compensation block (-d) } :
            dsp_dropped_compensation_t)
        else { difference := d }).difference % block = d % block := by
      intro d
      split
      · next hneg =>
        show dsp_dropped_cal_compensation block (-d) % block = d % block
        rw [dsp_dropped_cal_compensation_eq block (-d) hbi hbi2 (by omega), Int.neg_neg,
          Int.emod_emod]
      · rfl
    unfold dsp_dropped_compensation_shift_with
    dsimp only
    rw [hd]
    split
    · rw [Int.sub_emod, tmod_emod, ← Int.sub_emod]
    · have e : res.difference - ((block : Int) + s.tmod block) =
          (res.difference - s.tmod block) + (-1) * block := by ring
      rw [e, Int.add_mul_emod_self, Int.sub_emod, tmod_emod, ← Int.sub_emod]
  refine ⟨key, fun h0 => ?_⟩
  calc (dsp_dropped_compensation_shift_with res block s).difference % block
      = (res.difference - s) % block := key
    _ = (res.difference % block - s % block) % block := Int.sub_emod _ _ _
    _ = (0 % block - s % block) % block := by rw [h0, Int.zero_emod]
    _ = (0 - s) % block := (Int.sub_emod 0 s block).symm
    _ = (-s) % block := by rw [Int.zero_sub]

/-- Witness for C10 (amended): the shift by -4321 with block 1920 on a freshly
initialised compensator. -/
theorem dsp_dropped_compensation_shift_with_congr_witness :
    0 < 1920 ∧ 1920 < 2 ^ 31 ∧
      ((dsp_dropped_compensation_shift_with dsp_dropped_compensation_init 1920
          (-4321)).difference % ((1920 : Nat) : Int) =
        (dsp_dropped_compensation_init.difference - (-4321)) % ((1920 : Nat) : Int) ∧
      (dsp_dropped_compensation_init.difference % ((1920 : Nat) : Int) = 0 →
        (dsp_dropped_compensation_shift_with dsp_dropped_compensation_init 1920
          (-4321)).difference % ((1920 : Nat) : Int) = (-(-4321)) % ((1920 : Nat) : Int))) :=
  ⟨by decide, by norm_num,
    dsp_dropped_compensation_shift_with_congr dsp_dropped_compensation_init 1920 (-4321)
      (by decide) (by norm_num)⟩

/-! ## Further properties of the dropped-sample compensator -/

/-- Counterexample to C11 as stated: from a fresh compensator the shift by
-4321 with block 1920 does not leave `difference = 1439`. -/
theorem dsp_dropped_compensation_after_drop_counterexample :
    (dsp_dropped_compensation_shift_with dsp_dropped_compensation_init 1920 (-4321)).difference
      ≠ 1439 := by
  decide

/-- C11 (amended).  From a freshly initialised compensator,
`dsp_dropped_compensation_shift_with(1920, -4321)` leaves
`difference = 4321 mod 1920 = 481`: the call first subtracts
`1920 - 481 = 1439`, and the negative result `-1439` is brought back to
`1920 - 1439 = 481` by `dsp_dropped_cal_compensation`. -/
theorem dsp_dropped_compensation_after_drop :
    (dsp_dropped_compensation_shift_with dsp_dropped_compensation_init 1920 (-4321)).difference
        = 481 ∧
      (0 : Int) - (1920 + (-4321 : Int).tmod 1920) = -1439 ∧
      dsp_dropped_cal_compensation 1920 1439 = 481 ∧
      (4321 : Int) % 1920 = 481 := by
  decide

theorem length_cells_le (buf : List α) (off n : Nat) (h : n ≤ buf.length - off) :
    (cells buf off n).length = n := by
  simp only [cells, List.length_take, List.length_drop]
  omega

/-- C12 (what `dsp_dropped_compensation_add` drops).  With `difference ≥ 0`:
when `size ≤ difference` the ring buffer is returned untouched and `difference`
becomes `difference - size`; when `size > difference` the ring buffer after the
call is the one `cb_add` leaves when offered the cells
`buff[difference .. size)` - `size - difference` of them, cell `i` being
`buff[difference + i]` - and `difference` becomes 0 when `cb_add` returns
`CB_OK`.  `dsp_dropped_compensation_will_drop_all` is true exactly in the first
case. -/
theorem dsp_dropped_compensation_add_drops [Inhabited α] (res : dsp_dropped_compensation_t)
    (cb : CircBuff α) (buff : List α) (size block : Nat) (hd : 0 ≤ res.difference)
    (hs : size ≤ buff.length) :
    ((size : Int) ≤ res.difference →
      dsp_dropped_compensation_add res cb buff size block =
        ({ difference := res.difference - size }, cb)) ∧
    (res.difference < size →
      (dsp_dropped_compensation_add res cb buff size block).2 =
        (cb_add cb (cells buff res.difference.toNat (size - res.difference.toNat))).1 ∧
      ((cb_add cb (cells buff res.difference.toNat (size - res.difference.toNat))).2 =
          CBStatus.CB_OK →
        (dsp_dropped_compensation_add res cb buff size block).1.difference = 0) ∧
      ((cells buff res.difference.toNat (size - res.difference.toNat)).length : Int) =
        size - res.difference ∧
      ∀ i, i < size - res.difference.toNat →
        (cells buff res.difference.toNat (size - res.difference.toNat))[i]? =
          buff[res.difference.toNat + i]?) ∧
    (dsp_dropped_compensation_will_drop_all res size block = true ↔
      (size : Int) ≤ res.difference) := by
  refine ⟨fun hle => ?_, fun hlt => ⟨?_, fun hok => ?_, ?_, fun i hi => ?_⟩, ?_⟩
  · simp [dsp_dropped_compensation_add, hle]
  · unfold dsp_dropped_compensation_add
    rw [if_neg (by omega)]
    dsimp only
    split_ifs <;> rfl
  · unfold dsp_dropped_compensation_add
    rw [if_neg (by omega)]
    dsimp only
    rw [if_pos hok]
  · rw [length_cells_le _ _ _ (by omega)]
    omega
  · rw [getElem?_cells, if_pos hi]
  · simp [dsp_dropped_compensation_will_drop_all]

/-- Witness for C12: a chunk of five cells with two still to drop, pushed into a
fresh ring buffer. -/
theorem dsp_dropped_compensation_add_drops_witness :
    (0 : Int) ≤ ({ difference := 2 } : dsp_dropped_compensation_t).difference ∧
      5 ≤ ([10, 11, 12, 13, 14] : List Nat).length ∧
      (dsp_dropped_compensation_add { difference := 2 } (cb_init 4 : CircBuff Nat)
          [10, 11, 12, 13, 14] 5 1920).2 =
        (cb_add (cb_init 4 : CircBuff Nat) [12, 13, 14]).1 ∧
      (dsp_dropped_compensation_add { difference := 2 } (cb_init 4 : CircBuff Nat)
          [10, 11, 12, 13, 14] 5 1920).1.difference = 0 :=
  ⟨by decide, by decide,
    ((dsp_dropped_compensation_add_drops { difference := 2 } (cb_init 4 : CircBuff Nat)
      [10, 11, 12, 13, 14] 5 1920 (by decide) (by decide)).2.1 (by decide)).1,
    ((dsp_dropped_compensation_add_drops { difference := 2 } (cb_init 4 : CircBuff Nat)
      [10, 11, 12, 13, 14] 5 1920 (by decide) (by decide)).2.1 (by decide)).2.1 (by decide)⟩

/-- Counterexample to C13 as stated: with `block = 100` a shift by 75 leaves
`difference = 25`; a chunk of 30 samples with `block = 10` that a freed ring
buffer refuses then leaves `difference = 25`, which is neither in `[0, 10)` nor
equal to `(10 - ((-25) mod 10)) mod 10 = 5`. -/
theorem dsp_dropped_compensation_add_refused_counterexample :
    (dsp_dropped_compensation_shift_with dsp_dropped_compensation_init 100 75).difference
        = 25 ∧
      (cb_add (cb_free (cb_init 4 : CircBuff Nat)) (cells (List.replicate 30 0) 25 5)).2 ≠
        CBStatus.CB_OK ∧
      (dsp_dropped_compensation_add
        (dsp_dropped_compensation_shift_with dsp_dropped_compensation_init 100 75)
        (cb_free (cb_init 4 : CircBuff Nat)) (List.replicate 30 0) 30 10).1.difference = 25 ∧
      ¬ ((25 : Int) < 10) ∧
      (25 : Int) ≠ (10 - (-(25 - ((30 % 10 : Nat) : Int))) % 10) % 10 := by
  decide

theorem realign_formula (b r : Int) : (b - (-r) % b) % b = r % b := by
  have h : b - (-r) % b ≡ b - (-r) [ZMOD b] := (Int.ModEq.refl b).sub (Int.mod_modEq (-r) b)
  have e : b - (-r) = r + 1 * b := by ring
  rw [h.eq, e, Int.add_mul_emod_self]

/-- C13 (amended).  Let `dsp_dropped_compensation_add` be called with
`0 ≤ difference < size`, `0 < block < 2^31` (the values the conversion of
the `uint32_t` to the `int` parameter of `dsp_dropped_cal_compensation` leaves
unchanged), and let the ring buffer refuse the write.  With `remainder = difference - size mod block`, the new difference is
`remainder` itself when `remainder ≥ 0` and `remainder mod block` when it is
negative.  Hence it is never negative, `size - old difference + new difference`
is a multiple of `block`, and whenever `remainder < block` (in particular
whenever the old difference is below `block`) it equals
`(block - ((-remainder) mod block)) mod block` and lies in `[0, block)`. -/
theorem dsp_dropped_compensation_add_refused [Inhabited α] (res : dsp_dropped_compensation_t)
    (cb : CircBuff α) (buff : List α) (size block : Nat) (hb : 0 < block)
    (hb2 : block < 2 ^ 31) (_hd : 0 ≤ res.difference) (hlt : res.difference < size)
    (hno : (cb_add cb (cells buff res.difference.toNat (size - res.difference.toNat))).2 ≠
      CBStatus.CB_OK) :
    0 ≤ (dsp_dropped_compensation_add res cb buff size block).1.difference ∧
    (block : Int) ∣ (size : Int) - res.difference +
      (dsp_dropped_compensation_add res cb buff size block).1.difference ∧
    (0 ≤ res.difference - ((size % block : Nat) : Int) →
      (dsp_dropped_compensation_add res cb buff size block).1.difference =
        res.difference - ((size % block : Nat) : Int)) ∧
    (res.difference - ((size % block : Nat) : Int) < 0 →
      (dsp_dropped_compensation_add res cb buff size block).1.difference =
        (res.difference - ((size % block : Nat) : Int)) % block) ∧
    (res.difference - ((size % block : Nat) : Int) < block →
      (dsp_dropped_compensation_add res cb buff size block).1.difference =
          (block - (-(res.difference - ((size % block : Nat) : Int))) % block) % block ∧
        (dsp_dropped_compensation_add res cb buff size block).1.difference < block) := by
  have hbi : (0 : Int) < block := by exact_mod_cast hb
  have hbi2 : (block : Int) < 2 ^ 64 := by
    have : (block : Int) < 2 ^ 31 := by exact_mod_cast hb2
    omega
  have hsm : ((size % block : Nat) : Int) = (size : Int) - block * ((size : Int) / block) := by
    rw [Int.natCast_mod, Int.emod_def]
  generalize hr : res.difference - ((size % block : Nat) : Int) = r at *
  have hval : (dsp_dropped_compensation_add res cb buff size block).1.difference =
      if r < 0 then r % block else r := by
    unfold dsp_dropped_compensation_add
    rw [if_neg (by omega)]
    dsimp only
    rw [if_neg hno, hr]
    split
    · next hneg =>
      show dsp_dropped_cal_compensation block (-r) = r % block
      rw [dsp_dropped_cal_compensation_eq block (-r) hbi hbi2 (by omega), Int.neg_neg]
    · rfl
  have hmod : (if r < 0 then r % (block : Int) else r) = r - block * (if r < 0 then r / block
      else 0) := by
    split
    · exact Int.emod_def r block
    · simp
  rw [hval]
  refine ⟨?_, ?_, fun h0 => ?_, fun hneg => ?_, fun hrb => ?_⟩
  · split
    · exact Int.emod_nonneg _ (by omega)
    · omega
  · rw [hmod]
    refine ⟨(size : Int) / block - (if r < 0 then r / block else 0), ?_⟩
    have : res.difference = r + ((size : Int) - block * ((size : Int) / block)) := by
      rw [← hsm, ← hr]; ring
    rw [this]
    ring
  · rw [if_neg (by omega)]
  · rw [if_pos hneg]
  · rw [realign_formula]
    split
    · exact ⟨(Int.emod_emod _ _).symm ▸ rfl, Int.emod_lt_of_pos _ hbi⟩
    · next hnn => exact ⟨(Int.emod_eq_of_lt (by omega) hrb).symm, hrb⟩

/-- Witness for C13 (amended): block 10, three samples still to drop, a chunk of
seven refused by a freed ring buffer. -/
theorem dsp_dropped_compensation_add_refused_witness :
    0 < 10 ∧ 10 < 2 ^ 31 ∧
      (0 : Int) ≤ ({ difference := 3 } : dsp_dropped_compensation_t).difference ∧
      (dsp_dropped_compensation_add { difference := 3 } (cb_free (cb_init 4 : CircBuff Nat))
        (List.replicate 7 0) 7 10).1.difference = (3 - ((7 % 10 : Nat) : Int)) % ((10 : Nat) : Int) :=
  ⟨by decide, by norm_num, by decide,
    (dsp_dropped_compensation_add_refused { difference := 3 }
      (cb_free (cb_init 4 : CircBuff Nat)) (List.replicate 7 0) 7 10 (by decide) (by norm_num)
      (by decide) (by decide) (by decide)).2.2.2.1 (by decide)⟩

/-! ## Properties of the resampler -/

theorem c_int_of_nonneg {x : ℚ} (h : 0 ≤ x) : c_int x = ⌊x⌋ := by
  simp [c_int, h]

theorem c_uint32_of_lt {z : Int} (h0 : 0 ≤ z) (h1 : z < 2 ^ 32) : c_uint32 z = z.toNat := by
  unfold c_uint32
  rw [Int.emod_eq_of_lt h0 h1]

theorem resample_output_samples_scenario :
    resample_output_samples dsp_resample_init 4 10 4 = 10 := by
  norm_num [resample_output_samples, dsp_resample_init, c_int, c_uint32, Int.floor_eq_iff]
  rfl

theorem resample_stored_scenario :
    resample_stored dsp_resample_init
        { extbuffer_init with
          buffer := some [0, 1, 2, 3], buffer_max_size := 4, size_valid_elements := 4,
          valid := true, cleartozero := false, calls := 1 } 10 4 1 =
      [0, 0, 0, 1, 1, 2, 2, 2, 3, 3] := by
  unfold resample_stored
  rw [if_pos (by decide)]
  dsimp only
  rw [resample_output_samples_scenario]
  rfl

theorem dsp_resample_process_scenario :
    dsp_resample_process dsp_resample_init
        { extbuffer_init with
          buffer := some [0, 1, 2, 3], buffer_max_size := 4, size_valid_elements := 4,
          valid := true, cleartozero := false, calls := 1 }
        extbuffer_init 10 4 1 =
      some ({ contrib := 0, offset := 0 },
        { extbuffer_init with
          buffer := some [0, 0, 0, 1, 1, 2, 2, 2, 3, 3], buffer_max_size := 10,
          size_valid_elements := 10, valid := true, cleartozero := false, calls := 1 }) := by
  have hp : extbuffer_preparetohandle extbuffer_init 10 =
      some { extbuffer_init with
          buffer := some (List.replicate 10 0), buffer_max_size := 10,
          size_valid_elements := 10, valid := true, cleartozero := false, calls := 1 } := rfl
  unfold dsp_resample_process
  dsimp only
  rw [resample_output_samples_scenario, hp]
  dsimp only
  rw [resample_stored_scenario, if_pos (by decide)]
  have ho : dsp_resample_init.offset + (((10 : Nat) : ℚ) * (4 / 10) - ((4 : Nat) : ℚ)) = 0 := by
    norm_num [dsp_resample_init]
  rw [ho]
  rfl

/-- Counterexample to C16 as stated: in the nearest-neighbour 4 to 10 scenario
the output buffer is not `[0,0,0,1,1,1,2,2,3,3]`. -/
theorem resample_nearest_scenario_counterexample :
    (dsp_resample_process dsp_resample_init
        { extbuffer_init with
          buffer := some [0, 1, 2, 3], buffer_max_size := 4, size_valid_elements := 4,
          valid := true, cleartozero := false, calls := 1 }
        extbuffer_init 10 4 1).map (fun r => r.2.buffer) ≠
      some (some [0, 0, 0, 1, 1, 1, 2, 2, 3, 3]) := by
  rw [dsp_resample_process_scenario]
  simp only [Option.map_some', ne_eq, Option.some.injEq, List.cons.injEq, and_true, true_and]
  norm_num

/-- C16 (amended).  With a freshly initialised resampler, input `[0,1,2,3]`,
`up = 10`, `down = 4` and nearest-neighbour mode, `dsp_resample_process`
completes, prepares the output for 10 values and stores
`[0,0,0,1,1,2,2,2,3,3]` (output `k` is input `⌊4k/10⌋`); `contrib` and `offset`
stay 0. -/
theorem resample_nearest_scenario :
    dsp_resample_process dsp_resample_init
        { extbuffer_init with
          buffer := some [0, 1, 2, 3], buffer_max_size := 4, size_valid_elements := 4,
          valid := true, cleartozero := false, calls := 1 }
        extbuffer_init 10 4 1 =
      some ({ contrib := 0, offset := 0 },
        { extbuffer_init with
          buffer := some [0, 0, 0, 1, 1, 2, 2, 2, 3, 3], buffer_max_size := 10,
          size_valid_elements := 10, valid := true, cleartozero := false, calls := 1 }) ∧
      resample_stored dsp_resample_init
        { extbuffer_init with
          buffer := some [0, 1, 2, 3], buffer_max_size := 4, size_valid_elements := 4,
          valid := true, cleartozero := false, calls := 1 } 10 4 1 =
        (List.range 10).map (fun k => ([0, 1, 2, 3] : List ℚ).getD (4 * k / 10) 0) :=
  ⟨dsp_resample_process_scenario, resample_stored_scenario.trans rfl⟩

theorem resample_output_samples_zero (res : dsp_resample_t) (upsample_by downsample_by : ℚ)
    (h : res.offset = 0) : resample_output_samples res 0 upsample_by downsample_by = 0 := by
  simp [resample_output_samples, c_int, c_uint32, h]

theorem dsp_resample_process_zero (res : dsp_resample_t) (inp out : extbuffer_t)
    (upsample_by downsample_by : ℚ) (nearest_neighbour_sampling : Int)
    (hsize : inp.size_valid_elements = 0) (h : res.offset = 0) :
    dsp_resample_process res inp out upsample_by downsample_by nearest_neighbour_sampling =
      none := by
  unfold dsp_resample_process
  dsimp only
  rw [hsize, resample_output_samples_zero res _ _ h]
  rfl

/-- Counterexample to C17 as stated: with an input ext-buffer fresh from
`extbuffer_init` (0 valid elements), a fresh resampler and `up = down = 1`, the
call does not complete in either mode: the assertion `size > 0` of
`extbuffer_preparetohandle` fails. -/
theorem resample_empty_counterexample :
    dsp_resample_process dsp_resample_init extbuffer_init extbuffer_init 1 1 1 = none ∧
      dsp_resample_process dsp_resample_init extbuffer_init extbuffer_init 1 1 0 = none :=
  ⟨dsp_resample_process_zero _ _ _ _ _ _ rfl rfl, dsp_resample_process_zero _ _ _ _ _ _ rfl rfl⟩

/-- C17 (amended).  Calling `dsp_resample_process` with an input ext-buffer
holding 0 valid elements and the resampler as `dsp_resample_init` leaves it
(any `up`, `down`, output ext-buffer and mode) computes `output_samples = 0`
and stops at the assertion `size > 0` of `extbuffer_preparetohandle`.  Nothing
has been read or written by then, and the statements after the assertion would
store nothing and leave `contrib` and `offset` as they are. -/
theorem resample_empty (inp out : extbuffer_t) (upsample_by downsample_by : ℚ)
    (nearest_neighbour_sampling : Int) (hsize : inp.size_valid_elements = 0) :
    resample_output_samples dsp_resample_init inp.size_valid_elements upsample_by
        downsample_by = 0 ∧
      extbuffer_preparetohandle out 0 = none ∧
      dsp_resample_process dsp_resample_init inp out upsample_by downsample_by
        nearest_neighbour_sampling = none ∧
      resample_stored dsp_resample_init inp upsample_by downsample_by
        nearest_neighbour_sampling = [] ∧
      (resample_area dsp_resample_init (inp.buffer.getD []) inp.size_valid_elements
        (upsample_by / downsample_by)).contrib = dsp_resample_init.contrib ∧
      dsp_resample_init.offset + (((0 : Nat) : ℚ) * (downsample_by / upsample_by) -
        (inp.size_valid_elements : Nat)) = dsp_resample_init.offset := by
  have h : resample_output_samples dsp_resample_init inp.size_valid_elements upsample_by
      downsample_by = 0 := by
    rw [hsize]; exact resample_output_samples_zero _ _ _ rfl
  refine ⟨h, rfl, dsp_resample_process_zero _ _ _ _ _ _ hsize rfl, ?_, ?_, ?_⟩
  · unfold resample_stored
    split
    · rw [h]; rfl
    · rw [hsize]; rfl
  · rw [hsize]; rfl
  · rw [hsize]
    norm_num

/-- Witness for C17 (amended): the input ext-buffer fresh from `extbuffer_init`. -/
theorem resample_empty_witness :
    extbuffer_init.size_valid_elements = 0 ∧
      dsp_resample_process dsp_resample_init extbuffer_init extbuffer_init 3 2 0 = none :=
  ⟨rfl, (resample_empty extbuffer_init extbuffer_init 3 2 0 rfl).2.2.1⟩

theorem resample_area_unit :
    resample_area dsp_resample_init [0, 1, 2, 3] 4 (1 / 1) =
      { pid := 3, contrib := 3, stored := [0, 1, 2] } := by
  norm_num [resample_area, dsp_resample_init, List.range, List.range.loop, area_step,
    area_fill]

/-- C14 (the case where the claim fails).  A fresh resampler, input `[0,1,2,3]`
and `up = down = 1`: `output_samples` is 4 and the output is prepared for 4
values, the nearest-neighbour branch stores 4 values, but the area-integration
branch stores only 3 (`pid` ends at 3), leaving the last prepared cell unwritten
and the last input sample in `contrib`. -/
theorem resample_area_count_at_unit_ratio :
    resample_output_samples dsp_resample_init 4 1 1 = 4 ∧
      (resample_stored dsp_resample_init
        { extbuffer_init with
          buffer := some [0, 1, 2, 3], buffer_max_size := 4, size_valid_elements := 4,
          valid := true, cleartozero := false, calls := 1 } 1 1 1).length = 4 ∧
      resample_area dsp_resample_init [0, 1, 2, 3] 4 (1 / 1) =
        { pid := 3, contrib := 3, stored := [0, 1, 2] } ∧
      resample_stored dsp_resample_init
        { extbuffer_init with
          buffer := some [0, 1, 2, 3], buffer_max_size := 4, size_valid_elements := 4,
          valid := true, cleartozero := false, calls := 1 } 1 1 0 = [0, 1, 2] ∧
      dsp_resample_process dsp_resample_init
        { extbuffer_init with
          buffer := some [0, 1, 2, 3], buffer_max_size := 4, size_valid_elements := 4,
          valid := true, cleartozero := false, calls := 1 }
        extbuffer_init 1 1 0 =
      some ({ contrib := 3, offset := 0 },
        { extbuffer_init with
          buffer := some [0, 1, 2, 0], buffer_max_size := 4,
          size_valid_elements := 4, valid := true, cleartozero := false, calls := 1 }) := by
  have h : resample_output_samples dsp_resample_init 4 1 1 = 4 := by
    norm_num [resample_output_samples, dsp_resample_init, c_int, c_uint32]
    rfl
  have hs1 : resample_stored dsp_resample_init
        { extbuffer_init with
          buffer := some [0, 1, 2, 3], buffer_max_size := 4, size_valid_elements := 4,
          valid := true, cleartozero := false, calls := 1 } 1 1 1 = [0, 1, 2, 3] := by
    unfold resample_stored
    rw [if_pos (by decide)]
    dsimp only
    rw [h]
    rfl
  have hs0 : resample_stored dsp_resample_init
        { extbuffer_init with
          buffer := some [0, 1, 2, 3], buffer_max_size := 4, size_valid_elements := 4,
          valid := true, cleartozero := false, calls := 1 } 1 1 0 = [0, 1, 2] := by
    unfold resample_stored
    rw [if_neg (by decide)]
    dsimp only
    show (resample_area dsp_resample_init [0, 1, 2, 3] 4 (1 / 1)).stored = _
    rw [resample_area_unit]
  have hp : extbuffer_preparetohandle extbuffer_init 4 =
      some { extbuffer_init with
          buffer := some (List.replicate 4 0), buffer_max_size := 4,
          size_valid_elements := 4, valid := true, cleartozero := false, calls := 1 } := rfl
  refine ⟨h, by rw [hs1]; rfl, resample_area_unit, hs0, ?_⟩
  unfold dsp_resample_process
  dsimp only
  rw [h, hp]
  dsimp only
  rw [hs0, if_neg (by decide)]
  have hc : (resample_area dsp_resample_init (Option.getD (some [0, 1, 2, 3]) []) 4
      (1 / 1)).contrib = 3 := by
    show (resample_area dsp_resample_init [0, 1, 2, 3] 4 (1 / 1)).contrib = 3
    rw [resample_area_unit]
  have ho : dsp_resample_init.offset + (((4 : Nat) : ℚ) * (1 / 1) - ((4 : Nat) : ℚ)) = 0 := by
    norm_num [dsp_resample_init]
  rw [hc, ho]
  rfl

theorem length_ext_alloc (old : Option (List ℚ)) (n : Nat) : (ext_alloc old n).length = n := by
  unfold ext_alloc
  split
  · simp
  · simp only [List.length_take, List.length_append, List.length_replicate]
    omega

theorem extbuffer_init_ok : ExtFloatOk extbuffer_init :=
  ⟨rfl, fun _ => rfl, fun b h => by simp [extbuffer_init] at h⟩

theorem extbuffer_resize_ok {c : extbuffer_t} (h : ExtFloatOk c) (size : Nat)
    (hs : 0 < size) :
    ∃ b, (extbuffer_resize c size).buffer = some b ∧
      b.length = (extbuffer_resize c size).buffer_max_size ∧
      size ≤ b.length ∧
      (extbuffer_resize c size).type = ExtBufferType.EXTBUFFER_TYPE_FLOAT := by
  have ht := h.is_float
  unfold extbuffer_resize
  split
  · next hc =>
    rw [ht]
    dsimp only
    cases hb : c.buffer with
    | none =>
      dsimp only
      exact ⟨_, rfl, length_ext_alloc _ _, by rw [length_ext_alloc], rfl⟩
    | some b =>
      dsimp only
      split
      · exact ⟨_, rfl, length_ext_alloc _ _, by rw [length_ext_alloc], rfl⟩
      · next hne =>
        have hl := h.cap b hb
        have : c.buffer_max_size = size := by simpa using hne
        exact ⟨b, hb, by omega, by omega, ht⟩
  · next hc =>
    have hge : size ≤ c.buffer_max_size := by
      by_contra hlt
      exact hc (Or.inl (by omega))
    cases hb : c.buffer with
    | none =>
      have := h.null_cap hb
      omega
    | some b =>
      have hl := h.cap b hb
      exact ⟨b, rfl, hl, by omega, ht⟩

theorem extbuffer_preparetohandle_ok {c : extbuffer_t} (h : ExtFloatOk c) (size : Nat)
    (hs : 0 < size) :
    ∃ o b, extbuffer_preparetohandle c size = some o ∧ o.buffer = some b ∧
      size ≤ b.length ∧ o.size_valid_elements = size ∧ b.length = o.buffer_max_size ∧
      o.type = ExtBufferType.EXTBUFFER_TYPE_FLOAT := by
  obtain ⟨b, hb, hl, hle, ht⟩ := extbuffer_resize_ok h size hs
  unfold extbuffer_preparetohandle
  rw [if_pos hs]
  dsimp only
  unfold extbuffer_clear
  dsimp only
  split
  · rw [ht]
    dsimp only
    rw [hb]
    refine ⟨_, _, rfl, rfl, ?_, rfl, ?_, rfl⟩
    · rw [length_memcpy _ _ _ (by simp; omega)]; exact hle
    · rw [length_memcpy _ _ _ (by simp; omega)]; exact hl
  · exact ⟨_, b, rfl, hb, hle, rfl, hl, ht⟩

theorem resample_output_samples_eq (res : dsp_resample_t) (size : Nat)
    (upsample_by downsample_by : ℚ)
    (h0 : 0 ≤ ((size : ℚ) - res.offset) * (upsample_by / downsample_by))
    (h1 : ((size : ℚ) - res.offset) * (upsample_by / downsample_by) < 2 ^ 31) :
    (resample_output_samples res size upsample_by downsample_by : Int) =
      ⌊((size : ℚ) - res.offset) * (upsample_by / downsample_by)⌋ := by
  have hf0 : 0 ≤ ⌊((size : ℚ) - res.offset) * (upsample_by / downsample_by)⌋ :=
    Int.floor_nonneg.mpr h0
  have hf1 : ⌊((size : ℚ) - res.offset) * (upsample_by / downsample_by)⌋ < 2 ^ 31 := by
    rw [Int.floor_lt]
    exact_mod_cast h1
  unfold resample_output_samples
  rw [c_int_of_nonneg h0, c_uint32_of_lt hf0 (by omega), Int.toNat_of_nonneg hf0]

theorem nearest_index_lt (size out k : Nat) (hk : k < out) : size * k / out < size ∨ size = 0 := by
  rcases Nat.eq_zero_or_pos size with h | h
  · exact Or.inr h
  · left
    rw [Nat.div_lt_iff_lt_mul (by omega)]
    exact Nat.mul_lt_mul_of_pos_left hk h

/-- Nearest-neighbour resampling with the `double` operations taken exactly.
Let the input hold `size > 0` valid
samples, let the output be a consistent `float` ext-buffer, let the mode be
nearest-neighbour and let `x = (size - offset) * up/down` satisfy
`1 ≤ x < 2^31`.  Then the call completes, the output is prepared for
`out = ⌊x⌋` values, and for every `k < out` output cell `k` holds input cell
`⌊size*k/out⌋`, an index below `size`; the source index is non-decreasing in
`k`; and when `up = down ≠ 0` and `offset = 0`, `out = size` and the output
cells are the input cells. -/
theorem resample_nearest_spec (res : dsp_resample_t) (inp out : extbuffer_t)
    (upsample_by downsample_by : ℚ) (nearest_neighbour_sampling : Int) (buf : List ℚ)
    (hmode : nearest_neighbour_sampling ≠ 0) (hbuf : inp.buffer = some buf)
    (hlen : inp.size_valid_elements ≤ buf.length) (hsize : 0 < inp.size_valid_elements)
    (hout : ExtFloatOk out)
    (h1 : 1 ≤ ((inp.size_valid_elements : ℚ) - res.offset) * (upsample_by / downsample_by))
    (h2 : ((inp.size_valid_elements : ℚ) - res.offset) * (upsample_by / downsample_by)
      < 2 ^ 31) :
    ∃ r o ob, dsp_resample_process res inp out upsample_by downsample_by
          nearest_neighbour_sampling = some (r, o) ∧
      o.buffer = some ob ∧
      (o.size_valid_elements : Int) =
        ⌊((inp.size_valid_elements : ℚ) - res.offset) * (upsample_by / downsample_by)⌋ ∧
      0 < o.size_valid_elements ∧
      o.size_valid_elements ≤ ob.length ∧
      r.contrib = res.contrib ∧
      (∀ k, k < o.size_valid_elements →
        inp.size_valid_elements * k / o.size_valid_elements < inp.size_valid_elements ∧
        ob[k]? = buf[inp.size_valid_elements * k / o.size_valid_elements]?) ∧
      (∀ k k1, k ≤ k1 →
        inp.size_valid_elements * k / o.size_valid_elements ≤
          inp.size_valid_elements * k1 / o.size_valid_elements) ∧
      (upsample_by = downsample_by → upsample_by ≠ 0 → res.offset = 0 →
        o.size_valid_elements = inp.size_valid_elements ∧
        ob.take inp.size_valid_elements = buf.take inp.size_valid_elements) := by
  have hos := resample_output_samples_eq res inp.size_valid_elements upsample_by downsample_by
    (by linarith) h2
  have hpos : 0 < resample_output_samples res inp.size_valid_elements upsample_by
      downsample_by := by
    have : (0 : Int) < ⌊((inp.size_valid_elements : ℚ) - res.offset) *
        (upsample_by / downsample_by)⌋ := by
      rw [Int.lt_iff_add_one_le, zero_add, Int.le_floor]
      exact_mod_cast h1
    omega
  generalize hn : resample_output_samples res inp.size_valid_elements upsample_by
    downsample_by = n at hos hpos
  obtain ⟨o1, b1, hp, hb1, hle1, hsv, _, _⟩ := extbuffer_preparetohandle_ok hout n hpos
  have hst : resample_stored res inp upsample_by downsample_by nearest_neighbour_sampling =
      resample_nearest buf inp.size_valid_elements n := by
    unfold resample_stored
    rw [if_pos hmode, hn, hbuf]
    rfl
  have hsl : (resample_nearest buf inp.size_valid_elements n).length = n := by
    simp [resample_nearest]
  have hidx : ∀ k, k < n → inp.size_valid_elements * k / n < inp.size_valid_elements := by
    intro k hk
    rcases nearest_index_lt inp.size_valid_elements n k hk with h | h
    · exact h
    · omega
  have hget : ∀ k, k < n →
      (memcpy b1 0 (resample_nearest buf inp.size_valid_elements n))[k]? =
        buf[inp.size_valid_elements * k / n]? := by
    intro k hk
    have hi := hidx k hk
    rw [getElem?_memcpy _ _ _ (by rw [hsl]; omega), if_neg (by omega), if_pos (by omega)]
    simp only [Nat.sub_zero, resample_nearest, List.getElem?_map]
    rw [List.getElem?_range hk]
    simp only [Option.map_some', List.getD_eq_getElem?_getD]
    rw [List.getElem?_eq_getElem (by omega)]
    rfl
  have hproc : dsp_resample_process res inp out upsample_by downsample_by
      nearest_neighbour_sampling =
      some ({ contrib := res.contrib
              offset := res.offset + ((n : ℚ) * (downsample_by / upsample_by) -
                inp.size_valid_elements) },
        { o1 with
          buffer := some (memcpy b1 0 (resample_nearest buf inp.size_valid_elements n)) }) := by
    unfold dsp_resample_process
    dsimp only
    rw [hn, hp]
    dsimp only
    rw [if_pos hmode, hst, hb1]
    rfl
  refine ⟨_, _, memcpy b1 0 (resample_nearest buf inp.size_valid_elements n), hproc, rfl, ?_,
    ?_, ?_, rfl, ?_, ?_, ?_⟩
  · dsimp only; rw [hsv]; exact hos
  · dsimp only; omega
  · dsimp only
    rw [length_memcpy _ _ _ (by rw [hsl]; omega)]
    omega
  · intro k hk
    dsimp only at hk ⊢
    rw [hsv] at hk ⊢
    exact ⟨hidx k hk, hget k hk⟩
  · intro k k1 hkk
    exact Nat.div_le_div_right (Nat.mul_le_mul_left _ hkk)
  · intro hud hu hoff
    have hx : ((inp.size_valid_elements : ℚ) - res.offset) * (upsample_by / downsample_by) =
        inp.size_valid_elements := by
      rw [hoff, ← hud, div_self hu]; ring
    have hns : n = inp.size_valid_elements := by
      rw [hx, Int.floor_natCast] at hos
      exact_mod_cast hos
    dsimp only
    rw [hsv]
    refine ⟨hns, ?_⟩
    apply List.ext_getElem?
    intro k
    rw [List.getElem?_take, List.getElem?_take]
    split
    · next hk =>
      rw [hget k (by omega), hns, Nat.mul_div_cancel_left k hsize]
    · rfl

/-- Example in exact arithmetic: the input `[0,1,2,3]` resampled with `up = 10`,
`down = 4` into a fresh output ext-buffer. -/
theorem resample_nearest_spec_witness :
    (1 : Int) ≠ 0 ∧ ExtFloatOk extbuffer_init ∧
      ∃ r o ob, dsp_resample_process dsp_resample_init
          { extbuffer_init with
            buffer := some [0, 1, 2, 3], buffer_max_size := 4, size_valid_elements := 4,
            valid := true, cleartozero := false, calls := 1 }
          extbuffer_init 10 4 1 = some (r, o) ∧
        o.buffer = some ob ∧ 0 < o.size_valid_elements ∧ o.size_valid_elements ≤ ob.length :=
  ⟨by decide, extbuffer_init_ok,
    let ⟨r, o, ob, hp, hb, _, h0, hl, _⟩ :=
      resample_nearest_spec dsp_resample_init
        { extbuffer_init with
          buffer := some [0, 1, 2, 3], buffer_max_size := 4, size_valid_elements := 4,
          valid := true, cleartozero := false, calls := 1 }
        extbuffer_init 10 4 1 [0, 1, 2, 3] (by decide) rfl (by decide) (by decide)
        extbuffer_init_ok (by norm_num [dsp_resample_init]) (by norm_num [dsp_resample_init])
    ⟨r, o, ob, hp, hb, h0, hl⟩⟩

/-! ## Properties of the FFT kernel -/

theorem fft_log2_loop_eq (fuel : Nat) :
    ∀ size m, size < 2 ^ fuel → fft_log2_loop fuel size m = m + Nat.log 2 size := by
  induction fuel with
  | zero =>
    intro size m h
    have : size = 0 := by simpa using h
    subst this
    simp [fft_log2_loop]
  | succ fuel ih =>
    intro size m h
    unfold fft_log2_loop
    split
    · next hne =>
      have h2 : 2 ≤ size := by
        by_contra hlt
        exact hne (Nat.div_eq_of_lt (by omega))
      rw [ih (size / 2) (m + 1) (by rw [Nat.div_lt_iff_lt_mul (by norm_num)]; rw [pow_succ] at h; exact h)]
      rw [Nat.log_of_one_lt_of_le (by norm_num) h2]
      omega
    · next heq =>
      have hlt : size < 2 := by
        by_contra hge
        have : 1 ≤ size / 2 := (Nat.le_div_iff_mul_le (by norm_num)).mpr (by omega)
        omega
      rw [Nat.log_of_lt hlt]
      rfl

theorem fft_getrealsize_eq (n : Nat) (h2 : n < 2 ^ 32) :
    fft_getrealsize n = 2 ^ Nat.log 2 n := by
  unfold fft_getrealsize
  rw [fft_log2_loop_eq 32 n 0 h2, Nat.zero_add, Nat.shiftLeft_eq, Nat.one_mul]
  apply Nat.mod_eq_of_lt
  rcases Nat.eq_zero_or_pos n with h0 | h0
  · subst h0; simp
  · exact lt_of_le_of_lt (Nat.pow_log_le_self 2 (by omega)) h2

/-- C20 (`fft_getrealsize`).  For every `n` with `1 ≤ n < 2^32` the result is
`2^⌊log2 n⌋`: a power of two `p` with `p ≤ n < 2p`; the function is idempotent
and monotone non-decreasing on that range. -/
theorem fft_getrealsize_spec (n : Nat) (h1 : 1 ≤ n) (h2 : n < 2 ^ 32) :
    fft_getrealsize n = 2 ^ Nat.log 2 n ∧
      fft_getrealsize n ≤ n ∧
      n < 2 * fft_getrealsize n ∧
      fft_getrealsize (fft_getrealsize n) = fft_getrealsize n ∧
      (∀ n1, n ≤ n1 → n1 < 2 ^ 32 → fft_getrealsize n ≤ fft_getrealsize n1) := by
  have e := fft_getrealsize_eq n h2
  have hle : 2 ^ Nat.log 2 n ≤ n := Nat.pow_log_le_self 2 (by omega)
  have hlt : n < 2 ^ (Nat.log 2 n + 1) := Nat.lt_pow_succ_log_self (by norm_num) n
  refine ⟨e, by rw [e]; exact hle, by rw [e]; rw [pow_succ] at hlt; omega, ?_, ?_⟩
  · rw [e, fft_getrealsize_eq _ (by omega), Nat.log_pow (by norm_num)]
  · intro n1 hn1 hn2
    rw [e, fft_getrealsize_eq n1 hn2]
    exact Nat.pow_le_pow_right (by norm_num) (Nat.log_mono_right hn1)

/-- Witness for C20: `fft_getrealsize 1000 = 512`. -/
theorem fft_getrealsize_spec_witness :
    1 ≤ 1000 ∧ 1000 < 2 ^ 32 ∧ fft_getrealsize 1000 = 512 ∧ fft_getrealsize 1000 ≤ 1000 ∧
      1000 < 2 * fft_getrealsize 1000 :=
  ⟨by decide, by norm_num, by decide,
    (fft_getrealsize_spec 1000 (by decide) (by norm_num)).2.1,
    (fft_getrealsize_spec 1000 (by decide) (by norm_num)).2.2.1⟩

/-! ### Bit reversal -/

theorem bitrev_lt (q : Nat) : ∀ i, bitrev q i < 2 ^ q := by
  induction q with
  | zero => intro i; simp [bitrev]
  | succ q ih =>
    intro i
    have h1 := ih (i / 2)
    have h2 : i % 2 < 2 := Nat.mod_lt _ (by norm_num)
    have h3 : i % 2 * 2 ^ q ≤ 1 * 2 ^ q := Nat.mul_le_mul_right _ (by omega)
    simp only [bitrev, pow_succ]
    omega

theorem bitrev_even (q s : Nat) : bitrev (q + 1) (2 * s) = bitrev q s := by
  simp only [bitrev, Nat.mul_mod_right, Nat.zero_mul, Nat.zero_add]
  rw [Nat.mul_div_cancel_left s (by norm_num)]

theorem bitrev_odd (q s : Nat) : bitrev (q + 1) (2 * s + 1) = bitrev q s + 2 ^ q := by
  have h1 : (2 * s + 1) % 2 = 1 := by omega
  have h2 : (2 * s + 1) / 2 = s := by omega
  simp only [bitrev, h1, h2, Nat.one_mul]
  omega

theorem bitrev_low (q : Nat) :
    ∀ i, i < 2 ^ (q + 1) → bitrev (q + 1) i = 2 * bitrev q (i % 2 ^ q) + i / 2 ^ q := by
  induction q with
  | zero =>
    intro i hi
    have : i < 2 := by simpa using hi
    simp only [bitrev, pow_zero, Nat.mod_one, Nat.div_one]
    omega
  | succ q ih =>
    intro i hi
    have hi2 : i / 2 < 2 ^ (q + 1) := by
      rw [Nat.div_lt_iff_lt_mul (by norm_num)]
      rw [pow_succ] at hi
      exact hi
    have e1 : bitrev (q + 2) i = i % 2 * 2 ^ (q + 1) + bitrev (q + 1) (i / 2) := rfl
    have e2 : bitrev (q + 1) (i % 2 ^ (q + 1)) =
        (i % 2 ^ (q + 1)) % 2 * 2 ^ q + bitrev q ((i % 2 ^ (q + 1)) / 2) := rfl
    have e3 : (i % 2 ^ (q + 1)) % 2 = i % 2 :=
      Nat.mod_mod_of_dvd i (Dvd.intro_left (2 ^ q) (pow_succ 2 q).symm)
    have e4 : (i % 2 ^ (q + 1)) / 2 = (i / 2) % 2 ^ q := by
      rw [pow_succ, Nat.mul_comm, Nat.mod_mul_right_div_self]
    have e5 : i / 2 / 2 ^ q = i / 2 ^ (q + 1) := by
      rw [Nat.div_div_eq_div_mul, pow_succ, Nat.mul_comm]
    rw [e1, ih (i / 2) hi2, e2, e3, e4, e5]
    have : 2 ^ (q + 1) = 2 * 2 ^ q := by rw [pow_succ]; ring
    rw [this]
    ring

theorem bitrev_bitrev (q : Nat) : ∀ i, i < 2 ^ q → bitrev q (bitrev q i) = i := by
  induction q with
  | zero =>
    intro i hi
    have : i = 0 := by simpa using hi
    subst this
    rfl
  | succ q ih =>
    intro i hi
    have hq : 0 < 2 ^ q := by positivity
    have hd : i / 2 ^ q < 2 := by
      rw [Nat.div_lt_iff_lt_mul hq, Nat.mul_comm, ← pow_succ]
      exact hi
    have hm : i % 2 ^ q < 2 ^ q := Nat.mod_lt _ hq
    rw [bitrev_low q i hi]
    have e1 : ∀ a d : Nat, d < 2 → (2 * a + d) % 2 = d := by intro a d h; omega
    have e2 : ∀ a d : Nat, d < 2 → (2 * a + d) / 2 = a := by intro a d h; omega
    simp only [bitrev, e1 _ _ hd, e2 _ _ hd]
    rw [ih _ hm]
    exact Nat.div_add_mod' i (2 ^ q)

theorem fft_carry_spec (q : Nat) :
    ∀ i fuel, i + 1 < 2 ^ q → q ≤ fuel →
      ∃ k j, fft_carry fuel (2 ^ q / 2) (bitrev q i) = some (k, j) ∧
        j + k = bitrev q (i + 1) := by
  induction q with
  | zero => intro i fuel hi; simp at hi
  | succ q ih =>
    intro i fuel hi hf
    obtain ⟨fuel, rfl⟩ : ∃ f, fuel = f + 1 := ⟨fuel - 1, by omega⟩
    have hk : 2 ^ (q + 1) / 2 = 2 ^ q := by
      rw [pow_succ, Nat.mul_div_cancel _ (by norm_num)]
    have hb := bitrev_lt q (i / 2)
    rw [hk]
    rcases Nat.mod_two_eq_zero_or_one i with h0 | h1
    · have e1 : bitrev (q + 1) i = bitrev q (i / 2) := by
        simp only [bitrev, h0, Nat.zero_mul, Nat.zero_add]
      have e2 : bitrev (q + 1) (i + 1) = bitrev q (i / 2) + 2 ^ q := by
        have a1 : (i + 1) % 2 = 1 := by omega
        have a2 : (i + 1) / 2 = i / 2 := by omega
        simp only [bitrev, a1, a2, Nat.one_mul]
        omega
      refine ⟨2 ^ q, bitrev q (i / 2), ?_, e2.symm⟩
      rw [e1]
      unfold fft_carry
      rw [if_neg (by omega)]
    · have e1 : bitrev (q + 1) i = 2 ^ q + bitrev q (i / 2) := by
        simp only [bitrev, h1, Nat.one_mul]
      have e2 : bitrev (q + 1) (i + 1) = bitrev q (i / 2 + 1) := by
        have a1 : (i + 1) % 2 = 0 := by omega
        have a2 : (i + 1) / 2 = i / 2 + 1 := by omega
        simp only [bitrev, a1, a2, Nat.zero_mul, Nat.zero_add]
      have hi2 : i / 2 + 1 < 2 ^ q := by
        rw [pow_succ] at hi
        omega
      obtain ⟨k, j, hc, hj⟩ := ih (i / 2) fuel hi2 (by omega)
      refine ⟨k, j, ?_, by rw [e2]; exact hj⟩
      rw [e1]
      unfold fft_carry
      rw [if_pos (by omega), Nat.add_sub_cancel_left]
      exact hc

/-! ### The decimation-in-time recurrence -/

theorem sum_range_even_odd {R : Type} [CommRing R] (f : Nat → R) (L : Nat) :
    ∑ t in Finset.range (2 * L), f t =
      ∑ t in Finset.range L, f (2 * t) + ∑ t in Finset.range L, f (2 * t + 1) := by
  induction L with
  | zero => simp
  | succ L ih =>
    have e : 2 * (L + 1) = 2 * L + 1 + 1 := by ring
    rw [e, Finset.sum_range_succ, Finset.sum_range_succ, ih, Finset.sum_range_succ,
      Finset.sum_range_succ]
    ring

theorem dit_sum_zero {R : Type} [CommRing R] (m : Nat) (ζ : R) (x : Nat → R) (s : Nat) :
    dit_sum m ζ x 0 s 0 = x (bitrev m s) := by
  simp [dit_sum]

theorem dit_sum_top {R : Type} [CommRing R] (m : Nat) (ζ : R) (x : Nat → R) (k : Nat) :
    dit_sum m ζ x m 0 k = dft_sum ζ x (2 ^ m) k := by
  simp [dit_sum, dft_sum, bitrev]

theorem dit_sum_lo {R : Type} [CommRing R] (l q : Nat) (ζ : R) (x : Nat → R) (s k : Nat) :
    dit_sum (l + q + 1) ζ x (l + 1) s k =
      dit_sum (l + q + 1) ζ x l (2 * s) k +
        ζ ^ (k * 2 ^ q) * dit_sum (l + q + 1) ζ x l (2 * s + 1) k := by
  have e1 : l + q + 1 - (l + 1) = q := by omega
  have e2 : l + q + 1 - l = q + 1 := by omega
  simp only [dit_sum, e1, e2, bitrev_even, bitrev_odd]
  rw [pow_succ 2 l, Nat.mul_comm (2 ^ l) 2, sum_range_even_odd, Finset.mul_sum]
  congr 1
  · apply Finset.sum_congr rfl
    intro t _
    congr 2 <;> ring
  · apply Finset.sum_congr rfl
    intro t _
    have a1 : bitrev q s + (2 * t + 1) * 2 ^ q = bitrev q s + 2 ^ q + t * 2 ^ (q + 1) := by ring
    have a2 : (2 * t + 1) * k * 2 ^ q = k * 2 ^ q + t * k * 2 ^ (q + 1) := by ring
    rw [a1, a2, pow_add ζ (k * 2 ^ q) _]
    ring

theorem dit_sum_hi {R : Type} [CommRing R] (l q : Nat) (ζ : R) (x : Nat → R) (s k : Nat)
    (hζ : ζ ^ (2 ^ (l + q)) = -1) :
    dit_sum (l + q + 1) ζ x (l + 1) s (k + 2 ^ l) =
      dit_sum (l + q + 1) ζ x l (2 * s) k -
        ζ ^ (k * 2 ^ q) * dit_sum (l + q + 1) ζ x l (2 * s + 1) k := by
  have e1 : l + q + 1 - (l + 1) = q := by omega
  have e2 : l + q + 1 - l = q + 1 := by omega
  have h1 : ζ ^ (2 ^ (l + q + 1)) = 1 := by
    rw [pow_succ, pow_mul, hζ]; norm_num
  simp only [dit_sum, e1, e2, bitrev_even, bitrev_odd]
  rw [pow_succ 2 l, Nat.mul_comm (2 ^ l) 2, sum_range_even_odd, Finset.mul_sum, sub_eq_add_neg,
    ← Finset.sum_neg_distrib]
  congr 1
  · apply Finset.sum_congr rfl
    intro t _
    have a2 : 2 * t * (k + 2 ^ l) * 2 ^ q = t * k * 2 ^ (q + 1) + 2 ^ (l + q + 1) * t := by
      ring
    have a1 : bitrev q s + 2 * t * 2 ^ q = bitrev q s + t * 2 ^ (q + 1) := by ring
    rw [a1, a2, pow_add ζ (t * k * 2 ^ (q + 1)) (2 ^ (l + q + 1) * t),
      pow_mul ζ (2 ^ (l + q + 1)) t, h1, one_pow, mul_one]
  · apply Finset.sum_congr rfl
    intro t _
    have a1 : bitrev q s + (2 * t + 1) * 2 ^ q = bitrev q s + 2 ^ q + t * 2 ^ (q + 1) := by ring
    have a2 : (2 * t + 1) * (k + 2 ^ l) * 2 ^ q =
        k * 2 ^ q + t * k * 2 ^ (q + 1) + 2 ^ (l + q + 1) * t + 2 ^ (l + q) := by ring
    rw [a1, a2, pow_add ζ _ (2 ^ (l + q)), pow_add ζ _ (2 ^ (l + q + 1) * t),
      pow_add ζ (k * 2 ^ q) _, pow_mul ζ (2 ^ (l + q + 1)) t, h1, one_pow, hζ]
    ring

/-! ### The array operations of `fft_perform` -/

theorem getD_set {K : Type} (l : List K) (i j : Nat) (a d : K) (hi : i < l.length) :
    (l.set i a).getD j d = if j = i then a else l.getD j d := by
  rw [List.getD_eq_getElem?_getD, List.getD_eq_getElem?_getD, List.getElem?_set]
  by_cases h : i = j
  · subst h
    simp [hi]
  · rw [if_neg h, if_neg (fun e => h e.symm)]

theorem getD_fft_swap {K : Type} [Field K] (iq : List K) (i j : Nat) (hij : i ≠ j)
    (hi : 2 * i + 1 < iq.length) (hj : 2 * j + 1 < iq.length) (idx : Nat) :
    (fft_swap iq i j).getD idx 0 =
      if idx = 2 * i then iq.getD (2 * j) 0
      else if idx = 2 * i + 1 then iq.getD (2 * j + 1) 0
      else if idx = 2 * j then iq.getD (2 * i) 0
      else if idx = 2 * j + 1 then iq.getD (2 * i + 1) 0
      else iq.getD idx 0 := by
  unfold fft_swap
  simp only [getD_set, List.length_set, hi, hj, show 2 * i < iq.length by omega,
    show 2 * j < iq.length by omega]
  split_ifs <;> first | rfl | omega

theorem length_fft_swap {K : Type} [Field K] (iq : List K) (i j : Nat) :
    (fft_swap iq i j).length = iq.length := by
  simp [fft_swap]

theorem cplx_fft_swap (iq : List ℝ) (i j : Nat) (hij : i ≠ j)
    (hi : 2 * i + 1 < iq.length) (hj : 2 * j + 1 < iq.length) (p : Nat) :
    cplx (fft_swap iq i j) p =
      if p = i then cplx iq j else if p = j then cplx iq i else cplx iq p := by
  unfold cplx
  rw [getD_fft_swap iq i j hij hi hj, getD_fft_swap iq i j hij hi hj]
  split_ifs <;> first | rfl | omega

theorem getD_fft_butterfly {K : Type} [Field K] (iq : List K) (i l1 : Nat) (u1 u2 : K)
    (hl : 0 < l1) (hi : 2 * (i + l1) + 1 < iq.length) (idx : Nat) :
    (fft_butterfly iq i l1 u1 u2).getD idx 0 =
      if idx = 2 * i then
        iq.getD (2 * i) 0 +
          (u1 * iq.getD (2 * (i + l1)) 0 - u2 * iq.getD (2 * (i + l1) + 1) 0)
      else if idx = 2 * i + 1 then
        iq.getD (2 * i + 1) 0 +
          (u1 * iq.getD (2 * (i + l1) + 1) 0 + u2 * iq.getD (2 * (i + l1)) 0)
      else if idx = 2 * (i + l1) then
        iq.getD (2 * i) 0 -
          (u1 * iq.getD (2 * (i + l1)) 0 - u2 * iq.getD (2 * (i + l1) + 1) 0)
      else if idx = 2 * (i + l1) + 1 then
        iq.getD (2 * i + 1) 0 -
          (u1 * iq.getD (2 * (i + l1) + 1) 0 + u2 * iq.getD (2 * (i + l1)) 0)
      else iq.getD idx 0 := by
  unfold fft_butterfly
  simp only [getD_set, List.length_set, hi, show 2 * i < iq.length by omega,
    show 2 * i + 1 < iq.length by omega, show 2 * (i + l1) < iq.length by omega]
  split_ifs <;> first | rfl | omega

theorem length_fft_butterfly {K : Type} [Field K] (iq : List K) (i l1 : Nat) (u1 u2 : K) :
    (fft_butterfly iq i l1 u1 u2).length = iq.length := by
  simp [fft_butterfly]

theorem cplx_fft_butterfly (iq : List ℝ) (i l1 : Nat) (u1 u2 : ℝ)
    (hl : 0 < l1) (hi : 2 * (i + l1) + 1 < iq.length) (p : Nat) :
    cplx (fft_butterfly iq i l1 u1 u2) p =
      if p = i then cplx iq i + (⟨u1, u2⟩ : ℂ) * cplx iq (i + l1)
      else if p = i + l1 then cplx iq i - (⟨u1, u2⟩ : ℂ) * cplx iq (i + l1)
      else cplx iq p := by
  unfold cplx
  rw [getD_fft_butterfly iq i l1 u1 u2 hl hi, getD_fft_butterfly iq i l1 u1 u2 hl hi]
  split_ifs <;> first | rfl | omega

/-! ### The bit-reversal loop -/

theorem bitrev_zero (q : Nat) : bitrev q 0 = 0 := by
  induction q with
  | zero => rfl
  | succ q ih => simp [bitrev, ih]

theorem fft_bitrev_upto (iq : List ℝ) (m : Nat) (hm : m ≤ 64)
    (hlen : 2 * 2 ^ m ≤ iq.length) :
    ∀ t, t + 1 ≤ 2 ^ m →
      ∃ A, (List.range t).foldlM (fft_bitrev_step (2 ^ m / 2)) (iq, 0) =
          some (A, bitrev m t) ∧
        A.length = iq.length ∧
        (∀ p, p < 2 ^ m →
          cplx A p = if p < t ∨ bitrev m p < t then cplx iq (bitrev m p) else cplx iq p) ∧
        (∀ idx, 2 * 2 ^ m ≤ idx → A.getD idx 0 = iq.getD idx 0) := by
  intro t
  induction t with
  | zero =>
    intro _
    refine ⟨iq, ?_, rfl, fun p _ => by simp, fun _ _ => rfl⟩
    rw [bitrev_zero]
    rfl
  | succ t ih =>
    intro ht
    obtain ⟨A, hA, hAl, hAc, hAf⟩ := ih (by omega)
    obtain ⟨k, j, hc, hj⟩ := fft_carry_spec m t 64 (by omega) hm
    have hr := bitrev_lt m t
    have hrr := bitrev_bitrev m t (by omega)
    rw [List.range_succ, List.foldlM_append, hA]
    by_cases hsw : t < bitrev m t
    · refine ⟨fft_swap A t (bitrev m t), ?_, ?_, ?_, ?_⟩
      · simp only [List.foldlM_cons, List.foldlM_nil, fft_bitrev_step, hc, if_pos hsw,
          Option.some_bind, Option.pure_def, Option.bind_eq_bind, hj]
      · rw [length_fft_swap, hAl]
      · intro p hp
        have hb := bitrev_lt m p
        have hbb := bitrev_bitrev m p hp
        rw [cplx_fft_swap A t (bitrev m t) (by omega) (by omega) (by omega)]
        have f1 : bitrev m p = t → p = bitrev m t := fun e => by rw [← e, hbb]
        have f2 : p = bitrev m t → bitrev m p = t := fun e => by rw [e, hrr]
        by_cases h1 : p = t
        · rw [if_pos h1, if_pos (Or.inl (by omega)), hAc _ hr, if_neg (by omega), h1]
        · by_cases h2 : p = bitrev m t
          · rw [if_neg h1, if_pos h2, if_pos (Or.inr (by have := f2 h2; omega)),
              hAc t (by omega), if_neg (by omega), f2 h2]
          · rw [if_neg h1, if_neg h2, hAc p hp]
            have h3 : bitrev m p ≠ t := fun e => h2 (f1 e)
            by_cases hc1 : p < t ∨ bitrev m p < t
            · rw [if_pos hc1, if_pos (by omega)]
            · rw [if_neg hc1, if_neg (by omega)]
      · intro idx hidx
        rw [getD_fft_swap A t (bitrev m t) (by omega) (by omega) (by omega),
          if_neg (by omega), if_neg (by omega), if_neg (by omega), if_neg (by omega),
          hAf idx hidx]
    · refine ⟨A, ?_, hAl, ?_, hAf⟩
      · simp only [List.foldlM_cons, List.foldlM_nil, fft_bitrev_step, hc, if_neg hsw,
          Option.some_bind, Option.pure_def, Option.bind_eq_bind, hj]
      · intro p hp
        have hb := bitrev_lt m p
        have hbb := bitrev_bitrev m p hp
        have f1 : bitrev m p = t → p = bitrev m t := fun e => by rw [← e, hbb]
        have f2 : p = bitrev m t → bitrev m p = t := fun e => by rw [e, hrr]
        rw [hAc p hp]
        by_cases hc1 : p < t ∨ bitrev m p < t
        · rw [if_pos hc1, if_pos (by omega)]
        · by_cases hc2 : p < t + 1 ∨ bitrev m p < t + 1
          · rw [if_neg hc1, if_pos hc2]
            have hpt : p = t := by
              rcases hc2 with h | h
              · omega
              · have := f1 (by omega); omega
            subst hpt
            have : bitrev m p = p := by omega
            rw [this]
          · rw [if_neg hc1, if_neg hc2]

theorem fft_bitrev_spec (iq : List ℝ) (m : Nat) (hm : m ≤ 64)
    (hlen : 2 * 2 ^ m ≤ iq.length) :
    ∃ A, fft_bitrev iq (2 ^ m) = some A ∧ A.length = iq.length ∧
      (∀ p, p < 2 ^ m → cplx A p = cplx iq (bitrev m p)) ∧
      (∀ idx, 2 * 2 ^ m ≤ idx → A.getD idx 0 = iq.getD idx 0) := by
  have hpos : 0 < 2 ^ m := by positivity
  obtain ⟨A, hA, hAl, hAc, hAf⟩ := fft_bitrev_upto iq m hm hlen (2 ^ m - 1) (by omega)
  refine ⟨A, ?_, hAl, ?_, hAf⟩
  · unfold fft_bitrev
    rw [hA]
    rfl
  · intro p hp
    rw [hAc p hp]
    have hb := bitrev_lt m p
    have hbb := bitrev_bitrev m p hp
    split
    · rfl
    · next hn =>
      have h1 : p = 2 ^ m - 1 := by omega
      have h2 : bitrev m p = 2 ^ m - 1 := by omega
      rw [h2, ← h1]

/-! ### The butterfly loops of one level -/

theorem coord_step (l2 a b : Nat) (h : a < b) : a * l2 + l2 ≤ b * l2 := by
  have := Nat.mul_le_mul_right l2 (Nat.succ_le_of_lt h)
  rw [Nat.succ_mul] at this
  exact this

theorem fft_inner_spec (nn l1 l2 S : Nat) (u1 u2 : ℝ) (j : Nat) (hl1 : 0 < l1)
    (hl2 : l2 = l1 * 2) (hj : j < l1) (hnn : nn = S * l2) :
    ∀ fuel s0 (iq : List ℝ), s0 ≤ S → S - s0 < fuel → 2 * nn ≤ iq.length →
      (fft_inner nn l1 l2 u1 u2 fuel (s0 * l2 + j) iq).length = iq.length ∧
      (∀ idx, 2 * nn ≤ idx →
        (fft_inner nn l1 l2 u1 u2 fuel (s0 * l2 + j) iq).getD idx 0 = iq.getD idx 0) ∧
      (∀ s k, s < S → k < l1 →
        cplx (fft_inner nn l1 l2 u1 u2 fuel (s0 * l2 + j) iq) (s * l2 + k) =
          if s0 ≤ s ∧ k = j then
            cplx iq (s * l2 + k) + (⟨u1, u2⟩ : ℂ) * cplx iq (s * l2 + k + l1)
          else cplx iq (s * l2 + k)) ∧
      (∀ s k, s < S → k < l1 →
        cplx (fft_inner nn l1 l2 u1 u2 fuel (s0 * l2 + j) iq) (s * l2 + k + l1) =
          if s0 ≤ s ∧ k = j then
            cplx iq (s * l2 + k) - (⟨u1, u2⟩ : ℂ) * cplx iq (s * l2 + k + l1)
          else cplx iq (s * l2 + k + l1)) := by
  intro fuel
  induction fuel with
  | zero => intro s0 iq _ h _; omega
  | succ fuel ih =>
    intro s0 iq hs0 hfuel hlen
    simp only [fft_inner]
    by_cases h : s0 < S
    · have hk0 := coord_step l2 s0 S h
      have hi : s0 * l2 + j < nn := by omega
      have hbl : 2 * (s0 * l2 + j + l1) + 1 < iq.length := by omega
      have e : s0 * l2 + j + l2 = (s0 + 1) * l2 + j := by rw [Nat.succ_mul]; omega
      rw [if_pos hi, e]
      obtain ⟨h1, h2, h3, h4⟩ := ih (s0 + 1) (fft_butterfly iq (s0 * l2 + j) l1 u1 u2)
        (by omega) (by omega) (by rw [length_fft_butterfly]; exact hlen)
      have hbf := cplx_fft_butterfly iq (s0 * l2 + j) l1 u1 u2 hl1 hbl
      refine ⟨by rw [h1, length_fft_butterfly], ?_, ?_, ?_⟩
      · intro idx hidx
        rw [h2 idx hidx, getD_fft_butterfly _ _ _ _ _ hl1 hbl]
        split_ifs <;> first | rfl | omega
      · intro s k hs hk
        rw [h3 s k hs hk]
        simp only [hbf]
        by_cases hkj : k = j
        · subst hkj
          rcases Nat.lt_trichotomy s s0 with hlt | heq | hgt
          · have := coord_step l2 s s0 hlt
            split_ifs <;> first | rfl | omega
          · subst heq
            split_ifs <;> first | rfl | omega
          · have := coord_step l2 s0 s hgt
            split_ifs <;> first | rfl | omega
        · rcases Nat.lt_trichotomy s s0 with hlt | heq | hgt
          · have := coord_step l2 s s0 hlt
            split_ifs <;> first | rfl | omega
          · subst heq
            split_ifs <;> first | rfl | omega
          · have := coord_step l2 s0 s hgt
            split_ifs <;> first | rfl | omega
      · intro s k hs hk
        rw [h4 s k hs hk]
        simp only [hbf]
        by_cases hkj : k = j
        · subst hkj
          rcases Nat.lt_trichotomy s s0 with hlt | heq | hgt
          · have := coord_step l2 s s0 hlt
            split_ifs <;> first | rfl | omega
          · subst heq
            split_ifs <;> first | rfl | omega
          · have := coord_step l2 s0 s hgt
            split_ifs <;> first | rfl | omega
        · rcases Nat.lt_trichotomy s s0 with hlt | heq | hgt
          · have := coord_step l2 s s0 hlt
            split_ifs <;> first | rfl | omega
          · subst heq
            split_ifs <;> first | rfl | omega
          · have := coord_step l2 s0 s hgt
            split_ifs <;> first | rfl | omega
    · have hS : s0 = S := by omega
      have hi : ¬ s0 * l2 + j < nn := by subst hS; omega
      rw [if_neg hi]
      refine ⟨rfl, fun _ _ => rfl, ?_, ?_⟩
      · intro s k hs hk
        rw [if_neg (by omega)]
      · intro s k hs hk
        rw [if_neg (by omega)]

theorem fft_groups_spec (nn l1 l2 S : Nat) (c1 c2 : ℝ) (iq : List ℝ) (hl1 : 0 < l1)
    (hl2 : l2 = l1 * 2) (hnn : nn = S * l2) (hlen : 2 * nn ≤ iq.length) :
    ∀ J, J ≤ l1 →
      ∃ A u1 u2, (List.range J).foldl (fft_group nn l1 l2 c1 c2) (iq, 1, 0) = (A, u1, u2) ∧
        A.length = iq.length ∧
        (∀ idx, 2 * nn ≤ idx → A.getD idx 0 = iq.getD idx 0) ∧
        (⟨u1, u2⟩ : ℂ) = (⟨c1, c2⟩ : ℂ) ^ J ∧
        (∀ s k, s < S → k < l1 →
          cplx A (s * l2 + k) =
            if k < J then
              cplx iq (s * l2 + k) + (⟨c1, c2⟩ : ℂ) ^ k * cplx iq (s * l2 + k + l1)
            else cplx iq (s * l2 + k)) ∧
        (∀ s k, s < S → k < l1 →
          cplx A (s * l2 + k + l1) =
            if k < J then
              cplx iq (s * l2 + k) - (⟨c1, c2⟩ : ℂ) ^ k * cplx iq (s * l2 + k + l1)
            else cplx iq (s * l2 + k + l1)) := by
  intro J
  induction J with
  | zero =>
    intro _
    refine ⟨iq, 1, 0, rfl, rfl, fun _ _ => rfl, ?_, ?_, ?_⟩
    · rw [pow_zero]; rfl
    · intro s k _ _; rw [if_neg (by omega)]
    · intro s k _ _; rw [if_neg (by omega)]
  | succ J ih =>
    intro hJ
    obtain ⟨A, u1, u2, hA, hAl, hAf, hu, hlo, hhi⟩ := ih (by omega)
    have hSn : S ≤ nn := by
      rw [hnn]; exact Nat.le_mul_of_pos_right S (by omega)
    have hin := fft_inner_spec nn l1 l2 S u1 u2 J hl1 hl2 (by omega) hnn (nn + 1) 0 A
      (by omega) (by omega) (by omega)
    rw [Nat.zero_mul, Nat.zero_add] at hin
    obtain ⟨h1, h2, h3, h4⟩ := hin
    rw [List.range_succ, List.foldl_append, hA]
    refine ⟨_, _, _, rfl, by rw [h1, hAl], ?_, ?_, ?_, ?_⟩
    · intro idx hidx
      rw [h2 idx hidx, hAf idx hidx]
    · rw [pow_succ, ← hu]
      apply Complex.ext <;> simp
    · intro s k hs hk
      rw [h3 s k hs hk]
      by_cases hkJ : k = J
      · subst hkJ
        rw [if_pos ⟨Nat.zero_le _, rfl⟩, if_pos (by omega), hlo s k hs hk, if_neg (by omega),
          hhi s k hs hk, if_neg (by omega), hu]
      · rw [if_neg (by omega), hlo s k hs hk]
        by_cases hlt : k < J
        · rw [if_pos hlt, if_pos (by omega)]
        · rw [if_neg hlt, if_neg (by omega)]
    · intro s k hs hk
      rw [h4 s k hs hk]
      by_cases hkJ : k = J
      · subst hkJ
        rw [if_pos ⟨Nat.zero_le _, rfl⟩, if_pos (by omega), hlo s k hs hk, if_neg (by omega),
          hhi s k hs hk, if_neg (by omega), hu]
      · rw [if_neg (by omega), hhi s k hs hk]
        by_cases hlt : k < J
        · rw [if_pos hlt, if_pos (by omega)]
        · rw [if_neg hlt, if_neg (by omega)]

/-! ### One level and the level loop -/

theorem fft_level_spec (sqrt : ℝ → ℝ) (m l : Nat) (inverse : Int) (st : FftLevel ℝ)
    (x : Nat) (hl : l < m) (hl2 : st.l2 = 2 ^ l) (hlen : 2 * 2 ^ m ≤ st.iq.length) :
    (fft_level sqrt (2 ^ m) inverse st x).l2 = 2 ^ (l + 1) ∧
    (fft_level sqrt (2 ^ m) inverse st x).c1 = sqrt ((1 + st.c1) / 2) ∧
    (fft_level sqrt (2 ^ m) inverse st x).c2 =
      (if inverse = 0 then -sqrt ((1 - st.c1) / 2) else sqrt ((1 - st.c1) / 2)) ∧
    (fft_level sqrt (2 ^ m) inverse st x).iq.length = st.iq.length ∧
    (∀ idx, 2 * 2 ^ m ≤ idx →
      (fft_level sqrt (2 ^ m) inverse st x).iq.getD idx 0 = st.iq.getD idx 0) ∧
    (∀ s k, s < 2 ^ (m - l - 1) → k < 2 ^ l →
      cplx (fft_level sqrt (2 ^ m) inverse st x).iq (s * 2 ^ (l + 1) + k) =
        cplx st.iq (s * 2 ^ (l + 1) + k) +
          (⟨st.c1, st.c2⟩ : ℂ) ^ k * cplx st.iq (s * 2 ^ (l + 1) + k + 2 ^ l)) ∧
    (∀ s k, s < 2 ^ (m - l - 1) → k < 2 ^ l →
      cplx (fft_level sqrt (2 ^ m) inverse st x).iq (s * 2 ^ (l + 1) + k + 2 ^ l) =
        cplx st.iq (s * 2 ^ (l + 1) + k) -
          (⟨st.c1, st.c2⟩ : ℂ) ^ k * cplx st.iq (s * 2 ^ (l + 1) + k + 2 ^ l)) := by
  have hpos : 0 < 2 ^ l := by positivity
  have hnn : 2 ^ m = 2 ^ (m - l - 1) * (2 ^ l * 2) := by
    rw [← pow_succ, ← pow_add]
    congr 1
    omega
  obtain ⟨A, u1, u2, hA, hAl, hAf, _, hlo, hhi⟩ :=
    fft_groups_spec (2 ^ m) (2 ^ l) (2 ^ l * 2) (2 ^ (m - l - 1)) st.c1 st.c2 st.iq hpos rfl
      hnn hlen (2 ^ l) (le_refl _)
  simp only [fft_level, hl2, hA]
  refine ⟨(pow_succ 2 l).symm, trivial, trivial, hAl, hAf, ?_, ?_⟩
  · intro s k hs hk
    rw [pow_succ, hlo s k hs hk, if_pos hk]
  · intro s k hs hk
    rw [pow_succ, hhi s k hs hk, if_pos hk]

theorem twiddle_half (inverse : Int) (l : Nat) :
    Real.sqrt ((1 + Real.cos (Real.pi / 2 ^ l)) / 2) = Real.cos (Real.pi / 2 ^ (l + 1)) ∧
    (if inverse = 0 then -Real.sqrt ((1 - Real.cos (Real.pi / 2 ^ l)) / 2)
      else Real.sqrt ((1 - Real.cos (Real.pi / 2 ^ l)) / 2)) =
      (if inverse = 0 then -1 else 1) * Real.sin (Real.pi / 2 ^ (l + 1)) := by
  have hp := Real.pi_pos
  have h2 : (1 : ℝ) ≤ 2 ^ l := one_le_pow₀ (by norm_num)
  have h0 : 0 ≤ Real.pi / 2 ^ l := by positivity
  have h1 : Real.pi / 2 ^ l ≤ Real.pi := div_le_self hp.le h2
  have e : Real.pi / 2 ^ (l + 1) = Real.pi / 2 ^ l / 2 := by
    rw [pow_succ, div_div]
  rw [e, Real.cos_half (by linarith) h1, Real.sin_half_eq_sqrt h0 (by linarith)]
  refine ⟨rfl, ?_⟩
  split_ifs <;> simp

theorem fft_levels_spec (m : Nat) (inverse : Int) (A0 : List ℝ) (ζ : ℂ) (X : Nat → ℂ)
    (hζ : ∀ l, l < m →
      (⟨Real.cos (Real.pi / 2 ^ l),
        (if inverse = 0 then -1 else 1) * Real.sin (Real.pi / 2 ^ l)⟩ : ℂ) =
        ζ ^ (2 ^ (m - l - 1)))
    (hA0 : ∀ p, p < 2 ^ m → cplx A0 p = X (bitrev m p)) (hlen : 2 * 2 ^ m ≤ A0.length) :
    ∀ l, l ≤ m →
      ∃ st, (List.range l).foldl (fft_level Real.sqrt (2 ^ m) inverse)
          { iq := A0, c1 := -1, c2 := 0, l2 := 1 } = st ∧
        st.l2 = 2 ^ l ∧
        st.c1 = Real.cos (Real.pi / 2 ^ l) ∧
        st.c2 = (if inverse = 0 then -1 else 1) * Real.sin (Real.pi / 2 ^ l) ∧
        st.iq.length = A0.length ∧
        (∀ idx, 2 * 2 ^ m ≤ idx → st.iq.getD idx 0 = A0.getD idx 0) ∧
        (∀ s k, s < 2 ^ (m - l) → k < 2 ^ l →
          cplx st.iq (s * 2 ^ l + k) = dit_sum m ζ X l s k) := by
  intro l
  induction l with
  | zero =>
    intro _
    refine ⟨_, rfl, rfl, by simp, by simp, rfl, fun _ _ => rfl, ?_⟩
    intro s k hs hk
    have hk0 : k = 0 := by simpa using hk
    subst hk0
    rw [dit_sum_zero, pow_zero, Nat.mul_one, Nat.add_zero]
    exact hA0 s (by simpa using hs)
  | succ l ih =>
    intro hl
    obtain ⟨st, hst, hl2, hc1, hc2, hAl, hAf, hA⟩ := ih (by omega)
    obtain ⟨q, hq⟩ : ∃ q, m = l + q + 1 := ⟨m - l - 1, by omega⟩
    have hW := hζ l (by omega)
    have hm1 := hζ 0 (by omega)
    have hneg : ζ ^ (2 ^ (l + q)) = -1 := by
      have e : m - 0 - 1 = l + q := by omega
      rw [e] at hm1
      rw [← hm1]
      apply Complex.ext <;> simp
    have eq1 : m - l - 1 = q := by omega
    rw [eq1] at hW
    obtain ⟨g1, g2, g3, g4, g5, g6, g7⟩ :=
      fft_level_spec Real.sqrt m l inverse st l (by omega) hl2 (by rw [hAl]; exact hlen)
    rw [List.range_succ, List.foldl_append, hst, List.foldl_cons, List.foldl_nil]
    refine ⟨_, rfl, g1, ?_, ?_, by rw [g4, hAl], ?_, ?_⟩
    · rw [g2, hc1]; exact (twiddle_half inverse l).1
    · rw [g3, hc1]; exact (twiddle_half inverse l).2
    · intro idx hidx
      rw [g5 idx hidx, hAf idx hidx]
    · intro s r hs hr
      have hs1 : s < 2 ^ (m - l - 1) := by
        have : m - (l + 1) = m - l - 1 := by omega
        rw [← this]; exact hs
      have hsl : 2 * s + 1 < 2 ^ (m - l) := by
        have : m - l = (m - l - 1) + 1 := by omega
        rw [this, pow_succ]; omega
      have ea : ∀ k, s * 2 ^ (l + 1) + k = (2 * s) * 2 ^ l + k := by
        intro k; rw [pow_succ]; ring
      have eb : ∀ k, s * 2 ^ (l + 1) + k + 2 ^ l = (2 * s + 1) * 2 ^ l + k := by
        intro k; rw [pow_succ]; ring
      have hWk : ∀ k, (⟨st.c1, st.c2⟩ : ℂ) ^ k = ζ ^ (k * 2 ^ q) := by
        intro k
        rw [hc1, hc2, hW, ← pow_mul, Nat.mul_comm]
      have hlo := dit_sum_lo l q ζ X s
      have hhi := fun k => dit_sum_hi l q ζ X s k hneg
      rw [← hq] at hlo hhi
      by_cases hr1 : r < 2 ^ l
      · rw [g6 s r hs1 hr1, eb, ea, hA (2 * s) r (by omega) hr1,
          hA (2 * s + 1) r hsl hr1, hWk, hlo]
      · have hr2 : r - 2 ^ l < 2 ^ l := by rw [pow_succ] at hr; omega
        have er : s * 2 ^ (l + 1) + r = s * 2 ^ (l + 1) + (r - 2 ^ l) + 2 ^ l := by omega
        have er2 : r = (r - 2 ^ l) + 2 ^ l := by omega
        rw [er, g7 s (r - 2 ^ l) hs1 hr2, eb, ea, hA (2 * s) _ (by omega) hr2,
          hA (2 * s + 1) _ hsl hr2, hWk]
        conv_rhs => rw [er2]
        rw [hhi]

/-! ### Normalisation and the whole transform -/

theorem fft_scale_upto (nn : Nat) (iq : List ℝ) (hlen : 2 * nn ≤ iq.length) :
    ∀ t, t ≤ nn →
      ((List.range t).foldl (fun a i =>
          let a1 := a.set (2 * i) (a.getD (2 * i) 0 / (nn : ℝ))
          a1.set (2 * i + 1) (a1.getD (2 * i + 1) 0 / (nn : ℝ))) iq).length = iq.length ∧
      ∀ idx, ((List.range t).foldl (fun a i =>
          let a1 := a.set (2 * i) (a.getD (2 * i) 0 / (nn : ℝ))
          a1.set (2 * i + 1) (a1.getD (2 * i + 1) 0 / (nn : ℝ))) iq).getD idx 0 =
        if idx < 2 * t then iq.getD idx 0 / (nn : ℝ) else iq.getD idx 0 := by
  intro t
  induction t with
  | zero => intro _; exact ⟨rfl, fun idx => by rw [if_neg (by omega)]; rfl⟩
  | succ t ih =>
    intro ht
    obtain ⟨h1, h2⟩ := ih (by omega)
    rw [List.range_succ, List.foldl_append, List.foldl_cons, List.foldl_nil]
    generalize (List.range t).foldl (fun a i =>
          let a1 := a.set (2 * i) (a.getD (2 * i) 0 / (nn : ℝ))
          a1.set (2 * i + 1) (a1.getD (2 * i + 1) 0 / (nn : ℝ))) iq = A at h1 h2 ⊢
    refine ⟨by simp only [List.length_set]; exact h1, ?_⟩
    intro idx
    dsimp only
    have hl0 : 2 * t < A.length := by omega
    rw [getD_set (A.set (2 * t) (A.getD (2 * t) 0 / (nn : ℝ))) (2 * t + 1) idx _ 0
        (by rw [List.length_set]; omega),
      getD_set A (2 * t) (2 * t + 1) _ 0 hl0, getD_set A (2 * t) idx _ 0 hl0]
    simp only [h2]
    split_ifs <;> first | rfl | omega | (subst_vars; rfl)

theorem cplx_fft_scale (nn : Nat) (iq : List ℝ) (hlen : 2 * nn ≤ iq.length) :
    (fft_scale nn iq).length = iq.length ∧
    (∀ p, p < nn → cplx (fft_scale nn iq) p = ((nn : ℂ))⁻¹ * cplx iq p) ∧
    (∀ idx, 2 * nn ≤ idx → (fft_scale nn iq).getD idx 0 = iq.getD idx 0) := by
  obtain ⟨h1, h2⟩ := fft_scale_upto nn iq hlen nn (le_refl _)
  refine ⟨h1, ?_, ?_⟩
  · intro p hp
    unfold cplx fft_scale
    rw [h2, h2, if_pos (by omega), if_pos (by omega)]
    have e : ((nn : ℂ))⁻¹ = ((((nn : ℝ))⁻¹ : ℝ) : ℂ) := by push_cast; rfl
    rw [e]
    apply Complex.ext
    · rw [Complex.re_ofReal_mul]; exact div_eq_inv_mul _ _
    · rw [Complex.im_ofReal_mul]; exact div_eq_inv_mul _ _
  · intro idx hidx
    unfold fft_scale
    rw [h2, if_neg (by omega)]

theorem zeta_twiddle (m : Nat) (inverse : Int) :
    ∀ l, l < m →
      (⟨Real.cos (Real.pi / 2 ^ l),
        (if inverse = 0 then -1 else 1) * Real.sin (Real.pi / 2 ^ l)⟩ : ℂ) =
        Complex.exp ((((if inverse = 0 then -1 else 1) * (2 * Real.pi / 2 ^ m) : ℝ) : ℂ) *
          Complex.I) ^ (2 ^ (m - l - 1)) := by
  intro l hl
  obtain ⟨q, rfl⟩ : ∃ q, m = l + q + 1 := ⟨m - l - 1, by omega⟩
  have eq1 : l + q + 1 - l - 1 = q := by omega
  rw [eq1, ← Complex.exp_nat_mul]
  have e : ((2 ^ q : ℕ) : ℂ) *
      ((((if inverse = 0 then -1 else 1) * (2 * Real.pi / 2 ^ (l + q + 1)) : ℝ) : ℂ) *
        Complex.I) =
      ((((if inverse = 0 then -1 else 1) * (Real.pi / 2 ^ l) : ℝ) : ℂ)) * Complex.I := by
    rw [← mul_assoc]
    congr 1
    rw [← Complex.ofReal_natCast, ← Complex.ofReal_mul]
    congr 1
    push_cast
    rw [pow_succ, pow_add]
    field_simp
    ring_nf
  rw [e]
  apply Complex.ext
  · rw [Complex.exp_ofReal_mul_I_re]
    split_ifs <;> simp
  · rw [Complex.exp_ofReal_mul_I_im]
    split_ifs <;> simp

theorem fft_perform_core (iq : List ℝ) (size : Nat) (inverse : Int) (hsize : size < 2 ^ 32)
    (hlen : 2 * 2 ^ Nat.log 2 size ≤ iq.length) :
    ∃ out, fft_perform Real.sqrt iq size inverse = some out ∧ out.length = iq.length ∧
      (∀ k, k < 2 ^ Nat.log 2 size →
        cplx out k =
          (if inverse = 0 then (((2 ^ Nat.log 2 size : ℕ) : ℂ))⁻¹ else 1) *
            dft_sum
              (Complex.exp ((((if inverse = 0 then -1 else 1) *
                (2 * Real.pi / 2 ^ Nat.log 2 size) : ℝ) : ℂ) * Complex.I))
              (cplx iq) (2 ^ Nat.log 2 size) k) ∧
      (∀ idx, 2 * 2 ^ Nat.log 2 size ≤ idx → out.getD idx 0 = iq.getD idx 0) := by
  generalize hm : Nat.log 2 size = m at hlen ⊢
  have hm32 : m < 32 := by
    rcases Nat.eq_zero_or_pos size with h0 | h0
    · subst h0; simp at hm; omega
    · rw [← hm]; exact Nat.log_lt_of_lt_pow (by omega) hsize
  have hlog : fft_log2_loop 32 size 0 = m := by
    rw [fft_log2_loop_eq 32 size 0 hsize, Nat.zero_add, hm]
  have hnn : (1 <<< m) % 2 ^ 32 = 2 ^ m := by
    rw [Nat.shiftLeft_eq, Nat.one_mul]
    exact Nat.mod_eq_of_lt (Nat.pow_lt_pow_right (by norm_num) hm32)
  obtain ⟨A0, hbr, hA0l, hA0c, hA0f⟩ := fft_bitrev_spec iq m (by omega) hlen
  obtain ⟨st, hst, _, _, _, hsl, hsf, hsc⟩ :=
    fft_levels_spec m inverse A0 _ (cplx iq) (zeta_twiddle m inverse) hA0c
      (by rw [hA0l]; exact hlen) m (le_refl _)
  have hdft : ∀ k, k < 2 ^ m → cplx st.iq k =
      dft_sum (Complex.exp ((((if inverse = 0 then -1 else 1) *
        (2 * Real.pi / 2 ^ m) : ℝ) : ℂ) * Complex.I)) (cplx iq) (2 ^ m) k := by
    intro k hk
    have := hsc 0 k (by simp) hk
    rw [Nat.zero_mul, Nat.zero_add] at this
    rw [this, dit_sum_top]
  simp only [fft_perform, hlog, hnn, hbr, hst]
  by_cases hinv : inverse = 0
  · obtain ⟨g1, g2, g3⟩ := cplx_fft_scale (2 ^ m) st.iq (by rw [hsl, hA0l]; exact hlen)
    refine ⟨_, rfl, ?_, ?_, ?_⟩
    · rw [if_pos hinv, g1, hsl, hA0l]
    · intro k hk
      rw [if_pos hinv, if_pos hinv, g2 k hk, hdft k hk]
    · intro idx hidx
      rw [if_pos hinv, g3 idx hidx, hsf idx hidx, hA0f idx hidx]
  · refine ⟨_, rfl, ?_, ?_, ?_⟩
    · rw [if_neg hinv, hsl, hA0l]
    · intro k hk
      rw [if_neg hinv, if_neg hinv, hdft k hk, one_mul]
    · intro idx hidx
      rw [if_neg hinv, hsf idx hidx, hA0f idx hidx]

/-! ### Inversion of the transform -/

theorem list_eq_of_cplx (out iq : List ℝ) (n : Nat) (hl : out.length = iq.length)
    (hc : ∀ k, k < n → cplx out k = cplx iq k)
    (hf : ∀ idx, 2 * n ≤ idx → out.getD idx 0 = iq.getD idx 0) : out = iq := by
  have hg : ∀ idx, out.getD idx 0 = iq.getD idx 0 := by
    intro idx
    by_cases h : 2 * n ≤ idx
    · exact hf idx h
    · have hk := hc (idx / 2) (by omega)
      rcases Nat.mod_two_eq_zero_or_one idx with h0 | h1
      · have e : idx = 2 * (idx / 2) := by omega
        rw [e]
        exact congrArg Complex.re hk
      · have e : idx = 2 * (idx / 2) + 1 := by omega
        rw [e]
        exact congrArg Complex.im hk
  apply List.ext_getElem hl
  intro i h1 h2
  have := hg i
  rw [List.getD_eq_getElem _ _ h1, List.getD_eq_getElem _ _ h2] at this
  exact this

theorem fft_bitrev_counter {K : Type} [Field K] (iq : List K) (m : Nat) (hm : m ≤ 64) :
    ∀ t, t + 1 ≤ 2 ^ m →
      ∃ A, (List.range t).foldlM (fft_bitrev_step (2 ^ m / 2)) (iq, 0) =
          some (A, bitrev m t) ∧ A.length = iq.length := by
  intro t
  induction t with
  | zero =>
    intro _
    refine ⟨iq, ?_, rfl⟩
    rw [bitrev_zero]
    rfl
  | succ t ih =>
    intro ht
    obtain ⟨A, hA, hAl⟩ := ih (by omega)
    obtain ⟨k, j, hc, hj⟩ := fft_carry_spec m t 64 (by omega) hm
    rw [List.range_succ, List.foldlM_append, hA]
    by_cases hsw : t < bitrev m t
    · refine ⟨fft_swap A t (bitrev m t), ?_, by rw [length_fft_swap, hAl]⟩
      simp only [List.foldlM_cons, List.foldlM_nil, fft_bitrev_step, hc, if_pos hsw,
        Option.some_bind, Option.pure_def, Option.bind_eq_bind, hj]
    · refine ⟨A, ?_, hAl⟩
      simp only [List.foldlM_cons, List.foldlM_nil, fft_bitrev_step, hc, if_neg hsw,
        Option.some_bind, Option.pure_def, Option.bind_eq_bind, hj]

theorem fft_bitrev_some {K : Type} [Field K] (iq : List K) (m : Nat) (hm : m ≤ 64) :
    ∃ A, fft_bitrev iq (2 ^ m) = some A ∧ A.length = iq.length := by
  have hpos : 0 < 2 ^ m := by positivity
  obtain ⟨A, hA, hAl⟩ := fft_bitrev_counter iq m hm (2 ^ m - 1) (by omega)
  refine ⟨A, ?_, hAl⟩
  unfold fft_bitrev
  rw [hA]
  rfl

theorem length_fft_inner {K : Type} [Field K] (nn l1 l2 : Nat) (u1 u2 : K) :
    ∀ fuel i (iq : List K), (fft_inner nn l1 l2 u1 u2 fuel i iq).length = iq.length := by
  intro fuel
  induction fuel with
  | zero => intro i iq; rfl
  | succ fuel ih =>
    intro i iq
    simp only [fft_inner]
    split
    · rw [ih, length_fft_butterfly]
    · rfl

theorem length_fft_groups {K : Type} [Field K] (nn l1 l2 : Nat) (c1 c2 : K) (js : List Nat) :
    ∀ st : List K × K × K,
      (js.foldl (fft_group nn l1 l2 c1 c2) st).1.length = st.1.length := by
  induction js with
  | nil => intro st; rfl
  | cons j js ih =>
    intro st
    rw [List.foldl_cons, ih]
    exact length_fft_inner nn l1 l2 _ _ _ _ _

theorem length_fft_level {K : Type} [Field K] (sqrt : K → K) (nn : Nat) (inverse : Int)
    (st : FftLevel K) (l : Nat) : (fft_level sqrt nn inverse st l).iq.length = st.iq.length := by
  unfold fft_level
  exact length_fft_groups nn _ _ _ _ _ _

theorem length_fft_levels {K : Type} [Field K] (sqrt : K → K) (nn : Nat) (inverse : Int)
    (ls : List Nat) :
    ∀ st : FftLevel K, (ls.foldl (fft_level sqrt nn inverse) st).iq.length = st.iq.length := by
  induction ls with
  | nil => intro st; rfl
  | cons l ls ih =>
    intro st
    rw [List.foldl_cons, ih, length_fft_level]

theorem length_fft_scale {K : Type} [Field K] (nn : Nat) (iq : List K) :
    (fft_scale nn iq).length = iq.length := by
  unfold fft_scale
  generalize List.range nn = ls
  induction ls generalizing iq with
  | nil => rfl
  | cons i ls ih =>
    rw [List.foldl_cons, ih]
    simp only [List.length_set]

theorem fft_perform_some {K : Type} [Field K] (sqrt : K → K) (iq : List K) (size : Nat)
    (inverse : Int) (hsize : size < 2 ^ 32) :
    ∃ out, fft_perform sqrt iq size inverse = some out ∧ out.length = iq.length := by
  have hm32 : Nat.log 2 size < 32 := by
    rcases Nat.eq_zero_or_pos size with h0 | h0
    · subst h0; simp
    · exact Nat.log_lt_of_lt_pow (by omega) hsize
  have hlog : fft_log2_loop 32 size 0 = Nat.log 2 size := by
    rw [fft_log2_loop_eq 32 size 0 hsize, Nat.zero_add]
  have hnn : (1 <<< Nat.log 2 size) % 2 ^ 32 = 2 ^ Nat.log 2 size := by
    rw [Nat.shiftLeft_eq, Nat.one_mul]
    exact Nat.mod_eq_of_lt (Nat.pow_lt_pow_right (by norm_num) hm32)
  obtain ⟨A0, hbr, hA0l⟩ := fft_bitrev_some iq (Nat.log 2 size) (by omega)
  simp only [fft_perform, hlog, hnn, hbr]
  refine ⟨_, rfl, ?_⟩
  split
  · rw [length_fft_scale, length_fft_levels, hA0l]
  · rw [length_fft_levels, hA0l]

/-! ## Properties of the correlation helpers -/

theorem fft_crosscorrelation_mul_upto {K : Type} [Field K] (a b : List K) (N : Nat)
    (hlen : 2 * N ≤ a.length) :
    ∀ t, t ≤ N →
      ∃ A, (List.range t).foldl
          (fun a t =>
            let i := 2 * t
            let i1 := i + 1
            let aI := a.getD i 0
            let aQ := a.getD i1 0
            let bI := b.getD i 0
            let bQ := b.getD i1 0
            (a.set i (aI * bI + aQ * bQ)).set i1 (aI * bQ - aQ * bI)) a = A ∧
        A.length = a.length ∧
        (∀ k, A.getD (2 * k) 0 =
          if k < t then
            a.getD (2 * k) 0 * b.getD (2 * k) 0 + a.getD (2 * k + 1) 0 * b.getD (2 * k + 1) 0
          else a.getD (2 * k) 0) ∧
        (∀ k, A.getD (2 * k + 1) 0 =
          if k < t then
            a.getD (2 * k) 0 * b.getD (2 * k + 1) 0 - a.getD (2 * k + 1) 0 * b.getD (2 * k) 0
          else a.getD (2 * k + 1) 0) := by
  intro t
  induction t with
  | zero =>
    intro _
    exact ⟨a, rfl, rfl, fun k => by rw [if_neg (by omega)], fun k => by rw [if_neg (by omega)]⟩
  | succ t ih =>
    intro ht
    obtain ⟨A, hA, hl, he, ho⟩ := ih (by omega)
    rw [List.range_succ, List.foldl_append, hA]
    refine ⟨_, rfl, ?_, ?_, ?_⟩
    · simp only [List.foldl_cons, List.foldl_nil, List.length_set]
      exact hl
    · intro k
      simp only [List.foldl_cons, List.foldl_nil]
      rw [getD_set (A.set (2 * t) _) (2 * t + 1) (2 * k) _ 0 (by rw [List.length_set]; omega),
        getD_set A (2 * t) (2 * k) _ 0 (by omega), if_neg (by omega)]
      by_cases hk : k = t
      · subst hk
        rw [if_pos rfl, if_pos (by omega), he, ho, if_neg (by omega), if_neg (by omega)]
      · rw [if_neg (by omega), he]
        by_cases hlt : k < t
        · rw [if_pos hlt, if_pos (by omega)]
        · rw [if_neg hlt, if_neg (by omega)]
    · intro k
      simp only [List.foldl_cons, List.foldl_nil]
      rw [getD_set (A.set (2 * t) _) (2 * t + 1) (2 * k + 1) _ 0
        (by rw [List.length_set]; omega)]
      by_cases hk : k = t
      · subst hk
        rw [if_pos rfl, if_pos (by omega), he, ho, if_neg (by omega), if_neg (by omega)]
      · rw [if_neg (by omega), getD_set A (2 * t) (2 * k + 1) _ 0 (by omega),
          if_neg (by omega), ho]
        by_cases hlt : k < t
        · rw [if_pos hlt, if_pos (by omega)]
        · rw [if_neg hlt, if_neg (by omega)]

theorem fft_crosscorrelation_mul_spec {K : Type} [Field K] (a b : List K) (N : Nat)
    (hlen : 2 * N ≤ a.length) :
    (fft_crosscorrelation_mul a b (2 * N)).length = a.length ∧
    (∀ k, (fft_crosscorrelation_mul a b (2 * N)).getD (2 * k) 0 =
      if k < N then
        a.getD (2 * k) 0 * b.getD (2 * k) 0 + a.getD (2 * k + 1) 0 * b.getD (2 * k + 1) 0
      else a.getD (2 * k) 0) ∧
    (∀ k, (fft_crosscorrelation_mul a b (2 * N)).getD (2 * k + 1) 0 =
      if k < N then
        a.getD (2 * k) 0 * b.getD (2 * k + 1) 0 - a.getD (2 * k + 1) 0 * b.getD (2 * k) 0
      else a.getD (2 * k + 1) 0) := by
  obtain ⟨A, hA, h⟩ := fft_crosscorrelation_mul_upto a b N hlen N (le_refl _)
  have e : (2 * N + 1) / 2 = N := by omega
  unfold fft_crosscorrelation_mul
  rw [e, hA]
  exact h

theorem fft_crosscorrelation_bins_spec {K : Type} [Field K] (sqrt : K → K) (a b : List K)
    (samples : Nat) (hs : samples < 2 ^ 31) (hlen : 2 * fft_getrealsize samples ≤ a.length) :
    ∃ A B out, fft_perform sqrt a (fft_getrealsize samples) 0 = some A ∧
      fft_perform sqrt b (fft_getrealsize samples) 0 = some B ∧
      fft_crosscorrelation_bins sqrt a b samples = some (out, B) ∧
      out.length = a.length ∧
      (∀ k, k < fft_getrealsize samples →
        out.getD (2 * k) 0 =
          A.getD (2 * k) 0 * B.getD (2 * k) 0 + A.getD (2 * k + 1) 0 * B.getD (2 * k + 1) 0 ∧
        out.getD (2 * k + 1) 0 =
          A.getD (2 * k) 0 * B.getD (2 * k + 1) 0 -
            A.getD (2 * k + 1) 0 * B.getD (2 * k) 0) ∧
      (∀ idx, 2 * fft_getrealsize samples ≤ idx → out.getD idx 0 = A.getD idx 0) := by
  have hN : fft_getrealsize samples ≤ samples ∨ samples = 0 := by
    rcases Nat.eq_zero_or_pos samples with h0 | h0
    · exact Or.inr h0
    · left
      rw [fft_getrealsize_eq samples (by omega)]
      exact Nat.pow_log_le_self 2 (by omega)
  have hN1 : fft_getrealsize samples < 2 ^ 31 := by
    rcases hN with h | h
    · omega
    · subst h; decide
  obtain ⟨A, hA, hAl⟩ := fft_perform_some sqrt a (fft_getrealsize samples) 0 (by omega)
  obtain ⟨B, hB, _⟩ := fft_perform_some sqrt b (fft_getrealsize samples) 0 (by omega)
  have hmod : (fft_getrealsize samples * 2) % 2 ^ 32 = 2 * fft_getrealsize samples := by
    rw [Nat.mod_eq_of_lt (by omega)]; omega
  obtain ⟨g1, g2, g3⟩ := fft_crosscorrelation_mul_spec A B (fft_getrealsize samples)
    (by rw [hAl]; exact hlen)
  refine ⟨A, B, fft_crosscorrelation_mul A B (2 * fft_getrealsize samples), hA, hB,
    ?_, ?_, ?_, ?_⟩
  · simp only [fft_crosscorrelation_bins, hA, hB, hmod]
  · rw [g1, hAl]
  · intro k hk
    rw [g2 k, g3 k, if_pos hk, if_pos hk]
    exact ⟨rfl, rfl⟩
  · intro idx hidx
    rcases Nat.mod_two_eq_zero_or_one idx with h0 | h1
    · have e : idx = 2 * (idx / 2) := by omega
      rw [e, g2, if_neg (by omega)]
    · have e : idx = 2 * (idx / 2) + 1 := by omega
      rw [e, g3, if_neg (by omega)]

theorem fft_perform_one (iq : List ℝ) (hlen : 2 ≤ iq.length) :
    fft_perform Real.sqrt iq 1 0 = some iq := by
  obtain ⟨out, h1, hl, hc, hf⟩ := fft_perform_core iq 1 0 (by norm_num)
    (by rw [Nat.log_one_right]; simpa using hlen)
  rw [h1]
  congr 1
  rw [Nat.log_one_right] at hc hf
  apply list_eq_of_cplx out iq 1 hl ?_ (by simpa using hf)
  intro k hk
  have hk0 : k = 0 := by omega
  subst hk0
  rw [hc 0 (by norm_num)]
  simp [dft_sum]

/-- Counterexample for C21: for the one-sample buffers `a = i` and `b = 1` the
stored imaginary part is `-1`, while `aQ·bI − aI·bQ` (the imaginary part of
`a·conj(b)`) is `1`. -/
theorem fft_crosscorrelation_conj_counterexample :
    ∃ A B out, fft_perform Real.sqrt [0, 1] (fft_getrealsize 1) 0 = some A ∧
      fft_perform Real.sqrt [1, 0] (fft_getrealsize 1) 0 = some B ∧
      fft_crosscorrelation_bins Real.sqrt [0, 1] [1, 0] 1 = some (out, B) ∧
      out.getD 1 0 = -1 ∧
      A.getD 1 0 * B.getD 0 0 - A.getD 0 0 * B.getD 1 0 = 1 := by
  have e : fft_getrealsize 1 = 1 := by decide
  have hA : fft_perform Real.sqrt [0, 1] 1 0 = some [0, 1] := fft_perform_one _ (by simp)
  have hB : fft_perform Real.sqrt [1, 0] 1 0 = some [1, 0] := fft_perform_one _ (by simp)
  refine ⟨[0, 1], [1, 0], [0, -1], by rw [e]; exact hA, by rw [e]; exact hB, ?_, rfl, ?_⟩
  · simp only [fft_crosscorrelation_bins, e, hA, hB]
    norm_num [fft_crosscorrelation_mul, List.range, List.range.loop]
  · norm_num

/-- C21, amended (`fft_crosscorrelation` before the inverse transform).  For
`samples < 2^31` and buffers holding at least `fft_getrealsize samples` complex
values, both forward transforms return and every bin of `answer_out` is set to
`conj(a)·b`: for the transformed bins `A = aI + i·aQ` and `B = bI + i·bQ` the
stored real part is `aI·bI + aQ·bQ` and the stored imaginary part is
`aI·bQ − aQ·bI`; cells past the transformed bins keep the value the forward
transform left. -/
theorem fft_crosscorrelation_conj {K : Type} [Field K] (sqrt : K → K) (a b : List K)
    (samples : Nat) (hs : samples < 2 ^ 31) (hlen : 2 * fft_getrealsize samples ≤ a.length) :
    ∃ A B out, fft_perform sqrt a (fft_getrealsize samples) 0 = some A ∧
      fft_perform sqrt b (fft_getrealsize samples) 0 = some B ∧
      fft_crosscorrelation_bins sqrt a b samples = some (out, B) ∧
      (∀ k, k < fft_getrealsize samples →
        out.getD (2 * k) 0 =
          A.getD (2 * k) 0 * B.getD (2 * k) 0 + A.getD (2 * k + 1) 0 * B.getD (2 * k + 1) 0 ∧
        out.getD (2 * k + 1) 0 =
          A.getD (2 * k) 0 * B.getD (2 * k + 1) 0 -
            A.getD (2 * k + 1) 0 * B.getD (2 * k) 0) ∧
      (∀ idx, 2 * fft_getrealsize samples ≤ idx → out.getD idx 0 = A.getD idx 0) ∧
      ∃ fin, fft_crosscorrelation sqrt a b samples = some (fin, B) ∧
        fft_perform sqrt out (fft_getrealsize samples) 1 = some fin := by
  obtain ⟨A, B, out, hA, hB, hbins, hol, hk, hf⟩ :=
    fft_crosscorrelation_bins_spec sqrt a b samples hs hlen
  have hN1 : fft_getrealsize samples < 2 ^ 32 := by
    rcases Nat.eq_zero_or_pos samples with h0 | h0
    · subst h0; decide
    · rw [fft_getrealsize_eq samples (by omega)]
      exact lt_of_le_of_lt (Nat.pow_log_le_self 2 (by omega)) (by omega)
  obtain ⟨fin, hfin, _⟩ := fft_perform_some sqrt out (fft_getrealsize samples) 1 hN1
  refine ⟨A, B, out, hA, hB, hbins, hk, hf, fin, ?_, hfin⟩
  simp only [fft_crosscorrelation, hbins, hfin]

/-- Witness for C21: two buffers of two complex values over the rationals. -/
theorem fft_crosscorrelation_conj_witness :
    ∃ A B out, fft_perform (fun x : ℚ => x) [1, 2, 3, 4] (fft_getrealsize 2) 0 = some A ∧
      fft_perform (fun x : ℚ => x) [1, 0, 0, 1] (fft_getrealsize 2) 0 = some B ∧
      fft_crosscorrelation_bins (fun x : ℚ => x) [1, 2, 3, 4] [1, 0, 0, 1] 2 = some (out, B) ∧
      (out.getD 1 0 = A.getD 0 0 * B.getD 1 0 - A.getD 1 0 * B.getD 0 0) := by
  obtain ⟨A, B, out, hA, hB, hbins, hk, _, _⟩ :=
    fft_crosscorrelation_conj (fun x : ℚ => x) [1, 2, 3, 4] [1, 0, 0, 1] 2 (by norm_num)
      (by decide)
  exact ⟨A, B, out, hA, hB, hbins, (hk 0 (by decide)).2⟩

/-! ## Properties of the post-processor -/

theorem dsp_post_process_resize_runs {K σ : Type} [LinearOrderedField K]
    (pp pp1 : dsp_postprocess_t K σ) (w h : Int)
    (hr : dsp_post_process_resize pp w h = some pp1) : pp1.runs = pp.runs := by
  unfold dsp_post_process_resize at hr
  split at hr
  · dsimp only at hr
    split at hr
    · injection hr with hr
      rw [← hr]
      split <;> split <;> split <;> rfl
    · cases hr
  · injection hr with hr
    rw [hr]

theorem dsp_post_process_mode_runs {K σ : Type} [LinearOrderedField K]
    (pp : dsp_postprocess_t K σ) (l : Int) : (dsp_post_process_mode pp l).runs = pp.runs := by
  unfold dsp_post_process_mode
  split <;> rfl

theorem dsp_post_process_frame_runs {K σ : Type} [LinearOrderedField K] (sqrt : K → K)
    (special : Bool) (sd : SyncDetector K σ) (superres : Int) (pp : dsp_postprocess_t K σ)
    (buffer : List K) (motionblur lowpasscoeff : K) (l a : Int) :
    (dsp_post_process_frame sqrt special sd superres pp buffer motionblur lowpasscoeff l a).1.runs
      = pp.runs := by
  unfold dsp_post_process_frame
  dsimp only
  split <;> rfl

theorem dsp_post_process_runs {K σ : Type} [LinearOrderedField K] (sqrt : K → K)
    (special : Bool) (sd : SyncDetector K σ) (superres : Int) (pp : dsp_postprocess_t K σ)
    (buffer : List K) (w h : Int) (motionblur lowpasscoeff : K) (l a : Int)
    (r : PostProcessResult K σ)
    (hr : dsp_post_process sqrt special sd superres pp buffer w h motionblur lowpasscoeff l a
      = some r) :
    r.pp.runs = (if pp.runs > 5 then 0 else pp.runs + 1) ∧
      r.announced.isSome = decide (pp.runs > 5) := by
  unfold dsp_post_process at hr
  split at hr
  · cases hr
  · next pp1 h1 =>
    injection hr with hr
    have e := dsp_post_process_resize_runs pp pp1 w h h1
    have e2 := dsp_post_process_frame_runs sqrt special sd superres
      (dsp_post_process_mode pp1 l) buffer motionblur lowpasscoeff l a
    rw [dsp_post_process_mode_runs, e] at e2
    rw [← hr]
    dsimp only
    unfold dsp_post_process_report AUTOGAIN_REPORT_EVERY_FRAMES
    rw [e2]
    split
    · next hgt => exact ⟨rfl, by simp [hgt]⟩
    · next hgt => exact ⟨rfl, by simp [hgt]⟩

theorem dsp_post_process_some {K σ : Type} [LinearOrderedField K] (sqrt : K → K)
    (special : Bool) (sd : SyncDetector K σ) (superres : Int) (pp : dsp_postprocess_t K σ)
    (buffer : List K) (w h : Int) (motionblur lowpasscoeff : K) (l a : Int)
    (hpos : 0 < h * w) :
    ∃ r, dsp_post_process sqrt special sd superres pp buffer w h motionblur lowpasscoeff l a
      = some r := by
  have : ∃ pp1, dsp_post_process_resize pp w h = some pp1 := by
    unfold dsp_post_process_resize
    split
    · dsimp only
      rw [if_pos hpos]
      exact ⟨_, rfl⟩
    · exact ⟨_, rfl⟩
  obtain ⟨pp1, h1⟩ := this
  unfold dsp_post_process
  rw [h1]
  exact ⟨_, rfl⟩

theorem report_flags_cons (n c d : Nat) (b : Bool) (hb : b = decide ((0 + 1 + c) % 7 = 0))
    (h : ∀ i, (i + 1 + d) % 7 = 0 ↔ (i + 1 + 1 + c) % 7 = 0) :
    b :: (List.range n).map (fun i => decide ((i + 1 + d) % 7 = 0)) =
      (List.range (n + 1)).map (fun i => decide ((i + 1 + c) % 7 = 0)) := by
  rw [List.range_succ_eq_map, List.map_cons, List.map_map, hb]
  congr 1
  apply List.map_congr_left
  intro i _
  simp only [Function.comp, Nat.succ_eq_add_one]
  exact decide_eq_decide.mpr (h i)

theorem dsp_post_process_calls_cadence {K σ : Type} [LinearOrderedField K] (sqrt : K → K)
    (special : Bool) (sd : SyncDetector K σ) (superres : Int) :
    ∀ (cs : List (PostProcessCall K)) (pp : dsp_postprocess_t K σ) (c : Nat),
      pp.runs = (c : Int) → c ≤ 6 → (∀ x ∈ cs, 0 < x.nowheight * x.nowwidth) →
      ∃ pp1, dsp_post_process_calls sqrt special sd superres pp cs =
        some (pp1, (List.range cs.length).map (fun i => decide ((i + 1 + c) % 7 = 0))) := by
  intro cs
  induction cs with
  | nil => intro pp c _ _ _; exact ⟨pp, rfl⟩
  | cons x cs ih =>
    intro pp c hc hc6 hpos
    obtain ⟨r, hr⟩ := dsp_post_process_some sqrt special sd superres pp x.buffer x.nowwidth
      x.nowheight x.motionblur x.lowpasscoeff x.lowpass_before_sync x.autogain_after_proc
      (hpos x (List.mem_cons_self _ _))
    obtain ⟨e1, e2⟩ := dsp_post_process_runs sqrt special sd superres pp _ _ _ _ _ _ _ r hr
    have hrest := fun y hy => hpos y (List.mem_cons_of_mem _ hy)
    have hflag : r.announced.isSome = decide ((0 + 1 + c) % 7 = 0) := by
      rw [e2, hc]
      apply decide_eq_decide.mpr
      constructor <;> intro h <;> omega
    by_cases h6 : c = 6
    · subst h6
      rw [hc, if_pos (by norm_num)] at e1
      obtain ⟨pp1, h1⟩ := ih r.pp 0 (by rw [e1]; rfl) (by omega) hrest
      refine ⟨pp1, ?_⟩
      simp only [dsp_post_process_calls, hr, h1, List.length_cons]
      rw [report_flags_cons cs.length 6 0 _ hflag (fun i => by omega)]
    · rw [hc, if_neg (by omega)] at e1
      obtain ⟨pp1, h1⟩ := ih r.pp (c + 1) (by rw [e1]; push_cast; rfl) (by omega) hrest
      refine ⟨pp1, ?_⟩
      simp only [dsp_post_process_calls, hr, h1, List.length_cons]
      rw [report_flags_cons cs.length c (c + 1) _ hflag (fun i => by omega)]

/-- C23 (code defect).  From `dsp_post_process_init`, seven calls on a frame of
one pixel: the auto-gain values are not announced on the fifth call; the first
announcement comes with the seventh call. -/
theorem dsp_post_process_report_every_seven :
    ∃ pp, dsp_post_process_calls (fun x : ℚ => x) false
        ({ init := (), run := fun s d c _ _ _ _ _ _ => (s, c, d) } : SyncDetector ℚ Unit) 0
        (dsp_post_process_init
          ({ init := (), run := fun s d c _ _ _ _ _ _ => (s, c, d) } : SyncDetector ℚ Unit))
        (List.replicate 7
          { buffer := [1], nowwidth := 1, nowheight := 1, motionblur := 0, lowpasscoeff := 1,
            lowpass_before_sync := 0, autogain_after_proc := 1 }) =
      some (pp, [false, false, false, false, false, false, true]) := by
  obtain ⟨pp, h⟩ := dsp_post_process_calls_cadence (fun x : ℚ => x) false
    ({ init := (), run := fun s d c _ _ _ _ _ _ => (s, c, d) } : SyncDetector ℚ Unit) 0
    (List.replicate 7
      { buffer := [1], nowwidth := 1, nowheight := 1, motionblur := 0, lowpasscoeff := 1,
        lowpass_before_sync := 0, autogain_after_proc := 1 })
    (dsp_post_process_init _) 0 rfl (by omega)
    (by
      intro x hx
      rw [List.eq_of_mem_replicate hx]
      decide)
  exact ⟨pp, h⟩

theorem length_pp_alloc {K : Type} [LinearOrderedField K] (old : Option (List K)) (n : Nat) :
    (pp_alloc old n).length = n := by
  unfold pp_alloc
  cases old with
  | none => simp
  | some b => simp; omega

theorem memcpy_whole {β : Type} (b z : List β) (h : b.length ≤ z.length) :
    memcpy b 0 z = z := by
  unfold memcpy
  simp [List.drop_eq_nil_of_le h]

theorem dsp_post_process_resize_spec {K σ : Type} [LinearOrderedField K]
    (pp : dsp_postprocess_t K σ) (nowwidth nowheight : Int)
    (hchg : nowheight ≠ pp.height ∨ nowwidth ≠ pp.width) (hpos : 0 < nowheight * nowwidth) :
    ∃ pp1, dsp_post_process_resize pp nowwidth nowheight = some pp1 ∧
      pp1.sizetopoll = nowheight * nowwidth ∧ pp1.width = nowwidth ∧ pp1.height = nowheight ∧
      (pp.bufsize < nowheight * nowwidth →
        pp1.screenbuffer = some (List.replicate (nowheight * nowwidth).toNat 0) ∧
        pp1.bufsize = nowheight * nowwidth) ∧
      (nowheight * nowwidth ≤ pp.bufsize →
        pp1.screenbuffer = pp.screenbuffer ∧ pp1.bufsize = pp.bufsize) := by
  unfold dsp_post_process_resize
  rw [if_pos hchg]
  dsimp only
  rw [if_pos hpos]
  refine ⟨_, rfl, ?_, ?_, ?_, ?_, ?_⟩
  · split <;> split <;> split <;> rfl
  · split <;> split <;> split <;> rfl
  · split <;> split <;> split <;> rfl
  · intro hgrow
    rw [if_pos hgrow]
    have e : memcpy (pp_alloc pp.screenbuffer (nowheight * nowwidth).toNat) 0
        (List.replicate (nowheight * nowwidth).toNat (0 : K)) =
        List.replicate (nowheight * nowwidth).toNat 0 :=
      memcpy_whole _ _ (by rw [length_pp_alloc, List.length_replicate])
    constructor
    · split <;> split <;> exact congrArg some e
    · split <;> split <;> rfl
  · intro hkeep
    rw [if_neg (show ¬ nowheight * nowwidth > pp.bufsize by omega)]
    constructor
    · split <;> split <;> rfl
    · split <;> split <;> rfl

/-- Counterexample for C28: after a 2×2 frame, a call with a 1×2 image leaves
the accumulator `[1, 2, 3, 4]` untouched: the two pixels of the new image
read 1 and 2 and not 0 when the frame is about to be processed. -/
theorem dsp_post_process_resize_counterexample :
    ∃ r, dsp_post_process (fun x : ℚ => x) false
        ({ init := (), run := fun s d c _ _ _ _ _ _ => (s, c, d) } : SyncDetector ℚ Unit) 0
        (dsp_post_process_init
          ({ init := (), run := fun s d c _ _ _ _ _ _ => (s, c, d) } : SyncDetector ℚ Unit))
        [1, 2, 3, 4] 2 2 0 1 1 1 = some r ∧
      ∃ pp1, dsp_post_process_resize r.pp 1 2 = some pp1 ∧
        dsp_post_process_mode pp1 1 = pp1 ∧ pp1.sizetopoll = 2 ∧
        pp1.screenbuffer = some [1, 2, 3, 4] := by
  refine ⟨_, rfl, _, rfl, rfl, rfl, ?_⟩
  simp [dsp_post_process_report, dsp_post_process_frame, dsp_post_process_mode,
    dsp_post_process_resize, dsp_post_process_init, AUTOGAIN_REPORT_EVERY_FRAMES]
  norm_num [dsp_timelowpass_run, memcpy, pp_alloc, List.range, List.range.loop]

/-- C28, amended (`dsp_post_process` on a change of the image size).  When the
call comes with a `(width, height)` different from the current one and a
positive pixel count, the accumulator is all zeros over the new
`width × height` pixels before the frame is processed if the new pixel count
exceeds `bufsize`, the largest pixel count so far; if it does not, the size
change leaves the accumulator with the contents it had. -/
theorem dsp_post_process_resize_accumulator {K σ : Type} [LinearOrderedField K]
    (pp : dsp_postprocess_t K σ) (nowwidth nowheight lowpass_before_sync : Int)
    (hchg : nowheight ≠ pp.height ∨ nowwidth ≠ pp.width) (hpos : 0 < nowheight * nowwidth) :
    ∃ pp1, dsp_post_process_resize pp nowwidth nowheight = some pp1 ∧
      pp1.sizetopoll = nowheight * nowwidth ∧
      (pp.bufsize < nowheight * nowwidth →
        pp1.screenbuffer = some (List.replicate (nowheight * nowwidth).toNat 0) ∧
        (dsp_post_process_mode pp1 lowpass_before_sync).screenbuffer =
          some (List.replicate (nowheight * nowwidth).toNat 0)) ∧
      (nowheight * nowwidth ≤ pp.bufsize → pp1.screenbuffer = pp.screenbuffer) := by
  obtain ⟨pp1, h1, h2, _, _, h5, h6⟩ :=
    dsp_post_process_resize_spec pp nowwidth nowheight hchg hpos
  refine ⟨pp1, h1, h2, ?_, fun h => (h6 h).1⟩
  intro hgrow
  refine ⟨(h5 hgrow).1, ?_⟩
  unfold dsp_post_process_mode
  split
  · dsimp only
    rw [(h5 hgrow).1, h2, Option.map_some', memcpy_whole _ _ (by simp)]
  · exact (h5 hgrow).1

/-- Witness for C28: the first 2×2 frame after `dsp_post_process_init`. -/
theorem dsp_post_process_resize_accumulator_witness :
    ∃ pp1, dsp_post_process_resize
        (dsp_post_process_init
          ({ init := (), run := fun s d c _ _ _ _ _ _ => (s, c, d) } : SyncDetector ℚ Unit))
        2 2 = some pp1 ∧
      pp1.screenbuffer = some [0, 0, 0, 0] := by
  obtain ⟨pp1, h1, _, h3, _⟩ := dsp_post_process_resize_accumulator
    (dsp_post_process_init
      ({ init := (), run := fun s d c _ _ _ _ _ _ => (s, c, d) } : SyncDetector ℚ Unit))
    2 2 0 (Or.inl (by decide)) (by decide)
  exact ⟨pp1, h1, (h3 (by decide)).1⟩

/-! ### Auto-gain -/

theorem map_getD_range {β : Type} (l : List β) (d : β) :
    (List.range l.length).map (fun i => l.getD i d) = l := by
  apply List.ext_getElem
  · simp
  · intro i h1 h2
    simp only [List.getElem_map, List.getElem_range]
    exact List.getD_eq_getElem _ _ h2

theorem autogain_stats_fold_sum {K : Type} [LinearOrderedField K] (special : Bool)
    (buf : List K) (hs : special = true → ∀ v ∈ buf, ¬(v > 250 ∨ v < -250)) :
    ∀ st : AutogainStats K,
      (buf.foldl (autogain_stats_step special) st).sum = st.sum + buf.sum := by
  induction buf with
  | nil => intro st; simp
  | cons v vs ih =>
    intro st
    rw [List.foldl_cons, ih (fun h x hx => hs h x (List.mem_cons_of_mem _ hx)), List.sum_cons,
      ← add_assoc]
    congr 1
    unfold autogain_stats_step
    have hv : ¬(special = true ∧ (v > 250 ∨ v < -250)) :=
      fun h => hs h.1 v (List.mem_cons_self _ _) h.2
    rw [if_neg hv]
    dsimp only
    split
    · rfl
    · split <;> rfl

theorem autogain_stats_sum {K : Type} [LinearOrderedField K] (special : Bool) (buf : List K)
    (hs : special = true → ∀ v ∈ buf, ¬(v > 250 ∨ v < -250)) :
    (autogain_stats special (buf.length : Int) buf).sum = buf.sum := by
  unfold autogain_stats
  rw [Int.toNat_natCast]
  have e := List.foldl_map (fun i => buf.getD i 0) (autogain_stats_step special)
    (List.range buf.length)
    ({ min := buf.getD 0 0, max := buf.getD 0 0, sum := 0 } : AutogainStats K)
  rw [map_getD_range] at e
  rw [← e, autogain_stats_fold_sum special buf hs, zero_add]

theorem autogain_out_sums {K : Type} [LinearOrderedField K] (special : Bool) (buf : List K)
    (lastmin span mean : K) (st : AutogainOut K) :
    ∀ n,
      ((List.range n).foldl (autogain_out_step special buf lastmin span mean) st).sum2 =
        st.sum2 + ((List.range n).map (fun i => (buf.getD i 0 - mean) ^ 2)).sum ∧
      ((List.range n).foldl (autogain_out_step special buf lastmin span mean) st).sum3 =
        st.sum3 + ((List.range n).map (fun i => buf.getD i 0 - mean)).sum := by
  intro n
  induction n with
  | zero => simp
  | succ n ih =>
    rw [List.range_succ, List.foldl_append, List.map_append, List.map_append, List.sum_append,
      List.sum_append, List.foldl_cons, List.foldl_nil]
    obtain ⟨i2, i3⟩ := ih
    generalize (List.range n).foldl (autogain_out_step special buf lastmin span mean) st = S
      at i2 i3 ⊢
    unfold autogain_out_step
    dsimp only
    rw [i2, i3]
    simp only [List.map_cons, List.map_nil, List.sum_cons, List.sum_nil, add_zero]
    constructor
    · ring
    · ring

theorem sum_map_sub_const {K : Type} [LinearOrderedField K] (buf : List K) (c : K) :
    (buf.map (fun v => v - c)).sum = buf.sum - buf.length * c := by
  induction buf with
  | nil => simp
  | cons v vs ih =>
    rw [List.map_cons, List.sum_cons, ih, List.sum_cons, List.length_cons]
    push_cast
    ring

theorem dsp_autogain_run_snr {K : Type} [LinearOrderedField K] (sqrt : K → K) (special : Bool)
    (autogain : dsp_autogain_t K) (buf sendbuffer : List K) (norm : K)
    (hn : 2 ≤ buf.length) (hs : special = true → ∀ v ∈ buf, ¬(v > 250 ∨ v < -250)) :
    (dsp_autogain_run sqrt special autogain (buf.length : Int) buf sendbuffer norm).1.snr =
      (buf.sum / buf.length) /
        sqrt ((buf.map (fun v => (v - buf.sum / buf.length) ^ 2)).sum / ((buf.length : K) - 1)) := by
  have hn0 : (buf.length : K) ≠ 0 := by
    have : 0 < buf.length := by omega
    exact_mod_cast this.ne.symm
  unfold dsp_autogain_run
  dsimp only
  rw [autogain_stats_sum special buf hs, Int.toNat_natCast]
  obtain ⟨h2, h3⟩ := autogain_out_sums special buf
    ((1 - norm) * autogain.lastmin + norm * (autogain_stats special (buf.length : Int) buf).min)
    (if (1 - norm) * autogain.lastmax + norm * (autogain_stats special (buf.length : Int) buf).max =
        (1 - norm) * autogain.lastmin + norm * (autogain_stats special (buf.length : Int) buf).min
      then 1
      else (1 - norm) * autogain.lastmax +
          norm * (autogain_stats special (buf.length : Int) buf).max -
        ((1 - norm) * autogain.lastmin +
          norm * (autogain_stats special (buf.length : Int) buf).min))
    (buf.sum / ((buf.length : Int) : K))
    { sendbuffer := sendbuffer, sum2 := 0, sum3 := 0 } buf.length
  rw [h2, h3]
  have e2 : (List.range buf.length).map
      (fun i => (buf.getD i 0 - buf.sum / ((buf.length : Int) : K)) ^ 2) =
      buf.map (fun v => (v - buf.sum / ((buf.length : Int) : K)) ^ 2) := by
    have := List.map_map (fun v : K => (v - buf.sum / ((buf.length : Int) : K)) ^ 2)
      (fun i => buf.getD i 0) (List.range buf.length)
    rw [map_getD_range] at this
    exact this.symm
  have e3 : (List.range buf.length).map
      (fun i => buf.getD i 0 - buf.sum / ((buf.length : Int) : K)) =
      buf.map (fun v => v - buf.sum / ((buf.length : Int) : K)) := by
    have := List.map_map (fun v : K => v - buf.sum / ((buf.length : Int) : K))
      (fun i => buf.getD i 0) (List.range buf.length)
    rw [map_getD_range] at this
    exact this.symm
  rw [e2, e3, sum_map_sub_const]
  simp only [Int.cast_natCast, Int.cast_sub, Int.cast_one, zero_add]
  have e0 : buf.sum - (buf.length : K) * (buf.sum / (buf.length : K)) = 0 := by
    field_simp
  rw [e0]
  simp

/-- Counterexample for C29: for the frame `[0, 3, 6]` the code computes
`snr = 3 / sqrt 9 = 1`, while the mean over the population standard deviation
is `3 / sqrt 6`. -/
theorem dsp_autogain_snr_counterexample :
    (dsp_autogain_run Real.sqrt false dsp_autogain_init 3 [0, 3, 6] [0, 0, 0] 1).1.snr = 1 ∧
      ((0 + 3 + 6) / 3 : ℝ) /
        Real.sqrt ((1 / 3) * ((0 - 3) ^ 2 + (3 - 3) ^ 2 + (6 - 3) ^ 2)) ≠ 1 := by
  constructor
  · have h := dsp_autogain_run_snr Real.sqrt false dsp_autogain_init [0, 3, 6] [0, 0, 0] 1
      (by simp) (by simp)
    have e : (([0, 3, 6] : List ℝ).length : Int) = 3 := rfl
    rw [e] at h
    rw [h]
    norm_num
    rw [show (9 : ℝ) = 3 ^ 2 by norm_num, Real.sqrt_sq (by norm_num)]
    norm_num
  · intro h
    have h6 : Real.sqrt 6 = 3 := by
      have hpos : (0 : ℝ) < Real.sqrt 6 := Real.sqrt_pos.mpr (by norm_num)
      norm_num at h
      field_simp at h
      linarith
    have := Real.mul_self_sqrt (show (0 : ℝ) ≤ 6 by norm_num)
    rw [h6] at this
    norm_num at this

/-- C29, amended (`dsp_autogain_run`, SNR).  For every frame of `n ≥ 2` pixels
without sentinel pixels, `snr = mean / stdev` with `mean = (1/n)·Σ v` and the
sample standard deviation `stdev² = (1/(n − 1))·Σ (v − mean)²` (exact
arithmetic, for any square-root function). -/
theorem dsp_autogain_snr_sample {K : Type} [LinearOrderedField K] (sqrt : K → K)
    (special : Bool) (autogain : dsp_autogain_t K) (buf sendbuffer : List K) (norm : K)
    (hn : 2 ≤ buf.length) (hs : special = true → ∀ v ∈ buf, ¬(v > 250 ∨ v < -250)) :
    (dsp_autogain_run sqrt special autogain (buf.length : Int) buf sendbuffer norm).1.snr =
      (buf.sum / buf.length) /
        sqrt ((1 / ((buf.length : K) - 1)) *
          (buf.map (fun v => (v - buf.sum / buf.length) ^ 2)).sum) := by
  rw [dsp_autogain_run_snr sqrt special autogain buf sendbuffer norm hn hs]
  congr 2
  rw [one_div, div_eq_inv_mul]

/-- Witness for C29: the frame `[0, 3, 6]` over the reals. -/
theorem dsp_autogain_snr_sample_witness :
    (dsp_autogain_run Real.sqrt false dsp_autogain_init
        (([0, 3, 6] : List ℝ).length : Int) [0, 3, 6] [0, 0, 0] 1).1.snr =
      (([0, 3, 6] : List ℝ).sum / ([0, 3, 6] : List ℝ).length) /
        Real.sqrt ((1 / ((([0, 3, 6] : List ℝ).length : ℝ) - 1)) *
          (([0, 3, 6] : List ℝ).map
            (fun v => (v - ([0, 3, 6] : List ℝ).sum / ([0, 3, 6] : List ℝ).length) ^ 2)).sum) :=
  dsp_autogain_snr_sample Real.sqrt false dsp_autogain_init [0, 3, 6] [0, 0, 0] 1
    (by simp) (by simp)

/-- C30 (code defect).  With the special-pixels mode on and the sentinel 300 at
index 0 of the frame `[300, 10, 20]`, the first loop ends with `max = 300` (the
sentinel) and `sum = 30`, so that `mean = 30 / 3 = 10`; the smoothed maximum
with `norm = 1` is 300.  Over the two other pixels the maximum is 20 and the
mean is 15. -/
theorem dsp_autogain_sentinel_first :
    autogain_stats true 3 ([300, 10, 20] : List ℚ) = { min := 10, max := 300, sum := 30 } ∧
      (dsp_autogain_run (fun x : ℚ => x) true dsp_autogain_init 3 [300, 10, 20] [0, 0, 0] 1).1.lastmax
        = 300 := by
  have h : autogain_stats true 3 ([300, 10, 20] : List ℚ) = { min := 10, max := 300, sum := 30 } := by
    norm_num [autogain_stats, autogain_stats_step, List.range, List.range.loop]
  refine ⟨h, ?_⟩
  unfold dsp_autogain_run
  dsimp only
  rw [h]
  norm_num [dsp_autogain_init]

/-! ## Properties of the super-bandwidth state machine -/

theorem superb_run_steps_output (bw : superbandwidth_t) (iq : List ℚ) (size : Int)
    (tsdr : tsdr_lib_t) (dropped : Int) (h : bw.state = SUPER_STATE_OUTPUT_DATA_READY) :
    superb_run_steps bw iq size tsdr dropped = (bw, tsdr, false) := by
  unfold superb_run_steps superb_run_stopped superb_run_starting superb_run_pause
    superb_run_gathering
  simp [h, SUPER_STATE_OUTPUT_DATA_READY, SUPER_STATE_STOPPED, SUPER_STATE_STARTING,
    SUPER_STATE_PAUSE, SUPER_STATE_GATHERING]

theorem superb_run_stopped_state (bw : superbandwidth_t)
    (h : bw.state ≠ SUPER_STATE_OUTPUT_DATA_READY) :
    (superb_run_stopped bw).state ≠ SUPER_STATE_OUTPUT_DATA_READY := by
  unfold superb_run_stopped
  split
  · simp [super_startthread, SUPER_STATE_STARTING, SUPER_STATE_OUTPUT_DATA_READY]
  · exact h

theorem superb_run_starting_state (bw : superbandwidth_t) (tsdr : tsdr_lib_t)
    (h : bw.state ≠ SUPER_STATE_OUTPUT_DATA_READY) :
    (superb_run_starting bw tsdr).state ≠ SUPER_STATE_OUTPUT_DATA_READY := by
  unfold superb_run_starting
  split
  · simp [SUPER_STATE_GATHERING, SUPER_STATE_OUTPUT_DATA_READY]
  · exact h

theorem superb_run_pause_state (bw : superbandwidth_t) (size : Int)
    (h : bw.state ≠ SUPER_STATE_OUTPUT_DATA_READY) :
    (superb_run_pause bw size).state ≠ SUPER_STATE_OUTPUT_DATA_READY := by
  unfold superb_run_pause
  split
  · dsimp only
    split
    · simp [SUPER_STATE_GATHERING, SUPER_STATE_OUTPUT_DATA_READY]
    · exact h
  · exact h

theorem superb_run_gathering_state (bw : superbandwidth_t) (iq : List ℚ) (size : Int)
    (tsdr : tsdr_lib_t) (dropped : Int) (h : bw.state ≠ SUPER_STATE_OUTPUT_DATA_READY) :
    (superb_run_gathering bw iq size tsdr dropped).1.state ≠ SUPER_STATE_OUTPUT_DATA_READY := by
  unfold superb_run_gathering
  split
  · split
    · exact h
    · dsimp only
      split
      · exact h
      · split
        · simp [SUPER_STATE_DATA_READY, SUPER_STATE_OUTPUT_DATA_READY]
        · simp [SUPER_STATE_PAUSE, SUPER_STATE_OUTPUT_DATA_READY]
  · exact h

theorem superb_run_steps_state (bw : superbandwidth_t) (iq : List ℚ) (size : Int)
    (tsdr : tsdr_lib_t) (dropped : Int) (h : bw.state ≠ SUPER_STATE_OUTPUT_DATA_READY) :
    (superb_run_steps bw iq size tsdr dropped).1.state ≠ SUPER_STATE_OUTPUT_DATA_READY := by
  unfold superb_run_steps
  exact superb_run_gathering_state _ _ _ _ _
    (superb_run_pause_state _ _ (superb_run_starting_state _ _ (superb_run_stopped_state _ h)))

theorem superb_run_not_ready (bw : superbandwidth_t) (iq : List ℚ) (size : Int)
    (tsdr : tsdr_lib_t) (dropped : Int) (h : bw.state ≠ SUPER_STATE_OUTPUT_DATA_READY) :
    (superb_run bw iq size tsdr dropped).outbuff = none := by
  have hs := superb_run_steps_state bw iq size tsdr dropped h
  unfold superb_run
  dsimp only
  split
  · rfl
  · unfold superb_run_output
    rw [if_neg hs]

theorem superb_run_ready (bw : superbandwidth_t) (iq : List ℚ) (size : Int)
    (tsdr : tsdr_lib_t) (dropped : Int) (h : bw.state = SUPER_STATE_OUTPUT_DATA_READY) :
    superb_run bw iq size tsdr dropped =
      { bw := { bw with state := SUPER_STATE_STARTING }
        tsdr := tsdr
        outbuff := bw.outbuf
        outbufsize := some bw.outbufsize } := by
  unfold superb_run
  rw [superb_run_steps_output bw iq size tsdr dropped h]
  simp [superb_run_output, h]

/-- C26 (output hand-over of `superb_run`).  The call returns a non-`NULL`
`*outbuff` only if it reaches its final check, without the early return, in
the state OutputReady; reaching the check in that state it returns the
worker's `outbuf` and `outbufsize` and moves to Starting.  A call entered in
any state other than OutputReady leaves `*outbuff` at `NULL`; a call entered
in OutputReady hands the output over, and the call after it returns `NULL`:
the output is delivered once. -/
theorem superb_run_handover (bw : superbandwidth_t) (iq iq1 : List ℚ) (size size1 : Int)
    (tsdr : tsdr_lib_t) (dropped dropped1 : Int) :
    ((superb_run bw iq size tsdr dropped).outbuff ≠ none →
      (superb_run_steps bw iq size tsdr dropped).2.2 = false ∧
      (superb_run_steps bw iq size tsdr dropped).1.state = SUPER_STATE_OUTPUT_DATA_READY) ∧
    ((superb_run_steps bw iq size tsdr dropped).2.2 = false →
      (superb_run_steps bw iq size tsdr dropped).1.state = SUPER_STATE_OUTPUT_DATA_READY →
      (superb_run bw iq size tsdr dropped).outbuff =
        (superb_run_steps bw iq size tsdr dropped).1.outbuf ∧
      (superb_run bw iq size tsdr dropped).outbufsize =
        some (superb_run_steps bw iq size tsdr dropped).1.outbufsize ∧
      (superb_run bw iq size tsdr dropped).bw.state = SUPER_STATE_STARTING) ∧
    (bw.state ≠ SUPER_STATE_OUTPUT_DATA_READY →
      (superb_run bw iq size tsdr dropped).outbuff = none) ∧
    (bw.state = SUPER_STATE_OUTPUT_DATA_READY →
      (superb_run bw iq size tsdr dropped).outbuff = bw.outbuf ∧
      (superb_run bw iq size tsdr dropped).outbufsize = some bw.outbufsize ∧
      (superb_run bw iq size tsdr dropped).bw.state = SUPER_STATE_STARTING ∧
      (superb_run (superb_run bw iq size tsdr dropped).bw iq1 size1
        (superb_run bw iq size tsdr dropped).tsdr dropped1).outbuff = none) := by
  refine ⟨?_, ?_, superb_run_not_ready bw iq size tsdr dropped, ?_⟩
  · intro hne
    by_cases h : bw.state = SUPER_STATE_OUTPUT_DATA_READY
    · rw [superb_run_steps_output bw iq size tsdr dropped h]
      exact ⟨rfl, h⟩
    · exact absurd (superb_run_not_ready bw iq size tsdr dropped h) hne
  · intro h1 h2
    unfold superb_run
    dsimp only
    rw [h1]
    simp [superb_run_output, h2]
  · intro h
    rw [superb_run_ready bw iq size tsdr dropped h]
    refine ⟨rfl, rfl, rfl, ?_⟩
    apply superb_run_not_ready
    simp [SUPER_STATE_STARTING, SUPER_STATE_OUTPUT_DATA_READY]

/-- Witness for C26: a machine in OutputReady with the output `[1, 2]` of one
complex value hands it over. -/
theorem superb_run_handover_witness :
    (superb_run
      { superb_init with
        state := SUPER_STATE_OUTPUT_DATA_READY
        outbuf := some [1, 2]
        outbufsize := 1 }
      [] 0
      { samplerate_real := 10, refreshrate := 10, freq_shift := 0, internal_samplerate := 10 }
      0).outbuff = some [1, 2] :=
  ((superb_run_handover
    { superb_init with
      state := SUPER_STATE_OUTPUT_DATA_READY
      outbuf := some [1, 2]
      outbufsize := 1 }
    [] [] 0 0
    { samplerate_real := 10, refreshrate := 10, freq_shift := 0, internal_samplerate := 10 }
    0 0).2.2.2 rfl).1

theorem superb_run_steps_gathering (bw : superbandwidth_t) (iq : List ℚ) (size : Int)
    (tsdr : tsdr_lib_t) (dropped : Int) (h : bw.state = SUPER_STATE_GATHERING) :
    superb_run_steps bw iq size tsdr dropped = superb_run_gathering bw iq size tsdr dropped := by
  unfold superb_run_steps superb_run_stopped superb_run_starting superb_run_pause
  simp [h, SUPER_STATE_STOPPED, SUPER_STATE_STARTING, SUPER_STATE_PAUSE, SUPER_STATE_GATHERING]

theorem superb_run_gathering_last (bw : superbandwidth_t) (iq : List ℚ) (size : Int)
    (tsdr : tsdr_lib_t) (hstate : bw.state = SUPER_STATE_GATHERING)
    (hfull : bw.samples_gathered + Int.tdiv size 2 ≥ bw.samples_to_gather)
    (hc : bw.buffid_current + 1 ≥ bw.buffscount) :
    superb_run_gathering bw iq size tsdr 0 =
      ({ superb_store bw iq ((bw.samples_to_gather - bw.samples_gathered) * 2) with
          samples_gathered := 0
          buffid_current := bw.buffid_current + 1
          buffsbuffcount := bw.samples_gathered + (bw.samples_to_gather - bw.samples_gathered)
          state := SUPER_STATE_DATA_READY },
        tsdr, false) := by
  unfold superb_run_gathering
  rw [if_pos hstate, if_neg (show ¬ ((0 : Int) ≠ 0) by simp)]
  dsimp only
  rw [if_neg (show ¬ (bw.samples_gathered + Int.tdiv size 2 < bw.samples_to_gather) by omega)]
  have hc1 : (superb_store bw iq ((bw.samples_to_gather - bw.samples_gathered) * 2)).buffid_current
      + 1 ≥ (superb_store bw iq ((bw.samples_to_gather - bw.samples_gathered) * 2)).buffscount :=
    hc
  rw [if_pos hc1]
  rfl

theorem superb_run_gathering_next (bw : superbandwidth_t) (iq : List ℚ) (size : Int)
    (tsdr : tsdr_lib_t) (hstate : bw.state = SUPER_STATE_GATHERING)
    (hfull : bw.samples_gathered + Int.tdiv size 2 ≥ bw.samples_to_gather)
    (hc : ¬ bw.buffid_current + 1 ≥ bw.buffscount) :
    superb_run_gathering bw iq size tsdr 0 =
      ({ superb_store bw iq ((bw.samples_to_gather - bw.samples_gathered) * 2) with
          samples_gathered := 0
          buffid_current := bw.buffid_current + 1
          buffsbuffcount := bw.samples_gathered + (bw.samples_to_gather - bw.samples_gathered)
          state := SUPER_STATE_PAUSE },
        { tsdr with
          freq_shift := (bw.buffid_current + 1 - Int.tdiv bw.buffscount 2) * bw.samplerate },
        false) := by
  unfold superb_run_gathering
  rw [if_pos hstate, if_neg (show ¬ ((0 : Int) ≠ 0) by simp)]
  dsimp only
  rw [if_neg (show ¬ (bw.samples_gathered + Int.tdiv size 2 < bw.samples_to_gather) by omega)]
  have hc1 : ¬ (superb_store bw iq
      ((bw.samples_to_gather - bw.samples_gathered) * 2)).buffid_current
      + 1 ≥ (superb_store bw iq ((bw.samples_to_gather - bw.samples_gathered) * 2)).buffscount :=
    hc
  rw [if_neg hc1]
  rfl

theorem superb_run_gathering_complete (bw : superbandwidth_t) (iq : List ℚ) (size : Int)
    (tsdr : tsdr_lib_t) (hstate : bw.state = SUPER_STATE_GATHERING)
    (hfull : bw.samples_gathered + Int.tdiv size 2 ≥ bw.samples_to_gather) :
    superb_run bw iq size tsdr 0 =
      if bw.buffid_current + 1 ≥ bw.buffscount then
        { bw :=
            { superb_store bw iq ((bw.samples_to_gather - bw.samples_gathered) * 2) with
              samples_gathered := 0
              buffid_current := bw.buffid_current + 1
              buffsbuffcount := bw.samples_gathered + (bw.samples_to_gather - bw.samples_gathered)
              state := SUPER_STATE_DATA_READY }
          tsdr := tsdr
          outbuff := none
          outbufsize := none }
      else
        { bw :=
            { superb_store bw iq ((bw.samples_to_gather - bw.samples_gathered) * 2) with
              samples_gathered := 0
              buffid_current := bw.buffid_current + 1
              buffsbuffcount := bw.samples_gathered + (bw.samples_to_gather - bw.samples_gathered)
              state := SUPER_STATE_PAUSE }
          tsdr :=
            { tsdr with
              freq_shift :=
                (bw.buffid_current + 1 - Int.tdiv bw.buffscount 2) * bw.samplerate }
          outbuff := none
          outbufsize := none } := by
  unfold superb_run
  rw [superb_run_steps_gathering bw iq size tsdr 0 hstate]
  by_cases hc : bw.buffid_current + 1 ≥ bw.buffscount
  · rw [superb_run_gathering_last bw iq size tsdr hstate hfull hc, if_pos hc]
    simp [superb_run_output, SUPER_STATE_DATA_READY, SUPER_STATE_OUTPUT_DATA_READY]
  · rw [superb_run_gathering_next bw iq size tsdr hstate hfull hc, if_neg hc]
    simp [superb_run_output, SUPER_STATE_PAUSE, SUPER_STATE_OUTPUT_DATA_READY]

theorem superb_run_dropped (bw : superbandwidth_t) (iq : List ℚ) (size : Int)
    (tsdr : tsdr_lib_t) (dropped : Int) (hstate : bw.state = SUPER_STATE_GATHERING)
    (hd : dropped ≠ 0) :
    superb_run bw iq size tsdr dropped =
      { bw := { bw with samples_gathered := 0 }, tsdr := tsdr, outbuff := none,
        outbufsize := none } := by
  unfold superb_run
  rw [superb_run_steps_gathering bw iq size tsdr dropped hstate]
  unfold superb_run_gathering
  rw [if_pos hstate, if_pos hd]
  rfl

theorem superb_store_buffs (bw : superbandwidth_t) (iq : List ℚ) (buffs : List (List ℚ))
    (c g s : Nat) (hb : bw.buffs = some buffs) (hc : bw.buffid_current = (c : Int))
    (hg : bw.samples_gathered = (g : Int)) (hgs : g ≤ s)
    (hlen : (buffs.getD c []).length = 2 * s) (hiq : 2 * (s - g) ≤ iq.length) :
    (superb_store bw iq (((s : Int) - (g : Int)) * 2)).buffs =
      some (buffs.set c ((buffs.getD c []).take (2 * g) ++ iq.take (2 * (s - g)))) := by
  unfold superb_store
  dsimp only
  rw [hb, hc, hg, Option.map_some', Int.toNat_natCast]
  have e1 : (((g : Int) * 2).toNat) = 2 * g := by omega
  have e2 : ((((s : Int) - (g : Int)) * 2).toNat) = 2 * (s - g) := by omega
  rw [e1, e2]
  congr 2
  unfold memcpy cells
  rw [List.drop_zero, List.drop_eq_nil_of_le, List.append_nil]
  rw [List.length_take, Nat.min_eq_left hiq, hlen]
  omega

/-- C27 (hop completion in `superb_run`).  In the state Gathering with
`dropped == 0` and `samples_gathered + size/2 ≥ samples_to_gather` the call
copies the first `2·(samples_to_gather − samples_gathered)` floats of the
chunk behind the samples already gathered (the rest of the chunk is
discarded), increments the hop index, records
`buffsbuffcount = samples_to_gather` and resets `samples_gathered` to 0; if the
new hop index is below `buffscount` it calls `shiftfreq` with
`(hop − buffscount/2) × samplerate` and moves to Pause, otherwise it moves to
DataReady and leaves the host alone.  With `dropped != 0` only
`samples_gathered` changes, to 0. -/
theorem superb_run_hop_complete (bw : superbandwidth_t) (iq : List ℚ) (size : Int)
    (tsdr : tsdr_lib_t) (hstate : bw.state = SUPER_STATE_GATHERING)
    (hfull : bw.samples_gathered + Int.tdiv size 2 ≥ bw.samples_to_gather) :
    (∀ (buffs : List (List ℚ)) (c g s : Nat), bw.buffs = some buffs →
      bw.buffid_current = (c : Int) → bw.samples_gathered = (g : Int) →
      bw.samples_to_gather = (s : Int) → g ≤ s → (buffs.getD c []).length = 2 * s →
      2 * (s - g) ≤ iq.length →
      (superb_run bw iq size tsdr 0).bw.buffs =
        some (buffs.set c ((buffs.getD c []).take (2 * g) ++ iq.take (2 * (s - g))))) ∧
    (superb_run bw iq size tsdr 0).bw.buffid_current = bw.buffid_current + 1 ∧
    (superb_run bw iq size tsdr 0).bw.buffsbuffcount = bw.samples_to_gather ∧
    (superb_run bw iq size tsdr 0).bw.samples_gathered = 0 ∧
    (bw.buffid_current + 1 < bw.buffscount →
      (superb_run bw iq size tsdr 0).bw.state = SUPER_STATE_PAUSE ∧
      (superb_run bw iq size tsdr 0).tsdr =
        { tsdr with
          freq_shift := (bw.buffid_current + 1 - Int.tdiv bw.buffscount 2) * bw.samplerate }) ∧
    (bw.buffscount ≤ bw.buffid_current + 1 →
      (superb_run bw iq size tsdr 0).bw.state = SUPER_STATE_DATA_READY ∧
      (superb_run bw iq size tsdr 0).tsdr = tsdr) ∧
    (∀ dropped, dropped ≠ 0 →
      (superb_run bw iq size tsdr dropped).bw = { bw with samples_gathered := 0 } ∧
      (superb_run bw iq size tsdr dropped).tsdr = tsdr) := by
  have h := superb_run_gathering_complete bw iq size tsdr hstate hfull
  refine ⟨?_, ?_, ?_, ?_, ?_, ?_, ?_⟩
  · intro buffs c g s hb hc hg hs hgs hlen hiq
    have e := superb_store_buffs bw iq buffs c g s hb hc hg hgs hlen hiq
    rw [h, hs, hg]
    split <;> exact e
  · rw [h]; split <;> rfl
  · rw [h]; split <;> (dsimp only; omega)
  · rw [h]; split <;> rfl
  · intro hlt
    rw [h, if_neg (by omega)]
    exact ⟨rfl, rfl⟩
  · intro hge
    rw [h, if_pos (by omega)]
    exact ⟨rfl, rfl⟩
  · intro dropped hd
    rw [superb_run_dropped bw iq size tsdr dropped hstate hd]
    exact ⟨rfl, rfl⟩

/-- Witness for C27: the second half of hop 0 arrives in a chunk of three
complex samples, of which one is missing. -/
theorem superb_run_hop_complete_witness :
    (superb_run
      { superb_init with
        state := SUPER_STATE_GATHERING
        buffscount := 4
        samplerate := 10
        samples_to_gather := 2
        samples_gathered := 1
        buffs := some [[7, 8, 0, 0], [0, 0, 0, 0], [0, 0, 0, 0], [0, 0, 0, 0]] }
      [1, 2, 3, 4, 5, 6] 6
      { samplerate_real := 10, refreshrate := 10, freq_shift := 0, internal_samplerate := 10 }
      0).bw.buffs = some [[7, 8, 1, 2], [0, 0, 0, 0], [0, 0, 0, 0], [0, 0, 0, 0]] :=
  (superb_run_hop_complete
    { superb_init with
      state := SUPER_STATE_GATHERING
      buffscount := 4
      samplerate := 10
      samples_to_gather := 2
      samples_gathered := 1
      buffs := some [[7, 8, 0, 0], [0, 0, 0, 0], [0, 0, 0, 0], [0, 0, 0, 0]] }
    [1, 2, 3, 4, 5, 6] 6
    { samplerate_real := 10, refreshrate := 10, freq_shift := 0, internal_samplerate := 10 }
    rfl (by decide)).1
    [[7, 8, 0, 0], [0, 0, 0, 0], [0, 0, 0, 0], [0, 0, 0, 0]] 0 1 2 rfl rfl rfl rfl (by decide)
    rfl (by decide)

theorem superb_run_first_call :
    superb_run superb_init (List.replicate 20 0) 20
        { samplerate_real := 10, refreshrate := 10, freq_shift := 0, internal_samplerate := 10 } 0 =
      { bw :=
          { superb_init with
            state := SUPER_STATE_PAUSE
            buffscount := 4
            buffsbuffcount := 10
            samplerate := 10
            buffs := some (List.replicate 4 (List.replicate 20 0))
            buffid_current := 1
            samples_in_frame := 1
            samples_to_gather := 10
            samples_to_pause := 5
            alive := 1 }
        tsdr :=
          { samplerate_real := 10, refreshrate := 10, freq_shift := -10,
            internal_samplerate := 10 }
        outbuff := none
        outbufsize := none } := by
  have e1 : c_int ((10 : ℚ) / 10) = 1 := by norm_num [c_int]
  have e2 : c_int (SUPER_SECS_TO_PAUSE * (10 : ℚ)) = 5 := by
    norm_num [c_int, SUPER_SECS_TO_PAUSE]
  have hs : superb_run_starting (superb_run_stopped superb_init)
      { samplerate_real := 10, refreshrate := 10, freq_shift := 0, internal_samplerate := 10 } =
      { superb_init with
        state := SUPER_STATE_GATHERING
        buffscount := 4
        samplerate := 10
        buffs := some (List.replicate 4 (List.replicate 20 0))
        samples_in_frame := 1
        samples_to_gather := 10
        samples_to_pause := 5
        alive := 1 } := by
    unfold superb_run_starting superb_run_stopped
    simp only [superb_init, super_startthread, SUPER_STATE_STOPPED, SUPER_STATE_STARTING,
      if_true, super_freebuff, Int.cast_ofNat]
    rw [if_pos (by decide), e1, e2]
    rfl
  unfold superb_run superb_run_steps
  dsimp only
  rw [hs]
  rfl

/-- C25 (code defect).  One capture cycle from `superb_init` with the front end
at shift 0, `samplerate = 10` and chunks of ten complex samples, so that every
call completes one hop: the calls gather the hops 0, 1, 2 and 3 (the hop index
after the calls is 1, 2, 3, 4) while the shift in effect is 0, −10, 0 and +10.
Hops 0 and 2 are gathered at the same frequency. -/
theorem superb_run_hop_shifts :
    ∃ r1 r2 r3 r4 : SuperbRun,
      r1 = superb_run superb_init (List.replicate 20 0) 20
        { samplerate_real := 10, refreshrate := 10, freq_shift := 0, internal_samplerate := 10 }
        0 ∧
      r2 = superb_run r1.bw (List.replicate 20 0) 20 r1.tsdr 0 ∧
      r3 = superb_run r2.bw (List.replicate 20 0) 20 r2.tsdr 0 ∧
      r4 = superb_run r3.bw (List.replicate 20 0) 20 r3.tsdr 0 ∧
      r1.bw.buffid_current = 1 ∧ r2.bw.buffid_current = 2 ∧ r3.bw.buffid_current = 3 ∧
      r4.bw.buffid_current = 4 ∧ r4.bw.state = SUPER_STATE_DATA_READY ∧
      r1.tsdr.freq_shift = -10 ∧ r2.tsdr.freq_shift = 0 ∧ r3.tsdr.freq_shift = 10 := by
  refine ⟨_, _, _, _, rfl, rfl, rfl, rfl, ?_, ?_, ?_, ?_, ?_, ?_, ?_, ?_⟩ <;>
    (rw [superb_run_first_call] <;> try rfl)

/-! ### The worker `superb_ondataready` -/

theorem c_uint32_lt (z : Int) : c_uint32 z < 2 ^ 32 := by
  unfold c_uint32
  have h1 : 0 ≤ z % 2 ^ 32 := Int.emod_nonneg _ (by norm_num)
  have h2 : z % 2 ^ 32 < 2 ^ 32 := Int.emod_lt_of_pos _ (by norm_num)
  omega

theorem fft_getrealsize_lt (n : Nat) : fft_getrealsize n < 2 ^ 32 :=
  Nat.mod_lt _ (by norm_num)

theorem fft_getrealsize_pos (n : Nat) (h : n < 2 ^ 32) : 0 < fft_getrealsize n := by
  rw [fft_getrealsize_eq n h]
  positivity

theorem fft_getrealsize_le (n : Nat) (h1 : 1 ≤ n) (h : n < 2 ^ 32) : fft_getrealsize n ≤ n := by
  rw [fft_getrealsize_eq n h]
  exact Nat.pow_log_le_self 2 (by omega)

/-- A `float` ext-buffer that can be prepared: a `NULL` buffer has capacity 0. -/
theorem extbuffer_preparetohandle_some (c : extbuffer_t)
    (ht : c.type = ExtBufferType.EXTBUFFER_TYPE_FLOAT)
    (hn : c.buffer = none → c.buffer_max_size = 0) (size : Nat) (hs : 0 < size) :
    ∃ o b, extbuffer_preparetohandle c size = some o ∧ o.buffer = some b ∧
      o.type = ExtBufferType.EXTBUFFER_TYPE_FLOAT := by
  unfold extbuffer_preparetohandle
  rw [if_pos hs]
  dsimp only
  have hr : ∃ b, (extbuffer_resize c size).buffer = some b ∧
      (extbuffer_resize c size).type = ExtBufferType.EXTBUFFER_TYPE_FLOAT := by
    unfold extbuffer_resize
    cases hb : c.buffer with
    | none =>
      have h0 := hn hb
      rw [if_pos (Or.inl (by omega))]
      dsimp only
      rw [ht]
      exact ⟨_, rfl, rfl⟩
    | some b =>
      split
      · dsimp only
        rw [ht]
        dsimp only
        split
        · exact ⟨_, rfl, rfl⟩
        · exact ⟨b, hb, ht⟩
      · exact ⟨b, hb, ht⟩
  obtain ⟨b, hb, hty⟩ := hr
  unfold extbuffer_clear
  dsimp only
  split
  · rw [hty]
    dsimp only
    rw [hb]
    exact ⟨_, _, rfl, rfl, rfl⟩
  · exact ⟨_, b, rfl, hb, hty⟩

theorem fft_crosscorrelation_some (sqrt : ℚ → ℚ) (a b : List ℚ) (samples : Nat) :
    ∃ r, fft_crosscorrelation sqrt a b samples = some r := by
  obtain ⟨A, hA, _⟩ := fft_perform_some sqrt a (fft_getrealsize samples) 0
    (fft_getrealsize_lt _)
  obtain ⟨B, hB, _⟩ := fft_perform_some sqrt b (fft_getrealsize samples) 0
    (fft_getrealsize_lt _)
  obtain ⟨C, hC, _⟩ := fft_perform_some sqrt
    (fft_crosscorrelation_mul A B ((fft_getrealsize samples * 2) % 2 ^ 32))
    (fft_getrealsize samples) 1 (fft_getrealsize_lt _)
  refine ⟨(C, B), ?_⟩
  simp only [fft_crosscorrelation, fft_crosscorrelation_bins, hA, hB, hC]

theorem superb_bestfit_some (sqrt : ℚ → ℚ) (bw : superbandwidth_t) (h : SuperbWorkerOk bw)
    (data1 data2 : List ℚ) (size : Int) :
    ∃ bw1 off, superb_bestfit sqrt bw data1 data2 size = some (bw1, off) ∧
      SuperbWorkerOk bw1 ∧ bw1.extb = bw.extb ∧ bw1.buffs = bw.buffs ∧
      bw1.buffscount = bw.buffscount ∧ bw1.buffsbuffcount = bw.buffsbuffcount ∧
      bw1.samplerate = bw.samplerate := by
  have hpos : 0 < fft_getrealsize (c_uint32
      (Int.tdiv size bw.samples_in_frame * bw.samples_in_frame)) :=
    fft_getrealsize_pos _ (c_uint32_lt _)
  obtain ⟨eo, o, ho, hob, hot⟩ := extbuffer_preparetohandle_some bw.extb_out h.out_float
    h.out_null _ hpos
  obtain ⟨et, t, ht, htb, htt⟩ := extbuffer_preparetohandle_some bw.extb_temp h.temp_float
    h.temp_null _ hpos
  obtain ⟨r, hr⟩ := fft_crosscorrelation_some sqrt
    (complex_to_abs_diff sqrt (memcpy o 0 (cells data1 0 (fft_getrealsize (c_uint32
      (Int.tdiv size bw.samples_in_frame * bw.samples_in_frame)))))
      (fft_getrealsize (c_uint32 (Int.tdiv size bw.samples_in_frame * bw.samples_in_frame))))
    (complex_to_abs_diff sqrt (memcpy t 0 (cells data2 0 (fft_getrealsize (c_uint32
      (Int.tdiv size bw.samples_in_frame * bw.samples_in_frame)))))
      (fft_getrealsize (c_uint32 (Int.tdiv size bw.samples_in_frame * bw.samples_in_frame))))
    (fft_getrealsize (c_uint32 (Int.tdiv size bw.samples_in_frame * bw.samples_in_frame)) / 2)
  unfold superb_bestfit
  rw [if_neg h.frame]
  simp only [ho, ht, hob, htb, hr]
  refine ⟨_, _, rfl, ?_, rfl, rfl, rfl, rfl, rfl⟩
  exact
    { out_float := hot
      out_null := fun hn => by simp at hn
      temp_float := htt
      temp_null := fun hn => by simp at hn
      extb_some := h.extb_some
      buffs_some := h.buffs_some
      frame := h.frame
      alive := h.alive }

theorem superb_align_some (sqrt : ℚ → ℚ) (bufsize : Int) :
    ∀ (is : List Nat) (bw : superbandwidth_t), SuperbWorkerOk bw →
      ∃ bw1, superb_align sqrt bufsize bw is = some (bw1, false) ∧ SuperbWorkerOk bw1 ∧
        bw1.buffscount = bw.buffscount ∧ bw1.buffsbuffcount = bw.buffsbuffcount ∧
        bw1.samplerate = bw.samplerate := by
  intro is
  induction is with
  | nil => intro bw h; exact ⟨bw, rfl, h, rfl, rfl, rfl⟩
  | cons i is ih =>
    intro bw h
    obtain ⟨buffs, hb⟩ := Option.ne_none_iff_exists'.mp h.buffs_some
    obtain ⟨bw1, off, hfit, hok, hextb, hbuffs, hc, hbc, hsr⟩ :=
      superb_bestfit_some sqrt bw h (buffs.getD 0 []) (buffs.getD i []) bufsize
    obtain ⟨e, he⟩ := Option.ne_none_iff_exists'.mp hok.extb_some
    obtain ⟨b3, hb3, _⟩ := fft_perform_some sqrt
      (memcpy
        (memcpy (buffs.getD i []) (bufsize - off).toNat (cells (buffs.getD i []) 0 off.toNat)) 0
        (cells (memcpy e 0 (cells (buffs.getD i []) off.toNat (bufsize - off).toNat)) 0
          (bufsize - off).toNat))
      (c_uint32 bw1.buffsbuffcount) 0 (c_uint32_lt _)
    have hok2 : SuperbWorkerOk
        { bw1 with
          extb := { bw1.extb with
            buffer := some (memcpy e 0 (cells (buffs.getD i []) off.toNat (bufsize - off).toNat)) }
          buffs := some (buffs.set i b3) } :=
      { out_float := hok.out_float
        out_null := hok.out_null
        temp_float := hok.temp_float
        temp_null := hok.temp_null
        extb_some := by simp
        buffs_some := by simp
        frame := hok.frame
        alive := hok.alive }
    obtain ⟨bw2, h2, hok3, hc2, hbc2, hsr2⟩ := ih _ hok2
    refine ⟨bw2, ?_, hok3, by rw [hc2]; exact hc, by rw [hbc2]; exact hbc,
      by rw [hsr2]; exact hsr⟩
    unfold superb_align
    simp only [hb, hfit, if_neg hok.alive, he, hb3]
    exact h2

theorem superb_ondataready_some (sqrt : ℚ → ℚ) (bw : superbandwidth_t)
    (outbuff : Option (List ℚ)) (outbufsize : Int) (tsdr : tsdr_lib_t) (s : Nat)
    (hcount : bw.buffscount = SUPER_HOPS_TO_MAKE) (hbbc : bw.buffsbuffcount = (s : Int))
    (h1 : 1 ≤ s) (h2 : s < 2 ^ 29) (hsif : bw.samples_in_frame ≠ 0) (halive : bw.alive ≠ 0)
    (hbuffs : bw.buffs ≠ none) (hextb : ExtFloatOk bw.extb) (hout : ExtFloatOk bw.extb_out)
    (htemp : ExtFloatOk bw.extb_temp) :
    ∃ r out, superb_ondataready sqrt bw outbuff outbufsize tsdr = some r ∧
      r.outbuff = some out ∧
      r.outbufsize = SUPER_HOPS_TO_MAKE * (fft_getrealsize s : Int) ∧
      r.tsdr = { tsdr with internal_samplerate := SUPER_HOPS_TO_MAKE * bw.samplerate } := by
  have hP1 : 0 < fft_getrealsize s := fft_getrealsize_pos s (by omega)
  have hP2 : fft_getrealsize s ≤ s := fft_getrealsize_le s h1 (by omega)
  have e1 : c_uint32 bw.buffsbuffcount = s := by
    rw [hbbc, c_uint32_of_lt (by omega) (by omega), Int.toNat_natCast]
  have e2 : c_uint32 (SUPER_HOPS_TO_MAKE * (fft_getrealsize s : Int)) = 4 * fft_getrealsize s := by
    unfold SUPER_HOPS_TO_MAKE
    rw [c_uint32_of_lt (by omega) (by omega)]
    omega
  have e3 : (4 * fft_getrealsize s * 2) % 2 ^ 32 = 8 * fft_getrealsize s := by
    rw [Nat.mod_eq_of_lt (by omega)]
    omega
  obtain ⟨e0, b0, hprep, hb0, ht0⟩ := extbuffer_preparetohandle_some bw.extb hextb.is_float
    hextb.null_cap (8 * fft_getrealsize s) (by omega)
  have hok : SuperbWorkerOk
      { bw with buffsbuffcount := (fft_getrealsize s : Int), extb := e0 } :=
    { out_float := hout.is_float
      out_null := hout.null_cap
      temp_float := htemp.is_float
      temp_null := htemp.null_cap
      extb_some := by simp [hb0]
      buffs_some := hbuffs
      frame := hsif
      alive := halive }
  obtain ⟨bw3, halign, hok3, hc3, hbc3, hsr3⟩ := superb_align_some sqrt
    ((fft_getrealsize s : Int) * 2)
    (List.range' 1 (bw.buffscount.toNat - 1)) _ hok
  obtain ⟨buffs, hbf⟩ := Option.ne_none_iff_exists'.mp hok3.buffs_some
  obtain ⟨e, he⟩ := Option.ne_none_iff_exists'.mp hok3.extb_some
  obtain ⟨f0, hf0, _⟩ := fft_perform_some sqrt (buffs.getD 0 []) (c_uint32 bw3.buffsbuffcount) 0
    (c_uint32_lt _)
  obtain ⟨f1, hf1, _⟩ := fft_perform_some sqrt
    (superb_concat (buffs.set 0 f0) bw3.buffscount bw3.buffsbuffcount e)
    (4 * fft_getrealsize s) 1 (by omega)
  refine ⟨{ bw := { bw3 with
                    buffs := some (buffs.set 0 f0)
                    extb := { bw3.extb with buffer := some f1 } }
            outbuff := some f1
            outbufsize := ((4 * fft_getrealsize s : Nat) : Int)
            tsdr := { tsdr with internal_samplerate := bw3.buffscount * bw3.samplerate } },
    f1, ?_, rfl, ?_, ?_⟩
  · unfold superb_ondataready
    simp only [e1, hcount, e2, e3, hprep]
    rw [hcount] at halign
    simp only [halign, hbf, he, hf0, hf1]
  · dsimp only
    push_cast
    rfl
  · dsimp only
    rw [hc3, hsr3, hcount]

/-- C24 (output of the worker).  Let the four hops be complete
(`buffscount = SUPER_HOPS_TO_MAKE`, `buffsbuffcount = samples_to_gather`, with
`1 ≤ samples_to_gather < 2^29` so that no count overflows), the thread alive
and the buffers allocated.  Then `superb_ondataready` runs to completion, the
output pointer is not `NULL`, the reported length is
`buffscount × fft_getrealsize(samples_to_gather)` complex samples and the host
sample rate is set to `buffscount × samplerate`; from DataReady the worker step
stores that output and moves to OutputReady. -/
theorem superb_ondataready_length (sqrt : ℚ → ℚ) (bw : superbandwidth_t)
    (outbuff : Option (List ℚ)) (outbufsize : Int) (tsdr : tsdr_lib_t) (s : Nat)
    (hcount : bw.buffscount = SUPER_HOPS_TO_MAKE) (hbbc : bw.buffsbuffcount = bw.samples_to_gather)
    (hs : bw.samples_to_gather = (s : Int))
    (h1 : 1 ≤ s) (h2 : s < 2 ^ 29) (hsif : bw.samples_in_frame ≠ 0) (halive : bw.alive ≠ 0)
    (hbuffs : bw.buffs ≠ none) (hextb : ExtFloatOk bw.extb) (hout : ExtFloatOk bw.extb_out)
    (htemp : ExtFloatOk bw.extb_temp) :
    (∃ r out, superb_ondataready sqrt bw outbuff outbufsize tsdr = some r ∧
      r.outbuff = some out ∧
      r.outbufsize = SUPER_HOPS_TO_MAKE * (fft_getrealsize s : Int) ∧
      r.outbufsize = bw.buffscount * (fft_getrealsize s : Int) ∧
      r.tsdr.internal_samplerate = SUPER_HOPS_TO_MAKE * bw.samplerate) ∧
    (bw.state = SUPER_STATE_DATA_READY →
      ∃ bw1 tsdr1 out, super_thread_step sqrt bw tsdr = some (bw1, tsdr1) ∧
        bw1.state = SUPER_STATE_OUTPUT_DATA_READY ∧ bw1.outbuf = some out ∧
        bw1.outbufsize = bw.buffscount * (fft_getrealsize s : Int) ∧
        tsdr1.internal_samplerate = bw.buffscount * bw.samplerate) := by
  constructor
  · obtain ⟨r, out, hr, ho, hn, ht⟩ := superb_ondataready_some sqrt bw outbuff outbufsize tsdr s
      hcount (by rw [hbbc, hs]) h1 h2 hsif halive hbuffs hextb hout htemp
    exact ⟨r, out, hr, ho, hn, by rw [hn, hcount], by rw [ht]⟩
  · intro hst
    obtain ⟨r, out, hr, ho, hn, ht⟩ := superb_ondataready_some sqrt { bw with outbuf := none }
      none bw.outbufsize tsdr s hcount (by rw [← hs, ← hbbc]) h1 h2 hsif halive hbuffs hextb
      hout htemp
    refine ⟨{ r.bw with
              outbuf := r.outbuff
              outbufsize := r.outbufsize
              state := SUPER_STATE_OUTPUT_DATA_READY },
      r.tsdr, out, ?_, rfl, ho, by rw [hcount]; exact hn, by rw [ht, hcount]⟩
    unfold super_thread_step
    rw [if_neg (by simp [hst]), hr]

/-- Witness for C24: four hops of ten complex samples give an output of
`4 × 8 = 32` complex samples. -/
theorem superb_ondataready_length_witness :
    ∃ r out, superb_ondataready (fun x => x)
        { superb_init with
          state := SUPER_STATE_DATA_READY
          buffscount := 4
          buffsbuffcount := 10
          samplerate := 10
          buffs := some (List.replicate 4 (List.replicate 20 0))
          buffid_current := 4
          samples_in_frame := 1
          samples_to_gather := 10
          samples_to_pause := 5
          alive := 1 }
        none 0
        { samplerate_real := 10, refreshrate := 10, freq_shift := 10, internal_samplerate := 10 }
        = some r ∧
      r.outbuff = some out ∧ r.outbufsize = 32 ∧ r.tsdr.internal_samplerate = 40 := by
  obtain ⟨r, out, hr, ho, hn, _, ht⟩ := (superb_ondataready_length (fun x => x)
    { superb_init with
      state := SUPER_STATE_DATA_READY
      buffscount := 4
      buffsbuffcount := 10
      samplerate := 10
      buffs := some (List.replicate 4 (List.replicate 20 0))
      buffid_current := 4
      samples_in_frame := 1
      samples_to_gather := 10
      samples_to_pause := 5
      alive := 1 }
    none 0
    { samplerate_real := 10, refreshrate := 10, freq_shift := 10, internal_samplerate := 10 }
    10 rfl rfl rfl (by decide) (by norm_num) (by decide) (by decide) (by simp)
    extbuffer_init_ok extbuffer_init_ok extbuffer_init_ok).1
  exact ⟨r, out, hr, ho, hn, ht⟩

/-! ## The auto-correlation of a sinusoid -/

theorem realign_emod (block d : Int) (hb : 0 < block) (hb2 : block < 2 ^ 64) :
    (if d < 0 then
        ({ difference := dsp_dropped_cal_compensation block (-d) } :
          dsp_dropped_compensation_t)
      else { difference := d }).difference % block = d % block := by
  split
  · next hneg =>
    show dsp_dropped_cal_compensation block (-d) % block = d % block
    rw [dsp_dropped_cal_compensation_eq block (-d) hb hb2 (by omega), Int.neg_neg,
      Int.emod_emod]
  · rfl

theorem realign_lt (block d : Int) (hb : 0 < block) (hb2 : block < 2 ^ 64) (hd : d < block) :
    (if d < 0 then
        ({ difference := dsp_dropped_cal_compensation block (-d) } :
          dsp_dropped_compensation_t)
      else { difference := d }).difference < block := by
  split
  · next hneg =>
    show dsp_dropped_cal_compensation block (-d) < block
    rw [dsp_dropped_cal_compensation_eq block (-d) hb hb2 (by omega)]
    exact Int.emod_lt_of_pos _ hb
  · exact hd

theorem tmod_gt_neg (s b : Int) (hb : 0 < b) : -b < s.tmod b := by
  obtain ⟨n, rfl⟩ := Int.eq_ofNat_of_zero_le hb.le
  have hn : 0 < n := by exact_mod_cast hb
  cases s with
  | ofNat m =>
    have := Int.tmod_nonneg (n : Int) (Int.ofNat_nonneg m)
    simp only [Int.ofNat_eq_coe] at this ⊢
    omega
  | negSucc m =>
    have h : (Int.negSucc m).tmod (n : Int) = -(((m + 1) % n : Nat) : Int) := rfl
    have := Nat.mod_lt (m + 1) hn
    rw [h]
    omega

/-- C39 (general effect of a sync shift).  For every `block` with
`0 < block < 2^31`, every signed sync offset `s` and every prior difference
`d` (in particular every `d ≥ 0`), `dsp_dropped_compensation_shift_with` leaves
a difference `d'` with `d' ≡ d - s (mod block)`; and if in addition
`d < block`, then `0 ≤ d' < block`. -/
theorem dsp_dropped_compensation_shift_with_general (res : dsp_dropped_compensation_t)
    (block : Nat) (s : Int) (hb : 0 < block) (hb2 : block < 2 ^ 31) :
    (dsp_dropped_compensation_shift_with res block s).difference % block =
        (res.difference - s) % block ∧
      (res.difference < block →
        0 ≤ (dsp_dropped_compensation_shift_with res block s).difference ∧
          (dsp_dropped_compensation_shift_with res block s).difference < block) := by
  have hbi : (0 : Int) < block := by exact_mod_cast hb
  have hbi2 : (block : Int) < 2 ^ 64 := by
    have : (block : Int) < 2 ^ 31 := by exact_mod_cast hb2
    omega
  refine ⟨?_, fun hlt => ⟨?_, ?_⟩⟩
  · unfold dsp_dropped_compensation_shift_with
    dsimp only
    rw [realign_emod _ _ hbi hbi2]
    split
    · rw [Int.sub_emod, tmod_emod, ← Int.sub_emod]
    · have e : res.difference - ((block : Int) + s.tmod block) =
          (res.difference - s.tmod block) + (-1) * block := by ring
      rw [e, Int.add_mul_emod_self, Int.sub_emod, tmod_emod, ← Int.sub_emod]
  · unfold dsp_dropped_compensation_shift_with
    exact realign_nonneg _ _
  · unfold dsp_dropped_compensation_shift_with
    dsimp only
    apply realign_lt _ _ hbi hbi2
    split
    · next hs =>
      have := Int.tmod_nonneg (block : Int) hs
      omega
    · have := tmod_gt_neg s block hbi
      omega

/-- Witness for C39: the shift by -4321 with block 1920 on the difference 481. -/
theorem dsp_dropped_compensation_shift_with_general_witness :
    (dsp_dropped_compensation_shift_with { difference := 481 } 1920 (-4321)).difference %
          ((1920 : Nat) : Int) = ((481 : Int) - (-4321)) % ((1920 : Nat) : Int) ∧
      ((481 : Int) < ((1920 : Nat) : Int) →
        0 ≤ (dsp_dropped_compensation_shift_with { difference := 481 } 1920 (-4321)).difference ∧
          (dsp_dropped_compensation_shift_with { difference := 481 } 1920 (-4321)).difference <
            ((1920 : Nat) : Int)) :=
  dsp_dropped_compensation_shift_with_general { difference := 481 } 1920 (-4321)
    (by decide) (by norm_num)

/-! ## Additions to an empty buffer and refused additions -/

theorem cb_grow_buffer_size_ge [Inhabited α] (cb : CircBuff α) (len : Nat) :
    len * cb.size_coeff.toNat ≤ (cb_grow cb len).buffer_size := by
  unfold cb_grow cb_inflate cb_set_desired
  split_ifs <;> (try dsimp only) <;> omega

theorem cb_size_cb_init [Inhabited α] (m : Int) : cb_size (cb_init m : CircBuff α) = 0 := by
  simp [cb_size, cb_init]

theorem cb_size_cb_purge {cb : CircBuff α} (hv : cb.invalid = false) :
    cb_size (cb_purge cb) = 0 := by
  simp [cb_size, cb_purge, hv]

theorem cb_add_empty_ok [Inhabited α] (cb : CircBuff α) (inp : List α) (h : Inv cb)
    (hv : cb.invalid = false) (hc : 2 ≤ cb.size_coeff) (he : cb_size cb = 0)
    (hne : 0 < inp.length) :
    cb_add cb inp = (cb_write (cb_grow cb inp.length) inp, CBStatus.CB_OK) ∧
      cb_size (cb_add cb inp).1 = inp.length := by
  have hg := cb_grow_inv h inp.length
  have hs := cb_size_cb_grow h inp.length
  have hge := cb_grow_buffer_size_ge cb inp.length
  have hrem := hg.rem_le
  unfold cb_size at hs he
  have hc2 : 2 ≤ cb.size_coeff.toNat := by omega
  have h2len : 2 * inp.length ≤ (cb_grow cb inp.length).remaining_capacity := by
    have : inp.length * 2 ≤ inp.length * cb.size_coeff.toNat := Nat.mul_le_mul_left _ hc2
    omega
  have hok := cb_add_ok hv inp hne (by omega) (by omega)
  refine ⟨hok.1, ?_⟩
  rw [hok.1]
  show cb_size (cb_write (cb_grow cb inp.length) inp) = inp.length
  rw [cb_size_cb_write hg inp hok.2]
  unfold cb_size
  omega

/-- C33 (an addition to an empty ring buffer never fails).  For every valid
ring buffer (structurally sound, not freed, `size_coeff` at least
`CB_SIZE_COEFF_DEFAULT`) with `cb_size == 0`, whatever `buffering`,
`size_coeff`, `desired_buf_size` and the cursors are, and for every `len > 0`,
`cb_add` returns `CB_OK` and afterwards `cb_size == len`. -/
theorem cb_add_empty [Inhabited α] (cb : CircBuff α) (inp : List α) (h : Inv cb)
    (hv : cb.invalid = false) (hc : CB_SIZE_COEFF_DEFAULT ≤ cb.size_coeff)
    (he : cb_size cb = 0) (hne : 0 < inp.length) :
    (cb_add cb inp).2 = CBStatus.CB_OK ∧ cb_size (cb_add cb inp).1 = inp.length := by
  have hk := cb_add_empty_ok cb inp h hv hc he hne
  exact ⟨by rw [hk.1], hk.2⟩

/-- Witness for C33: three items added to a purged buffer that is still in the
buffering state. -/
theorem cb_add_empty_witness :
    (cb_add (cb_purge { (cb_init 4 : CircBuff Nat) with buffering := true, size_coeff := 3 })
        [7, 8, 9]).2 = CBStatus.CB_OK ∧
      cb_size (cb_add (cb_purge { (cb_init 4 : CircBuff Nat) with
        buffering := true, size_coeff := 3 }) [7, 8, 9]).1 = [7, 8, 9].length :=
  cb_add_empty (cb_purge { (cb_init 4 : CircBuff Nat) with buffering := true, size_coeff := 3 })
    [7, 8, 9] ⟨rfl, by decide, by decide, by decide, rfl⟩ rfl (by decide) rfl (by decide)

theorem cb_add_refused [Inhabited α] (cb : CircBuff α) (inp : List α) (h : Inv cb)
    (hfull : (cb_add cb inp).2 = CBStatus.CB_FULL) :
    cb_contents (cb_add cb inp).1 = cb_contents cb ∧
      cb_size (cb_add cb inp).1 = cb_size cb := by
  have hcont := cb_contents_cb_grow h inp.length
  have hsize := cb_size_cb_grow h inp.length
  cases hv : cb.invalid with
  | true =>
    rw [cb_add_invalid hv] at hfull
    simp at hfull
  | false =>
    rcases Nat.eq_zero_or_pos inp.length with h0 | hne
    · have hnil : inp = [] := List.length_eq_zero.mp h0
      subst hnil
      rw [cb_add_nil hv] at hfull
      simp at hfull
    · by_cases h1 : (cb_grow cb inp.length).buffering = true ∧
          (cb_grow cb inp.length).remaining_capacity < 2 * inp.length
      · rw [cb_add_hysteresis hv inp hne h1.1 h1.2]
        exact ⟨hcont, hsize⟩
      · by_cases h2 : (cb_grow cb inp.length).buffering = false ∧
            (cb_grow cb inp.length).remaining_capacity < inp.length
        · rw [cb_add_full hv inp hne h2.1 h2.2]
          exact ⟨hcont, hsize⟩
        · rw [(cb_add_ok hv inp hne h1 h2).1] at hfull
          simp at hfull

/-- C34 (a refused addition is atomic on the contents).  Whenever `cb_add`
returns `CB_FULL` on a structurally sound ring buffer, the logical contents
(the `cb_size` stored items read from `rempos` with wrap) and `cb_size` are the
same as before the call, whatever the call did to `buffer_size`, `rempos`,
`buffering` and `size_coeff`. -/
theorem cb_add_refused_atomic [Inhabited α] (cb : CircBuff α) (inp : List α) (h : Inv cb)
    (hfull : (cb_add cb inp).2 = CBStatus.CB_FULL) :
    cb_contents (cb_add cb inp).1 = cb_contents cb ∧
      cb_size (cb_add cb inp).1 = cb_size cb :=
  cb_add_refused cb inp h hfull

/-- Witness for C34: a full buffer of six items is offered five more; the call
grows the array to ten cells, moves `rempos` to 4, sets `buffering`, raises
`size_coeff` to 3 and returns `CB_FULL`. -/
theorem cb_add_refused_atomic_witness :
    (cb_add ({ (cb_init 4 : CircBuff Nat) with
          buffer := [1, 2, 3, 4, 5, 6], buffer_size := 6, desired_buf_size := 6,
          remaining_capacity := 0 }) [7, 8, 9, 10, 11]).1.buffer_size = 10 ∧
      (cb_add ({ (cb_init 4 : CircBuff Nat) with
          buffer := [1, 2, 3, 4, 5, 6], buffer_size := 6, desired_buf_size := 6,
          remaining_capacity := 0 }) [7, 8, 9, 10, 11]).1.rempos = 4 ∧
      (cb_add ({ (cb_init 4 : CircBuff Nat) with
          buffer := [1, 2, 3, 4, 5, 6], buffer_size := 6, desired_buf_size := 6,
          remaining_capacity := 0 }) [7, 8, 9, 10, 11]).1.buffering = true ∧
      (cb_add ({ (cb_init 4 : CircBuff Nat) with
          buffer := [1, 2, 3, 4, 5, 6], buffer_size := 6, desired_buf_size := 6,
          remaining_capacity := 0 }) [7, 8, 9, 10, 11]).1.size_coeff = 3 ∧
      cb_contents (cb_add ({ (cb_init 4 : CircBuff Nat) with
          buffer := [1, 2, 3, 4, 5, 6], buffer_size := 6, desired_buf_size := 6,
          remaining_capacity := 0 }) [7, 8, 9, 10, 11]).1 = [1, 2, 3, 4, 5, 6] ∧
      cb_size (cb_add ({ (cb_init 4 : CircBuff Nat) with
          buffer := [1, 2, 3, 4, 5, 6], buffer_size := 6, desired_buf_size := 6,
          remaining_capacity := 0 }) [7, 8, 9, 10, 11]).1 = 6 :=
  ⟨by decide, by decide, by decide, by decide,
    (cb_add_refused_atomic ({ (cb_init 4 : CircBuff Nat) with
          buffer := [1, 2, 3, 4, 5, 6], buffer_size := 6, desired_buf_size := 6,
          remaining_capacity := 0 }) [7, 8, 9, 10, 11]
      ⟨rfl, by decide, by decide, by decide, rfl⟩ (by decide)).1,
    (cb_add_refused_atomic ({ (cb_init 4 : CircBuff Nat) with
          buffer := [1, 2, 3, 4, 5, 6], buffer_size := 6, desired_buf_size := 6,
          remaining_capacity := 0 }) [7, 8, 9, 10, 11]
      ⟨rfl, by decide, by decide, by decide, rfl⟩ (by decide)).2⟩

/-! ## The projections of `dsp_average_v_h` -/

theorem sum_range_mul_block {K : Type} [LinearOrderedField K] (f : Nat → K) (w h : Nat) :
    (Finset.range (w * h)).sum f =
      (Finset.range h).sum (fun y => (Finset.range w).sum (fun x => f (y * w + x))) := by
  induction h with
  | zero => simp
  | succ h ih =>
    rw [Nat.mul_succ, Finset.sum_range_add, ih, Finset.sum_range_succ]
    congr 1
    apply Finset.sum_congr rfl
    intro x _
    rw [Nat.mul_comm]

theorem sum_range_column {K : Type} [LinearOrderedField K] (f : Nat → K) (w h x : Nat)
    (hx : x < w) :
    (Finset.range (w * h)).sum (fun i => if i % w = x then f i else 0) =
      (Finset.range h).sum (fun y => f (y * w + x)) := by
  rw [sum_range_mul_block]
  apply Finset.sum_congr rfl
  intro y _
  have e : ∀ x1 ∈ Finset.range w,
      (if (y * w + x1) % w = x then f (y * w + x1) else 0) =
        if x = x1 then f (y * w + x1) else 0 := by
    intro x1 hx1
    have hx1w : x1 < w := Finset.mem_range.mp hx1
    rw [Nat.mul_comm, Nat.mul_add_mod, Nat.mod_eq_of_lt hx1w]
    by_cases hxx : x1 = x
    · rw [if_pos hxx, if_pos hxx.symm]
    · rw [if_neg hxx, if_neg (fun hh => hxx hh.symm)]
  rw [Finset.sum_congr rfl e, Finset.sum_ite_eq, if_pos (Finset.mem_range.mpr hx)]

theorem sum_range_row {K : Type} [LinearOrderedField K] (f : Nat → K) (w h y : Nat)
    (hw : 0 < w) (hy : y < h) :
    (Finset.range (w * h)).sum (fun i => if i / w = y then f i else 0) =
      (Finset.range w).sum (fun x => f (y * w + x)) := by
  rw [sum_range_mul_block]
  have e : ∀ y1 ∈ Finset.range h,
      (Finset.range w).sum
          (fun x => if (y1 * w + x) / w = y then f (y1 * w + x) else 0) =
        if y = y1 then (Finset.range w).sum (fun x => f (y1 * w + x)) else 0 := by
    intro y1 _
    have e2 : ∀ x ∈ Finset.range w,
        (if (y1 * w + x) / w = y then f (y1 * w + x) else 0) =
          if y = y1 then f (y1 * w + x) else 0 := by
      intro x hx
      have hxw : x < w := Finset.mem_range.mp hx
      have hdiv : (y1 * w + x) / w = y1 := by
        rw [Nat.mul_comm, Nat.mul_add_div hw, Nat.div_eq_of_lt hxw, Nat.add_zero]
      rw [hdiv]
      by_cases hyy : y1 = y
      · rw [if_pos hyy, if_pos hyy.symm]
      · rw [if_neg hyy, if_neg (fun hh => hyy hh.symm)]
    rw [Finset.sum_congr rfl e2]
    by_cases hyy : y = y1
    · simp [hyy]
    · simp [hyy]
  rw [Finset.sum_congr rfl e, Finset.sum_ite_eq, if_pos (Finset.mem_range.mpr hy)]

theorem dsp_average_v_h_upto {K : Type} [LinearOrderedField K] (width height : Nat)
    (hw : 0 < width) (image w0 h0 : List K) (hwl : width ≤ w0.length)
    (hhl : height ≤ h0.length) (n : Nat) (hn : n ≤ width * height) :
    ((List.range n).foldl
        (fun (wh : List K × List K) (i : Nat) =>
          let val := image.getD i 0
          let c := (Int.tmod (i : Int) (width : Int)).toNat
          let r := (Int.tdiv (i : Int) (width : Int)).toNat
          (wh.1.set c (wh.1.getD c 0 + val), wh.2.set r (wh.2.getD r 0 + val)))
        (w0, h0)).1.length = w0.length ∧
    ((List.range n).foldl
        (fun (wh : List K × List K) (i : Nat) =>
          let val := image.getD i 0
          let c := (Int.tmod (i : Int) (width : Int)).toNat
          let r := (Int.tdiv (i : Int) (width : Int)).toNat
          (wh.1.set c (wh.1.getD c 0 + val), wh.2.set r (wh.2.getD r 0 + val)))
        (w0, h0)).2.length = h0.length ∧
    (∀ x, x < width →
      ((List.range n).foldl
        (fun (wh : List K × List K) (i : Nat) =>
          let val := image.getD i 0
          let c := (Int.tmod (i : Int) (width : Int)).toNat
          let r := (Int.tdiv (i : Int) (width : Int)).toNat
          (wh.1.set c (wh.1.getD c 0 + val), wh.2.set r (wh.2.getD r 0 + val)))
        (w0, h0)).1.getD x 0 =
        w0.getD x 0 +
          (Finset.range n).sum (fun i => if i % width = x then image.getD i 0 else 0)) ∧
    (∀ y, y < height →
      ((List.range n).foldl
        (fun (wh : List K × List K) (i : Nat) =>
          let val := image.getD i 0
          let c := (Int.tmod (i : Int) (width : Int)).toNat
          let r := (Int.tdiv (i : Int) (width : Int)).toNat
          (wh.1.set c (wh.1.getD c 0 + val), wh.2.set r (wh.2.getD r 0 + val)))
        (w0, h0)).2.getD y 0 =
        h0.getD y 0 +
          (Finset.range n).sum (fun i => if i / width = y then image.getD i 0 else 0)) := by
  induction n with
  | zero => simp
  | succ n ih =>
    obtain ⟨i1, i2, i3, i4⟩ := ih (by omega)
    rw [List.range_succ, List.foldl_append]
    generalize (List.range n).foldl
        (fun (wh : List K × List K) (i : Nat) =>
          let val := image.getD i 0
          let c := (Int.tmod (i : Int) (width : Int)).toNat
          let r := (Int.tdiv (i : Int) (width : Int)).toNat
          (wh.1.set c (wh.1.getD c 0 + val), wh.2.set r (wh.2.getD r 0 + val)))
        (w0, h0) = S at i1 i2 i3 i4 ⊢
    have ec : (Int.tmod (n : Int) (width : Int)).toNat = n % width := by
      rw [← Int.ofNat_tmod, Int.toNat_ofNat]
    have er : (Int.tdiv (n : Int) (width : Int)).toNat = n / width := by
      rw [← Int.ofNat_tdiv, Int.toNat_ofNat]
    have hc : n % width < width := Nat.mod_lt _ hw
    have hr : n / width < height := by
      rw [Nat.div_lt_iff_lt_mul hw, Nat.mul_comm]
      omega
    simp only [List.foldl_cons, List.foldl_nil, ec, er, List.length_set]
    refine ⟨i1, i2, ?_, ?_⟩
    · intro x hx
      rw [getD_set _ _ _ _ _ (show n % width < S.1.length by omega), Finset.sum_range_succ]
      by_cases hxc : x = n % width
      · rw [if_pos hxc, if_pos hxc.symm, ← hxc, i3 x hx]
        ring
      · rw [if_neg hxc, if_neg (fun hh => hxc hh.symm), i3 x hx, add_zero]
    · intro y hy
      rw [getD_set _ _ _ _ _ (show n / width < S.2.length by omega), Finset.sum_range_succ]
      by_cases hyr : y = n / width
      · rw [if_pos hyr, if_pos hyr.symm, ← hyr, i4 y hy]
        ring
      · rw [if_neg hyr, if_neg (fun hh => hyr hh.symm), i4 y hy, add_zero]

theorem getD_memcpy_zero {K : Type} [LinearOrderedField K] (b : List K) (n x : Nat)
    (hx : x < n) : (memcpy b 0 (List.replicate n (0 : K))).getD x 0 = 0 := by
  unfold memcpy
  rw [List.take_zero, List.nil_append, List.getD_eq_getElem?_getD,
    List.getElem?_append_left (by simpa using hx)]
  simp [hx]

theorem dsp_average_v_h_spec {K : Type} [LinearOrderedField K] (width height : Nat)
    (hw : 0 < width) (image wbuf hbuf : List K) (hwl : width ≤ wbuf.length)
    (hhl : height ≤ hbuf.length) :
    (∀ x, x < width →
      (dsp_average_v_h (width : Int) (height : Int) image wbuf hbuf).1.getD x 0 =
        (Finset.range height).sum (fun y => image.getD (y * width + x) 0)) ∧
    (∀ y, y < height →
      (dsp_average_v_h (width : Int) (height : Int) image wbuf hbuf).2.getD y 0 =
        (Finset.range width).sum (fun x => image.getD (y * width + x) 0)) := by
  have et : ((width : Int) * (height : Int)).toNat = width * height := by
    rw [← Int.ofNat_mul, Int.toNat_ofNat]
  have h := dsp_average_v_h_upto width height hw image
    (memcpy wbuf 0 (List.replicate width 0)) (memcpy hbuf 0 (List.replicate height 0))
    (by rw [length_memcpy _ _ _ (by simpa using hwl)]; exact hwl)
    (by rw [length_memcpy _ _ _ (by simpa using hhl)]; exact hhl)
    (width * height) (le_refl _)
  unfold dsp_average_v_h
  simp only [et, Int.toNat_ofNat]
  refine ⟨fun x hx => ?_, fun y hy => ?_⟩
  · rw [h.2.2.1 x hx, getD_memcpy_zero _ _ _ hx, zero_add, sum_range_column _ _ _ _ hx]
  · rw [h.2.2.2 y hy, getD_memcpy_zero _ _ _ hy, zero_add, sum_range_row _ _ _ _ hw hy]

/-- C31 (projections).  For every `width > 0`, every `height` and every image,
`dsp_average_v_h` leaves `widthcollapsebuffer[x] = Σ_y image[y·width + x]` for
every `x < width` (column sums) and `heightcollapsebuffer[y] = Σ_x image[y·width + x]`
for every `y < height` (row sums), whatever the two buffers held before;
every index `i % width` and `i / width` used for a pixel `i < width·height` is
in range; and the sum of the column sums and the sum of the row sums both equal
the sum of the `width·height` pixels. -/
theorem dsp_average_v_h_projections {K : Type} [LinearOrderedField K] (width height : Nat)
    (hw : 0 < width) (image wbuf hbuf : List K) (hwl : width ≤ wbuf.length)
    (hhl : height ≤ hbuf.length) :
    (∀ x, x < width →
      (dsp_average_v_h (width : Int) (height : Int) image wbuf hbuf).1.getD x 0 =
        (Finset.range height).sum (fun y => image.getD (y * width + x) 0)) ∧
    (∀ y, y < height →
      (dsp_average_v_h (width : Int) (height : Int) image wbuf hbuf).2.getD y 0 =
        (Finset.range width).sum (fun x => image.getD (y * width + x) 0)) ∧
    (∀ i, i < width * height →
      (Int.tmod (i : Int) (width : Int)).toNat < width ∧
        (Int.tdiv (i : Int) (width : Int)).toNat < height) ∧
    (Finset.range width).sum
        (fun x => (dsp_average_v_h (width : Int) (height : Int) image wbuf hbuf).1.getD x 0) =
      (Finset.range (width * height)).sum (fun i => image.getD i 0) ∧
    (Finset.range height).sum
        (fun y => (dsp_average_v_h (width : Int) (height : Int) image wbuf hbuf).2.getD y 0) =
      (Finset.range (width * height)).sum (fun i => image.getD i 0) := by
  have h := dsp_average_v_h_spec width height hw image wbuf hbuf hwl hhl
  refine ⟨h.1, h.2, ?_, ?_, ?_⟩
  · intro i hi
    rw [← Int.ofNat_tmod, Int.toNat_ofNat, ← Int.ofNat_tdiv, Int.toNat_ofNat]
    refine ⟨Nat.mod_lt _ hw, ?_⟩
    rw [Nat.div_lt_iff_lt_mul hw, Nat.mul_comm]
    exact hi
  · rw [Finset.sum_congr rfl (fun x hx => h.1 x (Finset.mem_range.mp hx)), Finset.sum_comm,
      sum_range_mul_block]
  · rw [Finset.sum_congr rfl (fun y hy => h.2 y (Finset.mem_range.mp hy)),
      sum_range_mul_block]

/-- Witness for C31: a 2 × 2 image over the rationals, with stale values in
both buffers. -/
theorem dsp_average_v_h_projections_witness :
    (dsp_average_v_h ((2 : Nat) : Int) ((2 : Nat) : Int) [(1 : ℚ), 2, 3, 4] [9, 9] [9, 9]).1.getD 0 0 =
        (Finset.range 2).sum (fun y => ([(1 : ℚ), 2, 3, 4]).getD (y * 2 + 0) 0) ∧
      (dsp_average_v_h ((2 : Nat) : Int) ((2 : Nat) : Int) [(1 : ℚ), 2, 3, 4] [9, 9] [9, 9]).2.getD 1 0 =
        (Finset.range 2).sum (fun x => ([(1 : ℚ), 2, 3, 4]).getD (1 * 2 + x) 0) :=
  ⟨(dsp_average_v_h_projections 2 2 (by decide) [(1 : ℚ), 2, 3, 4] [9, 9] [9, 9]
      (by decide) (by decide)).1 0 (by decide),
    (dsp_average_v_h_projections 2 2 (by decide) [(1 : ℚ), 2, 3, 4] [9, 9] [9, 9]
      (by decide) (by decide)).2.1 1 (by decide)⟩

/-! ## The carried offset of the resampler -/

theorem dsp_resample_process_some (res : dsp_resample_t) (inp out : extbuffer_t)
    (upsample_by downsample_by : ℚ) (nearest_neighbour_sampling : Int)
    (hpos : 0 < resample_output_samples res inp.size_valid_elements upsample_by downsample_by) :
    ∃ r, dsp_resample_process res inp out upsample_by downsample_by
        nearest_neighbour_sampling = some r ∧
      r.1.offset = res.offset +
        (((resample_output_samples res inp.size_valid_elements upsample_by downsample_by : Nat)
          : ℚ) * (downsample_by / upsample_by) - inp.size_valid_elements) ∧
      r.1.contrib =
        (if nearest_neighbour_sampling ≠ 0 then res.contrib
         else (resample_area res (inp.buffer.getD []) inp.size_valid_elements
          (upsample_by / downsample_by)).contrib) ∧
      r.2.size_valid_elements =
        resample_output_samples res inp.size_valid_elements upsample_by downsample_by := by
  unfold dsp_resample_process extbuffer_preparetohandle
  dsimp only
  rw [if_pos hpos]
  refine ⟨_, rfl, rfl, rfl, ?_⟩
  dsimp only
  unfold extbuffer_clear
  dsimp only
  split_ifs <;> (try split) <;> rfl

theorem resample_output_samples_cast (res : dsp_resample_t) (size : Nat)
    (upsample_by downsample_by : ℚ)
    (h0 : 0 ≤ ((size : ℚ) - res.offset) * (upsample_by / downsample_by))
    (h1 : ((size : ℚ) - res.offset) * (upsample_by / downsample_by) < 2 ^ 31) :
    ((resample_output_samples res size upsample_by downsample_by : Nat) : ℚ) =
      ((⌊((size : ℚ) - res.offset) * (upsample_by / downsample_by)⌋ : Int) : ℚ) := by
  have h := resample_output_samples_eq res size upsample_by downsample_by h0 h1
  rw [← h]
  push_cast
  rfl

theorem resample_output_samples_pos (res : dsp_resample_t) (size : Nat)
    (upsample_by downsample_by : ℚ)
    (h0 : 1 ≤ ((size : ℚ) - res.offset) * (upsample_by / downsample_by))
    (h1 : ((size : ℚ) - res.offset) * (upsample_by / downsample_by) < 2 ^ 31) :
    0 < resample_output_samples res size upsample_by downsample_by := by
  have h := resample_output_samples_eq res size upsample_by downsample_by (by linarith) h1
  have hf : (1 : Int) ≤ ⌊((size : ℚ) - res.offset) * (upsample_by / downsample_by)⌋ := by
    rw [Int.le_floor]
    exact_mod_cast h0
  omega

theorem dsp_resample_process_small (res : dsp_resample_t) (inp out : extbuffer_t)
    (upsample_by downsample_by : ℚ) (nearest_neighbour_sampling : Int)
    (h0 : 0 ≤ ((inp.size_valid_elements : ℚ) - res.offset) * (upsample_by / downsample_by))
    (h1 : ((inp.size_valid_elements : ℚ) - res.offset) * (upsample_by / downsample_by) < 1) :
    dsp_resample_process res inp out upsample_by downsample_by nearest_neighbour_sampling =
      none := by
  have h := resample_output_samples_eq res inp.size_valid_elements upsample_by downsample_by h0
    (by linarith)
  have hf : ⌊((inp.size_valid_elements : ℚ) - res.offset) * (upsample_by / downsample_by)⌋ = 0 := by
    rw [Int.floor_eq_iff]
    constructor
    · exact_mod_cast h0
    · simpa using h1
  have hz : resample_output_samples res inp.size_valid_elements upsample_by downsample_by = 0 := by
    omega
  unfold dsp_resample_process
  dsimp only
  rw [hz]
  rfl

theorem dsp_resample_process_offset_spec (res : dsp_resample_t) (inp out : extbuffer_t)
    (upsample_by downsample_by : ℚ) (nearest_neighbour_sampling : Int)
    (hup : 0 < upsample_by) (hdown : 0 < downsample_by)
    (h1 : 1 ≤ ((inp.size_valid_elements : ℚ) - res.offset) * (upsample_by / downsample_by))
    (h2 : ((inp.size_valid_elements : ℚ) - res.offset) * (upsample_by / downsample_by) < 2 ^ 31) :
    ∃ r, dsp_resample_process res inp out upsample_by downsample_by
        nearest_neighbour_sampling = some r ∧
      -(downsample_by / upsample_by) < r.1.offset ∧ r.1.offset ≤ 0 ∧
      (r.1.offset = 0 ↔
        ∃ k : Int, ((inp.size_valid_elements : ℚ) - res.offset) *
          (upsample_by / downsample_by) = k) := by
  obtain ⟨r, hr, hoff, _, _⟩ := dsp_resample_process_some res inp out upsample_by downsample_by
    nearest_neighbour_sampling
    (resample_output_samples_pos res inp.size_valid_elements upsample_by downsample_by h1 h2)
  rw [resample_output_samples_cast res inp.size_valid_elements upsample_by downsample_by
    (by linarith) h2] at hoff
  have hlo := Int.floor_le
    (((inp.size_valid_elements : ℚ) - res.offset) * (upsample_by / downsample_by))
  have hhi := Int.lt_floor_add_one
    (((inp.size_valid_elements : ℚ) - res.offset) * (upsample_by / downsample_by))
  have hq : 0 < downsample_by / upsample_by := div_pos hdown hup
  have e : r.1.offset =
      (((⌊((inp.size_valid_elements : ℚ) - res.offset) *
          (upsample_by / downsample_by)⌋ : Int) : ℚ) -
        ((inp.size_valid_elements : ℚ) - res.offset) * (upsample_by / downsample_by)) *
      (downsample_by / upsample_by) := by
    rw [hoff]
    field_simp
    ring
  refine ⟨r, hr, ?_, ?_, ?_⟩
  · rw [e]
    generalize ((inp.size_valid_elements : ℚ) - res.offset) *
      (upsample_by / downsample_by) = x at hlo hhi ⊢
    generalize downsample_by / upsample_by = q at hq ⊢
    generalize ((⌊x⌋ : Int) : ℚ) = F at hlo hhi ⊢
    nlinarith
  · rw [e]
    generalize ((inp.size_valid_elements : ℚ) - res.offset) *
      (upsample_by / downsample_by) = x at hlo hhi ⊢
    generalize downsample_by / upsample_by = q at hq ⊢
    generalize ((⌊x⌋ : Int) : ℚ) = F at hlo hhi ⊢
    nlinarith
  · rw [e]
    constructor
    · intro h0
      rcases mul_eq_zero.mp h0 with h | h
      · exact ⟨_, (sub_eq_zero.mp h).symm⟩
      · exact absurd h (ne_of_gt hq)
    · rintro ⟨k, hk⟩
      rw [hk, Int.floor_intCast]
      simp

theorem dsp_resample_calls_offset (upsample_by downsample_by : ℚ)
    (nearest_neighbour_sampling : Int) (hup : 0 < upsample_by) (hdown : 0 < downsample_by) :
    ∀ (inps : List extbuffer_t) (res : dsp_resample_t) (out : extbuffer_t),
      (∀ inp ∈ inps, 1 ≤ (inp.size_valid_elements : ℚ) * (upsample_by / downsample_by) ∧
        (inp.size_valid_elements : ℚ) * (upsample_by / downsample_by) + 1 ≤ 2 ^ 31) →
      -(downsample_by / upsample_by) < res.offset → res.offset ≤ 0 →
      ∃ st, dsp_resample_calls upsample_by downsample_by nearest_neighbour_sampling
          (res, out) inps = some st ∧
        -(downsample_by / upsample_by) < st.1.offset ∧ st.1.offset ≤ 0 := by
  intro inps
  induction inps with
  | nil =>
    intro res out _ h1 h2
    exact ⟨(res, out), rfl, h1, h2⟩
  | cons inp inps ih =>
    intro res out hall h1 h2
    have hq : 0 < upsample_by / downsample_by := div_pos hup hdown
    have hinp := hall inp (List.mem_cons_self _ _)
    have e : downsample_by / upsample_by * (upsample_by / downsample_by) = 1 := by
      field_simp
    have hx : 1 ≤ ((inp.size_valid_elements : ℚ) - res.offset) *
          (upsample_by / downsample_by) ∧
        ((inp.size_valid_elements : ℚ) - res.offset) * (upsample_by / downsample_by) <
          2 ^ 31 := by
      obtain ⟨ha, hb⟩ := hinp
      rw [sub_mul]
      generalize (inp.size_valid_elements : ℚ) * (upsample_by / downsample_by) = y at ha hb ⊢
      generalize upsample_by / downsample_by = q1 at hq e ⊢
      generalize downsample_by / upsample_by = q2 at h1 e ⊢
      constructor
      · nlinarith
      · nlinarith
    obtain ⟨r, hr, ho1, ho2, _⟩ := dsp_resample_process_offset_spec res inp out upsample_by
      downsample_by nearest_neighbour_sampling hup hdown hx.1 hx.2
    obtain ⟨st, hst, hs1, hs2⟩ := ih r.1 r.2
      (fun i hi => hall i (List.mem_cons_of_mem _ hi)) ho1 ho2
    refine ⟨st, ?_, hs1, hs2⟩
    show (match dsp_resample_process res inp out upsample_by downsample_by
        nearest_neighbour_sampling with
      | none => none
      | some st1 =>
        dsp_resample_calls upsample_by downsample_by nearest_neighbour_sampling st1 inps) = _
    rw [hr]
    exact hst

/-- C35 (the resampler offset stays within one input-sample step).  In exact
arithmetic, for every call of `dsp_resample_process` with `up > 0`, `down > 0`
and `x = (size - offset_in)·up/down` in the range `1 ≤ x < 2^31` (the call
passes its assertion and the `(int)` conversion is defined; `offset_in ≤ 0` and
`size > 0` give `x > 0`), the call returns and the carried offset satisfies
`-down/up < offset_out ≤ 0`, with `offset_out = 0` exactly when `x` is an
integer.  Hence from every state with `-down/up < offset ≤ 0` (in particular
from `dsp_resample_init`), every sequence of calls with a fixed ratio and with
`1 ≤ size·up/down ≤ 2^31 - 1` returns with `-down/up < offset ≤ 0`. -/
theorem dsp_resample_process_offset (res : dsp_resample_t) (inp out : extbuffer_t)
    (upsample_by downsample_by : ℚ) (nearest_neighbour_sampling : Int)
    (hup : 0 < upsample_by) (hdown : 0 < downsample_by) :
    (1 ≤ ((inp.size_valid_elements : ℚ) - res.offset) * (upsample_by / downsample_by) →
      ((inp.size_valid_elements : ℚ) - res.offset) * (upsample_by / downsample_by) < 2 ^ 31 →
      ∃ r, dsp_resample_process res inp out upsample_by downsample_by
          nearest_neighbour_sampling = some r ∧
        -(downsample_by / upsample_by) < r.1.offset ∧ r.1.offset ≤ 0 ∧
        (r.1.offset = 0 ↔
          ∃ k : Int, ((inp.size_valid_elements : ℚ) - res.offset) *
            (upsample_by / downsample_by) = k)) ∧
    (∀ inps : List extbuffer_t,
      (∀ i ∈ inps, 1 ≤ (i.size_valid_elements : ℚ) * (upsample_by / downsample_by) ∧
        (i.size_valid_elements : ℚ) * (upsample_by / downsample_by) + 1 ≤ 2 ^ 31) →
      -(downsample_by / upsample_by) < res.offset → res.offset ≤ 0 →
      ∃ st, dsp_resample_calls upsample_by downsample_by nearest_neighbour_sampling
          (res, out) inps = some st ∧
        -(downsample_by / upsample_by) < st.1.offset ∧ st.1.offset ≤ 0) :=
  ⟨fun h1 h2 => dsp_resample_process_offset_spec res inp out upsample_by downsample_by
      nearest_neighbour_sampling hup hdown h1 h2,
    fun inps hall h1 h2 => dsp_resample_calls_offset upsample_by downsample_by
      nearest_neighbour_sampling hup hdown inps res out hall h1 h2⟩

/-- Witness for C35: a fresh resampler, four input samples, `up = 10`,
`down = 4`. -/
theorem dsp_resample_process_offset_witness :
    ∃ r, dsp_resample_process dsp_resample_init
        { extbuffer_init with
          buffer := some [0, 1, 2, 3], buffer_max_size := 4, size_valid_elements := 4,
          valid := true, cleartozero := false, calls := 1 }
        extbuffer_init 10 4 1 = some r ∧
      -((4 : ℚ) / 10) < r.1.offset ∧ r.1.offset ≤ 0 := by
  obtain ⟨r, h1, h2, h3, _⟩ := (dsp_resample_process_offset dsp_resample_init
    { extbuffer_init with
      buffer := some [0, 1, 2, 3], buffer_max_size := 4, size_valid_elements := 4,
      valid := true, cleartozero := false, calls := 1 }
    extbuffer_init 10 4 1 (by norm_num) (by norm_num)).1
    (by norm_num [dsp_resample_init]) (by norm_num [dsp_resample_init])
  exact ⟨r, h1, h2, h3⟩

/-! ## The area-integration loop of the resampler -/

theorem area_fill_spec (val c2 : ℚ) :
    ∀ (fuel : Nat) (s : AreaState), ⌈c2⌉.toNat - s.pid ≤ fuel →
      ∃ k, area_fill val c2 fuel s =
          { pid := s.pid + k, contrib := s.contrib, stored := s.stored ++ List.replicate k val } ∧
        c2 ≤ ((s.pid + k : Nat) : ℚ) ∧
        (k = 0 ∨ ((s.pid : ℚ) < c2 ∧ ((s.pid + k : Nat) : ℚ) < c2 + 1)) := by
  intro fuel
  induction fuel with
  | zero =>
    intro s hs
    refine ⟨0, by simp [area_fill], ?_, Or.inl rfl⟩
    have h1 : c2 ≤ ((⌈c2⌉ : Int) : ℚ) := Int.le_ceil c2
    have h2 : ⌈c2⌉ ≤ ((⌈c2⌉.toNat : Nat) : Int) := Int.self_le_toNat _
    have h3 : ⌈c2⌉.toNat ≤ s.pid := by omega
    have h4 : ((⌈c2⌉ : Int) : ℚ) ≤ ((s.pid : Nat) : ℚ) := by
      have : ⌈c2⌉ ≤ ((s.pid : Nat) : Int) := by omega
      exact_mod_cast this
    rw [Nat.add_zero]
    linarith
  | succ fuel ih =>
    intro s hs
    unfold area_fill
    by_cases h : (s.pid : ℚ) < c2
    · rw [if_pos h]
      obtain ⟨k, hk, hex, hlt⟩ := ih { s with stored := s.stored ++ [val], pid := s.pid + 1 }
        (by dsimp only; omega)
      refine ⟨k + 1, ?_, ?_, Or.inr ⟨h, ?_⟩⟩
      · rw [hk]
        simp [List.replicate_succ, Nat.add_assoc, Nat.add_comm 1 k]
      · have e : s.pid + (k + 1) = s.pid + 1 + k := by omega
        rw [e]
        exact hex
      · have e : s.pid + (k + 1) = s.pid + 1 + k := by omega
        rw [e]
        rcases hlt with h0 | h1
        · subst h0
          push_cast
          linarith
        · exact h1.2
    · rw [if_neg h]
      refine ⟨0, by simp, ?_, Or.inl rfl⟩
      rw [Nat.add_zero]
      exact not_lt.mp h

theorem area_step_spec (r o : ℚ) (buf : List ℚ) (s : AreaState) (n : Nat) :
    s.pid ≤ (area_step r o buf s n).pid ∧
    (area_step r o buf s n).stored.length =
      s.stored.length + ((area_step r o buf s n).pid - s.pid) ∧
    ((area_step r o buf s n).pid = s.pid ∨
      ((area_step r o buf s n).pid : ℚ) < (n : ℚ) * r + o + r) ∧
    (n : ℚ) * r + o + r - 1 ≤ ((area_step r o buf s n).pid : ℚ) ∧
    ((n : ℚ) * r + o - 1 ≤ (s.pid : ℚ) → (s.pid = 0 ∨ (s.pid : ℚ) < (n : ℚ) * r + o) →
      0 ≤ (n : ℚ) * r + o →
      (area_step r o buf s n).stored.sum + (area_step r o buf s n).contrib =
        s.stored.sum + s.contrib + r * buf.getD n 0) := by
  unfold area_step
  dsimp only
  by_cases h1 : (s.pid : ℚ) < (n : ℚ) * r + o ∧ (s.pid : ℚ) < (n : ℚ) * r + o + r - 1
  · rw [if_pos h1]
    dsimp only
    obtain ⟨k, hk, hex, hlt⟩ := area_fill_spec (buf.getD n 0) ((n : ℚ) * r + o + r - 1)
      (⌈(n : ℚ) * r + o + r - 1⌉.toNat - (s.pid + 1))
      { pid := s.pid + 1, contrib := 0,
        stored := s.stored ++ [s.contrib + buf.getD n 0 * (1 - ((n : ℚ) * r + o) + s.pid)] }
      (le_refl _)
    rw [hk]
    dsimp only at hex hlt ⊢
    have hup : ((s.pid + 1 + k : Nat) : ℚ) < (n : ℚ) * r + o + r := by
      rcases hlt with h0 | h0
      · subst h0
        push_cast
        linarith
      · linarith
    have hc : ((s.pid + 1 + k : Nat) : ℚ) = (s.pid : ℚ) + 1 + k := by push_cast; ring
    by_cases h2 : ((s.pid + 1 + k : Nat) : ℚ) < (n : ℚ) * r + o + r ∧
        ((s.pid + 1 + k : Nat) : ℚ) > (n : ℚ) * r + o
    · rw [if_pos h2]
      dsimp only
      refine ⟨by omega, ?_, Or.inr hup, hex, fun _ _ _ => ?_⟩
      · simp
        omega
      · simp only [List.sum_append, List.sum_cons, List.sum_nil, List.sum_replicate,
          smul_eq_mul, nsmul_eq_mul]
        rw [hc]
        ring
    · rw [if_neg h2]
      dsimp only
      refine ⟨by omega, ?_, Or.inr hup, hex, fun ha _ _ => ?_⟩
      · simp
        omega
      · have hle : ((s.pid + 1 + k : Nat) : ℚ) ≤ (n : ℚ) * r + o := by
          by_contra hcon
          exact h2 ⟨hup, not_le.mp hcon⟩
        have hk0 : (0 : ℚ) ≤ k := Nat.cast_nonneg k
        have hkz : (k : ℚ) = 0 := by rw [hc] at hle; linarith
        have hpz : (s.pid : ℚ) = (n : ℚ) * r + o - 1 := by rw [hc] at hle; linarith
        have hk0' : k = 0 := by exact_mod_cast hkz
        subst hk0'
        simp only [List.sum_append, List.sum_cons, List.sum_nil, List.replicate_zero]
        rw [hpz]
        ring
  · rw [if_neg h1]
    obtain ⟨k, hk, hex, hlt⟩ := area_fill_spec (buf.getD n 0) ((n : ℚ) * r + o + r - 1)
      (⌈(n : ℚ) * r + o + r - 1⌉.toNat - s.pid) s (le_refl _)
    rw [hk]
    dsimp only
    have hc : ((s.pid + k : Nat) : ℚ) = (s.pid : ℚ) + k := by push_cast; ring
    have hup : k = 0 ∨ ((s.pid + k : Nat) : ℚ) < (n : ℚ) * r + o + r := by
      rcases hlt with h0 | h0
      · exact Or.inl h0
      · right
        linarith
    have hup2 : s.pid + k = s.pid ∨ ((s.pid + k : Nat) : ℚ) < (n : ℚ) * r + o + r := by
      rcases hup with h0 | h0
      · left
        omega
      · exact Or.inr h0
    by_cases h2 : ((s.pid + k : Nat) : ℚ) < (n : ℚ) * r + o + r ∧
        ((s.pid + k : Nat) : ℚ) > (n : ℚ) * r + o
    · rw [if_pos h2]
      dsimp only
      refine ⟨by omega, ?_, hup2, hex, fun _ hb hc0 => ?_⟩
      · simp
      · have hpc : (s.pid : ℚ) = (n : ℚ) * r + o := by
          rcases hlt with h0 | h0
          · subst h0
            rw [Nat.add_zero] at h2
            rcases hb with hb0 | hb0
            · rw [hb0] at h2
              have : ((0 : Nat) : ℚ) = 0 := Nat.cast_zero
              linarith [h2.2]
            · linarith [h2.2]
          · rcases hb with hb0 | hb0
            · have hz : (s.pid : ℚ) = 0 := by rw [hb0]; exact Nat.cast_zero
              by_contra hne
              apply h1
              constructor
              · rw [hz]
                exact lt_of_le_of_ne hc0 (fun hh => hne (by rw [hz]; exact hh))
              · exact h0.1
            · exact absurd ⟨hb0, h0.1⟩ h1
        simp only [List.sum_append, List.sum_replicate, smul_eq_mul, nsmul_eq_mul]
        rw [hc, hpc]
        ring
    · rw [if_neg h2]
      dsimp only
      refine ⟨by omega, ?_, hup2, hex, fun _ hb hc0 => ?_⟩
      · simp
      · have hk0 : k = 0 := by
          rcases hlt with h0 | h0
          · exact h0
          · by_contra hne
            have hk1 : (1 : ℚ) ≤ k := by
              have : 1 ≤ k := Nat.one_le_iff_ne_zero.mpr hne
              exact_mod_cast this
            have hle : ((s.pid + k : Nat) : ℚ) ≤ (n : ℚ) * r + o := by
              by_contra hcon
              exact h2 ⟨by linarith [h0.2], not_le.mp hcon⟩
            apply h1
            constructor
            · rw [hc] at hle
              linarith
            · exact h0.1
        subst hk0
        simp only [List.replicate_zero, List.append_nil]
        ring

theorem resample_area_count (res : dsp_resample_t) (buf : List ℚ) (r : ℚ) (hr : 0 < r)
    (n : Nat) :
    (resample_area res buf n r).stored.length = (resample_area res buf n r).pid ∧
      ((resample_area res buf n r).pid = 0 ∨
        ((resample_area res buf n r).pid : ℚ) < (n : ℚ) * r + -res.offset * r) := by
  unfold resample_area
  induction n with
  | zero => simp
  | succ n ih =>
    rw [List.range_succ, List.foldl_append]
    obtain ⟨i1, i2⟩ := ih
    generalize (List.range n).foldl (area_step r (-res.offset * r) buf)
      { pid := 0, contrib := res.contrib, stored := [] } = S at i1 i2 ⊢
    simp only [List.foldl_cons, List.foldl_nil]
    obtain ⟨s1, s2, s3, _, _⟩ := area_step_spec r (-res.offset * r) buf S n
    refine ⟨by omega, ?_⟩
    rcases s3 with h | h
    · rw [h]
      rcases i2 with h0 | h0
      · exact Or.inl h0
      · right
        push_cast
        linarith
    · right
      push_cast
      linarith

theorem resample_area_sum (res : dsp_resample_t) (buf : List ℚ) (r : ℚ) (hr : 0 < r)
    (ho0 : 0 ≤ -res.offset * r) (ho1 : -res.offset * r < 1) (n : Nat) :
    (n : ℚ) * r + -res.offset * r - 1 ≤ ((resample_area res buf n r).pid : ℚ) ∧
      (resample_area res buf n r).stored.sum + (resample_area res buf n r).contrib =
        res.contrib + r * ((List.range n).map (fun i => buf.getD i 0)).sum := by
  induction n with
  | zero =>
    unfold resample_area
    simp
    linarith
  | succ n ih =>
    have hcnt := (resample_area_count res buf r hr n).2
    obtain ⟨i1, i2⟩ := ih
    unfold resample_area at i1 i2 hcnt ⊢
    rw [List.range_succ, List.foldl_append, List.map_append, List.sum_append]
    generalize (List.range n).foldl (area_step r (-res.offset * r) buf)
      { pid := 0, contrib := res.contrib, stored := [] } = S at i1 i2 hcnt ⊢
    simp only [List.foldl_cons, List.foldl_nil, List.map_cons, List.map_nil, List.sum_cons,
      List.sum_nil]
    obtain ⟨_, _, _, s4, s5⟩ := area_step_spec r (-res.offset * r) buf S n
    have hn0 : (0 : ℚ) ≤ (n : ℚ) * r := mul_nonneg (Nat.cast_nonneg n) hr.le
    refine ⟨?_, ?_⟩
    · push_cast
      linarith
    · rw [s5 i1 hcnt (by linarith), i2]
      ring

/-- The area-integration loop with the `double` operations taken exactly stays
within the prepared output: for every `up > 0`, `down > 0`, carried `offset ≤ 0` and
`size` with `(size - offset)·up/down < 2^31`, the number of values
`dsp_resample_process` stores through `resbuff` in the non-nearest branch is at
most `output_samples = ⌊(size - offset)·up/down⌋`; and when
`output_samples > 0` the call returns with the output ext-buffer prepared for
exactly `output_samples` values. -/
theorem resample_area_within_output (res : dsp_resample_t) (inp out : extbuffer_t)
    (upsample_by downsample_by : ℚ) (hup : 0 < upsample_by) (hdown : 0 < downsample_by)
    (hoff : res.offset ≤ 0)
    (h2 : ((inp.size_valid_elements : ℚ) - res.offset) * (upsample_by / downsample_by) < 2 ^ 31) :
    (resample_stored res inp upsample_by downsample_by 0).length ≤
        resample_output_samples res inp.size_valid_elements upsample_by downsample_by ∧
      ((resample_output_samples res inp.size_valid_elements upsample_by downsample_by : Int) =
        ⌊((inp.size_valid_elements : ℚ) - res.offset) * (upsample_by / downsample_by)⌋) ∧
      (0 < resample_output_samples res inp.size_valid_elements upsample_by downsample_by →
        ∃ r, dsp_resample_process res inp out upsample_by downsample_by 0 = some r ∧
          r.2.size_valid_elements =
            resample_output_samples res inp.size_valid_elements upsample_by downsample_by ∧
          (resample_stored res inp upsample_by downsample_by 0).length ≤
            r.2.size_valid_elements) := by
  have hq : 0 < upsample_by / downsample_by := div_pos hup hdown
  have hx0 : 0 ≤ ((inp.size_valid_elements : ℚ) - res.offset) *
      (upsample_by / downsample_by) :=
    mul_nonneg (by have : (0 : ℚ) ≤ inp.size_valid_elements := Nat.cast_nonneg _; linarith)
      hq.le
  have hout := resample_output_samples_eq res inp.size_valid_elements upsample_by
    downsample_by hx0 h2
  have hcnt := resample_area_count res (inp.buffer.getD []) (upsample_by / downsample_by) hq
    inp.size_valid_elements
  have hlen : (resample_stored res inp upsample_by downsample_by 0).length ≤
      resample_output_samples res inp.size_valid_elements upsample_by downsample_by := by
    unfold resample_stored
    rw [if_neg (by decide)]
    rw [hcnt.1]
    rcases hcnt.2 with h0 | h0
    · rw [h0]
      exact Nat.zero_le _
    · have hlt : (((resample_area res (inp.buffer.getD []) inp.size_valid_elements
          (upsample_by / downsample_by)).pid : Int) : ℚ) ≤
          ((inp.size_valid_elements : ℚ) - res.offset) * (upsample_by / downsample_by) := by
        have e : ((inp.size_valid_elements : ℚ) - res.offset) * (upsample_by / downsample_by) =
            (inp.size_valid_elements : ℚ) * (upsample_by / downsample_by) +
              -res.offset * (upsample_by / downsample_by) := by ring
        rw [e]
        push_cast
        exact h0.le
      have hfl := Int.le_floor.mpr hlt
      omega
  refine ⟨hlen, hout, fun hpos => ?_⟩
  obtain ⟨r, hr, _, _, hsz⟩ := dsp_resample_process_some res inp out upsample_by downsample_by 0
    hpos
  exact ⟨r, hr, hsz, by rw [hsz]; exact hlen⟩

/-- Example in exact arithmetic: a fresh resampler, four input samples,
`up = 10`, `down = 4`. -/
theorem resample_area_within_output_witness :
    (resample_stored dsp_resample_init
        { extbuffer_init with
          buffer := some [0, 1, 2, 3], buffer_max_size := 4, size_valid_elements := 4,
          valid := true, cleartozero := false, calls := 1 } 10 4 0).length ≤
      resample_output_samples dsp_resample_init 4 10 4 :=
  (resample_area_within_output dsp_resample_init
    { extbuffer_init with
      buffer := some [0, 1, 2, 3], buffer_max_size := 4, size_valid_elements := 4,
      valid := true, cleartozero := false, calls := 1 }
    extbuffer_init 10 4 (by norm_num) (by norm_num) (by norm_num [dsp_resample_init])
    (by norm_num [dsp_resample_init])).1

/-- C37 (area-integration mode conserves the signal integral).  In exact
arithmetic, for `up > 0`, `down > 0` and a state with `0 ≤ -offset·up/down < 1`
(as after `dsp_resample_init` and after every call), the loop of the
non-nearest branch of `dsp_resample_process` satisfies (sum of the values
stored through `resbuff`) + `contrib_out` = `contrib_in` +
`(up/down)`·(sum of the `size` input samples); and when
`1 ≤ (size - offset)·up/down < 2^31`, so that the call passes its assertion,
the call returns with this `contrib_out` in the resampler state. -/
theorem resample_area_conserves (res : dsp_resample_t) (inp out : extbuffer_t)
    (upsample_by downsample_by : ℚ) (hup : 0 < upsample_by) (hdown : 0 < downsample_by)
    (ho0 : 0 ≤ -res.offset * (upsample_by / downsample_by))
    (ho1 : -res.offset * (upsample_by / downsample_by) < 1) :
    (resample_stored res inp upsample_by downsample_by 0).sum +
        (resample_area res (inp.buffer.getD []) inp.size_valid_elements
          (upsample_by / downsample_by)).contrib =
      res.contrib + (upsample_by / downsample_by) *
        ((List.range inp.size_valid_elements).map
          (fun i => (inp.buffer.getD []).getD i 0)).sum ∧
    (1 ≤ ((inp.size_valid_elements : ℚ) - res.offset) * (upsample_by / downsample_by) →
      ((inp.size_valid_elements : ℚ) - res.offset) * (upsample_by / downsample_by) < 2 ^ 31 →
      ∃ r, dsp_resample_process res inp out upsample_by downsample_by 0 = some r ∧
        (resample_stored res inp upsample_by downsample_by 0).sum + r.1.contrib =
          res.contrib + (upsample_by / downsample_by) *
            ((List.range inp.size_valid_elements).map
              (fun i => (inp.buffer.getD []).getD i 0)).sum) := by
  have hq : 0 < upsample_by / downsample_by := div_pos hup hdown
  have hcore : (resample_stored res inp upsample_by downsample_by 0).sum +
        (resample_area res (inp.buffer.getD []) inp.size_valid_elements
          (upsample_by / downsample_by)).contrib =
      res.contrib + (upsample_by / downsample_by) *
        ((List.range inp.size_valid_elements).map
          (fun i => (inp.buffer.getD []).getD i 0)).sum := by
    unfold resample_stored
    rw [if_neg (by decide)]
    exact (resample_area_sum res (inp.buffer.getD []) (upsample_by / downsample_by) hq ho0 ho1
      inp.size_valid_elements).2
  refine ⟨hcore, fun h1 h2 => ?_⟩
  obtain ⟨r, hr, _, hc, _⟩ := dsp_resample_process_some res inp out upsample_by downsample_by 0
    (resample_output_samples_pos res inp.size_valid_elements upsample_by downsample_by h1 h2)
  refine ⟨r, hr, ?_⟩
  rw [hc, if_neg (by decide)]
  exact hcore

/-- Witness for C37: a fresh resampler, four input samples, `up = 10`,
`down = 4`. -/
theorem resample_area_conserves_witness :
    ∃ r, dsp_resample_process dsp_resample_init
        { extbuffer_init with
          buffer := some [0, 1, 2, 3], buffer_max_size := 4, size_valid_elements := 4,
          valid := true, cleartozero := false, calls := 1 }
        extbuffer_init 10 4 0 = some r ∧
      (resample_stored dsp_resample_init
        { extbuffer_init with
          buffer := some [0, 1, 2, 3], buffer_max_size := 4, size_valid_elements := 4,
          valid := true, cleartozero := false, calls := 1 } 10 4 0).sum + r.1.contrib =
        dsp_resample_init.contrib + ((10 : ℚ) / 4) *
          ((List.range 4).map (fun i => ([0, 1, 2, 3] : List ℚ).getD i 0)).sum :=
  (resample_area_conserves dsp_resample_init
    { extbuffer_init with
      buffer := some [0, 1, 2, 3], buffer_max_size := 4, size_valid_elements := 4,
      valid := true, cleartozero := false, calls := 1 }
    extbuffer_init 10 4 (by norm_num) (by norm_num) (by norm_num [dsp_resample_init])
    (by norm_num [dsp_resample_init])).2 (by norm_num [dsp_resample_init])
    (by norm_num [dsp_resample_init])

/-! ## The running mean of `accummulate` -/

theorem getD_ext_alloc (old : Option (List ℚ)) (n i : Nat) (hi : i < n) :
    (ext_alloc old n).getD i 0 = (old.getD []).getD i 0 := by
  unfold ext_alloc
  cases old with
  | none => simp [List.getD_eq_getElem?_getD, hi]
  | some b =>
    simp only [Option.getD_some]
    rw [List.getD_eq_getElem?_getD, List.getD_eq_getElem?_getD, List.getElem?_take_of_lt hi]
    by_cases h : i < b.length
    · rw [List.getElem?_append_left h]
    · rw [List.getElem?_append_right (not_lt.mp h), List.getElem?_eq_none (not_lt.mp h)]
      cases hr : (List.replicate (n - b.length) (0 : ℚ))[i - b.length]? with
      | none => rfl
      | some v =>
        have := List.getElem?_replicate.symm.trans hr
        split at this
        · simp at this
          simp [← this]
        · simp at this

theorem foldl_set_pointwise (g : ℚ → Nat → ℚ) (n : Nat) (o : List ℚ) (hn : n ≤ o.length) :
    ((List.range n).foldl (fun o i => o.set i (g (o.getD i 0) i)) o).length = o.length ∧
      ∀ i, ((List.range n).foldl (fun o i => o.set i (g (o.getD i 0) i)) o).getD i 0 =
        if i < n then g (o.getD i 0) i else o.getD i 0 := by
  induction n with
  | zero => simp
  | succ n ih =>
    obtain ⟨i1, i2⟩ := ih (by omega)
    rw [List.range_succ, List.foldl_append]
    generalize (List.range n).foldl (fun o i => o.set i (g (o.getD i 0) i)) o = S at i1 i2 ⊢
    simp only [List.foldl_cons, List.foldl_nil, List.length_set]
    refine ⟨i1, fun i => ?_⟩
    rw [getD_set _ _ _ _ _ (show n < S.length by omega)]
    by_cases hi : i = n
    · subst hi
      rw [if_pos rfl, if_pos (by omega), i2, if_neg (by omega)]
    · rw [if_neg hi, i2]
      by_cases hlt : i < n
      · rw [if_pos hlt, if_pos (by omega)]
      · rw [if_neg hlt, if_neg (by omega)]

theorem extbuffer_resize_double {c : extbuffer_t} (h : ExtDoubleOk c) (size : Nat)
    (hs : 0 < size) :
    ∃ b, (extbuffer_resize c size).dbuffer = some b ∧
      b.length = (extbuffer_resize c size).buffer_max_size ∧
      size ≤ b.length ∧
      (extbuffer_resize c size).type = ExtBufferType.EXTBUFFER_TYPE_DOUBLE ∧
      (extbuffer_resize c size).cleartozero = c.cleartozero ∧
      (extbuffer_resize c size).calls = c.calls ∧
      ∀ i, i < size → b.getD i 0 = (c.dbuffer.getD []).getD i 0 := by
  have ht := h.is_double
  unfold extbuffer_resize
  split
  · next hc =>
    rw [ht]
    dsimp only
    cases hb : c.dbuffer with
    | none =>
      dsimp only
      exact ⟨_, rfl, length_ext_alloc _ _, by rw [length_ext_alloc], rfl, rfl, rfl,
        fun i hi => getD_ext_alloc none size i hi⟩
    | some b =>
      dsimp only
      split
      · exact ⟨_, rfl, length_ext_alloc _ _, by rw [length_ext_alloc], rfl, rfl, rfl,
          fun i hi => getD_ext_alloc (some b) size i hi⟩
      · next hne =>
        have hl := h.cap b hb
        have : c.buffer_max_size = size := by simpa using hne
        exact ⟨b, hb, by omega, by omega, ht, rfl, rfl, fun _ _ => rfl⟩
  · next hc =>
    have hge : size ≤ c.buffer_max_size := by
      by_contra hlt
      exact hc (Or.inl (by omega))
    cases hb : c.dbuffer with
    | none =>
      have := h.null_cap hb
      omega
    | some b =>
      have hl := h.cap b hb
      exact ⟨b, rfl, hl, by omega, ht, rfl, rfl, fun _ _ => rfl⟩

theorem extbuffer_preparetohandle_double {c : extbuffer_t} (h : ExtDoubleOk c) (size : Nat)
    (hs : 0 < size) :
    ∃ o b, extbuffer_preparetohandle c size = some o ∧ o.dbuffer = some b ∧
      size ≤ b.length ∧ ExtDoubleOk o ∧ o.cleartozero = false ∧
      o.calls = (if c.cleartozero then 1 else c.calls + 1) ∧
      ∀ i, i < size →
        b.getD i 0 = if c.cleartozero then 0 else (c.dbuffer.getD []).getD i 0 := by
  obtain ⟨b, hb, hl, hle, ht, hz, hcalls, hget⟩ := extbuffer_resize_double h size hs
  unfold extbuffer_preparetohandle
  rw [if_pos hs]
  dsimp only
  unfold extbuffer_clear
  dsimp only
  rw [hz]
  cases hcz : c.cleartozero with
  | true =>
    rw [if_pos rfl, ht]
    dsimp only
    rw [hb]
    have hlen : (memcpy b 0 (List.replicate size (0 : ℚ))).length = b.length :=
      length_memcpy _ _ _ (by simp; omega)
    refine ⟨_, _, rfl, rfl, by rw [hlen]; exact hle,
      ⟨rfl, fun hn => by simp at hn, fun b1 hb1 => ?_⟩, rfl, by simp, fun i hi => ?_⟩
    · have : b1 = memcpy b 0 (List.replicate size 0) := by
        have := hb1
        simp at this
        exact this.symm
      rw [this, hlen]
      exact hl
    · rw [if_pos rfl]
      exact getD_memcpy_zero b size i hi
  | false =>
    rw [if_neg (by decide)]
    refine ⟨_, b, rfl, hb, hle, ⟨ht, fun hn => ?_, fun b1 hb1 => ?_⟩, rfl, ?_,
      fun i hi => ?_⟩
    · have h2 : (extbuffer_resize c size).dbuffer = none := hn
      rw [hb] at h2
      exact absurd h2 (by simp)
    · have h2 : (extbuffer_resize c size).dbuffer = some b1 := hb1
      rw [hb] at h2
      have : b = b1 := by simpa using h2
      rw [← this]
      exact hl
    · show (extbuffer_resize c size).calls + 1 = _
      rw [hcalls]
      simp
    · rw [hget i hi]
      simp

theorem extbuffer_resize_fields (c : extbuffer_t) (size : Nat) :
    (extbuffer_resize c size).cleartozero = c.cleartozero ∧
      (extbuffer_resize c size).calls = c.calls ∧
      (extbuffer_resize c size).type = c.type := by
  obtain ⟨buffer, dbuffer, m, sv, v, cz, calls, type⟩ := c
  unfold extbuffer_resize
  cases type <;> cases buffer <;> cases dbuffer <;> dsimp only <;> split_ifs <;>
    exact ⟨rfl, rfl, rfl⟩

theorem extbuffer_clear_fields (c : extbuffer_t) :
    (extbuffer_clear c).cleartozero = false ∧
      (extbuffer_clear c).calls = (if c.cleartozero then 0 else c.calls) ∧
      (extbuffer_clear c).type = c.type := by
  obtain ⟨buffer, dbuffer, m, sv, v, cz, calls, type⟩ := c
  unfold extbuffer_clear
  cases cz <;> cases type <;> simp

theorem extbuffer_preparetohandle_float (c : extbuffer_t)
    (ht : c.type = ExtBufferType.EXTBUFFER_TYPE_FLOAT)
    (hn : c.buffer = none → c.buffer_max_size = 0) (size : Nat) (hs : 0 < size) :
    ∃ o b, extbuffer_preparetohandle c size = some o ∧ o.buffer = some b ∧
      o.type = ExtBufferType.EXTBUFFER_TYPE_FLOAT ∧
      o.calls = (if c.cleartozero then 1 else c.calls + 1) ∧ o.cleartozero = false := by
  obtain ⟨o, b, ho, hb, hty⟩ := extbuffer_preparetohandle_some c ht hn size hs
  refine ⟨o, b, ho, hb, hty, ?_, ?_⟩
  · unfold extbuffer_preparetohandle at ho
    rw [if_pos hs] at ho
    have e := Option.some.inj ho
    subst e
    dsimp only
    rw [(extbuffer_clear_fields _).2.1]
    dsimp only
    rw [(extbuffer_resize_fields c size).1, (extbuffer_resize_fields c size).2.1]
    cases c.cleartozero <;> simp
  · unfold extbuffer_preparetohandle at ho
    rw [if_pos hs] at ho
    have e := Option.some.inj ho
    subst e
    dsimp only
    exact (extbuffer_clear_fields _).1

theorem accummulate_spec (sqrt : ℚ → ℚ) (acc f : extbuffer_t) (startid : Int) (L : Nat)
    (data : List ℚ) (ha : ExtDoubleOk acc) (hfb : f.buffer = some data) (hc1 : 1 ≤ f.calls)
    (hc2 : f.calls < 2 ^ 64) (hl0 : 0 < L) (hl1 : L < 2 ^ 32) :
    ∃ acc1 d, accummulate sqrt acc f startid (L : Int) = some acc1 ∧ ExtDoubleOk acc1 ∧
      acc1.cleartozero = false ∧ acc1.dbuffer = some d ∧
      ∀ i, i < L →
        d.getD i 0 =
          ((if acc.cleartozero then 0 else (acc.dbuffer.getD []).getD i 0) *
              ((f.calls : ℚ) - 1) + accummulate_now sqrt data startid i) / (f.calls : ℚ) := by
  have hL : c_uint32 (L : Int) = L := by
    rw [c_uint32_of_lt (Int.ofNat_nonneg L) (by exact_mod_cast hl1), Int.toNat_ofNat]
  obtain ⟨o, b, ho, hb, hle, hok, hz, _, hget⟩ := extbuffer_preparetohandle_double ha L hl0
  have hcm : f.calls % 2 ^ 64 = f.calls := Nat.mod_eq_of_lt hc2
  have hcc : (f.calls + 2 ^ 64 - 1) % 2 ^ 64 = f.calls - 1 := by omega
  have hcq : ((f.calls - 1 : Nat) : ℚ) = (f.calls : ℚ) - 1 := by
    rw [Nat.cast_sub hc1]
    simp
  have hfold := foldl_set_pointwise
    (fun p i => (p * ((f.calls - 1 : Nat) : ℚ) + accummulate_now sqrt data startid i) /
      (f.calls : ℚ)) L b hle
  unfold accummulate
  dsimp only
  rw [hL, ho]
  dsimp only
  rw [hfb, hb]
  dsimp only
  rw [hcm, hcc, if_neg (by omega)]
  refine ⟨_, _, rfl, ⟨hok.is_double, fun hn => by simp at hn, fun b1 hb1 => ?_⟩, hz, rfl,
    fun i hi => ?_⟩
  · have e : b1 = _ := (Option.some.inj hb1).symm
    rw [e, hfold.1]
    exact hok.cap b hb
  · rw [hfold.2 i, if_pos hi, hget i hi, hcq]

theorem accummulate_round_spec (sqrt : ℚ → ℚ) (f acc : extbuffer_t) (startid : Int) (L : Nat)
    (r : AccumRound) (hft : f.type = ExtBufferType.EXTBUFFER_TYPE_FLOAT)
    (hfn : f.buffer = none → f.buffer_max_size = 0) (ha : ExtDoubleOk acc) (hs : 0 < r.size)
    (hl0 : 0 < L) (hl1 : L < 2 ^ 32)
    (hc : (if f.cleartozero then 1 else f.calls + 1) < 2 ^ 64) :
    ∃ f1 acc1 d, accummulate_round sqrt startid (L : Int) (f, acc) r = some (f1, acc1) ∧
      f1.type = ExtBufferType.EXTBUFFER_TYPE_FLOAT ∧ f1.buffer = some r.data ∧
      f1.cleartozero = false ∧ f1.calls = (if f.cleartozero then 1 else f.calls + 1) ∧
      ExtDoubleOk acc1 ∧ acc1.cleartozero = false ∧ acc1.dbuffer = some d ∧
      ∀ i, i < L →
        d.getD i 0 =
          ((if acc.cleartozero then 0 else (acc.dbuffer.getD []).getD i 0) *
              ((f1.calls : ℚ) - 1) + accummulate_now sqrt r.data startid i) / (f1.calls : ℚ) := by
  obtain ⟨o, b, ho, hb, hty, hcalls, hz⟩ := extbuffer_preparetohandle_float f hft hfn r.size hs
  have hfb : ({ o with buffer := o.buffer.map (fun _ => r.data) } : extbuffer_t).buffer =
      some r.data := by
    show Option.map (fun _ => r.data) o.buffer = some r.data
    rw [hb]
    rfl
  have hc1 : 1 ≤ ({ o with buffer := o.buffer.map (fun _ => r.data) } : extbuffer_t).calls := by
    show 1 ≤ o.calls
    rw [hcalls]
    split <;> omega
  have hc2 : ({ o with buffer := o.buffer.map (fun _ => r.data) } : extbuffer_t).calls <
      2 ^ 64 := by
    show o.calls < 2 ^ 64
    rw [hcalls]
    exact hc
  obtain ⟨acc1, d, hacc, hok, haz, hd, hget⟩ := accummulate_spec sqrt acc
    { o with buffer := o.buffer.map (fun _ => r.data) } startid L r.data ha hfb hc1 hc2 hl0 hl1
  refine ⟨{ o with buffer := o.buffer.map (fun _ => r.data) }, acc1, d, ?_, hty, hfb, hz,
    hcalls, hok, haz, hd, hget⟩
  unfold accummulate_round
  dsimp only
  rw [ho]
  dsimp only
  rw [hacc]

theorem accummulate_rounds_spec (sqrt : ℚ → ℚ) (startid : Int) (L : Nat) (hl0 : 0 < L)
    (hl1 : L < 2 ^ 32) :
    ∀ (rs : List AccumRound) (f acc : extbuffer_t) (d : List ℚ) (S : Nat → ℚ),
      f.type = ExtBufferType.EXTBUFFER_TYPE_FLOAT → (f.buffer = none → f.buffer_max_size = 0) →
      f.cleartozero = false → ExtDoubleOk acc → acc.cleartozero = false →
      acc.dbuffer = some d → (∀ i, i < L → d.getD i 0 * (f.calls : ℚ) = S i) →
      f.calls + rs.length < 2 ^ 64 → (∀ r ∈ rs, 0 < r.size) →
      ∃ f1 acc1 d1, accummulate_rounds sqrt startid (L : Int) (f, acc) rs = some (f1, acc1) ∧
        f1.type = ExtBufferType.EXTBUFFER_TYPE_FLOAT ∧
        (f1.buffer = none → f1.buffer_max_size = 0) ∧ f1.cleartozero = false ∧
        f1.calls = f.calls + rs.length ∧ ExtDoubleOk acc1 ∧ acc1.cleartozero = false ∧
        acc1.dbuffer = some d1 ∧
        ∀ i, i < L →
          d1.getD i 0 * ((f.calls + rs.length : Nat) : ℚ) =
            S i + (rs.map (fun r => accummulate_now sqrt r.data startid i)).sum := by
  intro rs
  induction rs with
  | nil =>
    intro f acc d S hft hfn hfz ha haz hd hS _ _
    refine ⟨f, acc, d, rfl, hft, hfn, hfz, rfl, ha, haz, hd, fun i hi => ?_⟩
    simp only [List.length_nil, Nat.add_zero, List.map_nil, List.sum_nil, add_zero]
    exact hS i hi
  | cons r rs ih =>
    intro f acc d S hft hfn hfz ha haz hd hS hn hsz
    have hlen : (r :: rs).length = rs.length + 1 := rfl
    obtain ⟨f1, acc1, d1, hround, h1t, h1b, h1z, h1c, h1ok, h1az, h1d, h1get⟩ :=
      accummulate_round_spec sqrt f acc startid L r hft hfn ha
        (hsz r (List.mem_cons_self _ _)) hl0 hl1 (by rw [hfz]; simp; omega)
    rw [hfz] at h1c
    simp only [Bool.false_eq_true, if_false] at h1c
    have hS1 : ∀ i, i < L → d1.getD i 0 * (f1.calls : ℚ) =
        S i + accummulate_now sqrt r.data startid i := by
      intro i hi
      rw [h1get i hi, haz, hd]
      simp only [Bool.false_eq_true, if_false, Option.getD_some]
      have hne : (f1.calls : ℚ) ≠ 0 := by
        rw [h1c]
        have h0 : f.calls + 1 ≠ 0 := Nat.succ_ne_zero _
        exact_mod_cast h0
      rw [div_mul_cancel₀ _ hne, h1c, ← hS i hi]
      push_cast
      ring
    obtain ⟨f2, acc2, d2, hrounds, h2t, h2b, h2z, h2c, h2ok, h2az, h2d, h2get⟩ :=
      ih f1 acc1 d1 (fun i => S i + accummulate_now sqrt r.data startid i) h1t
        (fun hnone => by rw [h1b] at hnone; simp at hnone) h1z h1ok h1az h1d hS1
        (by rw [h1c]; omega) (fun r1 hr1 => hsz r1 (List.mem_cons_of_mem _ hr1))
    refine ⟨f2, acc2, d2, ?_, h2t, h2b, h2z, by rw [h2c, h1c, hlen]; omega, h2ok, h2az, h2d,
      fun i hi => ?_⟩
    · show (match accummulate_round sqrt startid (L : Int) (f, acc) r with
        | none => none
        | some st1 => accummulate_rounds sqrt startid (L : Int) st1 rs) = _
      rw [hround]
      exact hrounds
    · have e : f.calls + (r :: rs).length = f1.calls + rs.length := by rw [h1c, hlen]; omega
      rw [e, h2get i hi, List.map_cons, List.sum_cons]
      ring

theorem accummulate_rounds_reset (sqrt : ℚ → ℚ) (fftb acc : extbuffer_t) (startid : Int)
    (L : Nat) (r : AccumRound) (rs : List AccumRound) (hf : ExtFloatOk fftb)
    (ha : ExtDoubleOk acc) (hfz : fftb.cleartozero = true) (hl0 : 0 < L) (hl1 : L < 2 ^ 32)
    (hn : (r :: rs).length < 2 ^ 64) (hsz : ∀ r1 ∈ r :: rs, 0 < r1.size) :
    ∃ f1 acc1 d1,
      accummulate_rounds sqrt startid (L : Int) (fftb, acc) (r :: rs) = some (f1, acc1) ∧
        f1.type = ExtBufferType.EXTBUFFER_TYPE_FLOAT ∧
        (f1.buffer = none → f1.buffer_max_size = 0) ∧ f1.cleartozero = false ∧
        f1.calls = (r :: rs).length ∧ ExtDoubleOk acc1 ∧ acc1.cleartozero = false ∧
        acc1.dbuffer = some d1 ∧
        ∀ i, i < L →
          d1.getD i 0 * (((r :: rs).length : Nat) : ℚ) =
            ((r :: rs).map (fun r1 => accummulate_now sqrt r1.data startid i)).sum := by
  have hlen : (r :: rs).length = rs.length + 1 := rfl
  obtain ⟨f1, acc1, d1, hround, h1t, h1b, h1z, h1c, h1ok, h1az, h1d, h1get⟩ :=
    accummulate_round_spec sqrt fftb acc startid L r hf.is_float hf.null_cap ha
      (hsz r (List.mem_cons_self _ _)) hl0 hl1 (by rw [hfz]; simp)
  rw [hfz] at h1c
  simp only [if_true] at h1c
  have hS1 : ∀ i, i < L → d1.getD i 0 * (f1.calls : ℚ) =
      accummulate_now sqrt r.data startid i := by
    intro i hi
    rw [h1get i hi, h1c]
    simp
  obtain ⟨f2, acc2, d2, hrounds, h2t, h2b, h2z, h2c, h2ok, h2az, h2d, h2get⟩ :=
    accummulate_rounds_spec sqrt startid L hl0 hl1 rs f1 acc1 d1
      (fun i => accummulate_now sqrt r.data startid i) h1t
      (fun hnone => by rw [h1b] at hnone; simp at hnone) h1z h1ok h1az h1d hS1
      (by rw [h1c]; omega) (fun r1 hr1 => hsz r1 (List.mem_cons_of_mem _ hr1))
  refine ⟨f2, acc2, d2, ?_, h2t, h2b, h2z, by rw [h2c, h1c, hlen]; omega, h2ok, h2az, h2d,
    fun i hi => ?_⟩
  · show (match accummulate_round sqrt startid (L : Int) (fftb, acc) r with
      | none => none
      | some st1 => accummulate_rounds sqrt startid (L : Int) st1 rs) = _
    rw [hround]
    exact hrounds
  · have e : (r :: rs).length = f1.calls + rs.length := by rw [h1c, hlen]; omega
    rw [e, h2get i hi, List.map_cons, List.sum_cons]

theorem accummulate_rounds_append (sqrt : ℚ → ℚ) (startid length : Int) :
    ∀ (rs : List AccumRound) (st : extbuffer_t × extbuffer_t) (r : AccumRound),
      accummulate_rounds sqrt startid length st (rs ++ [r]) =
        match accummulate_rounds sqrt startid length st rs with
        | none => none
        | some st1 => accummulate_round sqrt startid length st1 r := by
  intro rs
  induction rs with
  | nil =>
    intro st r
    show (match accummulate_round sqrt startid length st r with
      | none => none
      | some st1 => accummulate_rounds sqrt startid length st1 []) =
      accummulate_round sqrt startid length st r
    cases accummulate_round sqrt startid length st r <;> rfl
  | cons r0 rs ih =>
    intro st r
    show (match accummulate_round sqrt startid length st r0 with
      | none => none
      | some st1 => accummulate_rounds sqrt startid length st1 (rs ++ [r])) =
      match (match accummulate_round sqrt startid length st r0 with
        | none => none
        | some st1 => accummulate_rounds sqrt startid length st1 rs) with
      | none => none
      | some st1 => accummulate_round sqrt startid length st1 r
    cases accummulate_round sqrt startid length st r0 with
    | none => rfl
    | some st1 => exact ih st1 r

/-- C32 (incremental mean equals batch mean).  The FFT ext-buffer is marked
for zeroing (with the accumulator ext-buffer marked too, or not), then `n ≥ 1`
rounds are run, each being `extbuffer_preparetohandle` on the FFT buffer, the
transform filling it, and `accummulate` over a window of fixed start and length
(`0 < length < 2^31`).  Then every round returns, the call counter of the FFT
buffer is `n`, and after round `n` every accumulator element `i < length`
equals `(1/n)·Σ_j m_j[i]`, where `m_j[i] = sqrt(I² + Q²)` of bin `start + i` in
round `j`; and the last round computed it as
`(old_avg·(n - 1) + m_n[i]) / n` from the accumulator `old_avg` the rounds
before left (for `n = 1` the factor is 0 and the element is the current
magnitude). -/
theorem accummulate_running_mean (sqrt : ℚ → ℚ) (fftb acc : extbuffer_t) (startid : Int)
    (length : Nat) (rs : List AccumRound) (hf : ExtFloatOk fftb) (ha : ExtDoubleOk acc)
    (hfz : fftb.cleartozero = true) (hl0 : 0 < length)
    (hl1 : length < 2 ^ 31) (hrs : rs ≠ []) (hn : rs.length < 2 ^ 64)
    (hsz : ∀ r ∈ rs, 0 < r.size) :
    ∃ f1 acc1 d,
      accummulate_rounds sqrt startid (length : Int) (fftb, acc) rs = some (f1, acc1) ∧
      f1.calls = rs.length ∧ acc1.dbuffer = some d ∧
      (∀ i, i < length →
        d.getD i 0 =
          (rs.map (fun r => accummulate_now sqrt r.data startid i)).sum / (rs.length : ℚ)) ∧
      (∀ rs0 r, rs = rs0 ++ [r] →
        ∃ p, accummulate_rounds sqrt startid (length : Int) (fftb, acc) rs0 = some p ∧
          ∀ i, i < length →
            d.getD i 0 =
              ((p.2.dbuffer.getD []).getD i 0 * ((rs.length : ℚ) - 1) +
                accummulate_now sqrt r.data startid i) / (rs.length : ℚ)) := by
  have hl2 : length < 2 ^ 32 := by omega
  obtain ⟨r0, rest, rfl⟩ := List.exists_cons_of_ne_nil hrs
  obtain ⟨f1, acc1, d, hrounds, _, _, _, hcalls, _, _, hd, hget⟩ :=
    accummulate_rounds_reset sqrt fftb acc startid length r0 rest hf ha hfz hl0 hl2 hn hsz
  have hne : (((r0 :: rest).length : Nat) : ℚ) ≠ 0 := by
    have h0 : (r0 :: rest).length ≠ 0 := Nat.succ_ne_zero _
    exact_mod_cast h0
  refine ⟨f1, acc1, d, hrounds, hcalls, hd, fun i hi => ?_, fun rs0 r hrs0 => ?_⟩
  · rw [eq_div_iff hne]
    exact hget i hi
  · rw [hrs0, accummulate_rounds_append] at hrounds
    have hlen : (r0 :: rest).length = rs0.length + 1 := by rw [hrs0]; simp
    have hsz0 : ∀ r1 ∈ rs0, 0 < r1.size := fun r1 hr1 =>
      hsz r1 (by rw [hrs0]; exact List.mem_append_left _ hr1)
    have hszr : 0 < r.size := hsz r (by rw [hrs0]; simp)
    cases rs0 with
    | nil =>
      refine ⟨(fftb, acc), rfl, fun i hi => ?_⟩
      have hone : (r0 :: rest).length = 1 := hlen
      have hr : r0 :: rest = [r] := hrs0
      have e := hget i hi
      rw [hone] at e hne ⊢
      rw [hr] at e
      simp only [List.map_cons, List.map_nil, List.sum_cons, List.sum_nil, add_zero,
        Nat.cast_one, mul_one] at e
      rw [e]
      simp
    | cons q rs1 =>
      obtain ⟨g, a, d0, hr0, hgt, hgn, hgz, hgc, haok, ha0, hd0, _⟩ :=
        accummulate_rounds_reset sqrt fftb acc startid length q rs1 hf ha hfz hl0 hl2
          (by omega) hsz0
      rw [hr0] at hrounds
      obtain ⟨f2, acc2, d2, hround, _, _, _, h2c, _, _, h2d, h2get⟩ :=
        accummulate_round_spec sqrt g a startid length r hgt hgn haok hszr hl0 hl2
          (by rw [hgz]; simp; omega)
      have hround2 : accummulate_round sqrt startid (length : Int) (g, a) r =
          some (f1, acc1) := hrounds
      rw [hround] at hround2
      have e1 := Option.some.inj hround2
      have ef : f2 = f1 := congrArg Prod.fst e1
      have ea : acc2 = acc1 := congrArg Prod.snd e1
      rw [ea, hd] at h2d
      have ed : d = d2 := Option.some.inj h2d
      refine ⟨(g, a), hr0, fun i hi => ?_⟩
      rw [ed, h2get i hi, ha0, hd0, ef, hcalls]
      simp

/-- Witness for C32: two rounds on fresh ext-buffers (as after
`extbuffer_init` and `extbuffer_init_double`), a window of one bin starting at
bin 0, with `sqrt` the identity. -/
theorem accummulate_running_mean_witness :
    ∃ f1 acc1 d,
      accummulate_rounds (fun x => x) 0 ((1 : Nat) : Int) (extbuffer_init, extbuffer_init_double)
          [{ size := 2, data := [1, 0] }, { size := 2, data := [0, 2] }] = some (f1, acc1) ∧
      f1.calls = 2 ∧ acc1.dbuffer = some d ∧
      (∀ i, i < 1 →
        d.getD i 0 =
          ([{ size := 2, data := [1, 0] }, { size := 2, data := [0, 2] }].map
            (fun r : AccumRound => accummulate_now (fun x => x) r.data 0 i)).sum / ((2 : Nat) : ℚ)) := by
  obtain ⟨f1, acc1, d, h1, h2, h3, h4, _⟩ := accummulate_running_mean (fun x => x)
    extbuffer_init extbuffer_init_double 0 1
    [{ size := 2, data := [1, 0] }, { size := 2, data := [0, 2] }]
    extbuffer_init_ok ⟨rfl, fun _ => rfl, fun b hb => by simp [extbuffer_init_double] at hb⟩
    rfl (by decide) (by norm_num) (by simp) (by norm_num)
    (by intro r hr; simp at hr; rcases hr with h | h <;> subst h <;> decide)
  exact ⟨f1, acc1, d, h1, h2, h3, h4⟩

/-! ## The gathering block of `superb_run` stays inside the hop buffers -/

theorem superb_init_gather_ok (sr : Int) (hsr : sr ≠ 0) : SuperbGatherOk sr superb_init := by
  refine ⟨fun h => ?_, fun h => ?_, fun h => ?_⟩
  · exact absurd h.symm hsr
  · rcases h with h | h <;> exact absurd h (by decide)
  · exact absurd h (by decide)

theorem superb_run_stopped_gather_ok (sr : Int) (bw : superbandwidth_t)
    (h : SuperbGatherOk sr bw) : SuperbGatherOk sr (superb_run_stopped bw) := by
  unfold superb_run_stopped super_startthread
  split
  · refine ⟨h.hops, fun hs => ?_, fun hs => ?_⟩
    · rcases hs with hs | hs
      · exact absurd (show (1 : Int) = 2 from hs) (by decide)
      · exact absurd (show (1 : Int) = 3 from hs) (by decide)
    · exact absurd (show (1 : Int) = 2 from hs) (by decide)
  · exact h

theorem super_freebuff_fields (bw : superbandwidth_t) :
    (super_freebuff bw).samplerate = bw.samplerate ∧
      (super_freebuff bw).buffid_current = bw.buffid_current ∧
      (super_freebuff bw).samples_gathered = bw.samples_gathered ∧
      (super_freebuff bw).samples_to_gather = bw.samples_to_gather := by
  unfold super_freebuff
  split <;> exact ⟨rfl, rfl, rfl, rfl⟩

theorem superb_run_starting_gather_ok (sr : Int) (bw : superbandwidth_t) (tsdr : tsdr_lib_t)
    (hsr : tsdr.samplerate_real = sr) (h : SuperbGatherOk sr bw) :
    SuperbGatherOk sr (superb_run_starting bw tsdr) := by
  unfold superb_run_starting
  split
  · dsimp only
    split
    · refine ⟨fun _ => rfl, fun _ => ?_, fun _ => ?_⟩
      · dsimp only
        rw [(super_freebuff_fields _).2.1]
        exact ⟨le_refl _, show (0 : Int) < 4 by decide⟩
      · dsimp only
        rw [(super_freebuff_fields _).2.2.1]
        exact ⟨le_refl _, Or.inl rfl⟩
    · next hne =>
      have hsame : bw.samplerate = sr := by
        have : tsdr.samplerate_real = bw.samplerate := by
          by_contra hcon
          exact hne hcon
        rw [← this, hsr]
      have h4 := h.hops hsame
      refine ⟨h.hops, fun _ => ?_, fun _ => ⟨le_refl _, Or.inl rfl⟩⟩
      show (0 : Int) ≤ 0 ∧ (0 : Int) < bw.buffscount
      rw [h4]
      exact ⟨le_refl _, show (0 : Int) < 4 by decide⟩
  · exact h

theorem superb_run_pause_gather_ok (sr : Int) (bw : superbandwidth_t) (size : Int)
    (h : SuperbGatherOk sr bw) : SuperbGatherOk sr (superb_run_pause bw size) := by
  unfold superb_run_pause
  split
  · next hp =>
    dsimp only
    split
    · exact ⟨h.hops, fun _ => h.hop (Or.inr hp), fun _ => ⟨le_refl _, Or.inl rfl⟩⟩
    · refine ⟨h.hops, fun _ => h.hop (Or.inr hp), fun hs => ?_⟩
      have hs2 : bw.state = SUPER_STATE_GATHERING := hs
      rw [hp] at hs2
      exact absurd hs2 (by decide)
  · exact h

theorem superb_run_entry_gather_ok (sr : Int) (bw : superbandwidth_t) (size : Int)
    (tsdr : tsdr_lib_t) (hsr : tsdr.samplerate_real = sr) (h : SuperbGatherOk sr bw) :
    SuperbGatherOk sr (superb_run_entry bw size tsdr) :=
  superb_run_pause_gather_ok sr _ size
    (superb_run_starting_gather_ok sr _ tsdr hsr (superb_run_stopped_gather_ok sr bw h))

theorem superb_store_fields (bw : superbandwidth_t) (iq : List ℚ) (n : Int) :
    (superb_store bw iq n).samplerate = bw.samplerate ∧
      (superb_store bw iq n).buffscount = bw.buffscount ∧
      (superb_store bw iq n).buffid_current = bw.buffid_current ∧
      (superb_store bw iq n).samples_gathered = bw.samples_gathered ∧
      (superb_store bw iq n).samples_to_gather = bw.samples_to_gather ∧
      (superb_store bw iq n).state = bw.state :=
  ⟨rfl, rfl, rfl, rfl, rfl, rfl⟩

theorem superb_run_gathering_gather_ok (sr : Int) (bw : superbandwidth_t) (iq : List ℚ)
    (size : Int) (tsdr : tsdr_lib_t) (dropped : Int) (hsize : 0 ≤ size)
    (h : SuperbGatherOk sr bw) :
    SuperbGatherOk sr (superb_run_gathering bw iq size tsdr dropped).1 := by
  have hdiv : 0 ≤ Int.tdiv size 2 := by
    rw [Int.tdiv_eq_ediv hsize (by decide)]
    omega
  unfold superb_run_gathering
  split
  · next hg =>
    have hhop := h.hop (Or.inl hg)
    have hgat := h.gathered hg
    split
    · exact ⟨h.hops, fun _ => hhop, fun _ => ⟨le_refl _, Or.inl rfl⟩⟩
    · dsimp only
      split
      · next hlt =>
        refine ⟨h.hops, fun _ => hhop, fun _ => ?_⟩
        show 0 ≤ bw.samples_gathered + Int.tdiv size 2 ∧
          (bw.samples_gathered + Int.tdiv size 2 = 0 ∨
            bw.samples_gathered + Int.tdiv size 2 < bw.samples_to_gather)
        exact ⟨by omega, Or.inr hlt⟩
      · split
        · refine ⟨h.hops, fun hs => ?_, fun hs => ?_⟩
          · rcases hs with hs | hs
            · exact absurd (show (4 : Int) = 2 from hs) (by decide)
            · exact absurd (show (4 : Int) = 3 from hs) (by decide)
          · exact absurd (show (4 : Int) = 2 from hs) (by decide)
        · next hlt2 =>
          refine ⟨h.hops, fun _ => ?_, fun hs => ?_⟩
          · show 0 ≤ bw.buffid_current + 1 ∧ bw.buffid_current + 1 < bw.buffscount
            have : ¬ (bw.buffid_current + 1 ≥ bw.buffscount) := hlt2
            omega
          · exact absurd (show (3 : Int) = 2 from hs) (by decide)
  · exact h

theorem superb_run_output_gather_ok (sr : Int) (bw : superbandwidth_t) (tsdr : tsdr_lib_t)
    (h : SuperbGatherOk sr bw) : SuperbGatherOk sr (superb_run_output bw tsdr).bw := by
  unfold superb_run_output
  split
  · refine ⟨h.hops, fun hs => ?_, fun hs => ?_⟩
    · rcases hs with hs | hs
      · exact absurd (show (1 : Int) = 2 from hs) (by decide)
      · exact absurd (show (1 : Int) = 3 from hs) (by decide)
    · exact absurd (show (1 : Int) = 2 from hs) (by decide)
  · exact h

theorem superb_run_gathering_host (bw : superbandwidth_t) (iq : List ℚ) (size : Int)
    (tsdr : tsdr_lib_t) (dropped : Int) :
    (superb_run_gathering bw iq size tsdr dropped).2.1.samplerate_real = tsdr.samplerate_real ∧
      (superb_run_gathering bw iq size tsdr dropped).2.1.refreshrate = tsdr.refreshrate := by
  unfold superb_run_gathering
  dsimp only
  split_ifs <;> exact ⟨rfl, rfl⟩

theorem superb_run_gather_ok (sr : Int) (bw : superbandwidth_t) (iq : List ℚ) (size : Int)
    (tsdr : tsdr_lib_t) (dropped : Int) (hsr : tsdr.samplerate_real = sr) (hsize : 0 ≤ size)
    (h : SuperbGatherOk sr bw) :
    SuperbGatherOk sr (superb_run bw iq size tsdr dropped).bw ∧
      (superb_run bw iq size tsdr dropped).tsdr.samplerate_real = sr := by
  have he := superb_run_entry_gather_ok sr bw size tsdr hsr h
  have hg := superb_run_gathering_gather_ok sr (superb_run_entry bw size tsdr) iq size tsdr
    dropped hsize he
  have hh := superb_run_gathering_host (superb_run_entry bw size tsdr) iq size tsdr dropped
  unfold superb_run superb_run_steps
  unfold superb_run_entry at hg hh
  dsimp only
  split
  · exact ⟨hg, by rw [← hsr]; exact hh.1⟩
  · refine ⟨superb_run_output_gather_ok sr _ _ hg, ?_⟩
    unfold superb_run_output
    split <;> (rw [← hsr]; exact hh.1)

theorem superb_bestfit_fields (sqrt : ℚ → ℚ) (bw : superbandwidth_t) (data1 data2 : List ℚ)
    (size : Int) (r : superbandwidth_t × Int)
    (h : superb_bestfit sqrt bw data1 data2 size = some r) :
    r.1.samplerate = bw.samplerate ∧ r.1.buffscount = bw.buffscount := by
  unfold superb_bestfit at h
  split at h
  · exact absurd h (by simp)
  · dsimp only at h
    split at h
    · exact absurd h (by simp)
    · split at h
      · exact absurd h (by simp)
      · split at h
        · split at h
          · exact absurd h (by simp)
          · have e := Option.some.inj h
            rw [← e]
            exact ⟨rfl, rfl⟩
        · exact absurd h (by simp)

theorem superb_align_fields (sqrt : ℚ → ℚ) (bufsize : Int) :
    ∀ (is : List Nat) (bw : superbandwidth_t) (r : superbandwidth_t × Bool),
      superb_align sqrt bufsize bw is = some r →
      r.1.samplerate = bw.samplerate ∧ r.1.buffscount = bw.buffscount := by
  intro is
  induction is with
  | nil =>
    intro bw r h
    have e : some (bw, false) = some r := h
    rw [← Option.some.inj e]
    exact ⟨rfl, rfl⟩
  | cons i is ih =>
    intro bw r h
    unfold superb_align at h
    split at h
    · exact absurd h (by simp)
    · split at h
      · exact absurd h (by simp)
      · next buffs _ bw1 best_offset hbf =>
        have hf := superb_bestfit_fields sqrt bw _ _ bufsize _ hbf
        split at h
        · rw [← Option.some.inj h]
          exact hf
        · split at h
          · exact absurd h (by simp)
          · dsimp only at h
            split at h
            · exact absurd h (by simp)
            · have hr := ih _ r h
              exact ⟨hr.1.trans hf.1, hr.2.trans hf.2⟩

theorem superb_ondataready_fields (sqrt : ℚ → ℚ) (bw : superbandwidth_t)
    (outbuff : Option (List ℚ)) (outbufsize : Int) (tsdr : tsdr_lib_t) (r : SuperbOutput)
    (h : superb_ondataready sqrt bw outbuff outbufsize tsdr = some r) :
    r.bw.samplerate = bw.samplerate ∧ r.bw.buffscount = bw.buffscount ∧
      r.tsdr.samplerate_real = tsdr.samplerate_real := by
  unfold superb_ondataready at h
  dsimp only at h
  split at h
  · exact absurd h (by simp)
  · split at h
    · exact absurd h (by simp)
    · next bw3 hal =>
      have hf := superb_align_fields sqrt _ _ _ _ hal
      rw [← Option.some.inj h]
      exact ⟨hf.1, hf.2, rfl⟩
    · next bw3 hal =>
      have hf := superb_align_fields sqrt _ _ _ _ hal
      split at h
      · split at h
        · exact absurd h (by simp)
        · split at h
          · exact absurd h (by simp)
          · rw [← Option.some.inj h]
            exact ⟨hf.1, hf.2, rfl⟩
      · exact absurd h (by simp)

theorem super_thread_step_gather_ok (sqrt : ℚ → ℚ) (sr : Int) (bw : superbandwidth_t)
    (tsdr : tsdr_lib_t) (r : superbandwidth_t × tsdr_lib_t) (hok : SuperbGatherOk sr bw)
    (h : super_thread_step sqrt bw tsdr = some r) :
    SuperbGatherOk sr r.1 ∧ r.2.samplerate_real = tsdr.samplerate_real := by
  unfold super_thread_step at h
  split at h
  · rw [← Option.some.inj h]
    exact ⟨hok, rfl⟩
  · split at h
    · exact absurd h (by simp)
    · next r1 hr1 =>
      have hf := superb_ondataready_fields sqrt _ _ _ _ _ hr1
      rw [← Option.some.inj h]
      refine ⟨⟨fun hs => ?_, fun hs => ?_, fun hs => ?_⟩, hf.2.2⟩
      · have h1 : r1.bw.samplerate = sr := hs
        have h2 : r1.bw.buffscount = bw.buffscount := hf.2.1
        show r1.bw.buffscount = SUPER_HOPS_TO_MAKE
        rw [h2]
        exact hok.hops (hf.1.symm.trans h1)
      · rcases hs with hs | hs
        · exact absurd (show (5 : Int) = 2 from hs) (by decide)
        · exact absurd (show (5 : Int) = 3 from hs) (by decide)
      · exact absurd (show (5 : Int) = 2 from hs) (by decide)

theorem superb_events_gather_ok (sqrt : ℚ → ℚ) (sr : Int) :
    ∀ (evs : List SuperbEvent) (st st1 : superbandwidth_t × tsdr_lib_t),
      SuperbGatherOk sr st.1 → st.2.samplerate_real = sr → (∀ ev ∈ evs, 0 ≤ ev.size) →
      superb_events sqrt st evs = some st1 →
      SuperbGatherOk sr st1.1 ∧ st1.2.samplerate_real = sr := by
  intro evs
  induction evs with
  | nil =>
    intro st st1 hok hsr _ h
    have e : some st = some st1 := h
    rw [← Option.some.inj e]
    exact ⟨hok, hsr⟩
  | cons ev evs ih =>
    intro st st1 hok hsr hsz h
    have h2 : (match superb_event_step sqrt st ev with
      | none => none
      | some st2 => superb_events sqrt st2 evs) = some st1 := h
    have hrest : ∀ e ∈ evs, 0 ≤ e.size := fun e he => hsz e (List.mem_cons_of_mem _ he)
    cases ev with
    | run iq size dropped =>
      have hsize : 0 ≤ size := hsz (SuperbEvent.run iq size dropped) (List.mem_cons_self _ _)
      have hrun := superb_run_gather_ok sr st.1 iq size st.2 dropped hsr hsize hok
      exact ih _ st1 hrun.1 hrun.2 hrest h2
    | worker =>
      cases hw : super_thread_step sqrt st.1 st.2 with
      | none =>
        have h3 : (match super_thread_step sqrt st.1 st.2 with
          | none => none
          | some st2 => superb_events sqrt st2 evs) = some st1 := h2
        rw [hw] at h3
        exact absurd h3 (by simp)
      | some st2 =>
        have h3 : (match super_thread_step sqrt st.1 st.2 with
          | none => none
          | some st2 => superb_events sqrt st2 evs) = some st1 := h2
        rw [hw] at h3
        have hstep := super_thread_step_gather_ok sqrt sr st.1 st.2 st2 hok hw
        exact ih st2 st1 hstep.1 (hstep.2.trans hsr) hrest h3

theorem superb_gathering_count_bounds (sr : Int) (bw : superbandwidth_t) (size : Int)
    (hsize : 0 ≤ size) (h : SuperbGatherOk sr bw) (hg : bw.state = SUPER_STATE_GATHERING) :
    (0 < bw.samples_to_gather → bw.samples_gathered < bw.samples_to_gather) ∧
      0 ≤ bw.samples_gathered ∧ 0 ≤ bw.buffid_current ∧ bw.buffid_current < bw.buffscount ∧
      bw.samples_gathered * 2 + superb_gathering_count bw size ≤ 2 * bw.samples_to_gather ∧
      (0 ≤ bw.samples_to_gather → 0 ≤ superb_gathering_count bw size) := by
  have hhop := h.hop (Or.inl hg)
  have hgat := h.gathered hg
  have hdiv : size ≤ 2 * Int.tdiv size 2 + 1 := by
    rw [Int.tdiv_eq_ediv hsize (by decide)]
    omega
  refine ⟨fun hpos => ?_, hgat.1, hhop.1, hhop.2, ?_, fun hpos => ?_⟩
  · rcases hgat.2 with h0 | h0 <;> omega
  · unfold superb_gathering_count
    split <;> omega
  · unfold superb_gathering_count
    split
    · exact hsize
    · rcases hgat.2 with h0 | h0 <;> omega

theorem superb_run_gathering_buffs (bw : superbandwidth_t) (iq : List ℚ) (size : Int)
    (tsdr : tsdr_lib_t) (hg : bw.state = SUPER_STATE_GATHERING) :
    (superb_run_gathering bw iq size tsdr 0).1.buffs =
      (superb_store bw iq (superb_gathering_count bw size)).buffs := by
  unfold superb_run_gathering superb_gathering_count
  rw [if_pos hg, if_neg (by decide)]
  dsimp only
  split
  · rfl
  · split <;> rfl

/-- C38 (super-bandwidth gathering stays inside the per-hop buffers).  In
every state reached from `superb_init` through calls of `superb_run` with
`size ≥ 0` and passes of the worker, with a fixed non-zero sample rate of the
host, a further call with `size ≥ 0` that enters the Gathering block finds
`samples_gathered ≥ 0`, and `samples_gathered < samples_to_gather` whenever
`samples_to_gather > 0`; the hop index satisfies
`0 ≤ buffid_current < buffscount`; the `memcpy` of the block starts at float
index `2·samples_gathered` of that hop's buffer and ends at or before float
index `2·samples_to_gather` (also when `size` is odd); its length is
non-negative when `samples_to_gather ≥ 0`; and with `dropped = 0` it is the
copy the block performs. -/
theorem superb_run_gathering_bounds (sqrt : ℚ → ℚ) (tsdr0 : tsdr_lib_t)
    (evs : List SuperbEvent) (bw : superbandwidth_t) (tsdr : tsdr_lib_t) (iq : List ℚ)
    (size : Int) (hsr : tsdr0.samplerate_real ≠ 0) (hsizes : ∀ ev ∈ evs, 0 ≤ ev.size)
    (hreach : superb_events sqrt (superb_init, tsdr0) evs = some (bw, tsdr))
    (hsize : 0 ≤ size)
    (hg : (superb_run_entry bw size tsdr).state = SUPER_STATE_GATHERING) :
    (0 < (superb_run_entry bw size tsdr).samples_to_gather →
      (superb_run_entry bw size tsdr).samples_gathered <
        (superb_run_entry bw size tsdr).samples_to_gather) ∧
    0 ≤ (superb_run_entry bw size tsdr).samples_gathered ∧
    0 ≤ (superb_run_entry bw size tsdr).buffid_current ∧
    (superb_run_entry bw size tsdr).buffid_current <
      (superb_run_entry bw size tsdr).buffscount ∧
    (superb_run_entry bw size tsdr).samples_gathered * 2 +
        superb_gathering_count (superb_run_entry bw size tsdr) size ≤
      2 * (superb_run_entry bw size tsdr).samples_to_gather ∧
    (0 ≤ (superb_run_entry bw size tsdr).samples_to_gather →
      0 ≤ superb_gathering_count (superb_run_entry bw size tsdr) size) ∧
    (superb_run_gathering (superb_run_entry bw size tsdr) iq size tsdr 0).1.buffs =
      (superb_store (superb_run_entry bw size tsdr) iq
        (superb_gathering_count (superb_run_entry bw size tsdr) size)).buffs := by
  have hinv := superb_events_gather_ok sqrt tsdr0.samplerate_real evs (superb_init, tsdr0)
    (bw, tsdr) (superb_init_gather_ok _ hsr) rfl hsizes hreach
  have he := superb_run_entry_gather_ok tsdr0.samplerate_real bw size tsdr hinv.2 hinv.1
  obtain ⟨h1, h2, h3, h4, h5, h6⟩ :=
    superb_gathering_count_bounds tsdr0.samplerate_real _ size hsize he hg
  exact ⟨h1, h2, h3, h4, h5, h6, superb_run_gathering_buffs _ iq size tsdr hg⟩

/-- Witness for C38: after one call that completes hop 0 (sample rate 10,
refresh rate 10, a chunk of ten complex samples), the next call leaves the
pause and enters the Gathering block for hop 1. -/
theorem superb_run_gathering_bounds_witness :
    ∃ bw tsdr,
      superb_events (fun x => x)
          (superb_init,
            { samplerate_real := 10, refreshrate := 10, freq_shift := 0,
              internal_samplerate := 10 })
          [SuperbEvent.run (List.replicate 20 0) 20 0] = some (bw, tsdr) ∧
      (superb_run_entry bw 20 tsdr).state = SUPER_STATE_GATHERING ∧
      0 ≤ (superb_run_entry bw 20 tsdr).buffid_current ∧
      (superb_run_entry bw 20 tsdr).buffid_current < (superb_run_entry bw 20 tsdr).buffscount ∧
      (superb_run_entry bw 20 tsdr).samples_gathered * 2 +
          superb_gathering_count (superb_run_entry bw 20 tsdr) 20 ≤
        2 * (superb_run_entry bw 20 tsdr).samples_to_gather := by
  have hreach : superb_events (fun x => x)
      (superb_init,
        { samplerate_real := 10, refreshrate := 10, freq_shift := 0,
          internal_samplerate := 10 })
      [SuperbEvent.run (List.replicate 20 0) 20 0] =
      some
        ({ superb_init with
            state := SUPER_STATE_PAUSE
            buffscount := 4
            buffsbuffcount := 10
            samplerate := 10
            buffs := some (List.replicate 4 (List.replicate 20 0))
            buffid_current := 1
            samples_in_frame := 1
            samples_to_gather := 10
            samples_to_pause := 5
            alive := 1 },
          { samplerate_real := 10, refreshrate := 10, freq_shift := -10,
            internal_samplerate := 10 }) := by
    show some
      ((superb_run superb_init (List.replicate 20 0) 20
          { samplerate_real := 10, refreshrate := 10, freq_shift := 0,
            internal_samplerate := 10 } 0).bw,
        (superb_run superb_init (List.replicate 20 0) 20
          { samplerate_real := 10, refreshrate := 10, freq_shift := 0,
            internal_samplerate := 10 } 0).tsdr) = _
    rw [superb_run_first_call]
  have hg : (superb_run_entry
      { superb_init with
        state := SUPER_STATE_PAUSE
        buffscount := 4
        buffsbuffcount := 10
        samplerate := 10
        buffs := some (List.replicate 4 (List.replicate 20 0))
        buffid_current := 1
        samples_in_frame := 1
        samples_to_gather := 10
        samples_to_pause := 5
        alive := 1 } 20
      { samplerate_real := 10, refreshrate := 10, freq_shift := -10,
        internal_samplerate := 10 }).state = SUPER_STATE_GATHERING := by
    decide
  have h := superb_run_gathering_bounds (fun x => x)
    { samplerate_real := 10, refreshrate := 10, freq_shift := 0, internal_samplerate := 10 }
    [SuperbEvent.run (List.replicate 20 0) 20 0] _ _ (List.replicate 20 0) 20 (by decide)
    (by
      intro ev hev
      rw [List.mem_singleton] at hev
      rw [hev]
      decide)
    hreach (by decide) hg
  exact ⟨_, _, hreach, hg, h.2.2.1, h.2.2.2.1, h.2.2.2.2.1⟩

/-! ## IEEE 754 rounding -/

theorem round_half_even_near (x : ℚ) (n : Int) (h1 : (n : ℚ) - 1 / 2 < x)
    (h2 : x < n + 1 / 2) : round_half_even x = n := by
  unfold round_half_even
  rcases le_or_lt (n : ℚ) x with hle | hlt
  · have hf : ⌊x⌋ = n := by
      rw [Int.floor_eq_iff]
      constructor
      · exact hle
      · linarith
    rw [hf, if_pos (by linarith)]
  · have hf : ⌊x⌋ = n - 1 := by
      rw [Int.floor_eq_iff]
      push_cast
      constructor
      · linarith
      · linarith
    rw [hf]
    push_cast
    rw [if_neg (by linarith), if_pos (by linarith)]
    ring

theorem round_half_even_tie (x : ℚ) (n : Int)
    (h : x = (n : ℚ) + 1 / 2 ∨ x = (n : ℚ) - 1 / 2) (he : n % 2 = 0) :
    round_half_even x = n := by
  unfold round_half_even
  rcases h with h | h
  · have hf : ⌊x⌋ = n := by
      rw [Int.floor_eq_iff]
      constructor
      · linarith
      · linarith
    rw [hf, if_neg (by linarith), if_neg (by linarith), if_pos he]
  · have hf : ⌊x⌋ = n - 1 := by
      rw [Int.floor_eq_iff]
      push_cast
      constructor
      · linarith
      · linarith
    rw [hf]
    push_cast
    rw [if_neg (by linarith), if_neg (by linarith), if_neg (by omega)]
    ring

theorem fp_round_exponent (emin e : Int) (x : ℚ) (hx : x ≠ 0) (hhi : |x| < 2 ^ (e + 1))
    (hlo : (2 : ℚ) ^ e ≤ |x| ∨ e = emin) (hemin : emin ≤ e) :
    max (Int.log 2 |x|) emin = e := by
  have hpos : 0 < |x| := abs_pos.mpr hx
  have hlog1 : Int.log 2 |x| ≤ e := by
    have := (Int.lt_zpow_iff_log_lt (b := 2) (by norm_num) hpos (x := e + 1)).mp
      (by simpa using hhi)
    omega
  rcases hlo with h | h
  · have := (Int.zpow_le_iff_le_log (b := 2) (by norm_num) hpos (x := e)).mp
      (by simpa using h)
    rw [max_eq_left (by omega)]
    omega
  · rw [max_eq_right (by omega)]
    exact h.symm

theorem fp_round_near (p : Nat) (emin e n : Int) (x : ℚ) (hx : x ≠ 0)
    (hhi : |x| < 2 ^ (e + 1)) (hlo : (2 : ℚ) ^ e ≤ |x| ∨ e = emin) (hemin : emin ≤ e)
    (h1 : (n : ℚ) - 1 / 2 < x / 2 ^ (e - ((p : Int) - 1)))
    (h2 : x / 2 ^ (e - ((p : Int) - 1)) < n + 1 / 2) :
    fp_round p emin x = n * 2 ^ (e - ((p : Int) - 1)) := by
  unfold fp_round
  rw [if_neg hx]
  dsimp only
  rw [fp_round_exponent emin e x hx hhi hlo hemin, round_half_even_near _ n h1 h2]

theorem fp_round_tie (p : Nat) (emin e n : Int) (x : ℚ) (hx : x ≠ 0)
    (hhi : |x| < 2 ^ (e + 1)) (hlo : (2 : ℚ) ^ e ≤ |x| ∨ e = emin) (hemin : emin ≤ e)
    (h : x / 2 ^ (e - ((p : Int) - 1)) = (n : ℚ) + 1 / 2 ∨
      x / 2 ^ (e - ((p : Int) - 1)) = (n : ℚ) - 1 / 2) (he : n % 2 = 0) :
    fp_round p emin x = n * 2 ^ (e - ((p : Int) - 1)) := by
  unfold fp_round
  rw [if_neg hx]
  dsimp only
  rw [fp_round_exponent emin e x hx hhi hlo hemin, round_half_even_tie _ n h he]

theorem fp_round_zero (p : Nat) (emin : Int) : fp_round p emin 0 = 0 := by
  simp [fp_round]

/-! ### Roundings of the values the examples meet -/

theorem round_double_r310 (x : ℚ) (hx : x = 3 / 10) :
    round_double x = 5404319552844595 / 2 ^ 54 := by
  unfold round_double
  rw [fp_round_near 53 (-1022) (-2) (5404319552844595) x (by rw [hx]; norm_num)
    (by rw [hx, abs_of_pos (by norm_num)]; norm_num)
    (Or.inl (by rw [hx, abs_of_pos (by norm_num)]; norm_num)) (by norm_num)
    (by rw [hx]; norm_num) (by rw [hx]; norm_num)]
  norm_num

theorem round_double_q103 (x : ℚ) (hx : x = 10 / 3) :
    round_double x = 7505999378950827 / 2 ^ 51 := by
  unfold round_double
  rw [fp_round_near 53 (-1022) (1) (7505999378950827) x (by rw [hx]; norm_num)
    (by rw [hx, abs_of_pos (by norm_num)]; norm_num)
    (Or.inl (by rw [hx, abs_of_pos (by norm_num)]; norm_num)) (by norm_num)
    (by rw [hx]; norm_num) (by rw [hx]; norm_num)]
  norm_num

theorem round_double_six_r310 (x : ℚ) (hx : x = 16212958658533785 / 2 ^ 53) :
    round_double x = 2026619832316723 / 2 ^ 50 := by
  unfold round_double
  rw [fp_round_tie 53 (-1022) (0) (8106479329266892) x (by rw [hx]; norm_num)
    (by rw [hx, abs_of_pos (by norm_num)]; norm_num)
    (Or.inl (by rw [hx, abs_of_pos (by norm_num)]; norm_num)) (by norm_num)
    (Or.inl (by rw [hx]; norm_num)) (by decide)]
  norm_num

theorem round_double_fix_q103 (x : ℚ) (hx : x = 7505999378950827 / 2 ^ 51) :
    round_double x = 7505999378950827 / 2 ^ 51 := by
  unfold round_double
  rw [fp_round_near 53 (-1022) (1) (7505999378950827) x (by rw [hx]; norm_num)
    (by rw [hx, abs_of_pos (by norm_num)]; norm_num)
    (Or.inl (by rw [hx, abs_of_pos (by norm_num)]; norm_num)) (by norm_num)
    (by rw [hx]; norm_num) (by rw [hx]; norm_num)]
  norm_num

theorem round_double_q103_sub_six (x : ℚ) (hx : x = (-6004799503160661) / 2 ^ 51) :
    round_double x = (-6004799503160661) / 2 ^ 51 := by
  unfold round_double
  rw [fp_round_near 53 (-1022) (1) (-6004799503160661) x (by rw [hx]; norm_num)
    (by rw [hx, abs_of_neg (by norm_num)]; norm_num)
    (Or.inl (by rw [hx, abs_of_neg (by norm_num)]; norm_num)) (by norm_num)
    (by rw [hx]; norm_num) (by rw [hx]; norm_num)]
  norm_num

theorem round_double_step_b1 (x : ℚ) (hx : x = 82565993168459093 / 2 ^ 51) :
    round_double x = 5160374573028693 / 2 ^ 47 := by
  unfold round_double
  rw [fp_round_near 53 (-1022) (5) (5160374573028693) x (by rw [hx]; norm_num)
    (by rw [hx, abs_of_pos (by norm_num)]; norm_num)
    (Or.inl (by rw [hx, abs_of_pos (by norm_num)]; norm_num)) (by norm_num)
    (by rw [hx]; norm_num) (by rw [hx]; norm_num)]
  norm_num

theorem round_double_step_b2 (x : ℚ) (hx : x = 27888313205021043999412704964335 / 2 ^ 101) :
    round_double x = 6192449487634431 / 2 ^ 49 := by
  unfold round_double
  rw [fp_round_near 53 (-1022) (3) (6192449487634431) x (by rw [hx]; norm_num)
    (by rw [hx, abs_of_pos (by norm_num)]; norm_num)
    (Or.inl (by rw [hx, abs_of_pos (by norm_num)]; norm_num)) (by norm_num)
    (by rw [hx]; norm_num) (by rw [hx]; norm_num)]
  norm_num

theorem round_double_step_b3 (x : ℚ) (hx : x = 32451855365842669675915850477295 / 2 ^ 105) :
    round_double x = 7205759403792793 / 2 ^ 53 := by
  unfold round_double
  rw [fp_round_near 53 (-1022) (-1) (7205759403792793) x (by rw [hx]; norm_num)
    (by rw [hx, abs_of_pos (by norm_num)]; norm_num)
    (Or.inl (by rw [hx, abs_of_pos (by norm_num)]; norm_num)) (by norm_num)
    (by rw [hx]; norm_num) (by rw [hx]; norm_num)]
  norm_num

theorem round_double_step_b4 (x : ℚ) (hx : x = 178342545243871635 / 2 ^ 54) :
    round_double x = 5573204538870989 / 2 ^ 49 := by
  unfold round_double
  rw [fp_round_near 53 (-1022) (3) (5573204538870989) x (by rw [hx]; norm_num)
    (by rw [hx, abs_of_pos (by norm_num)]; norm_num)
    (Or.inl (by rw [hx, abs_of_pos (by norm_num)]; norm_num)) (by norm_num)
    (by rw [hx]; norm_num) (by rw [hx]; norm_num)]
  norm_num

theorem round_double_step_b5 (x : ℚ) (hx : x = 96377032025728617 / 2 ^ 53) :
    round_double x = 6023564501608039 / 2 ^ 49 := by
  unfold round_double
  rw [fp_round_near 53 (-1022) (3) (6023564501608039) x (by rw [hx]; norm_num)
    (by rw [hx, abs_of_pos (by norm_num)]; norm_num)
    (Or.inl (by rw [hx, abs_of_pos (by norm_num)]; norm_num)) (by norm_num)
    (by rw [hx]; norm_num) (by rw [hx]; norm_num)]
  norm_num

theorem round_double_step_b6 (x : ℚ) (hx : x = 198158383604301843 / 2 ^ 54) :
    round_double x = 6192449487634433 / 2 ^ 49 := by
  unfold round_double
  rw [fp_round_near 53 (-1022) (3) (6192449487634433) x (by rw [hx]; norm_num)
    (by rw [hx, abs_of_pos (by norm_num)]; norm_num)
    (Or.inl (by rw [hx, abs_of_pos (by norm_num)]; norm_num)) (by norm_num)
    (by rw [hx]; norm_num) (by rw [hx]; norm_num)]
  norm_num

theorem round_double_step_b7 (x : ℚ) (hx : x = 5629499534213121 / 2 ^ 49) :
    round_double x = 5629499534213121 / 2 ^ 49 := by
  unfold round_double
  rw [fp_round_near 53 (-1022) (3) (5629499534213121) x (by rw [hx]; norm_num)
    (by rw [hx, abs_of_pos (by norm_num)]; norm_num)
    (Or.inl (by rw [hx, abs_of_pos (by norm_num)]; norm_num)) (by norm_num)
    (by rw [hx]; norm_num) (by rw [hx]; norm_num)]
  norm_num

theorem round_double_r311 (x : ℚ) (hx : x = 3 / 11) :
    round_double x = 1228254443828317 / 2 ^ 52 := by
  unfold round_double
  rw [fp_round_near 53 (-1022) (-2) (4913017775313268) x (by rw [hx]; norm_num)
    (by rw [hx, abs_of_pos (by norm_num)]; norm_num)
    (Or.inl (by rw [hx, abs_of_pos (by norm_num)]; norm_num)) (by norm_num)
    (by rw [hx]; norm_num) (by rw [hx]; norm_num)]
  norm_num

theorem round_double_55_r311 (x : ℚ) (hx : x = 67553994410557435 / 2 ^ 52) :
    round_double x = 8444249301319679 / 2 ^ 49 := by
  unfold round_double
  rw [fp_round_near 53 (-1022) (3) (8444249301319679) x (by rw [hx]; norm_num)
    (by rw [hx, abs_of_pos (by norm_num)]; norm_num)
    (Or.inl (by rw [hx, abs_of_pos (by norm_num)]; norm_num)) (by norm_num)
    (by rw [hx]; norm_num) (by rw [hx]; norm_num)]
  norm_num

theorem round_double_r149 (x : ℚ) (hx : x = 1 / 49) :
    round_double x = 5882252574524729 / 2 ^ 58 := by
  unfold round_double
  rw [fp_round_near 53 (-1022) (-6) (5882252574524729) x (by rw [hx]; norm_num)
    (by rw [hx, abs_of_pos (by norm_num)]; norm_num)
    (Or.inl (by rw [hx, abs_of_pos (by norm_num)]; norm_num)) (by norm_num)
    (by rw [hx]; norm_num) (by rw [hx]; norm_num)]
  norm_num

theorem round_double_49_r149 (x : ℚ) (hx : x = 288230376151711721 / 2 ^ 58) :
    round_double x = 9007199254740991 / 2 ^ 53 := by
  unfold round_double
  rw [fp_round_near 53 (-1022) (-1) (9007199254740991) x (by rw [hx]; norm_num)
    (by rw [hx, abs_of_pos (by norm_num)]; norm_num)
    (Or.inl (by rw [hx, abs_of_pos (by norm_num)]; norm_num)) (by norm_num)
    (by rw [hx]; norm_num) (by rw [hx]; norm_num)]
  norm_num

theorem round_double_natCast (n : Nat) (h : n < 2 ^ 53) : round_double (n : ℚ) = n := by
  rcases Nat.eq_zero_or_pos n with h0 | hpos
  · subst h0
    simp [round_double, fp_round_zero]
  · have hn0 : n ≠ 0 := by omega
    have he : Nat.log 2 n ≤ 52 := by
      have := Nat.log_lt_of_lt_pow hn0 h
      omega
    have hlo : 2 ^ Nat.log 2 n ≤ n := Nat.pow_log_le_self 2 hn0
    have hhi : n < 2 ^ (Nat.log 2 n + 1) := Nat.lt_pow_succ_log_self (by norm_num) n
    have hu : (2 : ℚ) ^ ((Nat.log 2 n : Int) - (((53 : Nat) : Int) - 1)) *
        2 ^ (52 - Nat.log 2 n) = 1 := by
      rw [← zpow_natCast (2 : ℚ) (52 - Nat.log 2 n), ← zpow_add₀ (by norm_num : (2 : ℚ) ≠ 0),
        Nat.cast_sub he]
      norm_num
    have hupos : (0 : ℚ) < 2 ^ ((Nat.log 2 n : Int) - (((53 : Nat) : Int) - 1)) :=
      zpow_pos (by norm_num) _
    have hdiv : (n : ℚ) / 2 ^ ((Nat.log 2 n : Int) - (((53 : Nat) : Int) - 1)) =
        ((n * 2 ^ (52 - Nat.log 2 n) : Nat) : Int) := by
      rw [div_eq_iff (ne_of_gt hupos)]
      generalize (2 : ℚ) ^ ((Nat.log 2 n : Int) - (((53 : Nat) : Int) - 1)) = u at hu
      push_cast
      rw [mul_assoc, mul_comm ((2 : ℚ) ^ (52 - Nat.log 2 n)), hu, mul_one]
    unfold round_double
    rw [fp_round_near 53 (-1022) (Nat.log 2 n) ((n * 2 ^ (52 - Nat.log 2 n) : Nat) : Int) n
      (by exact_mod_cast hn0)
      (by
        rw [abs_of_pos (by exact_mod_cast hpos)]
        have : ((n : Nat) : ℚ) < ((2 ^ (Nat.log 2 n + 1) : Nat) : ℚ) := by exact_mod_cast hhi
        rw [← Nat.cast_one (R := Int), ← Nat.cast_add, zpow_natCast]
        exact_mod_cast hhi)
      (Or.inl (by
        rw [abs_of_pos (by exact_mod_cast hpos), zpow_natCast]
        exact_mod_cast hlo))
      (by omega)
      (by rw [hdiv]; linarith)
      (by rw [hdiv]; linarith)]
    generalize (2 : ℚ) ^ ((Nat.log 2 n : Int) - (((53 : Nat) : Int) - 1)) = u at hu
    push_cast
    rw [mul_assoc, mul_comm ((2 : ℚ) ^ (52 - Nat.log 2 n)), hu, mul_one]

theorem round_double_one : round_double 1 = 1 := by
  have h := round_double_natCast 1 (by norm_num)
  simpa using h

theorem dsp_resample_process_fp_exact (res : dsp_resample_t) (inp out : extbuffer_t)
    (upsample_by downsample_by : ℚ) (nearest_neighbour_sampling : Int) :
    dsp_resample_process_fp id id res inp out upsample_by downsample_by
        nearest_neighbour_sampling =
      dsp_resample_process res inp out upsample_by downsample_by nearest_neighbour_sampling :=
  rfl

theorem area_step_fp_spec (rd rf : ℚ → ℚ) (r o : ℚ) (buf : List ℚ) (s : AreaState) (n : Nat) :
    s.pid ≤ (area_step_fp rd rf r o buf s n).pid ∧
    (area_step_fp rd rf r o buf s n).stored.length =
      s.stored.length + ((area_step_fp rd rf r o buf s n).pid - s.pid) ∧
    rd (rd (rd (rd ((n : ℚ) * r) + o) + r) - 1) ≤
      ((area_step_fp rd rf r o buf s n).pid : ℚ) := by
  unfold area_step_fp
  dsimp only
  generalize rd (rd ((n : ℚ) * r) + o) = c
  generalize rd (rd (c + r) - 1) = c2
  generalize rd (c + r) = c3
  by_cases h1 : (s.pid : ℚ) < c ∧ (s.pid : ℚ) < c2
  · rw [if_pos h1]
    dsimp only
    obtain ⟨k, hk, hex, _⟩ := area_fill_spec (buf.getD n 0) c2 (⌈c2⌉.toNat - (s.pid + 1))
      { pid := s.pid + 1, contrib := 0,
        stored := s.stored ++
          [rf (rd (s.contrib + rd (buf.getD n 0 * rd (rd (1 - c) + s.pid))))] }
      (le_refl _)
    rw [hk]
    dsimp only at hex ⊢
    split_ifs
    · refine ⟨by dsimp only; omega, ?_, hex⟩
      simp
      omega
    · refine ⟨by dsimp only; omega, ?_, hex⟩
      simp
      omega
  · rw [if_neg h1]
    obtain ⟨k, hk, hex, _⟩ := area_fill_spec (buf.getD n 0) c2 (⌈c2⌉.toNat - s.pid) s
      (le_refl _)
    rw [hk]
    dsimp only
    split_ifs
    · refine ⟨by dsimp only; omega, ?_, hex⟩
      simp
    · refine ⟨by dsimp only; omega, ?_, hex⟩
      simp

theorem foldl_area_step_fp_length (rd rf : ℚ → ℚ) (r o : ℚ) (buf : List ℚ) :
    ∀ (l : List Nat) (s : AreaState), s.stored.length = s.pid →
      ((l.foldl (area_step_fp rd rf r o buf) s).stored.length =
        (l.foldl (area_step_fp rd rf r o buf) s).pid) := by
  intro l
  induction l with
  | nil => intro s hs; exact hs
  | cons a l ih =>
    intro s hs
    rw [List.foldl_cons]
    apply ih
    obtain ⟨h1, h2, _⟩ := area_step_fp_spec rd rf r o buf s a
    omega

theorem resample_area_fp_length (rd rf : ℚ → ℚ) (res : dsp_resample_t) (buf : List ℚ)
    (size : Nat) (r : ℚ) :
    (resample_area_fp rd rf res buf size r).stored.length =
      (resample_area_fp rd rf res buf size r).pid :=
  foldl_area_step_fp_length rd rf r _ buf _ _ rfl

theorem resample_area_fp_last (rd rf : ℚ → ℚ) (res : dsp_resample_t) (buf : List ℚ)
    (n : Nat) (r : ℚ) :
    rd (rd (rd (rd ((n : ℚ) * r) + rd (-res.offset * r)) + r) - 1) ≤
      ((resample_area_fp rd rf res buf (n + 1) r).pid : ℚ) := by
  unfold resample_area_fp
  rw [List.range_succ, List.foldl_append, List.foldl_cons, List.foldl_nil]
  exact (area_step_fp_spec rd rf r _ buf _ n).2.2

/-! ## The resampler in binary64 arithmetic -/

theorem dsp_resample_process_fp_some (rd rf : ℚ → ℚ) (res : dsp_resample_t)
    (inp out : extbuffer_t) (upsample_by downsample_by : ℚ) (nearest_neighbour_sampling : Int)
    (hpos : 0 < resample_output_samples_fp rd res inp.size_valid_elements upsample_by
      downsample_by) :
    ∃ r, dsp_resample_process_fp rd rf res inp out upsample_by downsample_by
        nearest_neighbour_sampling = some r ∧
      r.1.offset = rd (res.offset +
        rd (rd (((resample_output_samples_fp rd res inp.size_valid_elements upsample_by
          downsample_by : Nat) : ℚ) * rd (downsample_by / upsample_by)) -
            inp.size_valid_elements)) ∧
      r.1.contrib =
        (if nearest_neighbour_sampling ≠ 0 then res.contrib
         else (resample_area_fp rd rf res (inp.buffer.getD []) inp.size_valid_elements
          (rd (upsample_by / downsample_by))).contrib) ∧
      r.2.size_valid_elements =
        resample_output_samples_fp rd res inp.size_valid_elements upsample_by
          downsample_by := by
  unfold dsp_resample_process_fp extbuffer_preparetohandle
  dsimp only
  rw [if_pos hpos]
  refine ⟨_, rfl, rfl, rfl, ?_⟩
  dsimp only
  unfold extbuffer_clear
  dsimp only
  split_ifs <;> (try split) <;> rfl

theorem resample_output_samples_fp_floor (rd : ℚ → ℚ) (res : dsp_resample_t) (size : Nat)
    (upsample_by downsample_by v : ℚ) (n : Nat)
    (hv : rd (rd ((size : ℚ) - res.offset) * rd (upsample_by / downsample_by)) = v)
    (h0 : (n : ℚ) ≤ v) (h1 : v < n + 1) (hn : n < 2 ^ 32) :
    resample_output_samples_fp rd res size upsample_by downsample_by = n := by
  have hv0 : (0 : ℚ) ≤ v := le_trans (Nat.cast_nonneg n) h0
  have hf : ⌊v⌋ = (n : Int) := by
    rw [Int.floor_eq_iff]
    push_cast
    exact ⟨h0, h1⟩
  unfold resample_output_samples_fp
  rw [hv, c_int_of_nonneg hv0, hf, c_uint32_of_lt (by omega) (by exact_mod_cast hn)]
  simp

theorem resample_fp_first_call (res : dsp_resample_t) (hoff : res.offset = 0) :
    resample_output_samples_fp round_double res 6 3 10 = 1 ∧
      round_double (res.offset + round_double
        (round_double (((1 : Nat) : ℚ) * round_double (10 / 3)) - ((6 : Nat) : ℚ))) =
        (-6004799503160661) / 2 ^ 51 := by
  constructor
  · apply resample_output_samples_fp_floor round_double res 6 3 10
      (2026619832316723 / 2 ^ 50) 1
    · rw [hoff, round_double_r310 (3 / 10) rfl, sub_zero,
        round_double_natCast 6 (by norm_num),
        round_double_six_r310 (((6 : Nat) : ℚ) * (5404319552844595 / 2 ^ 54)) (by norm_num)]
    · norm_num
    · norm_num
    · norm_num
  · rw [hoff, round_double_q103 (10 / 3) rfl,
      round_double_fix_q103 (((1 : Nat) : ℚ) * (7505999378950827 / 2 ^ 51)) (by norm_num),
      round_double_q103_sub_six (7505999378950827 / 2 ^ 51 - ((6 : Nat) : ℚ)) (by norm_num),
      round_double_q103_sub_six (0 + (-6004799503160661) / 2 ^ 51) (by norm_num)]

theorem resample_fp_second_call (res : dsp_resample_t)
    (hoff : res.offset = (-6004799503160661) / 2 ^ 51) (buf : List ℚ) :
    resample_output_samples_fp round_double res 34 3 10 = 10 ∧
      10 < (resample_area_fp round_double round_float res buf 34
        (round_double (3 / 10))).stored.length := by
  constructor
  · apply resample_output_samples_fp_floor round_double res 34 3 10
      (6192449487634431 / 2 ^ 49) 10
    · rw [hoff, round_double_r310 (3 / 10) rfl,
        round_double_step_b1 (((34 : Nat) : ℚ) - (-6004799503160661) / 2 ^ 51) (by norm_num),
        round_double_step_b2 (5160374573028693 / 2 ^ 47 * (5404319552844595 / 2 ^ 54))
          (by norm_num)]
    · norm_num
    · norm_num
    · norm_num
  · rw [resample_area_fp_length]
    have h := resample_area_fp_last round_double round_float res buf 33 (round_double (3 / 10))
    rw [hoff, round_double_r310 (3 / 10) rfl,
      round_double_step_b3 (-((-6004799503160661) / 2 ^ 51) * (5404319552844595 / 2 ^ 54))
        (by norm_num),
      round_double_step_b4 (((33 : Nat) : ℚ) * (5404319552844595 / 2 ^ 54)) (by norm_num),
      round_double_step_b5 (5573204538870989 / 2 ^ 49 + 7205759403792793 / 2 ^ 53)
        (by norm_num),
      round_double_step_b6 (6023564501608039 / 2 ^ 49 + 5404319552844595 / 2 ^ 54)
        (by norm_num),
      round_double_step_b7 (6192449487634433 / 2 ^ 49 - 1) (by norm_num)] at h
    have h2 : ((10 : Nat) : ℚ) <
        ((resample_area_fp round_double round_float res buf (33 + 1)
          (5404319552844595 / 2 ^ 54)).pid : ℚ) :=
      lt_of_lt_of_le (by norm_num) h
    rw [round_double_r310 (3 / 10) rfl]
    exact_mod_cast h2

/-- C36 (area-integration mode writes past the prepared output).  In binary64
arithmetic with `up = 3`, `down = 10`, a fresh resampler and a fresh output
ext-buffer, whatever the samples are: the call on a chunk of 6 samples returns
with the output prepared for 1 value, and the following call on a chunk of 34
samples returns with the output prepared for `output_samples = 10` values
while the area-integration loop stores more than 10 values through
`resbuff`. -/
theorem resample_area_double_overrun (inp1 inp2 : extbuffer_t) :
    ∃ res1 out1 res2 out2,
      dsp_resample_process_fp round_double round_float dsp_resample_init
          { inp1 with size_valid_elements := 6 } extbuffer_init 3 10 0 = some (res1, out1) ∧
        out1.size_valid_elements = 1 ∧
        dsp_resample_process_fp round_double round_float res1
          { inp2 with size_valid_elements := 34 } out1 3 10 0 = some (res2, out2) ∧
        resample_output_samples_fp round_double res1 34 3 10 = 10 ∧
        out2.size_valid_elements = 10 ∧
        10 < (resample_stored_fp round_double round_float res1
          { inp2 with size_valid_elements := 34 } 3 10 0).length := by
  obtain ⟨ha, hb⟩ := resample_fp_first_call dsp_resample_init rfl
  obtain ⟨r1, hr1, hoff1, _, hsz1⟩ := dsp_resample_process_fp_some round_double round_float
    dsp_resample_init { inp1 with size_valid_elements := 6 } extbuffer_init 3 10 0
    (by dsimp only; rw [ha]; decide)
  dsimp only at hoff1 hsz1
  rw [ha] at hoff1 hsz1
  rw [hb] at hoff1
  obtain ⟨hc, hd⟩ := resample_fp_second_call r1.1 hoff1 (inp2.buffer.getD [])
  obtain ⟨r2, hr2, _, _, hsz2⟩ := dsp_resample_process_fp_some round_double round_float
    r1.1 { inp2 with size_valid_elements := 34 } r1.2 3 10 0
    (by dsimp only; rw [hc]; decide)
  dsimp only at hsz2
  rw [hc] at hsz2
  refine ⟨r1.1, r1.2, r2.1, r2.2, hr1, hsz1, hr2, hc, hsz2, ?_⟩
  unfold resample_stored_fp
  rw [if_neg (by decide)]
  exact hd

theorem resample_nearest_fp_spec (rd rf : ℚ → ℚ) (res : dsp_resample_t)
    (inp out : extbuffer_t) (upsample_by downsample_by : ℚ) (nearest_neighbour_sampling : Int)
    (buf : List ℚ) (hmode : nearest_neighbour_sampling ≠ 0) (hbuf : inp.buffer = some buf)
    (hlen : inp.size_valid_elements ≤ buf.length) (hsize : 0 < inp.size_valid_elements)
    (hout : ExtFloatOk out)
    (hpos : 0 < resample_output_samples_fp rd res inp.size_valid_elements upsample_by
      downsample_by) :
    ∃ r o ob, dsp_resample_process_fp rd rf res inp out upsample_by downsample_by
          nearest_neighbour_sampling = some (r, o) ∧
      o.buffer = some ob ∧
      o.size_valid_elements =
        resample_output_samples_fp rd res inp.size_valid_elements upsample_by downsample_by ∧
      o.size_valid_elements ≤ ob.length ∧
      r.contrib = res.contrib ∧
      (∀ k, k < o.size_valid_elements →
        inp.size_valid_elements * k / o.size_valid_elements < inp.size_valid_elements ∧
        ob[k]? = buf[inp.size_valid_elements * k / o.size_valid_elements]?) ∧
      (o.size_valid_elements = inp.size_valid_elements →
        ob.take inp.size_valid_elements = buf.take inp.size_valid_elements) := by
  generalize hn : resample_output_samples_fp rd res inp.size_valid_elements upsample_by
    downsample_by = n at hpos
  obtain ⟨o1, b1, hp, hb1, hle1, hsv, _, _⟩ := extbuffer_preparetohandle_ok hout n hpos
  have hst : resample_stored_fp rd rf res inp upsample_by downsample_by
      nearest_neighbour_sampling = resample_nearest buf inp.size_valid_elements n := by
    unfold resample_stored_fp
    rw [if_pos hmode, hn, hbuf]
    rfl
  have hsl : (resample_nearest buf inp.size_valid_elements n).length = n := by
    simp [resample_nearest]
  have hidx : ∀ k, k < n → inp.size_valid_elements * k / n < inp.size_valid_elements := by
    intro k hk
    rcases nearest_index_lt inp.size_valid_elements n k hk with h | h
    · exact h
    · omega
  have hget : ∀ k, k < n →
      (memcpy b1 0 (resample_nearest buf inp.size_valid_elements n))[k]? =
        buf[inp.size_valid_elements * k / n]? := by
    intro k hk
    have hi := hidx k hk
    rw [getElem?_memcpy _ _ _ (by rw [hsl]; omega), if_neg (by omega), if_pos (by omega)]
    simp only [Nat.sub_zero, resample_nearest, List.getElem?_map]
    rw [List.getElem?_range hk]
    simp only [Option.map_some', List.getD_eq_getElem?_getD]
    rw [List.getElem?_eq_getElem (by omega)]
    rfl
  have hproc : dsp_resample_process_fp rd rf res inp out upsample_by downsample_by
      nearest_neighbour_sampling =
      some ({ contrib := res.contrib
              offset := rd (res.offset + rd (rd ((n : ℚ) * rd (downsample_by / upsample_by)) -
                inp.size_valid_elements)) },
        { o1 with
          buffer := some (memcpy b1 0 (resample_nearest buf inp.size_valid_elements n)) }) := by
    unfold dsp_resample_process_fp
    dsimp only
    rw [hn, hp]
    dsimp only
    rw [if_pos hmode, hst, hb1]
    rfl
  refine ⟨_, _, memcpy b1 0 (resample_nearest buf inp.size_valid_elements n), hproc, rfl, ?_,
    ?_, rfl, ?_, ?_⟩
  · exact hsv
  · dsimp only
    rw [length_memcpy _ _ _ (by rw [hsl]; omega)]
    omega
  · intro k hk
    dsimp only at hk ⊢
    rw [hsv] at hk ⊢
    exact ⟨hidx k hk, hget k hk⟩
  · intro hns
    dsimp only at hns
    rw [hsv] at hns
    apply List.ext_getElem?
    intro k
    rw [List.getElem?_take, List.getElem?_take]
    split
    · next hk =>
      rw [hget k (by omega), hns, Nat.mul_div_cancel_left k hsize]
    · rfl

theorem resample_output_samples_fp_unit (res : dsp_resample_t) (size : Nat) (u : ℚ)
    (hu : u ≠ 0) (hoff : res.offset = 0) (hs : size < 2 ^ 32) :
    resample_output_samples_fp round_double res size u u = size := by
  apply resample_output_samples_fp_floor round_double res size u u size size
  · rw [hoff, sub_zero, div_self hu, round_double_one,
      round_double_natCast size (by omega), mul_one,
      round_double_natCast size (by omega)]
  · exact le_refl _
  · linarith
  · exact hs

theorem resample_output_samples_fp_exact (rd : ℚ → ℚ) (res : dsp_resample_t) (size : Nat)
    (upsample_by downsample_by : ℚ)
    (h1 : rd (upsample_by / downsample_by) = upsample_by / downsample_by)
    (h2 : rd ((size : ℚ) - res.offset) = (size : ℚ) - res.offset)
    (h3 : rd (((size : ℚ) - res.offset) * (upsample_by / downsample_by)) =
      ((size : ℚ) - res.offset) * (upsample_by / downsample_by)) :
    resample_output_samples_fp rd res size upsample_by downsample_by =
      resample_output_samples res size upsample_by downsample_by := by
  unfold resample_output_samples_fp resample_output_samples
  rw [h1, h2, h3]

theorem resample_product_fp_55 :
    round_double (round_double (((55 : Nat) : ℚ) - dsp_resample_init.offset) *
      round_double (3 / 11)) = 8444249301319679 / 2 ^ 49 := by
  rw [show dsp_resample_init.offset = 0 from rfl, sub_zero,
    round_double_r311 (3 / 11) rfl, round_double_natCast 55 (by norm_num),
    round_double_55_r311 (((55 : Nat) : ℚ) * (1228254443828317 / 2 ^ 52)) (by norm_num)]

theorem resample_output_samples_fp_55 :
    resample_output_samples_fp round_double dsp_resample_init 55 3 11 = 14 := by
  apply resample_output_samples_fp_floor round_double dsp_resample_init 55 3 11
    (8444249301319679 / 2 ^ 49) 14
  · exact resample_product_fp_55
  · norm_num
  · norm_num
  · norm_num

theorem resample_output_samples_fp_49 :
    resample_output_samples_fp round_double dsp_resample_init 49 1 49 = 0 := by
  apply resample_output_samples_fp_floor round_double dsp_resample_init 49 1 49
    (9007199254740991 / 2 ^ 53) 0
  · rw [show dsp_resample_init.offset = 0 from rfl, sub_zero,
      round_double_r149 (1 / 49) rfl, round_double_natCast 49 (by norm_num),
      round_double_49_r149 (((49 : Nat) : ℚ) * (5882252574524729 / 2 ^ 58)) (by norm_num)]
  · norm_num
  · norm_num
  · norm_num

theorem extbuffer_preparetohandle_zero (c : extbuffer_t) :
    extbuffer_preparetohandle c 0 = none := by
  unfold extbuffer_preparetohandle
  rw [if_neg (by decide)]

theorem dsp_resample_process_fp_none (rd rf : ℚ → ℚ) (res : dsp_resample_t)
    (inp out : extbuffer_t) (upsample_by downsample_by : ℚ) (nearest_neighbour_sampling : Int)
    (h : resample_output_samples_fp rd res inp.size_valid_elements upsample_by
      downsample_by = 0) :
    dsp_resample_process_fp rd rf res inp out upsample_by downsample_by
      nearest_neighbour_sampling = none := by
  unfold dsp_resample_process_fp
  dsimp only
  rw [h, extbuffer_preparetohandle_zero]

/-- Counterexample to C15 as stated.  In binary64 arithmetic 55 samples with
`up = 3`, `down = 11` and offset 0 give `output_samples = 14`, although
`⌊(size - offset) * up/down⌋ = 15`: the call on the samples `0, 1, ..., 54`
returns 14 values and stores input cell 15 in output cell 4, where the claim
reads input cell `⌊55*4/15⌋ = 14`.  And 49 samples with `up = 1`, `down = 49`
give `output_samples = 0`, although `⌊(size - offset) * up/down⌋ = 1 > 0`: the
assertion of `extbuffer_preparetohandle` fails and the call does not return. -/
theorem resample_nearest_double_counterexample :
    resample_output_samples_fp round_double dsp_resample_init 55 3 11 = 14 ∧
      ⌊(((55 : Nat) : ℚ) - dsp_resample_init.offset) * (3 / 11)⌋ = 15 ∧
      (∃ (r : dsp_resample_t) (o : extbuffer_t) (ob : List ℚ),
        dsp_resample_process_fp round_double round_float dsp_resample_init
          { extbuffer_init with
            buffer := some ((List.range 55).map (fun (i : Nat) => (i : ℚ))), buffer_max_size := 55,
            size_valid_elements := 55, valid := true, cleartozero := false, calls := 1 }
          extbuffer_init 3 11 1 = some (r, o) ∧
        o.buffer = some ob ∧ o.size_valid_elements = 14 ∧ ob[4]? = some 15 ∧
        ((List.range 55).map (fun (i : Nat) => (i : ℚ)))[55 * 4 / 15]? = some 14) ∧
      resample_output_samples_fp round_double dsp_resample_init 49 1 49 = 0 ∧
      ⌊(((49 : Nat) : ℚ) - dsp_resample_init.offset) * (1 / 49)⌋ = 1 ∧
      (∀ inp out : extbuffer_t,
        dsp_resample_process_fp round_double round_float dsp_resample_init
          { inp with size_valid_elements := 49 } out 1 49 1 = none) := by
  refine ⟨resample_output_samples_fp_55, ?_, ?_, resample_output_samples_fp_49, ?_, ?_⟩
  · norm_num [dsp_resample_init, Int.floor_eq_iff]
  · obtain ⟨r, o, ob, hp, hb, hsv, _, _, hcells, _⟩ :=
      resample_nearest_fp_spec round_double round_float dsp_resample_init
        { extbuffer_init with
          buffer := some ((List.range 55).map (fun (i : Nat) => (i : ℚ))), buffer_max_size := 55,
          size_valid_elements := 55, valid := true, cleartozero := false, calls := 1 }
        extbuffer_init 3 11 1 ((List.range 55).map (fun (i : Nat) => (i : ℚ))) (by decide) rfl
        (by rw [List.length_map, List.length_range]) (by decide) extbuffer_init_ok
        (by dsimp only; rw [resample_output_samples_fp_55]; decide)
    dsimp only at hsv hcells
    rw [resample_output_samples_fp_55] at hsv
    rw [hsv] at hcells
    refine ⟨r, o, ob, hp, hb, hsv, ?_, ?_⟩
    · rw [(hcells 4 (by decide)).2, List.getElem?_map, List.getElem?_range (by decide)]
      norm_num
    · rw [List.getElem?_map, List.getElem?_range (by decide)]
      norm_num
  · norm_num [dsp_resample_init, Int.floor_eq_iff]
  · intro inp out
    exact dsp_resample_process_fp_none round_double round_float dsp_resample_init
      { inp with size_valid_elements := 49 } out 1 49 1 resample_output_samples_fp_49

/-- C15 (amended).  Let the input hold `size > 0` valid samples, let the output
be a consistent `float` ext-buffer, let the mode be nearest-neighbour and let
`out` be the `output_samples` the code computes in binary64 arithmetic, the
conversion to `int` of the rounded product of the rounded difference
`size - offset` and the rounded quotient `up/down`, with `out > 0` and the
rounded product below `2^31`, the range in which the conversion is defined.
Then the call completes, the output is prepared for `out` values, and for every
`k < out` output cell `k` holds input cell `⌊size*k/out⌋`, an index below
`size`; the source index is non-decreasing in `k`; when `up = down ≠ 0`,
`offset = 0` and `size < 2^32`, `out = size` and the output cells are the
input cells; and when the quotient, the difference and the product
`x = (size - offset) * up/down` are representable and `0 ≤ x < 2^31`,
`out = ⌊x⌋`. -/
theorem resample_nearest_double_spec (res : dsp_resample_t) (inp out : extbuffer_t)
    (upsample_by downsample_by : ℚ) (nearest_neighbour_sampling : Int) (buf : List ℚ)
    (hmode : nearest_neighbour_sampling ≠ 0) (hbuf : inp.buffer = some buf)
    (hlen : inp.size_valid_elements ≤ buf.length) (hsize : 0 < inp.size_valid_elements)
    (hout : ExtFloatOk out)
    (hpos : 0 < resample_output_samples_fp round_double res inp.size_valid_elements
      upsample_by downsample_by)
    (_hrange : round_double (round_double ((inp.size_valid_elements : ℚ) - res.offset) *
      round_double (upsample_by / downsample_by)) < 2 ^ 31) :
    ∃ r o ob, dsp_resample_process_fp round_double round_float res inp out upsample_by
          downsample_by nearest_neighbour_sampling = some (r, o) ∧
      o.buffer = some ob ∧
      o.size_valid_elements =
        resample_output_samples_fp round_double res inp.size_valid_elements upsample_by
          downsample_by ∧
      0 < o.size_valid_elements ∧
      o.size_valid_elements ≤ ob.length ∧
      r.contrib = res.contrib ∧
      (∀ k, k < o.size_valid_elements →
        inp.size_valid_elements * k / o.size_valid_elements < inp.size_valid_elements ∧
        ob[k]? = buf[inp.size_valid_elements * k / o.size_valid_elements]?) ∧
      (∀ k k1, k ≤ k1 →
        inp.size_valid_elements * k / o.size_valid_elements ≤
          inp.size_valid_elements * k1 / o.size_valid_elements) ∧
      (upsample_by = downsample_by → upsample_by ≠ 0 → res.offset = 0 →
        inp.size_valid_elements < 2 ^ 32 →
        o.size_valid_elements = inp.size_valid_elements ∧
        ob.take inp.size_valid_elements = buf.take inp.size_valid_elements) ∧
      (round_double (upsample_by / downsample_by) = upsample_by / downsample_by →
        round_double ((inp.size_valid_elements : ℚ) - res.offset) =
          (inp.size_valid_elements : ℚ) - res.offset →
        round_double (((inp.size_valid_elements : ℚ) - res.offset) *
            (upsample_by / downsample_by)) =
          ((inp.size_valid_elements : ℚ) - res.offset) * (upsample_by / downsample_by) →
        0 ≤ ((inp.size_valid_elements : ℚ) - res.offset) * (upsample_by / downsample_by) →
        ((inp.size_valid_elements : ℚ) - res.offset) * (upsample_by / downsample_by) < 2 ^ 31 →
        (o.size_valid_elements : Int) =
          ⌊((inp.size_valid_elements : ℚ) - res.offset) * (upsample_by / downsample_by)⌋) := by
  obtain ⟨r, o, ob, hp, hb, hsv, hle, hc, hcells, hid⟩ :=
    resample_nearest_fp_spec round_double round_float res inp out upsample_by downsample_by
      nearest_neighbour_sampling buf hmode hbuf hlen hsize hout hpos
  refine ⟨r, o, ob, hp, hb, hsv, by omega, hle, hc, hcells, ?_, ?_, ?_⟩
  · intro k k1 hkk
    exact Nat.div_le_div_right (Nat.mul_le_mul_left _ hkk)
  · intro hud hu hoff hs
    have hn : o.size_valid_elements = inp.size_valid_elements := by
      rw [hsv, ← hud]
      exact resample_output_samples_fp_unit res inp.size_valid_elements upsample_by hu hoff hs
    exact ⟨hn, hid hn⟩
  · intro h1 h2 h3 h0 hlt
    rw [hsv, resample_output_samples_fp_exact round_double res inp.size_valid_elements
      upsample_by downsample_by h1 h2 h3]
    exact resample_output_samples_eq res inp.size_valid_elements upsample_by downsample_by
      h0 hlt

/-- Witness for C15 (amended): the samples `0, 1, ..., 54` resampled with
`up = 3`, `down = 11` into a fresh output ext-buffer; the code computes
`output_samples = 14`. -/
theorem resample_nearest_double_spec_witness :
    (1 : Int) ≠ 0 ∧ ExtFloatOk extbuffer_init ∧
      0 < resample_output_samples_fp round_double dsp_resample_init 55 3 11 ∧
      round_double (round_double (((55 : Nat) : ℚ) - dsp_resample_init.offset) *
        round_double (3 / 11)) < 2 ^ 31 ∧
      ∃ r o ob, dsp_resample_process_fp round_double round_float dsp_resample_init
          { extbuffer_init with
            buffer := some ((List.range 55).map (fun (i : Nat) => (i : ℚ))), buffer_max_size := 55,
            size_valid_elements := 55, valid := true, cleartozero := false, calls := 1 }
          extbuffer_init 3 11 1 = some (r, o) ∧
        o.buffer = some ob ∧ 0 < o.size_valid_elements ∧ o.size_valid_elements ≤ ob.length :=
  ⟨by decide, extbuffer_init_ok, by rw [resample_output_samples_fp_55]; decide,
    by rw [resample_product_fp_55]; norm_num,
    let ⟨r, o, ob, hp, hb, _, h0, hl, _⟩ :=
      resample_nearest_double_spec dsp_resample_init
        { extbuffer_init with
          buffer := some ((List.range 55).map (fun (i : Nat) => (i : ℚ))), buffer_max_size := 55,
          size_valid_elements := 55, valid := true, cleartozero := false, calls := 1 }
        extbuffer_init 3 11 1 ((List.range 55).map (fun (i : Nat) => (i : ℚ))) (by decide) rfl
        (by rw [List.length_map, List.length_range]) (by decide) extbuffer_init_ok
        (by dsimp only; rw [resample_output_samples_fp_55]; decide)
        (by dsimp only; rw [resample_product_fp_55]; norm_num)
    ⟨r, o, ob, hp, hb, h0, hl⟩⟩

/-! ## The transform on `float` arrays -/

end TempestSDR
